import Mathlib

/-!
Verification of the cpp-spreadsheet evaluation core against its design
specification.  The C++ sources (`structures.cpp`, `sheet.cpp`, `cell.h`,
the cell/formula implementation files) are shallowly embedded below:
pure functions become Lean functions, the mutable sheet becomes explicit
state passing, C++ `int` becomes `Int` with explicit 32-bit wraparound
where overflow matters, and throwing code returns `Except`.
-/

namespace Spreadsheet

/-! ## Position codec (structures.cpp) -/

/-- Modelled from the spec: `common.h` is not under `src/`; §6 says the grid
limits are implementation-defined but stable across a run.  We fix the
conventional 16384×16384 grid. -/
def MAX_ROWS : Int := 16384

/-- Modelled from the spec: companion column limit from `common.h`. -/
def MAX_COLS : Int := 16384

def LETTERS : Int := 26

def MAX_POSITION_LENGTH : Nat := 17

def MAX_POS_LETTER_COUNT : Nat := 3

structure Position where
  row : Int
  col : Int
deriving DecidableEq, Repr

/-- The sentinel `Position::NONE = (-1,-1)`. -/
def Position.NONE : Position := ⟨-1, -1⟩

/-- `Position::IsValid`. -/
def Position.IsValid (p : Position) : Bool :=
  decide (p.row ≥ 0) && decide (p.col ≥ 0) && decide (p.row < MAX_ROWS)
    && decide (p.col < MAX_COLS)

/-- `Position::operator<` (lexicographic by row then column, via `std::tie`). -/
def Position.lt (a b : Position) : Bool :=
  decide (a.row < b.row) || (decide (a.row = b.row) && decide (a.col < b.col))

/-- Two's-complement wraparound of a mathematical integer into the 32-bit
signed range, the de-facto behaviour of overflowing C++ `int` arithmetic. -/
def wrap32 (x : Int) : Int :=
  (x + 2 ^ 31) % 2 ^ 32 - 2 ^ 31

/-- Character class `isalpha` in the C locale (ASCII letters). -/
def isalphaC (c : Char) : Bool :=
  (65 ≤ c.toNat && c.toNat ≤ 90) || (97 ≤ c.toNat && c.toNat ≤ 122)

/-- Character class `isupper` in the C locale. -/
def isupperC (c : Char) : Bool :=
  65 ≤ c.toNat && c.toNat ≤ 90

/-- Character class `isdigit` in the C locale. -/
def isdigitC (c : Char) : Bool :=
  48 ≤ c.toNat && c.toNat ≤ 57

/-- Fuelled form of the column-letter loop of `Position::ToString`; the fuel
only serves structural recursion and is immaterial once it exceeds the
counter (`colLettersF_congr`). -/
def colLettersF : Nat → Nat → List Char
  | 0, _ => []
  | fuel + 1, c =>
    if c < 26 then [Char.ofNat (65 + c)]
    else colLettersF fuel (c / 26 - 1) ++ [Char.ofNat (65 + c % 26)]

/-- The column-letter loop of `Position::ToString`: repeatedly prepend
`'A' + c % 26` and continue with `c / 26 - 1` while the counter is
non-negative.  Entered only with a non-negative column, so we recurse on
`Nat`. -/
def colLetters (c : Nat) : List Char := colLettersF (c + 1) c

/-- Fuelled form of `std::to_string`'s digit loop. -/
def natToDecF : Nat → Nat → List Char
  | 0, _ => []
  | fuel + 1, n =>
    if n < 10 then [Char.ofNat (48 + n)]
    else natToDecF fuel (n / 10) ++ [Char.ofNat (48 + n % 10)]

/-- `std::to_string` on a non-negative value: decimal digits, most
significant first. -/
def natToDec (n : Nat) : List Char := natToDecF (n + 1) n

/-- `Position::ToString`. -/
def Position.ToString (p : Position) : String :=
  if p.IsValid then
    String.mk (colLetters p.col.toNat ++ natToDec (p.row + 1).toNat)
  else ""

/-- The letter-part accumulation of `Position::FromString`
(`col = col * LETTERS + (str[i] - 'A' + 1)`), with `int` wraparound. -/
def colFold (cs : List Char) : Int :=
  cs.foldl (fun acc ch => wrap32 (acc * LETTERS + ((ch.toNat : Int) - 65 + 1))) 0

/-- The digit-part accumulation of `Position::FromString`
(`row = row * 10 + (str[i] - '0')`), with `int` wraparound. -/
def rowFold (cs : List Char) : Int :=
  cs.foldl (fun acc ch => wrap32 (acc * 10 + ((ch.toNat : Int) - 48))) 0

/-- `Position::FromString`. -/
def Position.FromString (s : String) : Position :=
  let cs := s.data
  if cs.isEmpty || decide (cs.length > MAX_POSITION_LENGTH) then Position.NONE
  else
    let letterPart := cs.takeWhile isalphaC
    if letterPart.any (fun c => ! isupperC c) then Position.NONE
    else if letterPart.length = 0 || decide (letterPart.length > MAX_POS_LETTER_COUNT) then
      Position.NONE
    else
      let numberPart := cs.drop letterPart.length
      if numberPart.isEmpty then Position.NONE
      else if numberPart.any (fun c => ! isdigitC c) then Position.NONE
      else
        let col := wrap32 (colFold letterPart - 1)
        let row := wrap32 (rowFold numberPart - 1)
        let result : Position := ⟨row, col⟩
        if result.IsValid then result else Position.NONE

/-- Mathematical (non-wrapping) value of an all-digit string. -/
def decValue (cs : List Char) : Nat :=
  cs.foldl (fun acc ch => acc * 10 + (ch.toNat - 48)) 0

/-- Mathematical (non-wrapping) bijective base-26 value of a letter string. -/
def colValue (cs : List Char) : Nat :=
  cs.foldl (fun acc ch => acc * 26 + (ch.toNat - 65 + 1)) 0

/-! ### Auxiliary facts about characters and folds -/

theorem char_toNat_ofNat (n : Nat) (h : n < 55296) : (Char.ofNat n).toNat = n := by
  simp [Char.ofNat, dif_pos (Or.inl h : n < 55296 ∨ 57343 < n ∧ n < 1114112), Char.ofNatAux,
    Char.toNat, UInt32.toNat, BitVec.toNat_ofNat]

theorem char_eq_of_toNat {a b : Char} (h : a.toNat = b.toNat) : a = b := by
  cases a; cases b
  simp only [Char.toNat] at h
  congr 1
  exact UInt32.ext h

theorem wrap32_eq_self (x : Int) (h1 : -2 ^ 31 ≤ x) (h2 : x < 2 ^ 31) : wrap32 x = x := by
  unfold wrap32
  rw [Int.emod_eq_of_lt (by omega) (by omega)]
  omega

theorem takeWhile_append_all (p : Char → Bool) (l m : List Char) (h : ∀ x ∈ l, p x = true) :
    (l ++ m).takeWhile p = l ++ m.takeWhile p := by
  induction l with
  | nil => rfl
  | cons a t ih =>
    simp only [List.cons_append, List.takeWhile_cons, h a (by simp), if_true]
    rw [ih (fun x hx => h x (by simp [hx]))]

/-! ### Facts about bijective base-26 encoding -/

theorem colLettersF_congr (c : Nat) :
    ∀ f₁ f₂, c < f₁ → c < f₂ → colLettersF f₁ c = colLettersF f₂ c := by
  induction c using Nat.strong_induction_on with
  | _ c ih =>
    intro f₁ f₂ h₁ h₂
    match f₁, f₂ with
    | g₁ + 1, g₂ + 1 =>
      simp only [colLettersF]
      split
      · rfl
      · rename_i hc
        have hd : c / 26 < c := Nat.div_lt_self (by omega) (by omega)
        have hlt : c / 26 - 1 < c := by omega
        rw [ih _ hlt g₁ g₂ (by omega) (by omega)]

theorem colLetters_eq (c : Nat) :
    colLetters c = if c < 26 then [Char.ofNat (65 + c)]
      else colLetters (c / 26 - 1) ++ [Char.ofNat (65 + c % 26)] := by
  show colLettersF (c + 1) c = _
  simp only [colLettersF]
  split
  · rfl
  · rename_i hc
    have hd : c / 26 < c := Nat.div_lt_self (by omega) (by omega)
    rw [colLettersF_congr (c / 26 - 1) c ((c / 26 - 1) + 1) (by omega) (by omega)]
    rfl

theorem colLetters_ne_nil (c : Nat) : colLetters c ≠ [] := by
  rw [colLetters_eq]
  split <;> simp

theorem colLetters_upper (c : Nat) : ∀ ch ∈ colLetters c, isupperC ch = true := by
  induction c using Nat.strong_induction_on with
  | _ c ih =>
    rw [colLetters_eq]
    split
    · rename_i h
      intro ch hch
      simp only [List.mem_singleton] at hch
      subst hch
      simp [isupperC, char_toNat_ofNat (65 + c) (by omega)]
      omega
    · rename_i h
      intro ch hch
      have hd : c / 26 < c := Nat.div_lt_self (by omega) (by omega)
      rcases List.mem_append.mp hch with hm | hm
      · exact ih _ (by omega) ch hm
      · simp only [List.mem_singleton] at hm
        subst hm
        have hmod : c % 26 < 26 := Nat.mod_lt _ (by omega)
        simp [isupperC, char_toNat_ofNat (65 + c % 26) (by omega)]
        omega

theorem upper_isalpha {ch : Char} (h : isupperC ch = true) : isalphaC ch = true := by
  simp [isupperC] at h
  simp [isalphaC]
  omega

theorem colValue_append_singleton (l : List Char) (ch : Char) :
    colValue (l ++ [ch]) = colValue l * 26 + (ch.toNat - 65 + 1) := by
  simp [colValue, List.foldl_append]

theorem colValue_foldl_acc (l : List Char) : ∀ a : Nat,
    l.foldl (fun acc ch => acc * 26 + (ch.toNat - 65 + 1)) a = a * 26 ^ l.length + colValue l := by
  induction l with
  | nil => simp [colValue]
  | cons ch t ih =>
    intro a
    have hcv : colValue (ch :: t) = (ch.toNat - 65 + 1) * 26 ^ t.length + colValue t := by
      have hr : colValue (ch :: t) = t.foldl (fun acc ch => acc * 26 + (ch.toNat - 65 + 1))
          (0 * 26 + (ch.toNat - 65 + 1)) := rfl
      rw [hr, ih]
      simp
    simp only [List.foldl_cons]
    rw [ih, List.length_cons, hcv, pow_succ]
    ring

theorem colValue_colLetters (c : Nat) : colValue (colLetters c) = c + 1 := by
  induction c using Nat.strong_induction_on with
  | _ c ih =>
    rw [colLetters_eq]
    split
    · rename_i h
      simp [colValue, char_toNat_ofNat (65 + c) (by omega)]
    · rename_i h
      have hd : c / 26 < c := Nat.div_lt_self (by omega) (by omega)
      rw [colValue_append_singleton, ih _ (by omega),
        char_toNat_ofNat (65 + c % 26) (by omega)]
      omega

def vmin : Nat → Nat
  | 0 => 0
  | k + 1 => 26 * vmin k + 1

def vmax : Nat → Nat
  | 0 => 0
  | k + 1 => 26 * (vmax k + 1)

theorem vmin_bound (k : Nat) : 25 * vmin k + 1 ≤ 26 ^ k := by
  induction k with
  | zero => simp [vmin]
  | succ k ih =>
    simp only [vmin, pow_succ]
    omega

theorem vmax_eq (k : Nat) : 25 * vmax k + 26 = 26 ^ (k + 1) := by
  induction k with
  | zero => simp [vmax]
  | succ k ih =>
    simp only [vmax] at *
    rw [pow_succ 26 (k + 1)]
    omega

theorem vmin_le_colValue (l : List Char) (h : ∀ ch ∈ l, isupperC ch = true) :
    vmin l.length ≤ colValue l := by
  induction l with
  | nil => simp [colValue, vmin]
  | cons ch t ih =>
    have hw : 1 ≤ ch.toNat - 65 + 1 := by omega
    have hcol : colValue (ch :: t) = (ch.toNat - 65 + 1) * 26 ^ t.length + colValue t := by
      have hr : colValue (ch :: t) = t.foldl (fun acc ch => acc * 26 + (ch.toNat - 65 + 1))
          (0 * 26 + (ch.toNat - 65 + 1)) := rfl
      rw [hr, colValue_foldl_acc]
      simp
    have hv : vmin t.length ≤ colValue t := ih (fun x hx => h x (by simp [hx]))
    have hb := vmin_bound t.length
    simp only [List.length_cons, vmin]
    have h26 : (1 : Nat) * 26 ^ t.length ≤ (ch.toNat - 65 + 1) * 26 ^ t.length :=
      Nat.mul_le_mul_right _ (by omega)
    have hpos : (0 : Nat) < 26 ^ t.length := Nat.pos_pow_of_pos _ (by omega)
    omega

theorem colValue_le_vmax (l : List Char) (h : ∀ ch ∈ l, isupperC ch = true) :
    colValue l ≤ vmax l.length := by
  induction l with
  | nil => simp [colValue, vmax]
  | cons ch t ih =>
    have hu : isupperC ch = true := h ch (by simp)
    have hw : ch.toNat - 65 + 1 ≤ 26 := by
      simp [isupperC] at hu
      omega
    have hcol : colValue (ch :: t) = (ch.toNat - 65 + 1) * 26 ^ t.length + colValue t := by
      have hr : colValue (ch :: t) = t.foldl (fun acc ch => acc * 26 + (ch.toNat - 65 + 1))
          (0 * 26 + (ch.toNat - 65 + 1)) := rfl
      rw [hr, colValue_foldl_acc]
      simp
    have hv : colValue t ≤ vmax t.length := ih (fun x hx => h x (by simp [hx]))
    have hb := vmax_eq t.length
    simp only [List.length_cons, vmax]
    have h26 : (ch.toNat - 65 + 1) * 26 ^ t.length ≤ 26 * 26 ^ t.length :=
      Nat.mul_le_mul_right _ (by omega)
    have hps : 26 * 26 ^ t.length = 26 ^ (t.length + 1) := by
      rw [pow_succ]
      ring
    omega

theorem vmin_mono {k m : Nat} (h : k ≤ m) : vmin k ≤ vmin m := by
  induction m with
  | zero =>
    have hk : k = 0 := by omega
    subst hk
    exact le_refl _
  | succ m ih =>
    rcases Nat.lt_or_ge k (m + 1) with hk | hk
    · have := ih (by omega)
      simp only [vmin]
      omega
    · have : k = m + 1 := by omega
      subst this
      omega

theorem colLetters_length_le (c : Nat) (h : c < 18278) : (colLetters c).length ≤ 3 := by
  by_contra hlen
  have h4 : 4 ≤ (colLetters c).length := by omega
  have := vmin_mono h4
  have hle := vmin_le_colValue (colLetters c) (colLetters_upper c)
  rw [colValue_colLetters] at hle
  have : vmin 4 = 18279 := by decide
  omega

theorem colLetters_colValue (l : List Char) (hne : l ≠ [])
    (h : ∀ ch ∈ l, isupperC ch = true) : colLetters (colValue l - 1) = l := by
  induction l using List.reverseRecOn with
  | nil => simp at hne
  | append_singleton t ch ih =>
    have hu : isupperC ch = true := h ch (by simp)
    have huN : 65 ≤ ch.toNat ∧ ch.toNat ≤ 90 := by
      simp [isupperC] at hu
      omega
    rw [colValue_append_singleton]
    rcases List.eq_nil_or_concat t with ht | ht
    · subst ht
      have hv : colValue ([] : List Char) = 0 := rfl
      rw [hv, colLetters_eq]
      have hlt : 0 * 26 + (ch.toNat - 65 + 1) - 1 < 26 := by omega
      rw [if_pos hlt]
      have : 65 + (0 * 26 + (ch.toNat - 65 + 1) - 1) = ch.toNat := by omega
      rw [this]
      congr 1
      exact char_eq_of_toNat (char_toNat_ofNat _ (by omega))
    · have htne : t ≠ [] := by
        rcases ht with ⟨l₂, a, rfl⟩
        simp
      have hvt : 1 ≤ colValue t := by
        have := vmin_le_colValue t (fun x hx => h x (by simp [hx]))
        have h1 : 1 ≤ t.length := by
          cases t
          · simp at htne
          · simp
        have := vmin_mono h1
        simp [vmin] at this
        omega
      have key : colValue t * 26 + (ch.toNat - 65 + 1) - 1 = 26 * colValue t
          + (ch.toNat - 65) := by omega
      rw [key, colLetters_eq]
      have hge : ¬ (26 * colValue t + (ch.toNat - 65) < 26) := by omega
      rw [if_neg hge]
      have hdiv : (26 * colValue t + (ch.toNat - 65)) / 26 = colValue t := by omega
      have hmod : (26 * colValue t + (ch.toNat - 65)) % 26 = ch.toNat - 65 := by omega
      rw [hdiv, hmod, ih htne (fun x hx => h x (by simp [hx]))]
      congr 1
      have : 65 + (ch.toNat - 65) = ch.toNat := by omega
      rw [this]
      exact congrArg (fun x => [x]) (char_eq_of_toNat (char_toNat_ofNat _ (by omega)))

/-! ### Facts about decimal encoding -/

theorem natToDecF_congr (n : Nat) :
    ∀ f₁ f₂, n < f₁ → n < f₂ → natToDecF f₁ n = natToDecF f₂ n := by
  induction n using Nat.strong_induction_on with
  | _ n ih =>
    intro f₁ f₂ h₁ h₂
    match f₁, f₂ with
    | g₁ + 1, g₂ + 1 =>
      simp only [natToDecF]
      split
      · rfl
      · rename_i hn
        have hlt : n / 10 < n := Nat.div_lt_self (by omega) (by omega)
        rw [ih _ hlt g₁ g₂ (by omega) (by omega)]

theorem natToDec_eq (n : Nat) :
    natToDec n = if n < 10 then [Char.ofNat (48 + n)]
      else natToDec (n / 10) ++ [Char.ofNat (48 + n % 10)] := by
  show natToDecF (n + 1) n = _
  simp only [natToDecF]
  split
  · rfl
  · rename_i hn
    have hd : n / 10 < n := Nat.div_lt_self (by omega) (by omega)
    rw [natToDecF_congr (n / 10) n ((n / 10) + 1) (by omega) (by omega)]
    rfl

theorem natToDec_ne_nil (n : Nat) : natToDec n ≠ [] := by
  rw [natToDec_eq]
  split <;> simp

theorem natToDec_digits (n : Nat) : ∀ ch ∈ natToDec n, isdigitC ch = true := by
  induction n using Nat.strong_induction_on with
  | _ n ih =>
    rw [natToDec_eq]
    split
    · rename_i h
      intro ch hch
      simp only [List.mem_singleton] at hch
      subst hch
      simp [isdigitC, char_toNat_ofNat (48 + n) (by omega)]
      omega
    · rename_i h
      intro ch hch
      rcases List.mem_append.mp hch with hm | hm
      · exact ih _ (Nat.div_lt_self (by omega) (by omega)) ch hm
      · simp only [List.mem_singleton] at hm
        subst hm
        have hmod : n % 10 < 10 := Nat.mod_lt _ (by omega)
        simp [isdigitC, char_toNat_ofNat (48 + n % 10) (by omega)]
        omega

theorem decValue_append_singleton (l : List Char) (ch : Char) :
    decValue (l ++ [ch]) = decValue l * 10 + (ch.toNat - 48) := by
  simp [decValue, List.foldl_append]

theorem decValue_foldl_acc (l : List Char) : ∀ a : Nat,
    l.foldl (fun acc ch => acc * 10 + (ch.toNat - 48)) a = a * 10 ^ l.length + decValue l := by
  induction l with
  | nil => simp [decValue]
  | cons ch t ih =>
    intro a
    have hcv : decValue (ch :: t) = (ch.toNat - 48) * 10 ^ t.length + decValue t := by
      have hr : decValue (ch :: t) = t.foldl (fun acc ch => acc * 10 + (ch.toNat - 48))
          (0 * 10 + (ch.toNat - 48)) := rfl
      rw [hr, ih]
      simp
    simp only [List.foldl_cons]
    rw [ih, List.length_cons, hcv, pow_succ]
    ring

theorem decValue_natToDec (n : Nat) : decValue (natToDec n) = n := by
  induction n using Nat.strong_induction_on with
  | _ n ih =>
    rw [natToDec_eq]
    split
    · rename_i h
      simp [decValue, char_toNat_ofNat (48 + n) (by omega)]
    · rename_i h
      rw [decValue_append_singleton, ih _ (Nat.div_lt_self (by omega) (by omega)),
        char_toNat_ofNat (48 + n % 10) (by omega)]
      omega

theorem natToDec_head (n : Nat) (h : 1 ≤ n) :
    ∀ ch, (natToDec n).head? = some ch → ch ≠ '0' := by
  induction n using Nat.strong_induction_on with
  | _ n ih =>
    rw [natToDec_eq]
    split
    · rename_i hn
      intro ch hch
      simp at hch
      subst hch
      intro hc
      have h1 := char_toNat_ofNat (48 + n) (by omega)
      rw [hc] at h1
      have h2 : ('0' : Char).toNat = 48 := rfl
      omega
    · rename_i hn
      intro ch hch
      have hdd : n / 10 < n := Nat.div_lt_self (by omega) (by omega)
      have hne := natToDec_ne_nil (n / 10)
      rcases List.exists_cons_of_ne_nil hne with ⟨c₁, tl, heq⟩
      rw [heq] at hch
      simp at hch
      subst hch
      exact ih (n / 10) hdd (by omega) c₁ (by rw [heq]; rfl)

theorem decValue_lt (l : List Char) (h : ∀ ch ∈ l, isdigitC ch = true) :
    decValue l < 10 ^ l.length := by
  induction l with
  | nil => simp [decValue]
  | cons ch t ih =>
    have hd : isdigitC ch = true := h ch (by simp)
    have hw : ch.toNat - 48 ≤ 9 := by
      simp [isdigitC] at hd
      omega
    have hcol : decValue (ch :: t) = (ch.toNat - 48) * 10 ^ t.length + decValue t := by
      have hr : decValue (ch :: t) = t.foldl (fun acc ch => acc * 10 + (ch.toNat - 48))
          (0 * 10 + (ch.toNat - 48)) := rfl
      rw [hr, decValue_foldl_acc]
      simp
    have hv : decValue t < 10 ^ t.length := ih (fun x hx => h x (by simp [hx]))
    have hm : (ch.toNat - 48) * 10 ^ t.length ≤ 9 * 10 ^ t.length :=
      Nat.mul_le_mul_right _ (by omega)
    simp only [List.length_cons, pow_succ]
    omega

theorem decValue_lower (l : List Char) (hne : l ≠ [])
    (hh : ∀ ch, l.head? = some ch → ch ≠ '0') (h : ∀ ch ∈ l, isdigitC ch = true) :
    10 ^ (l.length - 1) ≤ decValue l := by
  rcases List.exists_cons_of_ne_nil hne with ⟨hd, tl, rfl⟩
  have hdig : isdigitC hd = true := h hd (by simp)
  have hd0 : hd ≠ '0' := hh hd rfl
  have hw : 1 ≤ hd.toNat - 48 := by
    simp [isdigitC] at hdig
    rcases Nat.lt_or_ge 48 hd.toNat with hlt | hge
    · omega
    · exfalso
      apply hd0
      apply char_eq_of_toNat
      show hd.toNat = 48
      omega
  have hcol : decValue (hd :: tl) = (hd.toNat - 48) * 10 ^ tl.length + decValue tl := by
    have hr : decValue (hd :: tl) = tl.foldl (fun acc ch => acc * 10 + (ch.toNat - 48))
        (0 * 10 + (hd.toNat - 48)) := rfl
    rw [hr, decValue_foldl_acc]
    simp
  have hm : 1 * 10 ^ tl.length ≤ (hd.toNat - 48) * 10 ^ tl.length :=
    Nat.mul_le_mul_right _ (by omega)
  simp only [List.length_cons, Nat.add_sub_cancel]
  omega

theorem natToDec_decValue (l : List Char) (hne : l ≠ [])
    (hh : ∀ ch, l.head? = some ch → ch ≠ '0') (h : ∀ ch ∈ l, isdigitC ch = true) :
    natToDec (decValue l) = l := by
  induction l using List.reverseRecOn with
  | nil => simp at hne
  | append_singleton t ch ih =>
    have hd : isdigitC ch = true := h ch (by simp)
    have hdN : 48 ≤ ch.toNat ∧ ch.toNat ≤ 57 := by
      simp [isdigitC] at hd
      omega
    rw [decValue_append_singleton]
    rcases List.eq_nil_or_concat t with ht | ht
    · subst ht
      have hv : decValue ([] : List Char) = 0 := rfl
      rw [hv, natToDec_eq]
      have hlt : 0 * 10 + (ch.toNat - 48) < 10 := by omega
      rw [if_pos hlt]
      have : 48 + (0 * 10 + (ch.toNat - 48)) = ch.toNat := by omega
      rw [this]
      exact congrArg (fun x => [x]) (char_eq_of_toNat (char_toNat_ofNat _ (by omega)))
    · have htne : t ≠ [] := by
        rcases ht with ⟨l₂, a, rfl⟩
        simp
      have hth : ∀ c, t.head? = some c → c ≠ '0' := by
        intro c hc
        apply hh
        rcases List.exists_cons_of_ne_nil htne with ⟨h₁, t₁, rfl⟩
        simp at hc ⊢
        exact hc
      have hvt : 1 ≤ decValue t := by
        have := decValue_lower t htne hth (fun x hx => h x (by simp [hx]))
        have := Nat.one_le_two_pow (n := 0)
        calc 1 ≤ 10 ^ (t.length - 1) := Nat.one_le_pow _ _ (by omega)
        _ ≤ decValue t := decValue_lower t htne hth (fun x hx => h x (by simp [hx]))
      rw [natToDec_eq]
      have hge : ¬ (decValue t * 10 + (ch.toNat - 48) < 10) := by
        have : 10 ≤ decValue t * 10 := by omega
        omega
      rw [if_neg hge]
      have hdiv : (decValue t * 10 + (ch.toNat - 48)) / 10 = decValue t := by omega
      have hmod : (decValue t * 10 + (ch.toNat - 48)) % 10 = ch.toNat - 48 := by omega
      rw [hdiv, hmod, ih htne hth (fun x hx => h x (by simp [hx]))]
      congr 1
      have : 48 + (ch.toNat - 48) = ch.toNat := by omega
      rw [this]
      exact congrArg (fun x => [x]) (char_eq_of_toNat (char_toNat_ofNat _ (by omega)))

theorem natToDec_length_le (n k : Nat) (hk : 1 ≤ k) (h : n < 10 ^ k) :
    (natToDec n).length ≤ k := by
  rcases Nat.eq_zero_or_pos n with h0 | h0
  · subst h0
    rw [natToDec_eq]
    simp
    omega
  · by_contra hlen
    have h1 : k + 1 ≤ (natToDec n).length := by omega
    have hlow := decValue_lower (natToDec n) (natToDec_ne_nil n)
      (natToDec_head n h0) (natToDec_digits n)
    rw [decValue_natToDec] at hlow
    have : 10 ^ k ≤ 10 ^ ((natToDec n).length - 1) :=
      Nat.pow_le_pow_right (by omega) (by omega)
    omega

/-! ### The wrapped folds agree with the mathematical values below 2^31 -/

theorem foldDec_le (l : List Char) : ∀ a : Nat,
    a ≤ l.foldl (fun acc ch => acc * 10 + (ch.toNat - 48)) a := by
  induction l with
  | nil => intro a; simp
  | cons ch t ih =>
    intro a
    simp only [List.foldl_cons]
    calc a ≤ a * 10 + (ch.toNat - 48) := by omega
    _ ≤ _ := ih _

theorem foldCol_le (l : List Char) : ∀ a : Nat,
    a ≤ l.foldl (fun acc ch => acc * 26 + (ch.toNat - 65 + 1)) a := by
  induction l with
  | nil => intro a; simp
  | cons ch t ih =>
    intro a
    simp only [List.foldl_cons]
    calc a ≤ a * 26 + (ch.toNat - 65 + 1) := by omega
    _ ≤ _ := ih _

theorem rowFold_eq_decValue_acc (l : List Char) : ∀ a : Nat,
    (∀ ch ∈ l, isdigitC ch = true) →
    l.foldl (fun acc ch => acc * 10 + (ch.toNat - 48)) a < 2 ^ 31 →
    l.foldl (fun acc ch => wrap32 (acc * 10 + ((ch.toNat : Int) - 48))) (a : Int)
      = ((l.foldl (fun acc ch => acc * 10 + (ch.toNat - 48)) a : Nat) : Int) := by
  induction l with
  | nil => intro a _ _; simp
  | cons ch t ih =>
    intro a hdig hlt
    have hd : isdigitC ch = true := hdig ch (by simp)
    have hdN : 48 ≤ ch.toNat := by
      simp [isdigitC] at hd
      omega
    simp only [List.foldl_cons] at hlt ⊢
    have hstep : a * 10 + (ch.toNat - 48) ≤
        t.foldl (fun acc ch => acc * 10 + (ch.toNat - 48)) (a * 10 + (ch.toNat - 48)) :=
      foldDec_le t _
    have hcast : (a : Int) * 10 + ((ch.toNat : Int) - 48)
        = ((a * 10 + (ch.toNat - 48) : Nat) : Int) := by
      push_cast
      omega
    rw [hcast, wrap32_eq_self _ (by
      have : (0 : Int) ≤ ((a * 10 + (ch.toNat - 48) : Nat) : Int) := Int.natCast_nonneg _
      omega) (by
      have : ((a * 10 + (ch.toNat - 48) : Nat) : Int) < 2 ^ 31 := by
        exact_mod_cast lt_of_le_of_lt hstep hlt
      omega)]
    exact ih _ (fun x hx => hdig x (by simp [hx])) hlt

theorem colFold_eq_colValue_acc (l : List Char) : ∀ a : Nat,
    (∀ ch ∈ l, isupperC ch = true) →
    l.foldl (fun acc ch => acc * 26 + (ch.toNat - 65 + 1)) a < 2 ^ 31 →
    l.foldl (fun acc ch => wrap32 (acc * LETTERS + ((ch.toNat : Int) - 65 + 1))) (a : Int)
      = ((l.foldl (fun acc ch => acc * 26 + (ch.toNat - 65 + 1)) a : Nat) : Int) := by
  induction l with
  | nil => intro a _ _; simp
  | cons ch t ih =>
    intro a hupp hlt
    have hd : isupperC ch = true := hupp ch (by simp)
    have hdN : 65 ≤ ch.toNat := by
      simp [isupperC] at hd
      omega
    simp only [List.foldl_cons] at hlt ⊢
    have hstep : a * 26 + (ch.toNat - 65 + 1) ≤
        t.foldl (fun acc ch => acc * 26 + (ch.toNat - 65 + 1)) (a * 26 + (ch.toNat - 65 + 1)) :=
      foldCol_le t _
    have hcast : (a : Int) * LETTERS + ((ch.toNat : Int) - 65 + 1)
        = ((a * 26 + (ch.toNat - 65 + 1) : Nat) : Int) := by
      unfold LETTERS
      push_cast
      omega
    rw [hcast, wrap32_eq_self _ (by
      have : (0 : Int) ≤ ((a * 26 + (ch.toNat - 65 + 1) : Nat) : Int) := Int.natCast_nonneg _
      omega) (by
      have : ((a * 26 + (ch.toNat - 65 + 1) : Nat) : Int) < 2 ^ 31 := by
        exact_mod_cast lt_of_le_of_lt hstep hlt
      omega)]
    exact ih _ (fun x hx => hupp x (by simp [hx])) hlt

theorem rowFold_eq_decValue (l : List Char) (hdig : ∀ ch ∈ l, isdigitC ch = true)
    (hlt : decValue l < 2 ^ 31) : rowFold l = (decValue l : Int) := by
  have := rowFold_eq_decValue_acc l 0 hdig hlt
  simpa [rowFold, decValue] using this

theorem colFold_eq_colValue (l : List Char) (hupp : ∀ ch ∈ l, isupperC ch = true)
    (hlt : colValue l < 2 ^ 31) : colFold l = (colValue l : Int) := by
  have := colFold_eq_colValue_acc l 0 hupp hlt
  simpa [colFold, colValue] using this

/-! ### Round-trip analysis of the codec -/

theorem vmax_mono {k m : Nat} (h : k ≤ m) : vmax k ≤ vmax m := by
  induction m with
  | zero =>
    have hk : k = 0 := by omega
    subst hk
    exact le_refl _
  | succ m ih =>
    rcases Nat.lt_or_ge k (m + 1) with hk | hk
    · have := ih (by omega)
      simp only [vmax]
      omega
    · have : k = m + 1 := by omega
      subst this
      omega

theorem FromString_parts (L D : List Char)
    (hLne : L ≠ []) (hLu : ∀ ch ∈ L, isupperC ch = true) (hL3 : L.length ≤ 3)
    (hDne : D ≠ []) (hDd : ∀ ch ∈ D, isdigitC ch = true)
    (hlen : L.length + D.length ≤ 17) :
    Position.FromString (String.mk (L ++ D)) =
      (if (Position.mk (wrap32 (rowFold D - 1)) (wrap32 (colFold L - 1))).IsValid
       then Position.mk (wrap32 (rowFold D - 1)) (wrap32 (colFold L - 1))
       else Position.NONE) := by
  have hLa : ∀ ch ∈ L, isalphaC ch = true := fun ch hch => upper_isalpha (hLu ch hch)
  have hdata : (String.mk (L ++ D)).data = L ++ D := rfl
  unfold Position.FromString
  rw [hdata]
  have htw : (L ++ D).takeWhile isalphaC = L := by
    rw [takeWhile_append_all _ _ _ hLa]
    rcases List.exists_cons_of_ne_nil hDne with ⟨d, tl, rfl⟩
    have hdd : isdigitC d = true := hDd d (by simp)
    have hna : isalphaC d = false := by
      simp [isdigitC] at hdd
      simp [isalphaC]
      omega
    simp [List.takeWhile_cons, hna]
  have hne : (L ++ D).isEmpty = false := by
    rcases List.exists_cons_of_ne_nil hLne with ⟨a, t, rfl⟩
    rfl
  rw [if_neg (by
    simp only [hne, Bool.false_or, decide_eq_true_eq, not_lt, MAX_POSITION_LENGTH,
      List.length_append]
    omega)]
  rw [htw]
  rw [if_neg (by
    simp only [List.any_eq_true, not_exists]
    push_neg
    intro x hx
    simp [hLu x hx])]
  rw [if_neg (by
    have h1 : L.length ≠ 0 := by
      intro hc
      exact hLne (List.eq_nil_of_length_eq_zero hc)
    simp [h1, MAX_POS_LETTER_COUNT]
    omega)]
  rw [List.drop_left]
  rw [if_neg (by
    rcases List.exists_cons_of_ne_nil hDne with ⟨d, tl, rfl⟩
    simp)]
  rw [if_neg (by
    simp only [List.any_eq_true, not_exists]
    push_neg
    intro x hx
    simp [hDd x hx])]

theorem FromString_def (s : String) :
    Position.FromString s =
      (if (s.data.isEmpty || decide (s.data.length > MAX_POSITION_LENGTH)) then Position.NONE
       else if ((s.data.takeWhile isalphaC).any fun c => ! isupperC c) then Position.NONE
       else if (decide ((s.data.takeWhile isalphaC).length = 0)
           || decide ((s.data.takeWhile isalphaC).length > MAX_POS_LETTER_COUNT)) then
         Position.NONE
       else if (s.data.drop (s.data.takeWhile isalphaC).length).isEmpty then Position.NONE
       else if ((s.data.drop (s.data.takeWhile isalphaC).length).any fun c => ! isdigitC c) then
         Position.NONE
       else if (Position.mk
           (wrap32 (rowFold (s.data.drop (s.data.takeWhile isalphaC).length) - 1))
           (wrap32 (colFold (s.data.takeWhile isalphaC) - 1))).IsValid then
         Position.mk
           (wrap32 (rowFold (s.data.drop (s.data.takeWhile isalphaC).length) - 1))
           (wrap32 (colFold (s.data.takeWhile isalphaC) - 1))
       else Position.NONE) := rfl

theorem FromString_inv (s : String) (h : Position.FromString s ≠ Position.NONE) :
    ∃ L D, s.data = L ++ D ∧ L = s.data.takeWhile isalphaC ∧
      D = s.data.dropWhile isalphaC ∧
      (∀ ch ∈ L, isupperC ch = true) ∧ 1 ≤ L.length ∧ L.length ≤ 3 ∧
      D ≠ [] ∧ (∀ ch ∈ D, isdigitC ch = true) ∧
      Position.FromString s = ⟨wrap32 (rowFold D - 1), wrap32 (colFold L - 1)⟩ ∧
      (Position.mk (wrap32 (rowFold D - 1)) (wrap32 (colFold L - 1))).IsValid = true := by
  rw [FromString_def] at h ⊢
  have hsplit : s.data = s.data.takeWhile isalphaC ++ s.data.dropWhile isalphaC :=
    (List.takeWhile_append_dropWhile (p := isalphaC) (l := s.data)).symm
  have hDdw : s.data.drop (s.data.takeWhile isalphaC).length = s.data.dropWhile isalphaC := by
    have h1 := List.takeWhile_append_dropWhile (p := isalphaC) (l := s.data)
    calc s.data.drop (s.data.takeWhile isalphaC).length
        = (s.data.takeWhile isalphaC ++ s.data.dropWhile isalphaC).drop
            (s.data.takeWhile isalphaC).length := by rw [h1]
      _ = s.data.dropWhile isalphaC := List.drop_left _ _
  rw [hDdw] at h ⊢
  split_ifs at h ⊢ with h1 h2 h3 h4 h5 h6
  · exact absurd rfl h
  · exact absurd rfl h
  · exact absurd rfl h
  · exact absurd rfl h
  · exact absurd rfl h
  · refine ⟨s.data.takeWhile isalphaC, s.data.dropWhile isalphaC,
      hsplit, rfl, rfl, ?_, ?_, ?_, ?_, ?_, rfl, h6⟩
    · intro ch hch
      by_contra hc
      exact h2 (List.any_eq_true.mpr ⟨ch, hch, by simp [hc]⟩)
    · rcases Nat.eq_zero_or_pos (s.data.takeWhile isalphaC).length with h0 | h0
      · exact absurd (by simp [h0]) h3
      · omega
    · by_contra hc
      refine h3 ?_
      simp only [Bool.or_eq_true, decide_eq_true_eq]
      right
      unfold MAX_POS_LETTER_COUNT
      omega
    · intro hc
      rw [hc] at h4
      exact h4 rfl
    · intro ch hch
      by_contra hc
      exact h5 (List.any_eq_true.mpr ⟨ch, hch, by simp [hc]⟩)
  · exact absurd rfl h

theorem string_mk_data (s : String) : String.mk s.data = s := rfl

theorem FromString_ToString (p : Position) (h : p.IsValid = true) :
    Position.FromString (Position.ToString p) = p := by
  have hb : 0 ≤ p.row ∧ p.row < 16384 ∧ 0 ≤ p.col ∧ p.col < 16384 := by
    simp [Position.IsValid, MAX_ROWS, MAX_COLS] at h
    tauto
  set R := p.row.toNat with hR
  set C := p.col.toNat with hC
  have hRv : (R : Int) = p.row := Int.toNat_of_nonneg hb.1
  have hCv : (C : Int) = p.col := Int.toNat_of_nonneg hb.2.2.1
  have hRlt : R < 16384 := by omega
  have hClt : C < 16384 := by omega
  have hTS : Position.ToString p = String.mk (colLetters C ++ natToDec (R + 1)) := by
    simp only [Position.ToString, h, if_true]
    have hrw : (p.row + 1).toNat = R + 1 := by omega
    rw [hrw]
  rw [hTS]
  rw [FromString_parts (colLetters C) (natToDec (R + 1)) (colLetters_ne_nil C)
    (colLetters_upper C) (colLetters_length_le C (by omega)) (natToDec_ne_nil (R + 1))
    (natToDec_digits (R + 1))
    (by
      have h3 := colLetters_length_le C (by omega)
      have h5 := natToDec_length_le (R + 1) 5 (by omega) (by omega)
      omega)]
  have hrow : rowFold (natToDec (R + 1)) = ((R : Int) + 1) := by
    rw [rowFold_eq_decValue _ (natToDec_digits _) (by rw [decValue_natToDec]; omega),
      decValue_natToDec]
    push_cast
    ring
  have hcol : colFold (colLetters C) = ((C : Int) + 1) := by
    rw [colFold_eq_colValue _ (colLetters_upper _) (by rw [colValue_colLetters]; omega),
      colValue_colLetters]
    push_cast
    ring
  rw [hrow, hcol]
  have hw1 : wrap32 ((R : Int) + 1 - 1) = p.row := by
    rw [wrap32_eq_self _ (by omega) (by omega)]
    omega
  have hw2 : wrap32 ((C : Int) + 1 - 1) = p.col := by
    rw [wrap32_eq_self _ (by omega) (by omega)]
    omega
  rw [hw1, hw2]
  have hpp : Position.mk p.row p.col = p := rfl
  rw [hpp, if_pos h]

theorem ToString_FromString (s : String)
    (hacc : Position.FromString s ≠ Position.NONE)
    (hz : ∀ ch, (s.data.dropWhile isalphaC).head? = some ch → ch ≠ '0')
    (hof : decValue (s.data.dropWhile isalphaC) < 2 ^ 31) :
    Position.ToString (Position.FromString s) = s := by
  obtain ⟨L, D, hsplit, hLdef, hDdef, hLu, hL1, hL3, hDne, hDd, heq, hvalid⟩ :=
    FromString_inv s hacc
  rw [← hDdef] at hz hof
  have hLne : L ≠ [] := by
    intro hc
    rw [hc] at hL1
    simp at hL1
  -- letter-part value bounds
  have hcvle : colValue L ≤ 18278 := by
    have h1 := colValue_le_vmax L hLu
    have h2 : vmax L.length ≤ vmax 3 := vmax_mono hL3
    have h3 : vmax 3 = 18278 := by decide
    omega
  have hcv1 : 1 ≤ colValue L := by
    have h1 := vmin_le_colValue L hLu
    have h2 : vmin 1 ≤ vmin L.length := vmin_mono hL1
    have h3 : vmin 1 = 1 := by decide
    omega
  have hcolF : colFold L = (colValue L : Int) :=
    colFold_eq_colValue L hLu (by omega)
  have hrowF : rowFold D = (decValue D : Int) :=
    rowFold_eq_decValue D hDd hof
  have hwcol : wrap32 (colFold L - 1) = ((colValue L : Int) - 1) := by
    rw [hcolF, wrap32_eq_self _ (by omega) (by omega)]
  have hwrow : wrap32 (rowFold D - 1) = ((decValue D : Int) - 1) := by
    rw [hrowF, wrap32_eq_self _ (by omega) (by omega)]
  rw [heq]
  rw [hwcol, hwrow] at hvalid ⊢
  -- validity gives decValue D ≥ 1
  have hdv1 : 1 ≤ decValue D := by
    simp [Position.IsValid] at hvalid
    omega
  simp only [Position.ToString, hvalid, if_true]
  have htn1 : ((decValue D : Int) - 1).toNat + 1 = decValue D := by omega
  have htn2 : (((colValue L : Int) - 1)).toNat = colValue L - 1 := by omega
  have hrr : ((decValue D : Int) - 1 + 1).toNat = decValue D := by omega
  rw [htn2, hrr]
  rw [colLetters_colValue L hLne hLu, natToDec_decValue D hDne hz hDd, ← hsplit]

/-! ### Claim C6: codec round-trip law -/

set_option maxRecDepth 4000 in
/-- C6 (counterexample): the round-trip law as stated is false.  The string
"A01" is accepted by `FromString` (it decodes to position (0,0), which is not
`NONE`), yet `ToString (FromString "A01")` is `"A1"`, not `"A01"`: the digit
scan of `FromString` admits leading zeros, which `ToString` never prints. -/
theorem C6_counterexample :
    Position.FromString "A01" ≠ Position.NONE ∧
    Position.ToString (Position.FromString "A01") ≠ "A01" := by
  constructor
  · decide
  · decide

/-- C6 (amended): for every valid position `p`,
`FromString (ToString p) = p`; and for every string `s` that `FromString`
accepts (returns a position other than `NONE`), `ToString (FromString s) = s`
holds provided the digit part of `s` has no leading zero and its
mathematical value fits a 32-bit `int` (no overflow during decoding) —
the two provisos forced by the "A01" counterexample and by the unchecked
wraparound of the digit accumulator. -/
theorem C6_codec_roundtrip_amended :
    (∀ p : Position, p.IsValid = true → Position.FromString (Position.ToString p) = p) ∧
    (∀ s : String, Position.FromString s ≠ Position.NONE →
      (∀ ch, (s.data.dropWhile isalphaC).head? = some ch → ch ≠ '0') →
      decValue (s.data.dropWhile isalphaC) < 2 ^ 31 →
      Position.ToString (Position.FromString s) = s) :=
  ⟨FromString_ToString, ToString_FromString⟩

set_option maxRecDepth 4000 in
/-- Witness for C6: the amended theorem applied at the concrete position
(2, 27) (label "AB3") and at the concrete accepted string "AB12". -/
theorem C6_witness :
    ((⟨2, 27⟩ : Position).IsValid = true ∧
      Position.FromString (Position.ToString ⟨2, 27⟩) = ⟨2, 27⟩) ∧
    (Position.FromString "AB12" ≠ Position.NONE ∧
      Position.ToString (Position.FromString "AB12") = "AB12") :=
  ⟨⟨by decide, C6_codec_roundtrip_amended.1 ⟨2, 27⟩ (by decide)⟩,
    ⟨by decide, C6_codec_roundtrip_amended.2 "AB12" (by decide)
      (by decide) (by decide)⟩⟩

/-! ### Claim C8: integer overflow during `FromString` decoding -/

set_option maxRecDepth 8000 in
/-- C8: the code does not map overflow to `NONE`.  The digit part of
"A4294967297" has mathematical value 4294967297, far above `INT_MAX`
(2^31 - 1); the accumulation loop `row = row * 10 + digit` wraps around
(signed overflow, undefined behaviour in ISO C++, two's-complement
wraparound in practice) and lands on row value 1, so `FromString` returns
the valid position (0,0) = "A1" instead of `NONE`. -/
theorem C8_overflow_failing_input :
    decValue ("A4294967297".data.dropWhile isalphaC) = 4294967297 ∧
    2 ^ 31 - 1 < 4294967297 ∧
    Position.FromString "A4294967297" = ⟨0, 0⟩ ∧
    Position.FromString "A4294967297" ≠ Position.NONE := by
  refine ⟨by decide, by decide, by decide, by decide⟩

/-! ## Formula errors, cell values, and the numeric conversion of text
operands (formula implementation file) -/

/-- `FormulaError::Category` from the formula implementation. -/
inductive FormulaError where
  | Ref
  | Value
  | Arithmetic
deriving DecidableEq, Repr

/-- `FormulaError::ToString` (the user-visible sigils). -/
def FormulaError.toSigil : FormulaError → String
  | .Ref => "#REF!"
  | .Value => "#VALUE!"
  | .Arithmetic => "#ARITHM!"

/-- `CellInterface::Value = std::variant<std::string, double, FormulaError>`.
Doubles are modelled as exact rationals. -/
inductive CellValue where
  | str (s : String)
  | num (q : Rat)
  | err (e : FormulaError)
deriving DecidableEq, Repr

instance instDecEqExcept {ε α : Type} [DecidableEq ε] [DecidableEq α] :
    DecidableEq (Except ε α) := fun a b =>
  match a, b with
  | .ok x, .ok y =>
    if h : x = y then .isTrue (by rw [h]) else .isFalse (by simp [h])
  | .error x, .error y =>
    if h : x = y then .isTrue (by rw [h]) else .isFalse (by simp [h])
  | .ok _, .error _ => .isFalse (by simp)
  | .error _, .ok _ => .isFalse (by simp)

/-- Kernel-reducible strict comparison on `Rat` (both denominators are
positive, so cross-multiplication is exact). -/
def qLt (a b : Rat) : Bool :=
  decide (a.num * (b.den : Int) < b.num * (a.den : Int))

/-- Kernel-reducible absolute value on `Rat`. -/
def qAbs (q : Rat) : Rat := Rat.divInt (Int.natAbs q.num) (q.den : Int)

/-- `DBL_MAX` as an exact rational: (2^53 - 1) * 2^971, written as an
explicit numeral so that it reduces without unary exponentiation. -/
def maxDouble : Rat := Rat.divInt 179769313486231570814527423731704356798070567525844996598917476803157260780028538760589558632766878171540458953514382464234321326889464182768467546703537516986049910576551282076245490090389328944075868508455133942304583236903222948165808559332123348274797826204144723168738177180919299881250404026184124858368 1

theorem maxDouble_eq_pow : maxDouble = Rat.divInt ((2 ^ 53 - 1) * 2 ^ 971) 1 := by
  norm_num [maxDouble]

/-- Character class `isspace` in the C locale. -/
def isspaceC (c : Char) : Bool :=
  c.toNat = 32 || (9 ≤ c.toNat && c.toNat ≤ 13)

/-- One possible outcome of `std::stod(s, &idx)`. -/
inductive StodOutcome where
  | ok (q : Rat) (consumed : Nat)
  | invalidArgument
  | outOfRange
deriving DecidableEq, Repr

/-- Head test: does the list start with the given character. -/
def headIs (cs : List Char) (c : Char) : Bool :=
  match cs with
  | x :: _ => x = c
  | [] => false

/-- Modelled from the spec: the decimal subject sequence of C `strtod`
(behind `std::stod`, which is outside `src/`): an optional sign, digits with
an optional decimal point (at least one digit overall), and an optional
exponent that is consumed only when at least one exponent digit follows.
Returns the exact value and the number of characters consumed.  Hexadecimal,
infinity and NaN subject forms are outside this rational model. -/
def decSubject (cs : List Char) : Option (Rat × Nat) :=
  let sgn : Int := if headIs cs '-' then -1 else 1
  let sgnLen : Nat := if headIs cs '-' || headIs cs '+' then 1 else 0
  let rest := cs.drop sgnLen
  let ipart := rest.takeWhile isdigitC
  let rest1 := rest.drop ipart.length
  let hasDot : Bool := headIs rest1 '.'
  let fpart := if hasDot then (rest1.drop 1).takeWhile isdigitC else []
  let dotLen : Nat := if hasDot then 1 else 0
  let rest2 := if hasDot then (rest1.drop 1).drop fpart.length else rest1
  if ipart.length = 0 && fpart.length = 0 then none
  else
    let hasE : Bool := headIs rest2 'e' || headIs rest2 'E'
    let afterE := rest2.drop 1
    let eSgnNeg : Bool := headIs afterE '-'
    let eSgnLen : Nat := if headIs afterE '-' || headIs afterE '+' then 1 else 0
    let eDigits := if hasE then (afterE.drop eSgnLen).takeWhile isdigitC else []
    let hasExp : Bool := hasE && decide (eDigits.length ≠ 0)
    let expSgn : Int := if eSgnNeg then -1 else 1
    let expLen : Nat := if hasExp then 1 + eSgnLen + eDigits.length else 0
    let expVal : Nat := if hasExp then decValue eDigits else 0
    let consumed := sgnLen + ipart.length + dotLen + fpart.length + expLen
    let mant : Int := sgn * ((decValue ipart : Int) * 10 ^ fpart.length + (decValue fpart : Int))
    let e : Int := expSgn * (expVal : Int) - (fpart.length : Int)
    let q : Rat :=
      if 0 ≤ e then Rat.divInt (mant * ((10 ^ e.toNat : Nat) : Int)) 1
      else Rat.divInt mant (((10 ^ (-e).toNat : Nat) : Int))
    some (q, consumed)

/-- Modelled from the spec: `std::stod(s, &idx)`.  Skips leading C-locale
whitespace, parses the longest decimal subject sequence, reports
`invalid_argument` when no conversion is possible and `out_of_range` when
the magnitude exceeds the `double` range. -/
def stodParse (cs : List Char) : StodOutcome :=
  let ws := cs.takeWhile isspaceC
  match decSubject (cs.drop ws.length) with
  | none => .invalidArgument
  | some (q, c) =>
    if qLt maxDouble (qAbs q) then .outOfRange
    else .ok q (ws.length + c)

/-- The strict full-string decimal parse that the specification's wording
describes: the decimal subject sequence must start at the very first
character (no whitespace skip) and must consume the entire string. -/
def strictFullDecimal (cs : List Char) : Option Rat :=
  match decSubject cs with
  | some (q, c) => if c = cs.length then some q else none
  | none => none

/-- The cell-value resolution lambda of `Formula::Evaluate` (`get_cell_value`
in the formula implementation file), factored over the already-fetched
`GetValue()` result: absent cell ⇒ 0.0; double ⇒ itself; `FormulaError` ⇒
thrown; string ⇒ empty is 0.0, else `std::stod` with full-consumption check,
`invalid_argument` ⇒ `Value`, trailing junk ⇒ `Value`, `out_of_range` ⇒
`Arithmetic`. -/
def cellValueToNumber (v : Option CellValue) : Except FormulaError Rat :=
  match v with
  | none => .ok 0
  | some (.num d) => .ok d
  | some (.err e) => .error e
  | some (.str s) =>
    if s.isEmpty then .ok 0
    else
      match stodParse s.data with
      | .ok d consumed => if consumed = s.length then .ok d else .error .Value
      | .invalidArgument => .error .Value
      | .outOfRange => .error .Arithmetic

/-! ### Claim C7: resolution of text operands during formula evaluation -/

theorem decSubject_nil : decSubject [] = none := rfl

theorem decSubject_head_not_space (cs : List Char) (h : decSubject cs ≠ none) :
    cs.takeWhile isspaceC = [] := by
  rcases hcs : cs with _ | ⟨c, t⟩
  · rfl
  · subst hcs
    suffices hs : isspaceC c = false by simp [List.takeWhile_cons, hs]
    by_cases hm : c = '-'
    · subst hm; decide
    by_cases hp : c = '+'
    · subst hp; decide
    by_cases hdig : isdigitC c = true
    · simp only [isdigitC, Bool.and_eq_true, decide_eq_true_eq] at hdig
      have h1 : isspaceC c
          = (decide (c.toNat = 32) || (decide (9 ≤ c.toNat) && decide (c.toNat ≤ 13))) := rfl
      rw [h1]
      simp only [Bool.or_eq_false_iff, Bool.and_eq_false_iff, decide_eq_false_iff_not]
      exact ⟨by omega, Or.inr (by omega)⟩
    by_cases hdot : c = '.'
    · subst hdot; decide
    exfalso
    apply h
    have hhm : headIs (c :: t) '-' = false := by simp [headIs, hm]
    have hhp : headIs (c :: t) '+' = false := by simp [headIs, hp]
    have hhd : headIs (c :: t) '.' = false := by simp [headIs, hdot]
    unfold decSubject
    simp only [hhm, hhp, Bool.or_self, Bool.false_or, if_false, Bool.false_eq_true,
      List.drop_zero, List.takeWhile_cons, hdig, List.length_nil]
    simp [hhd]


theorem stodParse_strict (cs : List Char) (q : Rat) (h : strictFullDecimal cs = some q) :
    stodParse cs = (if qLt maxDouble (qAbs q) then StodOutcome.outOfRange
      else StodOutcome.ok q cs.length) := by
  unfold strictFullDecimal at h
  rcases hd : decSubject cs with _ | ⟨qv, c⟩
  · rw [hd] at h
    simp at h
  · rw [hd] at h
    dsimp only at h
    by_cases hc : c = cs.length
    · rw [if_pos hc] at h
      have hq : qv = q := by
        injection h
      subst hq
      subst hc
      unfold stodParse
      rw [decSubject_head_not_space cs (by rw [hd]; simp)]
      simp only [List.length_nil, List.drop_zero]
      rw [hd]
      simp
    · rw [if_neg hc] at h
      simp at h

theorem string_length_data (s : String) : s.length = s.data.length := rfl

theorem isEmpty_false_of_ne (s : String) (h : s ≠ "") : s.isEmpty = false := by
  cases he : s.isEmpty
  · rfl
  · exact absurd ((String.isEmpty_iff s).mp he) h

theorem data_ne_nil_of_ne (s : String) (h : s ≠ "") : s.data ≠ [] := by
  intro hc
  apply h
  cases s
  simp at hc
  rw [hc]


set_option maxRecDepth 4000 in
/-- C7 (counterexample): the claim's "strict full-string decimal parse" is
not what the code does.  The text " 1" fails a strict full-string decimal
parse (leading whitespace), so the claim demands `FormulaError(Value)`, but
`std::stod` skips leading whitespace and consumes the whole string, so the
resolver yields the number 1.0. -/
theorem C7_counterexample :
    strictFullDecimal " 1".data = none ∧
    cellValueToNumber (some (.str " 1")) = .ok 1 := by
  constructor
  · decide
  · decide

/-- C7 (amended): formula evaluation resolves a referenced cell as follows.
An absent cell contributes 0.0; a cell whose string value is empty
contributes 0.0; otherwise the text is given to `std::stod` (whose
strtod-style parse permits leading whitespace): full consumption yields the
parsed number, a non-numeric suffix or a failed parse yields
`FormulaError(Value)`, and an out-of-range magnitude yields
`FormulaError(Arithmetic)`.  In particular every string accepted in full by
the strict (whitespace-free) decimal parse of the original claim yields its
number when in range, and `FormulaError(Arithmetic)` when out of range. -/
theorem C7_resolver_amended :
    (cellValueToNumber none = .ok 0) ∧
    (cellValueToNumber (some (.str "")) = .ok 0) ∧
    (∀ s q k, stodParse s.data = .ok q k → s ≠ "" →
      cellValueToNumber (some (.str s)) =
        (if k = s.length then .ok q else .error FormulaError.Value)) ∧
    (∀ s, stodParse s.data = .invalidArgument → s ≠ "" →
      cellValueToNumber (some (.str s)) = .error FormulaError.Value) ∧
    (∀ s, stodParse s.data = .outOfRange → s ≠ "" →
      cellValueToNumber (some (.str s)) = .error FormulaError.Arithmetic) ∧
    (∀ s q, strictFullDecimal s.data = some q → qLt maxDouble (qAbs q) = false →
      cellValueToNumber (some (.str s)) = .ok q) ∧
    (∀ s q, strictFullDecimal s.data = some q → qLt maxDouble (qAbs q) = true →
      cellValueToNumber (some (.str s)) = .error FormulaError.Arithmetic) := by
  refine ⟨rfl, rfl, ?_, ?_, ?_, ?_, ?_⟩
  · intro s q k hs hne
    simp only [cellValueToNumber, isEmpty_false_of_ne s hne, Bool.false_eq_true, if_false]
    rw [hs]
  · intro s hs hne
    simp only [cellValueToNumber, isEmpty_false_of_ne s hne, Bool.false_eq_true, if_false]
    rw [hs]
  · intro s hs hne
    simp only [cellValueToNumber, isEmpty_false_of_ne s hne, Bool.false_eq_true, if_false]
    rw [hs]
  · intro s q hq hrange
    have hne : s ≠ "" := by
      intro hc
      subst hc
      rw [show ("" : String).data = [] from rfl, strictFullDecimal, decSubject_nil] at hq
      simp at hq
    simp only [cellValueToNumber, isEmpty_false_of_ne s hne, Bool.false_eq_true, if_false]
    rw [stodParse_strict s.data q hq, if_neg (by rw [hrange]; simp)]
    dsimp only
    rw [if_pos (string_length_data s).symm]
  · intro s q hq hrange
    have hne : s ≠ "" := by
      intro hc
      subst hc
      rw [show ("" : String).data = [] from rfl, strictFullDecimal, decSubject_nil] at hq
      simp at hq
    simp only [cellValueToNumber, isEmpty_false_of_ne s hne, Bool.false_eq_true, if_false]
    rw [stodParse_strict s.data q hq, if_pos hrange]

set_option maxRecDepth 4000 in
/-- Witness for C7: the amended theorem applied to the concrete texts
"12x" (trailing junk), "2.5" (strict decimal in range), and a 64-digit
number scaled by e250 (out of the double range). -/
theorem C7_witness :
    (stodParse "12x".data = .ok 12 2 ∧ ("12x" : String) ≠ "" ∧
      cellValueToNumber (some (.str "12x")) = .error FormulaError.Value) ∧
    (strictFullDecimal "2.5".data = some (Rat.divInt 5 2) ∧
      qLt maxDouble (qAbs (Rat.divInt 5 2)) = false ∧
      cellValueToNumber (some (.str "2.5")) = .ok (Rat.divInt 5 2)) ∧
    (stodParse "9999999999999999999999999999999999999999999999999999999999999999e250".data = .outOfRange ∧
      cellValueToNumber (some (.str "9999999999999999999999999999999999999999999999999999999999999999e250")) = .error FormulaError.Arithmetic) := by
  refine ⟨⟨by decide, by decide, ?_⟩, ⟨by decide, by decide, ?_⟩, ⟨?_, ?_⟩⟩
  · have h := C7_resolver_amended.2.2.1 "12x" 12 2 (by decide) (by decide)
    rw [h]
    decide
  · exact C7_resolver_amended.2.2.2.2.2.1 "2.5" (Rat.divInt 5 2) (by decide) (by decide)
  · decide
  · exact C7_resolver_amended.2.2.2.2.1 "9999999999999999999999999999999999999999999999999999999999999999e250" (by decide) (by decide)

/-! ## The formula AST and its parser (the external `FormulaAST` component,
modelled from the spec §4.2/§6) -/

def FORMULA_SIGN : Char := '='

def ESCAPE_SIGN : Char := '\''

/-- Modelled from the spec: the abstract syntax tree produced by the external
formula parser: numeric literals, cell references (possibly invalid
positions, which evaluate to `FormulaError(Ref)`), binary arithmetic and
unary signs. -/
inductive Expr where
  | lit (q : Rat)
  | ref (p : Position)
  | add (a b : Expr)
  | sub (a b : Expr)
  | mul (a b : Expr)
  | div (a b : Expr)
  | neg (a : Expr)
  | pls (a : Expr)
deriving DecidableEq, Repr

/-- Whitespace skipping between formula tokens. -/
def skipWsL (cs : List Char) : List Char := cs.dropWhile (fun c => c = ' ')

/-- Number token of the formula grammar: digits with an optional fraction. -/
def parseNumberTok (cs : List Char) : Option (Rat × List Char) :=
  let ip := cs.takeWhile isdigitC
  if ip.length = 0 then none
  else
    let r1 := cs.drop ip.length
    if headIs r1 '.' then
      let fp := (r1.drop 1).takeWhile isdigitC
      some (Rat.divInt ((decValue ip : Int) * ((10 ^ fp.length : Nat) : Int)
          + (decValue fp : Int)) ((10 ^ fp.length : Nat) : Int),
        (r1.drop 1).drop fp.length)
    else some (Rat.divInt (decValue ip : Int) 1, r1)

/-- Cell token of the formula grammar: uppercase letters then digits; the
position is decoded by `Position::FromString` and may be `NONE`. -/
def parseCellTok (cs : List Char) : Option (Position × List Char) :=
  let ls := cs.takeWhile isupperC
  if ls.length = 0 then none
  else
    let ds := (cs.drop ls.length).takeWhile isdigitC
    if ds.length = 0 then none
    else some (Position.FromString (String.mk (ls ++ ds)), (cs.drop ls.length).drop ds.length)

mutual

/-- Expression level of the recursive-descent parse: terms chained by + and -. -/
def parseExprF : Nat → List Char → Option (Expr × List Char)
  | 0, _ => none
  | fuel + 1, cs =>
    match parseTermF fuel cs with
    | none => none
    | some (t, rest) => parseExprTailF fuel t rest

def parseExprTailF : Nat → Expr → List Char → Option (Expr × List Char)
  | 0, _, _ => none
  | fuel + 1, acc, cs =>
    let cs1 := skipWsL cs
    if headIs cs1 '+' then
      match parseTermF fuel (cs1.drop 1) with
      | some (t, rest) => parseExprTailF fuel (Expr.add acc t) rest
      | none => none
    else if headIs cs1 '-' then
      match parseTermF fuel (cs1.drop 1) with
      | some (t, rest) => parseExprTailF fuel (Expr.sub acc t) rest
      | none => none
    else some (acc, cs1)

/-- Term level: factors chained by * and /. -/
def parseTermF : Nat → List Char → Option (Expr × List Char)
  | 0, _ => none
  | fuel + 1, cs =>
    match parseFactorF fuel cs with
    | none => none
    | some (f, rest) => parseTermTailF fuel f rest

def parseTermTailF : Nat → Expr → List Char → Option (Expr × List Char)
  | 0, _, _ => none
  | fuel + 1, acc, cs =>
    let cs1 := skipWsL cs
    if headIs cs1 '*' then
      match parseFactorF fuel (cs1.drop 1) with
      | some (t, rest) => parseTermTailF fuel (Expr.mul acc t) rest
      | none => none
    else if headIs cs1 '/' then
      match parseFactorF fuel (cs1.drop 1) with
      | some (t, rest) => parseTermTailF fuel (Expr.div acc t) rest
      | none => none
    else some (acc, cs1)

/-- Factor level: unary signs, parentheses, numbers, cell references. -/
def parseFactorF : Nat → List Char → Option (Expr × List Char)
  | 0, _ => none
  | fuel + 1, cs =>
    let cs1 := skipWsL cs
    if headIs cs1 '+' then
      match parseFactorF fuel (cs1.drop 1) with
      | some (e, r) => some (Expr.pls e, r)
      | none => none
    else if headIs cs1 '-' then
      match parseFactorF fuel (cs1.drop 1) with
      | some (e, r) => some (Expr.neg e, r)
      | none => none
    else if headIs cs1 '(' then
      match parseExprF fuel (cs1.drop 1) with
      | some (e, r) =>
        let r1 := skipWsL r
        if headIs r1 ')' then some (e, r1.drop 1) else none
      | none => none
    else
      match parseCellTok cs1 with
      | some (p, r) => some (Expr.ref p, r)
      | none =>
        match parseNumberTok cs1 with
        | some (q, r) => some (Expr.lit q, r)
        | none => none

end

/-- Modelled from the spec: `ParseFormulaAST(expr)` — parse the whole
expression or fail with the parser's message. -/
def ParseFormulaAST (expression : String) : Except String Expr :=
  match parseExprF (expression.length * 2 + 8) expression.data with
  | some (e, rest) =>
    if (skipWsL rest).isEmpty then .ok e
    else .error "Formula parsing error: unexpected trailing input"
  | none => .error "Formula parsing error: syntax error"

/-- All positions inside the AST, in syntax order, with duplicates. -/
def Expr.refsRaw : Expr → List Position
  | .lit _ => []
  | .ref p => [p]
  | .add a b => a.refsRaw ++ b.refsRaw
  | .sub a b => a.refsRaw ++ b.refsRaw
  | .mul a b => a.refsRaw ++ b.refsRaw
  | .div a b => a.refsRaw ++ b.refsRaw
  | .neg a => a.refsRaw
  | .pls a => a.refsRaw

/-- Insertion into a `Position::operator<`-sorted list. -/
def insertPos (p : Position) : List Position → List Position
  | [] => [p]
  | q :: t => if Position.lt p q then p :: q :: t else q :: insertPos p t

/-- `std::sort` over positions (insertion sort; same sorted result). -/
def sortPos (l : List Position) : List Position := l.foldr insertPos []

/-- `std::unique` on a sorted list: collapse adjacent duplicates. -/
def dedupAdj : List Position → List Position
  | [] => []
  | [p] => [p]
  | p :: q :: t => if p = q then dedupAdj (q :: t) else p :: dedupAdj (q :: t)

/-- `Formula::GetReferencedCells`: sorted and deduplicated referenced
positions (formula implementation file, lines 396-401). -/
def getReferencedCells (ast : Expr) : List Position :=
  dedupAdj (sortPos ast.refsRaw)

/-- Decimal print of an integer (for the canonical formula text). -/
def intToStr (i : Int) : String :=
  if i < 0 then "-" ++ String.mk (natToDec (-i).toNat)
  else String.mk (natToDec i.toNat)

/-- Modelled from the spec: numeral normalisation of the canonical
reprinted form. -/
def printRat (q : Rat) : String :=
  if q.den = 1 then intToStr q.num
  else intToStr q.num ++ "/" ++ String.mk (natToDec q.den)

/-- Modelled from the spec: `PrintFormula` / `GetExpression`, the canonical
reprinted form with redundant parentheses removed by precedence. -/
def printExprP : Expr → Nat → String
  | .lit q, _ => printRat q
  | .ref p, _ => p.ToString
  | .add a b, ctx =>
    let s := printExprP a 1 ++ "+" ++ printExprP b 2
    if ctx > 1 then "(" ++ s ++ ")" else s
  | .sub a b, ctx =>
    let s := printExprP a 1 ++ "-" ++ printExprP b 2
    if ctx > 1 then "(" ++ s ++ ")" else s
  | .mul a b, ctx =>
    let s := printExprP a 2 ++ "*" ++ printExprP b 3
    if ctx > 2 then "(" ++ s ++ ")" else s
  | .div a b, ctx =>
    let s := printExprP a 2 ++ "/" ++ printExprP b 3
    if ctx > 2 then "(" ++ s ++ ")" else s
  | .neg a, ctx =>
    let s := "-" ++ printExprP a 3
    if ctx > 3 then "(" ++ s ++ ")" else s
  | .pls a, ctx =>
    let s := "+" ++ printExprP a 3
    if ctx > 3 then "(" ++ s ++ ")" else s

def printExpr (e : Expr) : String := printExprP e 0

/-- Exact-rational mirrors of the double arithmetic in the AST. -/
def qAdd (a b : Rat) : Rat :=
  Rat.divInt (a.num * (b.den : Int) + b.num * (a.den : Int)) ((a.den : Int) * (b.den : Int))

def qSub (a b : Rat) : Rat :=
  Rat.divInt (a.num * (b.den : Int) - b.num * (a.den : Int)) ((a.den : Int) * (b.den : Int))

def qMul (a b : Rat) : Rat :=
  Rat.divInt (a.num * b.num) ((a.den : Int) * (b.den : Int))

def qDiv (a b : Rat) : Rat :=
  Rat.divInt (a.num * (b.den : Int)) ((a.den : Int) * b.num)

def qNeg (a : Rat) : Rat := Rat.divInt (-a.num) (a.den : Int)

/-! ## Cells and the sheet (cell.h, the cell implementation file, sheet.cpp) -/

abbrev CellId := Nat

/-- The behaviour variant `Cell::Impl`: `EmptyImpl`, `TextImpl`, or
`FormulaImpl` carrying its mutable memo `cache_`. -/
inductive CellImpl where
  | empty
  | text (s : String)
  | formula (ast : Expr) (cache : Option CellValue)
deriving DecidableEq, Repr

/-- Insertion of an id into an `std::unordered_set` of ids, modelled as a
sorted duplicate-free list (canonical, so set equality is list equality). -/
def insSorted (x : CellId) : List CellId → List CellId
  | [] => [x]
  | y :: t => if x < y then x :: y :: t else if x = y then y :: t else y :: insSorted x t

/-- Erasure of an id from the set (all occurrences, as `std::set::erase`). -/
def ersAll (x : CellId) (l : List CellId) : List CellId :=
  l.filter (fun a => !(a == x))

/-- A `Cell` node: behaviour plus the two edge sets of the dependency
graph.  Peers are referenced by identity (C++ pointers become ids); the
unordered sets become sorted duplicate-free lists. -/
structure CellNode where
  impl : CellImpl
  source_cells : List CellId
  dependent_cells : List CellId
deriving DecidableEq, Repr

/-- The sheet: the dense jagged grid owning cells, modelled as an arena of
nodes keyed by allocation id, with the grid holding ids.  A destroyed cell
disappears from `cells` while stale ids (dangling pointers) may persist in
peers' edge sets. -/
structure SheetState where
  nextId : Nat
  grid : List (List (Option CellId))
  cells : List (CellId × CellNode)
deriving DecidableEq

/-- `Sheet::Sheet()`: a 1×1 grid holding no cell. -/
def initialSheet : SheetState := ⟨0, [[none]], []⟩

def lookupCell (S : SheetState) (id : CellId) : Option CellNode :=
  (S.cells.find? (fun e => e.1 == id)).map (fun e => e.2)

def updateCell (S : SheetState) (id : CellId) (f : CellNode → CellNode) : SheetState :=
  { S with cells := S.cells.map (fun e => if e.1 = id then (e.1, f e.2) else e) }

/-- The exception taxonomy surfaced by the sheet. -/
inductive ExcT where
  | invalidPosition (msg : String)
  | formulaException (msg : String)
  | circularDependency (msg : String)
deriving DecidableEq, Repr

/-- Read a grid slot (both bounds checked, as in `Sheet::GetCell`). -/
def gridGet (g : List (List (Option CellId))) (p : Position) : Option CellId :=
  match g[p.row.toNat]? with
  | some rowL =>
    match rowL[p.col.toNat]? with
    | some c => c
    | none => none
  | none => none

/-- Write a grid slot. -/
def setGrid (g : List (List (Option CellId))) (p : Position) (v : Option CellId) :
    List (List (Option CellId)) :=
  match g[p.row.toNat]? with
  | some rowL => g.set p.row.toNat (rowL.set p.col.toNat v)
  | none => g

/-- `Sheet::GetCell`: `InvalidPositionException` on an invalid position,
otherwise the cell (or absent) without growing storage. -/
def Sheet.GetCell (S : SheetState) (p : Position) : Except ExcT (Option CellId) :=
  if p.IsValid then .ok (gridGet S.grid p)
  else .error (.invalidPosition "Invalid position")

/-- `Sheet::ResizeIfNeeded`. -/
def resizeListIfNeeded {α : Type} (v : List α) (idx : Nat) (dflt : α) : List α :=
  if v.length ≤ idx then v ++ List.replicate (idx + 1 - v.length) dflt else v

/-- `Sheet::MaybeIncreaseSizeToIncludePosition`: grow rows, then grow every
row to include the column. -/
def MaybeIncreaseSizeToIncludePosition (S : SheetState) (p : Position) : SheetState :=
  let g1 := resizeListIfNeeded S.grid p.row.toNat []
  let g2 := if 0 ≤ p.col then g1.map (fun row => resizeListIfNeeded row p.col.toNat none)
    else g1
  { S with grid := g2 }

/-- `Cell::Impl::GetText` across the three variants. -/
def CellImpl.GetText : CellImpl → String
  | .empty => ""
  | .text s => s
  | .formula ast _ => "=" ++ printExpr ast

/-- `Cell::Impl::GetReferencedCells` across the three variants. -/
def CellImpl.refsList : CellImpl → List Position
  | .formula ast _ => getReferencedCells ast
  | _ => []

/-- `Cell::Impl::InvalidateCache`: only `FormulaImpl` discards its memo. -/
def CellImpl.InvalidateCache : CellImpl → CellImpl
  | .formula ast _ => .formula ast none
  | i => i

/-- `TextImpl::GetValue`: strip a leading escape sign. -/
def textImplValue (s : String) : CellValue :=
  if headIs s.data ESCAPE_SIGN then .str (String.mk (s.data.drop 1)) else .str s

/-- Source edges read by the cycle-check BFS (empty for a dangling id). -/
def sourcesOf (S : SheetState) (id : CellId) : List CellId :=
  match lookupCell S id with
  | some c => c.source_cells
  | none => []

/-- Dependent edges walked by downstream invalidation. -/
def dependentsOf (S : SheetState) (id : CellId) : List CellId :=
  match lookupCell S id with
  | some c => c.dependent_cells
  | none => []

/-- Worklist fuel: every element ever enqueued is a seed or a member of some
cell's edge set, so this bound always outlasts the loop. -/
def edgeFuel (S : SheetState) (seeds : Nat) : Nat :=
  seeds +
    (S.cells.map (fun e => e.2.source_cells.length + e.2.dependent_cells.length)).sum + 2

/-- The BFS queue loop of `Cell::CheckCircularDependency`: pop, skip if
visited, report a cycle on reaching `self`, otherwise enqueue the node's
sources. -/
def bfsCycleF (S : SheetState) (selfId : CellId) :
    Nat → List CellId → List CellId → Bool
  | 0, _, _ => false
  | _ + 1, [], _ => false
  | fuel + 1, cur :: queueRest, visited =>
    if cur ∈ visited then bfsCycleF S selfId fuel queueRest visited
    else if cur = selfId then true
    else bfsCycleF S selfId fuel (queueRest ++ sourcesOf S cur) (cur :: visited)

/-- The seeding loop of `Cell::CheckCircularDependency`: look up every
proposed reference in order (`GetConcreteCell` throws on an invalid
position), skip absent cells, and report a cycle at once when a seed is
`self`; `none` signals that early cycle. -/
def collectSeeds (S : SheetState) (selfId : CellId) :
    List Position → Except ExcT (Option (List CellId))
  | [] => .ok (some [])
  | p :: rest =>
    match Sheet.GetCell S p with
    | .error e => .error e
    | .ok none => collectSeeds S selfId rest
    | .ok (some c) =>
      if c = selfId then .ok none
      else
        match collectSeeds S selfId rest with
        | .error e => .error e
        | .ok none => .ok none
        | .ok (some l) => .ok (some (c :: l))

/-- `Cell::CheckCircularDependency`. -/
def CheckCircularDependency (S : SheetState) (selfId : CellId)
    (new_refs : List Position) : Except ExcT Bool :=
  match collectSeeds S selfId new_refs with
  | .error e => .error e
  | .ok none => .ok true
  | .ok (some seeds) => .ok (bfsCycleF S selfId (edgeFuel S seeds.length) seeds [])

/-- `Cell::UnsubscribeFromSources`: remove `self` from every source's
dependent set, then clear `self`'s sources. -/
def UnsubscribeFromSources (S : SheetState) (selfId : CellId) : SheetState :=
  match lookupCell S selfId with
  | none => S
  | some self =>
    let S1 := self.source_cells.foldl
      (fun acc srcId => updateCell acc srcId
        (fun c => { c with dependent_cells := ersAll selfId c.dependent_cells })) S
    updateCell S1 selfId (fun c => { c with source_cells := [] })

/-- The reentrant `sheet_.SetCell(pos, "")` issued by `UpdateDependencies`
for an absent source: grow the grid and allocate an empty cell, whose
`Set("")` then returns immediately because the text is unchanged. -/
def materializeEmpty (S : SheetState) (p : Position) : SheetState :=
  let S1 := MaybeIncreaseSizeToIncludePosition S p
  match gridGet S1.grid p with
  | some _ => S1
  | none =>
    { nextId := S1.nextId + 1,
      grid := setGrid S1.grid p (some S1.nextId),
      cells := (S1.nextId, ⟨.empty, [], []⟩) :: S1.cells }

/-- The subscription loop of `Cell::UpdateDependencies`: resolve or create
each referenced cell, skip `self`, and insert the two half-edges. -/
def updDepsLoop (selfId : CellId) :
    List Position → SheetState → Except (ExcT × SheetState) SheetState
  | [], S => .ok S
  | p :: rest, S =>
    match Sheet.GetCell S p with
    | .error e => .error (e, S)
    | .ok ci0 =>
      let SM := match ci0 with
        | some _ => S
        | none => materializeEmpty S p
      match Sheet.GetCell SM p with
      | .error e => .error (e, SM)
      | .ok none => updDepsLoop selfId rest SM
      | .ok (some srcId) =>
        if srcId = selfId then updDepsLoop selfId rest SM
        else
          let SM1 := updateCell SM selfId
            (fun c => { c with source_cells := insSorted srcId c.source_cells })
          let SM2 := updateCell SM1 srcId
            (fun c => { c with dependent_cells := insSorted selfId c.dependent_cells })
          updDepsLoop selfId rest SM2

/-- `Cell::UpdateDependencies`: unsubscribe from the old sources, then
subscribe to the new ones. -/
def UpdateDependencies (S : SheetState) (selfId : CellId)
    (new_refs : List Position) : Except (ExcT × SheetState) SheetState :=
  updDepsLoop selfId new_refs (UnsubscribeFromSources S selfId)

/-- The stack loop of `Cell::InvalidateCacheDownstream`: pop, skip if
visited, reset the cache (a no-op for a dangling id), push dependents. -/
def invalDownF : Nat → List CellId → List CellId → SheetState → SheetState
  | 0, _, _, S => S
  | _ + 1, [], _, S => S
  | fuel + 1, cur :: st, visited, S =>
    if cur ∈ visited then invalDownF fuel st visited S
    else
      let S1 := updateCell S cur (fun n => { n with impl := n.impl.InvalidateCache })
      invalDownF fuel (dependentsOf S1 cur ++ st) (cur :: visited) S1

/-- `Cell::InvalidateCacheDownstream`. -/
def InvalidateCacheDownstream (S : SheetState) (selfId : CellId) : SheetState :=
  invalDownF (edgeFuel S 1) [selfId] [] S

/-- Evaluation-time exceptions: `FormulaError` thrown as a value carrier,
or an uncaught `InvalidPositionException` from `Sheet::GetCell`. -/
inductive EvalExn where
  | fe (e : FormulaError)
  | invalidPos
deriving DecidableEq, Repr

/-- Modelled from the spec: `FormulaAST::Execute` with the `get_cell_value`
resolver of `Formula::Evaluate`, parameterised by the cell resolver and
structurally recursive on the expression.  References to invalid positions
yield `FormulaError(Ref)`; absent cells read as 0; cell values are
converted by the resolver (`cellValueToNumber`); arithmetic producing a
non-finite double (division by zero, overflow past `DBL_MAX`) throws
`FormulaError(Arithmetic)`. -/
def evalAstP
    (getVal : SheetState → CellId → Except (EvalExn × SheetState) (CellValue × SheetState)) :
    SheetState → Expr → Except (EvalExn × SheetState) (Rat × SheetState)
  | S, .lit q => .ok (q, S)
  | S, .ref p =>
    if p.IsValid then
      match Sheet.GetCell S p with
      | .error _ => .error (.invalidPos, S)
      | .ok none => .ok (0, S)
      | .ok (some id) =>
        match getVal S id with
        | .error es => .error es
        | .ok (v, S1) =>
          match cellValueToNumber (some v) with
          | .ok d => .ok (d, S1)
          | .error e => .error (.fe e, S1)
    else .error (.fe .Ref, S)
  | S, .add a b =>
    match evalAstP getVal S a with
    | .error es => .error es
    | .ok (x, S1) =>
      match evalAstP getVal S1 b with
      | .error es => .error es
      | .ok (y, S2) =>
        let r := qAdd x y
        if qLt maxDouble (qAbs r) then .error (.fe .Arithmetic, S2) else .ok (r, S2)
  | S, .sub a b =>
    match evalAstP getVal S a with
    | .error es => .error es
    | .ok (x, S1) =>
      match evalAstP getVal S1 b with
      | .error es => .error es
      | .ok (y, S2) =>
        let r := qSub x y
        if qLt maxDouble (qAbs r) then .error (.fe .Arithmetic, S2) else .ok (r, S2)
  | S, .mul a b =>
    match evalAstP getVal S a with
    | .error es => .error es
    | .ok (x, S1) =>
      match evalAstP getVal S1 b with
      | .error es => .error es
      | .ok (y, S2) =>
        let r := qMul x y
        if qLt maxDouble (qAbs r) then .error (.fe .Arithmetic, S2) else .ok (r, S2)
  | S, .div a b =>
    match evalAstP getVal S a with
    | .error es => .error es
    | .ok (x, S1) =>
      match evalAstP getVal S1 b with
      | .error es => .error es
      | .ok (y, S2) =>
        if y = 0 then .error (.fe .Arithmetic, S2)
        else
          let r := qDiv x y
          if qLt maxDouble (qAbs r) then .error (.fe .Arithmetic, S2) else .ok (r, S2)
  | S, .neg a =>
    match evalAstP getVal S a with
    | .error es => .error es
    | .ok (x, S1) => .ok (qNeg x, S1)
  | S, .pls a =>
    match evalAstP getVal S a with
    | .error es => .error es
    | .ok (x, S1) => .ok (x, S1)

/-- `CellInterface::GetValue` on a cell id: empty is `0.0`, text strips the
escape sign, a formula returns its memo or evaluates and fills it (the
`Formula::Evaluate` catch of `FormulaError` inlined). -/
def cellGetValueF : Nat → SheetState → CellId → Except (EvalExn × SheetState) (CellValue × SheetState)
  | 0, S, _ => .error (.invalidPos, S)
  | fuel + 1, S, id =>
    match lookupCell S id with
    | none => .ok (.str "", S)
    | some c =>
      match c.impl with
      | .empty => .ok (.num 0, S)
      | .text s => .ok (textImplValue s, S)
      | .formula ast cache =>
        match cache with
        | some v => .ok (v, S)
        | none =>
          match
            (match evalAstP (cellGetValueF fuel) S ast with
             | .ok (d, S1) => .ok (.inl d, S1)
             | .error (.fe e, S1) => .ok (.inr e, S1)
             | .error (.invalidPos, S1) => .error (.invalidPos, S1) :
              Except (EvalExn × SheetState) ((Rat ⊕ FormulaError) × SheetState)) with
          | .error es => .error es
          | .ok (res, S1) =>
            let v : CellValue := match res with
              | .inl d => .num d
              | .inr e => .err e
            .ok (v, updateCell S1 id (fun n => { n with impl := .formula ast (some v) }))

/-- The AST walk with the depth-limited resolver. -/
def evalAstF (fuel : Nat) : SheetState → Expr → Except (EvalExn × SheetState) (Rat × SheetState) :=
  evalAstP (cellGetValueF fuel)

/-- `Formula::Evaluate`: run the AST, catching `FormulaError` into a value;
other exceptions propagate. -/
def formulaEvaluateF (fuel : Nat) (S : SheetState) (ast : Expr) :
    Except (EvalExn × SheetState) ((Rat ⊕ FormulaError) × SheetState) :=
  match evalAstF fuel S ast with
  | .ok (d, S1) => .ok (.inl d, S1)
  | .error (.fe e, S1) => .ok (.inr e, S1)
  | .error (.invalidPos, S1) => .error (.invalidPos, S1)

/-- Fuel for evaluation: the nesting depth of `GetValue` calls is bounded
by the number of live cells on an acyclic sheet, so this bound always
outlasts the real (unbounded) recursion. -/
def evalFuel (S : SheetState) : Nat := S.cells.length + 2

/-- `Cell::GetValue` at the interface level. -/
def Cell.GetValue (S : SheetState) (id : CellId) :
    Except (EvalExn × SheetState) (CellValue × SheetState) :=
  cellGetValueF (evalFuel S) S id

/-- `Cell::Set` (the transactional edit, cell implementation file
lines 119-163). -/
def Cell.Set (S : SheetState) (selfId : CellId) (text : String) :
    Except (ExcT × SheetState) SheetState :=
  match lookupCell S selfId with
  | none => .ok S
  | some self =>
    if text = self.impl.GetText then .ok S
    else if headIs text.data FORMULA_SIGN && decide (1 < text.length) then
      match ParseFormulaAST (String.mk (text.data.drop 1)) with
      | .error msg => .error (.formulaException msg, S)
      | .ok ast =>
        let new_refs := getReferencedCells ast
        match CheckCircularDependency S selfId new_refs with
        | .error e => .error (e, S)
        | .ok true => .error (.circularDependency "Circular dependency detected", S)
        | .ok false =>
          let S1 := updateCell S selfId (fun c => { c with impl := .formula ast none })
          match UpdateDependencies S1 selfId new_refs with
          | .error (e, S2) =>
            .error (e, updateCell S2 selfId (fun c => { c with impl := self.impl }))
          | .ok S2 => .ok (InvalidateCacheDownstream S2 selfId)
    else
      let newImpl : CellImpl :=
        if headIs text.data ESCAPE_SIGN then .text text
        else if text.isEmpty then .empty
        else .text text
      let S1 := updateCell S selfId (fun c => { c with impl := newImpl })
      match UpdateDependencies S1 selfId [] with
      | .error (e, S2) =>
        .error (e, updateCell S2 selfId (fun c => { c with impl := self.impl }))
      | .ok S2 => .ok (InvalidateCacheDownstream S2 selfId)

/-- `Cell::Clear`: `Set("")`, then unsubscribe from all remaining sources,
then a second downstream invalidation. -/
def Cell.Clear (S : SheetState) (selfId : CellId) :
    Except (ExcT × SheetState) SheetState :=
  match Cell.Set S selfId "" with
  | .error es => .error es
  | .ok S1 =>
    let S2 := UnsubscribeFromSources S1 selfId
    .ok (InvalidateCacheDownstream S2 selfId)

/-- `Cell::IsReferenced`. -/
def Cell.IsReferenced (c : CellNode) : Bool := !c.dependent_cells.isEmpty

/-- `Sheet::SetCell`: validate, grow, allocate if absent, forward to
`Cell::Set`; re-raise circular/formula exceptions unchanged, wrap anything
else as `FormulaException("Unknown formula error: ...")`. -/
def Sheet.SetCell (S : SheetState) (p : Position) (text : String) :
    Except (ExcT × SheetState) SheetState :=
  if p.IsValid then
    let S1 := MaybeIncreaseSizeToIncludePosition S p
    let alloc : SheetState × CellId :=
      match gridGet S1.grid p with
      | some id => (S1, id)
      | none =>
        ({ nextId := S1.nextId + 1,
           grid := setGrid S1.grid p (some S1.nextId),
           cells := (S1.nextId, ⟨.empty, [], []⟩) :: S1.cells }, S1.nextId)
    match Cell.Set alloc.1 alloc.2 text with
    | .ok S3 => .ok S3
    | .error (.circularDependency m, S3) => .error (.circularDependency m, S3)
    | .error (.formulaException m, S3) => .error (.formulaException m, S3)
    | .error (.invalidPosition m, S3) =>
      .error (.formulaException ("Unknown formula error: " ++ m), S3)
  else .error (.invalidPosition "Invalid position", S)

/-- `Sheet::ClearCell`: no-op on an absent cell; a referenced cell is
cleared in place (kept as an empty placeholder); an unreferenced cell's
node is destroyed outright. -/
def Sheet.ClearCell (S : SheetState) (p : Position) :
    Except (ExcT × SheetState) SheetState :=
  match Sheet.GetCell S p with
  | .error e => .error (e, S)
  | .ok none => .ok S
  | .ok (some id) =>
    match lookupCell S id with
    | none => .ok S
    | some c =>
      if Cell.IsReferenced c then Cell.Clear S id
      else
        .ok { S with
          grid := setGrid S.grid p none,
          cells := S.cells.filter (fun e => !(e.1 == id)) }

structure Size where
  rows : Int
  cols : Int
deriving DecidableEq, Repr

/-- Text of the cell behind an id (empty for a dangling id). -/
def cellTextAt (S : SheetState) (id : CellId) : String :=
  match lookupCell S id with
  | some c => c.impl.GetText
  | none => ""

/-- Does the grid slot (r, c) hold a cell with non-empty text. -/
def slotTextNonempty (S : SheetState) (r c : Nat) : Bool :=
  match S.grid[r]? with
  | some rowL =>
    match rowL[c]? with
    | some (some id) => !(cellTextAt S id).isEmpty
    | _ => false
  | none => false

/-- `Sheet::GetActualSize`: the tight bounding rectangle over slots whose
cell has non-empty text. -/
def Sheet.GetActualSize (S : SheetState) : Size :=
  let idxs := (List.range S.grid.length).flatMap (fun r =>
    (List.range (S.grid[r]?.getD []).length).filterMap (fun c =>
      if slotTextNonempty S r c then some (r, c) else none))
  ⟨(idxs.foldl (fun m rc => max m (rc.1 + 1)) 0 : Nat),
   (idxs.foldl (fun m rc => max m (rc.2 + 1)) 0 : Nat)⟩

/-- `Sheet::GetPrintableSize`. -/
def Sheet.GetPrintableSize (S : SheetState) : Size := Sheet.GetActualSize S

/-- `Sheet::PrintCells` (sheet.cpp lines 118-141): for every row of the
printable rectangle, emit a tab before every column after the first, then
the cell's printed form when it exists and has non-empty text; one newline
per row. -/
def Sheet.PrintCells (S : SheetState) (printCell : CellId → String) : String :=
  let size := Sheet.GetPrintableSize S
  String.join ((List.range size.rows.toNat).map (fun r =>
    String.join ((List.range size.cols.toNat).map (fun c =>
      (if 0 < c then "\t" else "") ++
      (match S.grid[r]? with
       | some rowL =>
         match rowL[c]? with
         | some (some id) => if (cellTextAt S id).isEmpty then "" else printCell id
         | _ => ""
       | none => ""))) ++ "\n"))

/-- `Sheet::PrintTexts`. -/
def Sheet.PrintTexts (S : SheetState) : String :=
  Sheet.PrintCells S (fun id => cellTextAt S id)

/-! ## Observable operation sequences -/

/-- The state after a `SetCell` call, successful or failed. -/
def stateAfterSet (S : SheetState) (p : Position) (t : String) : SheetState :=
  match Sheet.SetCell S p t with
  | .ok S1 => S1
  | .error (_, S1) => S1

/-- The state after a `ClearCell` call, successful or failed. -/
def stateAfterClear (S : SheetState) (p : Position) : SheetState :=
  match Sheet.ClearCell S p with
  | .ok S1 => S1
  | .error (_, S1) => S1

/-- The state after a host reads `GetCell(pos)->GetValue()`. -/
def stateAfterGetValue (S : SheetState) (p : Position) : SheetState :=
  match Sheet.GetCell S p with
  | .ok (some id) =>
    (match Cell.GetValue S id with
     | .ok (_, S1) => S1
     | .error (_, S1) => S1)
  | _ => S

/-- States reachable from the fresh sheet by any sequence of `SetCell`,
`ClearCell` and `GetValue` operations, successful or failed. -/
inductive Reachable : SheetState → Prop where
  | init : Reachable initialSheet
  | set (S : SheetState) (p : Position) (t : String) :
      Reachable S → Reachable (stateAfterSet S p t)
  | clear (S : SheetState) (p : Position) :
      Reachable S → Reachable (stateAfterClear S p)
  | getValue (S : SheetState) (p : Position) :
      Reachable S → Reachable (stateAfterGetValue S p)

/-! ### Claim C1: edge symmetry across SetCell/ClearCell sequences -/

/-- Does cell `b` exist and list `a` in the chosen edge set. -/
def edgeHolds (S : SheetState) (a b : CellId) (pick : CellNode → List CellId) : Bool :=
  match lookupCell S b with
  | some c => decide (a ∈ pick c)
  | none => false

/-- The invariant asserted by the claim: for every owned cell, every source
back-links it as a dependent and every dependent back-links it as a source;
in particular every edge endpoint is still owned by the sheet. -/
def EdgeSymmetricOwned (S : SheetState) : Prop :=
  ∀ e ∈ S.cells,
    (∀ s ∈ e.2.source_cells, edgeHolds S e.1 s (fun c => c.dependent_cells) = true) ∧
    (∀ d ∈ e.2.dependent_cells, edgeHolds S e.1 d (fun c => c.source_cells) = true)

instance instDecEdgeSymmetricOwned (S : SheetState) : Decidable (EdgeSymmetricOwned S) := by
  unfold EdgeSymmetricOwned
  infer_instance

set_option maxRecDepth 4000 in
/-- C1: the invariant is violated by the code.  From a fresh sheet,
`SetCell(A1, "=B1")` succeeds (materialising B1 with dependent set A1), and
`ClearCell(A1)` also completes successfully — but it destroys A1's node
without detaching it from its sources, so afterwards B1 (id 1) still lists
the destroyed id 0 in its dependent set while the sheet no longer owns a
cell with id 0: the dependent direction of edge symmetry and the ownership
part of the claim both fail. -/
theorem C1_symmetry_code_bug :
    (Sheet.SetCell initialSheet ⟨0, 0⟩ "=B1" matches Except.ok _) ∧
    (Sheet.ClearCell (stateAfterSet initialSheet ⟨0, 0⟩ "=B1") ⟨0, 0⟩ matches Except.ok _) ∧
    ¬ EdgeSymmetricOwned (stateAfterClear (stateAfterSet initialSheet ⟨0, 0⟩ "=B1") ⟨0, 0⟩) ∧
    (lookupCell (stateAfterClear (stateAfterSet initialSheet ⟨0, 0⟩ "=B1") ⟨0, 0⟩) 1).map
      (fun c => c.dependent_cells) = some [0] ∧
    lookupCell (stateAfterClear (stateAfterSet initialSheet ⟨0, 0⟩ "=B1") ⟨0, 0⟩) 0 = none := by
  refine ⟨by decide, by decide, by decide, by decide, by decide⟩


/-! ### Frame lemmas about the state operations -/

def keysOf (S : SheetState) : List CellId := S.cells.map (fun e => e.1)

theorem updateCell_grid (S : SheetState) (id : CellId) (f : CellNode → CellNode) :
    (updateCell S id f).grid = S.grid := rfl

theorem updateCell_nextId (S : SheetState) (id : CellId) (f : CellNode → CellNode) :
    (updateCell S id f).nextId = S.nextId := rfl

theorem updateCell_keys (S : SheetState) (id : CellId) (f : CellNode → CellNode) :
    keysOf (updateCell S id f) = keysOf S := by
  unfold keysOf updateCell
  simp only [List.map_map]
  apply List.map_congr_left
  intro e _
  by_cases h : e.1 = id <;> simp [Function.comp, h]

theorem find_map_keyed (l : List (CellId × CellNode)) (id j : CellId) (f : CellNode → CellNode) :
    ((l.map (fun e => if e.1 = id then (e.1, f e.2) else e)).find? (fun e => e.1 == j)) =
      if j = id then (l.find? (fun e => e.1 == j)).map (fun e => (e.1, f e.2))
      else l.find? (fun e => e.1 == j) := by
  induction l with
  | nil => by_cases h : j = id <;> simp [h]
  | cons e t ih =>
    have hkey : ((if e.1 = id then (e.1, f e.2) else e) : CellId × CellNode).1 = e.1 := by
      by_cases h : e.1 = id <;> simp [h]
    by_cases hji : j = id
    · subst hji
      rw [if_pos rfl] at ih ⊢
      by_cases hj : e.1 = j
      · rw [List.map_cons, List.find?_cons_of_pos _ (by simp only [hkey]; simp [hj]),
          List.find?_cons_of_pos _ (by simp [hj])]
        simp [hj]
      · rw [List.map_cons, List.find?_cons_of_neg _ (by simp [hkey, hj]),
          List.find?_cons_of_neg _ (by simp [hj])]
        exact ih
    · rw [if_neg hji] at ih ⊢
      by_cases hj : e.1 = j
      · rw [List.map_cons, List.find?_cons_of_pos _ (by simp only [hkey]; simp [hj]),
          List.find?_cons_of_pos _ (by simp [hj])]
        have hne : ¬ e.1 = id := by
          rw [hj]
          exact hji
        simp [hne]
      · rw [List.map_cons, List.find?_cons_of_neg _ (by simp [hkey, hj]),
          List.find?_cons_of_neg _ (by simp [hj])]
        exact ih

theorem lookup_updateCell (S : SheetState) (id : CellId) (f : CellNode → CellNode) (j : CellId) :
    lookupCell (updateCell S id f) j =
      if j = id then (lookupCell S j).map f else lookupCell S j := by
  unfold lookupCell updateCell
  simp only
  rw [find_map_keyed]
  by_cases h : j = id
  · simp only [if_pos h, Option.map_map]
    rfl
  · simp only [if_neg h]


/-! ### Grid frame lemmas -/

theorem resize_get {α : Type} (v : List α) (idx : Nat) (d : α) (i : Nat) :
    (resizeListIfNeeded v idx d)[i]? =
      if i < v.length then v[i]? else if i ≤ idx then some d else none := by
  unfold resizeListIfNeeded
  by_cases h : v.length ≤ idx
  · rw [if_pos h]
    by_cases hi : i < v.length
    · rw [if_pos hi, List.getElem?_append_left hi]
    · rw [if_neg hi, List.getElem?_append_right (by omega), List.getElem?_replicate]
      by_cases hle : i ≤ idx
      · rw [if_pos hle, if_pos (by omega)]
      · rw [if_neg hle, if_neg (by omega)]
  · rw [if_neg h]
    by_cases hi : i < v.length
    · rw [if_pos hi]
    · rw [if_neg hi, if_neg (by omega), List.getElem?_eq_none (by omega)]

theorem gridGet_maybeIncrease (S : SheetState) (p q : Position) :
    gridGet (MaybeIncreaseSizeToIncludePosition S p).grid q = gridGet S.grid q := by
  unfold MaybeIncreaseSizeToIncludePosition gridGet
  simp only
  by_cases hc : 0 ≤ p.col
  · rw [if_pos hc]
    by_cases h1 : q.row.toNat < S.grid.length
    · cases hrow : S.grid[q.row.toNat]? with
      | none =>
        exfalso
        rw [List.getElem?_eq_none_iff] at hrow
        omega
      | some rowL =>
        have hg1 : (resizeListIfNeeded S.grid p.row.toNat [])[q.row.toNat]? = some rowL := by
          rw [resize_get, if_pos h1, hrow]
        have hg2 : ((resizeListIfNeeded S.grid p.row.toNat []).map
            (fun row => resizeListIfNeeded row p.col.toNat none))[q.row.toNat]?
            = some (resizeListIfNeeded rowL p.col.toNat none) := by
          rw [List.getElem?_map, hg1]
          rfl
        rw [hg2]
        dsimp only
        rw [resize_get]
        by_cases h2 : q.col.toNat < rowL.length
        · rw [if_pos h2]
        · rw [if_neg h2, List.getElem?_eq_none (by omega)]
          by_cases h3 : q.col.toNat ≤ p.col.toNat
          · rw [if_pos h3]
          · rw [if_neg h3]
    · have hnone : S.grid[q.row.toNat]? = none := List.getElem?_eq_none (by omega)
      rw [hnone]
      by_cases h3 : q.row.toNat ≤ p.row.toNat
      · have hg1 : (resizeListIfNeeded S.grid p.row.toNat [])[q.row.toNat]? = some [] := by
          rw [resize_get, if_neg h1, if_pos h3]
        have hg2 : ((resizeListIfNeeded S.grid p.row.toNat []).map
            (fun row => resizeListIfNeeded row p.col.toNat none))[q.row.toNat]?
            = some (resizeListIfNeeded ([] : List (Option CellId)) p.col.toNat none) := by
          rw [List.getElem?_map, hg1]
          rfl
        rw [hg2]
        dsimp only
        rw [resize_get]
        simp only [List.length_nil, List.getElem?_nil]
        rw [if_neg (by omega)]
        by_cases h4 : q.col.toNat ≤ p.col.toNat
        · rw [if_pos h4]
        · rw [if_neg h4]
      · have hg1 : (resizeListIfNeeded S.grid p.row.toNat [])[q.row.toNat]? = none := by
          rw [resize_get, if_neg h1, if_neg h3]
        have hg2 : ((resizeListIfNeeded S.grid p.row.toNat []).map
            (fun row => resizeListIfNeeded row p.col.toNat none))[q.row.toNat]? = none := by
          rw [List.getElem?_map, hg1]
          rfl
        rw [hg2]
  · rw [if_neg hc]
    rw [resize_get]
    by_cases h1 : q.row.toNat < S.grid.length
    · rw [if_pos h1]
    · rw [if_neg h1, List.getElem?_eq_none (by omega)]
      by_cases h3 : q.row.toNat ≤ p.row.toNat
      · rw [if_pos h3]
        simp
      · rw [if_neg h3]

/-- Slot (row, col) of the grid exists (both indices in bounds). -/
def slotInBounds (g : List (List (Option CellId))) (p : Position) : Prop :=
  ∃ rowL, g[p.row.toNat]? = some rowL ∧ p.col.toNat < rowL.length

theorem maybeIncrease_inBounds (S : SheetState) (p : Position) (h : p.IsValid = true) :
    slotInBounds (MaybeIncreaseSizeToIncludePosition S p).grid p := by
  have hb : 0 ≤ p.row ∧ 0 ≤ p.col := by
    simp [Position.IsValid] at h
    tauto
  unfold MaybeIncreaseSizeToIncludePosition slotInBounds
  simp only
  rw [if_pos hb.2]
  have hlen : p.row.toNat < (resizeListIfNeeded S.grid p.row.toNat []).length := by
    unfold resizeListIfNeeded
    by_cases hg : S.grid.length ≤ p.row.toNat
    · rw [if_pos hg]
      simp only [List.length_append, List.length_replicate]
      omega
    · rw [if_neg hg]
      omega
  cases hrow : (resizeListIfNeeded S.grid p.row.toNat [])[p.row.toNat]? with
  | none =>
    exfalso
    rw [List.getElem?_eq_none_iff] at hrow
    omega
  | some rowL =>
    refine ⟨resizeListIfNeeded rowL p.col.toNat none, ?_, ?_⟩
    · rw [List.getElem?_map, hrow]
      rfl
    · unfold resizeListIfNeeded
      by_cases hg : rowL.length ≤ p.col.toNat
      · rw [if_pos hg]
        simp only [List.length_append, List.length_replicate]
        omega
      · rw [if_neg hg]
        omega

theorem gridGet_setGrid_same (g : List (List (Option CellId))) (p : Position)
    (v : Option CellId) (h : slotInBounds g p) : gridGet (setGrid g p v) p = v := by
  obtain ⟨rowL, hrow, hcol⟩ := h
  have hrlen : p.row.toNat < g.length := by
    by_contra hc
    rw [List.getElem?_eq_none (by omega)] at hrow
    exact Option.noConfusion hrow
  unfold setGrid
  rw [hrow]
  unfold gridGet
  rw [List.getElem?_set_self hrlen]
  dsimp only
  rw [List.getElem?_set_self (by omega)]

theorem gridGet_setGrid_other (g : List (List (Option CellId))) (p q : Position)
    (v : Option CellId)
    (h : p.row.toNat ≠ q.row.toNat ∨ p.col.toNat ≠ q.col.toNat) :
    gridGet (setGrid g p v) q = gridGet g q := by
  unfold setGrid
  cases hrow : g[p.row.toNat]? with
  | none => rfl
  | some rowL =>
    have hrlen : p.row.toNat < g.length := by
      by_contra hc
      rw [List.getElem?_eq_none (by omega)] at hrow
      exact Option.noConfusion hrow
    unfold gridGet
    rcases h with h | h
    · rw [List.getElem?_set_ne h]
    · by_cases hr : p.row.toNat = q.row.toNat
      · rw [← hr, List.getElem?_set_self hrlen, hrow]
        dsimp only
        rw [List.getElem?_set_ne h]
      · rw [List.getElem?_set_ne hr]



/-! ### Frame lemmas for the traversals and graph operations -/

theorem invalDownF_frame (fuel : Nat) : ∀ (work vis : List CellId) (S : SheetState),
    (invalDownF fuel work vis S).grid = S.grid ∧
    (invalDownF fuel work vis S).nextId = S.nextId ∧
    keysOf (invalDownF fuel work vis S) = keysOf S := by
  induction fuel with
  | zero => intro work vis S; exact ⟨rfl, rfl, rfl⟩
  | succ f ih =>
    intro work vis S
    match work with
    | [] => exact ⟨rfl, rfl, rfl⟩
    | cur :: st =>
      rw [invalDownF]
      by_cases h : cur ∈ vis
      · rw [if_pos h]
        exact ih st vis S
      · rw [if_neg h]
        obtain ⟨h1, h2, h3⟩ := ih (dependentsOf
          (updateCell S cur (fun n => { n with impl := n.impl.InvalidateCache })) cur ++ st)
          (cur :: vis) (updateCell S cur (fun n => { n with impl := n.impl.InvalidateCache }))
        refine ⟨?_, ?_, ?_⟩
        · rw [h1, updateCell_grid]
        · rw [h2, updateCell_nextId]
        · rw [h3, updateCell_keys]

theorem foldl_updateCell_frame (g : CellId → CellNode → CellNode) (l : List CellId) :
    ∀ S : SheetState,
    ((l.foldl (fun acc i => updateCell acc i (g i)) S).grid = S.grid ∧
     (l.foldl (fun acc i => updateCell acc i (g i)) S).nextId = S.nextId ∧
     keysOf (l.foldl (fun acc i => updateCell acc i (g i)) S) = keysOf S) := by
  induction l with
  | nil => intro S; exact ⟨rfl, rfl, rfl⟩
  | cons a t ih =>
    intro S
    obtain ⟨h1, h2, h3⟩ := ih (updateCell S a (g a))
    simp only [List.foldl_cons]
    refine ⟨?_, ?_, ?_⟩
    · rw [h1, updateCell_grid]
    · rw [h2, updateCell_nextId]
    · rw [h3, updateCell_keys]

theorem unsub_frame (S : SheetState) (selfId : CellId) :
    (UnsubscribeFromSources S selfId).grid = S.grid ∧
    (UnsubscribeFromSources S selfId).nextId = S.nextId ∧
    keysOf (UnsubscribeFromSources S selfId) = keysOf S := by
  unfold UnsubscribeFromSources
  cases lookupCell S selfId with
  | none => exact ⟨rfl, rfl, rfl⟩
  | some self =>
    obtain ⟨h1, h2, h3⟩ := foldl_updateCell_frame
      (fun srcId => fun c => { c with dependent_cells := ersAll selfId c.dependent_cells })
      self.source_cells S
    refine ⟨?_, ?_, ?_⟩
    · rw [updateCell_grid, h1]
    · rw [updateCell_nextId, h2]
    · rw [updateCell_keys, h3]

/-- Result state of a fallible operation (both outcomes carry the state). -/
def outStateE (r : Except (ExcT × SheetState) SheetState) : SheetState :=
  match r with
  | .ok S => S
  | .error (_, S) => S

theorem matEmpty_presence (S : SheetState) (p q : Position)
    (h : (gridGet S.grid q).isSome) : (gridGet (materializeEmpty S p).grid q).isSome := by
  unfold materializeEmpty
  dsimp only
  have hmi := gridGet_maybeIncrease S p q
  cases hmat : gridGet (MaybeIncreaseSizeToIncludePosition S p).grid p with
  | some i =>
    dsimp only
    rw [hmi]
    exact h
  | none =>
    dsimp only
    by_cases hco : p.row.toNat = q.row.toNat ∧ p.col.toNat = q.col.toNat
    · exfalso
      have : gridGet (MaybeIncreaseSizeToIncludePosition S p).grid q = none := by
        unfold gridGet at hmat ⊢
        rw [← hco.1, ← hco.2]
        exact hmat
      rw [hmi] at this
      rw [this] at h
      exact Bool.noConfusion h
    · rw [gridGet_setGrid_other _ _ _ _ (by tauto), hmi]
      exact h

theorem updDeps_presence (selfId : CellId) (refs : List Position) :
    ∀ (S : SheetState) (q : Position), (gridGet S.grid q).isSome →
    (gridGet (outStateE (updDepsLoop selfId refs S)).grid q).isSome := by
  induction refs with
  | nil => intro S q h; exact h
  | cons p rest ih =>
    intro S q h
    rw [updDepsLoop]
    cases hg : Sheet.GetCell S p with
    | error e => exact h
    | ok ci0 =>
      cases ci0 with
      | some i =>
        simp only
        cases hg2 : Sheet.GetCell S p with
        | error e => simpa using h
        | ok ci2 =>
          cases ci2 with
          | none => exact ih S q h
          | some srcId =>
            simp only
            by_cases hself : srcId = selfId
            · rw [if_pos hself]
              exact ih S q h
            · rw [if_neg hself]
              exact ih _ q (by rw [updateCell_grid, updateCell_grid]; exact h)
      | none =>
        simp only
        have hm := matEmpty_presence S p q h
        cases hg2 : Sheet.GetCell (materializeEmpty S p) p with
        | error e => simpa using hm
        | ok ci2 =>
          cases ci2 with
          | none => exact ih _ q hm
          | some srcId =>
            simp only
            by_cases hself : srcId = selfId
            · rw [if_pos hself]
              exact ih _ q hm
            · rw [if_neg hself]
              exact ih _ q (by rw [updateCell_grid, updateCell_grid]; exact hm)

theorem cellSet_presence (S : SheetState) (selfId : CellId) (t : String) (q : Position)
    (h : (gridGet S.grid q).isSome) :
    (gridGet (outStateE (Cell.Set S selfId t)).grid q).isSome := by
  unfold Cell.Set
  cases lookupCell S selfId with
  | none => exact h
  | some self =>
    simp only
    by_cases h0 : t = self.impl.GetText
    · rw [if_pos h0]
      exact h
    · rw [if_neg h0]
      by_cases h1 : (headIs t.data FORMULA_SIGN && decide (1 < t.length)) = true
      · rw [if_pos h1]
        cases ParseFormulaAST (String.mk (t.data.drop 1)) with
        | error m => exact h
        | ok ast =>
          simp only
          cases CheckCircularDependency S selfId (getReferencedCells ast) with
          | error e => exact h
          | ok b =>
            cases b with
            | true => exact h
            | false =>
              simp only
              have hupd := updDeps_presence selfId (getReferencedCells ast)
                (UnsubscribeFromSources
                  (updateCell S selfId (fun c => { c with impl := .formula ast none })) selfId) q
                (by
                  rw [(unsub_frame _ _).1, updateCell_grid]
                  exact h)
              unfold UpdateDependencies at *
              cases hU : updDepsLoop selfId (getReferencedCells ast)
                (UnsubscribeFromSources
                  (updateCell S selfId (fun c => { c with impl := .formula ast none })) selfId) with
              | error es =>
                rw [hU] at hupd
                obtain ⟨e, S2⟩ := es
                simpa [outStateE, updateCell_grid] using hupd
              | ok S2 =>
                rw [hU] at hupd
                simp only [outStateE] at hupd ⊢
                unfold InvalidateCacheDownstream
                rw [(invalDownF_frame _ _ _ _).1]
                exact hupd
      · rw [if_neg h1]
        have hupd := updDeps_presence selfId []
          (UnsubscribeFromSources (updateCell S selfId (fun c =>
            { c with impl := if headIs t.data ESCAPE_SIGN then .text t
              else if t.isEmpty then .empty else .text t })) selfId) q
          (by
            rw [(unsub_frame _ _).1, updateCell_grid]
            exact h)
        unfold UpdateDependencies at *
        cases hU : updDepsLoop selfId []
          (UnsubscribeFromSources (updateCell S selfId (fun c =>
            { c with impl := if headIs t.data ESCAPE_SIGN then .text t
              else if t.isEmpty then .empty else .text t })) selfId) with
        | error es =>
          rw [hU] at hupd
          obtain ⟨e, S2⟩ := es
          simpa [outStateE, updateCell_grid] using hupd
        | ok S2 =>
          rw [hU] at hupd
          simp only [outStateE] at hupd ⊢
          unfold InvalidateCacheDownstream
          rw [(invalDownF_frame _ _ _ _).1]
          exact hupd


/-! ### Printable-size congruence -/

theorem filterMap_none_nil {α β : Type} (l : List α) (f : α → Option β)
    (h : ∀ x ∈ l, f x = none) : l.filterMap f = [] := by
  induction l with
  | nil => rfl
  | cons a t ih =>
    rw [List.filterMap_cons, h a (by simp)]
    exact ih (fun x hx => h x (by simp [hx]))

theorem filterMap_congr_on {α β : Type} (l : List α) (f g : α → Option β)
    (h : ∀ x ∈ l, f x = g x) : l.filterMap f = l.filterMap g := by
  induction l with
  | nil => rfl
  | cons a t ih =>
    rw [List.filterMap_cons, List.filterMap_cons, h a (by simp),
      ih (fun x hx => h x (by simp [hx]))]

theorem flatMap_congr_on {α β : Type} (l : List α) (f g : α → List β)
    (h : ∀ x ∈ l, f x = g x) : l.flatMap f = l.flatMap g := by
  induction l with
  | nil => rfl
  | cons a t ih =>
    rw [List.flatMap_cons, List.flatMap_cons, h a (by simp),
      ih (fun x hx => h x (by simp [hx]))]

theorem filterMap_range_ext {α : Type} (f : Nat → Option α) (m n : Nat) (hmn : m ≤ n)
    (h : ∀ c, m ≤ c → f c = none) :
    (List.range n).filterMap f = (List.range m).filterMap f := by
  induction n with
  | zero =>
    have hm0 : m = 0 := Nat.le_zero.mp hmn
    rw [hm0]
  | succ k ih =>
    by_cases hm : m = k + 1
    · rw [hm]
    · have hmk : m ≤ k := by omega
      rw [List.range_succ, List.filterMap_append, ih hmk]
      simp [h k hmk]

theorem flatMap_range_ext {α : Type} (f : Nat → List α) (m n : Nat) (hmn : m ≤ n)
    (h : ∀ r, m ≤ r → f r = []) :
    (List.range n).flatMap f = (List.range m).flatMap f := by
  induction n with
  | zero =>
    have hm0 : m = 0 := Nat.le_zero.mp hmn
    rw [hm0]
  | succ k ih =>
    by_cases hm : m = k + 1
    · rw [hm]
    · have hmk : m ≤ k := by omega
      rw [List.range_succ, List.flatMap_append, ih hmk]
      simp [h k hmk]

theorem slot_oob_false (S : SheetState) (r c : Nat)
    (h : ¬ (r < S.grid.length ∧ c < (S.grid[r]?.getD []).length)) :
    slotTextNonempty S r c = false := by
  unfold slotTextNonempty
  by_cases hr : r < S.grid.length
  · cases hgr : S.grid[r]? with
    | none => rfl
    | some rowL =>
      have hc : ¬ c < rowL.length := by
        intro hcc
        exact h ⟨hr, by rw [hgr]; exact hcc⟩
      dsimp only
      rw [List.getElem?_eq_none (show rowL.length ≤ c by omega)]
  · rw [List.getElem?_eq_none (by omega)]

theorem getActualSize_congr (A S : SheetState)
    (hpt : ∀ r c, slotTextNonempty A r c = slotTextNonempty S r c)
    (hrow : S.grid.length ≤ A.grid.length)
    (hcol : ∀ r, r < S.grid.length →
      (S.grid[r]?.getD []).length ≤ (A.grid[r]?.getD []).length) :
    Sheet.GetActualSize A = Sheet.GetActualSize S := by
  unfold Sheet.GetActualSize
  dsimp only
  have hzero : ∀ r, S.grid.length ≤ r →
      (List.range (A.grid[r]?.getD []).length).filterMap (fun c =>
        if slotTextNonempty A r c then some (r, c) else none) = [] := by
    intro r hrge
    apply filterMap_none_nil
    intro c _
    rw [hpt r c, slot_oob_false S r c (by rintro ⟨h1, h2⟩; omega)]
    simp
  have hidx : (List.range A.grid.length).flatMap (fun r =>
      (List.range (A.grid[r]?.getD []).length).filterMap (fun c =>
        if slotTextNonempty A r c then some (r, c) else none)) =
      (List.range S.grid.length).flatMap (fun r =>
        (List.range (S.grid[r]?.getD []).length).filterMap (fun c =>
          if slotTextNonempty S r c then some (r, c) else none)) := by
    rw [flatMap_range_ext _ S.grid.length A.grid.length hrow hzero]
    apply flatMap_congr_on
    intro r hr
    have hrS : r < S.grid.length := List.mem_range.mp hr
    have hcolz : ∀ c, (S.grid[r]?.getD []).length ≤ c →
        (if slotTextNonempty A r c then some (r, c) else none) = none := by
      intro c hcge
      rw [hpt r c, slot_oob_false S r c (by rintro ⟨h1, h2⟩; omega)]
      simp
    rw [filterMap_range_ext _ _ _ (hcol r hrS) hcolz]
    apply filterMap_congr_on
    intro c _
    rw [hpt r c]
  rw [hidx]


/-! ### Freshness of allocation ids -/

/-- Every cell id stored in the sheet (node key or grid slot) is below the
allocation counter.  This holds for every reachable state and makes the
freshly allocated id distinct from everything already stored. -/
def IdsBelowNext (S : SheetState) : Prop :=
  (∀ e ∈ S.cells, e.1 < S.nextId) ∧
  (∀ row ∈ S.grid, ∀ sl ∈ row, sl.all (fun i => decide (i < S.nextId)) = true)

instance instDecIdsBelowNext (S : SheetState) : Decidable (IdsBelowNext S) := by
  unfold IdsBelowNext
  infer_instance

/-- The contribution of one raw slot read to `slotTextNonempty`. -/
def slotVal (S : SheetState) (o : Option (Option CellId)) : Bool :=
  match o with
  | some (some id) => !(cellTextAt S id).isEmpty
  | _ => false

/-- `slotTextNonempty` through the raw double read. -/
theorem slotTextNonempty_eq (S : SheetState) (r c : Nat) :
    slotTextNonempty S r c = slotVal S ((S.grid[r]?.getD [])[c]? ) := by
  unfold slotTextNonempty slotVal
  cases S.grid[r]? with
  | none => simp
  | some rowL => rfl

theorem find_cons_self (n : CellId) (node : CellNode) (l : List (CellId × CellNode)) :
    ((n, node) :: l).find? (fun e => e.1 == n) = some (n, node) := by
  simp [List.find?]

theorem find_cons_ne (n j : CellId) (node : CellNode) (l : List (CellId × CellNode))
    (h : j ≠ n) :
    ((n, node) :: l).find? (fun e => e.1 == j) = l.find? (fun e => e.1 == j) := by
  rw [List.find?]
  have : ((n, node).1 == j) = false := beq_eq_false_iff_ne.mpr (fun hh => h hh.symm)
  rw [this]

theorem mem_resize {α : Type} (v : List α) (idx : Nat) (d : α) (x : α)
    (h : x ∈ resizeListIfNeeded v idx d) : x ∈ v ∨ x = d := by
  unfold resizeListIfNeeded at h
  by_cases hl : v.length ≤ idx
  · rw [if_pos hl] at h
    rcases List.mem_append.mp h with h1 | h2
    · exact Or.inl h1
    · exact Or.inr (List.eq_of_mem_replicate h2)
  · rw [if_neg hl] at h
    exact Or.inl h

theorem resize_length_ge {α : Type} (v : List α) (idx : Nat) (d : α) :
    v.length ≤ (resizeListIfNeeded v idx d).length := by
  unfold resizeListIfNeeded
  by_cases hl : v.length ≤ idx
  · rw [if_pos hl]
    simp
  · rw [if_neg hl]

theorem idsBelow_maybeIncrease (S : SheetState) (p : Position) (h : IdsBelowNext S) :
    IdsBelowNext (MaybeIncreaseSizeToIncludePosition S p) := by
  obtain ⟨h1, h2⟩ := h
  unfold MaybeIncreaseSizeToIncludePosition
  dsimp only
  constructor
  · exact h1
  · intro row hrow sl hsl
    have hg1 : ∀ row ∈ resizeListIfNeeded S.grid p.row.toNat [],
        ∀ sl ∈ row, sl.all (fun i => decide (i < S.nextId)) = true := by
      intro row hr sl hs
      rcases mem_resize _ _ _ _ hr with hin | hnil
      · exact h2 row hin sl hs
      · rw [hnil] at hs
        cases hs
    by_cases hc : 0 ≤ p.col
    · rw [if_pos hc] at hrow
      rcases List.mem_map.mp hrow with ⟨row0, hrow0, heq⟩
      rw [← heq] at hsl
      rcases mem_resize _ _ _ _ hsl with hin | hnone
      · exact hg1 row0 hrow0 sl hin
      · rw [hnone]
        rfl
    · rw [if_neg hc] at hrow
      exact hg1 row hrow sl hsl

theorem maybeIncrease_cells (S : SheetState) (p : Position) :
    (MaybeIncreaseSizeToIncludePosition S p).cells = S.cells := rfl

theorem maybeIncrease_nextId (S : SheetState) (p : Position) :
    (MaybeIncreaseSizeToIncludePosition S p).nextId = S.nextId := rfl

theorem gridGet_lt_next (S : SheetState) (hw : IdsBelowNext S) (r c : Nat) (i : CellId)
    (h : (S.grid[r]?.getD [])[c]? = some (some i)) : i < S.nextId := by
  cases hgr : S.grid[r]? with
  | none =>
    rw [hgr] at h
    simp at h
  | some rowL =>
    rw [hgr] at h
    have hmem : rowL ∈ S.grid := List.getElem?_mem hgr
    have hslm : (some i : Option CellId) ∈ rowL := List.getElem?_mem h
    have := hw.2 rowL hmem (some i) hslm
    simpa using this


theorem setGrid_length (g : List (List (Option CellId))) (p : Position) (v : Option CellId) :
    (setGrid g p v).length = g.length := by
  unfold setGrid
  cases g[p.row.toNat]? with
  | none => rfl
  | some rowL => simp

theorem setGrid_row_length (g : List (List (Option CellId))) (p : Position)
    (v : Option CellId) (r : Nat) :
    ((setGrid g p v)[r]?.getD []).length = (g[r]?.getD []).length := by
  unfold setGrid
  cases hrow : g[p.row.toNat]? with
  | none => rfl
  | some rowL =>
    have hlt : p.row.toNat < g.length := by
      by_contra hc
      rw [List.getElem?_eq_none (by omega)] at hrow
      cases hrow
    by_cases hr : r = p.row.toNat
    · rw [hr, List.getElem?_set_self (by simpa using hlt), hrow]
      simp
    · rw [List.getElem?_set_ne (fun hh => hr hh.symm)]

theorem maybeIncrease_length (S : SheetState) (p : Position) :
    S.grid.length ≤ (MaybeIncreaseSizeToIncludePosition S p).grid.length := by
  unfold MaybeIncreaseSizeToIncludePosition
  dsimp only
  by_cases hc : 0 ≤ p.col
  · rw [if_pos hc, List.length_map]
    exact resize_length_ge _ _ _
  · rw [if_neg hc]
    exact resize_length_ge _ _ _

theorem maybeIncrease_row_length (S : SheetState) (p : Position) (r : Nat)
    (hr : r < S.grid.length) :
    (S.grid[r]?.getD []).length ≤
      ((MaybeIncreaseSizeToIncludePosition S p).grid[r]?.getD []).length := by
  unfold MaybeIncreaseSizeToIncludePosition
  dsimp only
  have hg1 : (resizeListIfNeeded S.grid p.row.toNat [])[r]? = S.grid[r]? := by
    rw [resize_get, if_pos hr]
  by_cases hc : 0 ≤ p.col
  · rw [if_pos hc, List.getElem?_map, hg1]
    cases hgr : S.grid[r]? with
    | none => simp
    | some rowL =>
      simp only [Option.map_some', Option.getD_some]
      exact resize_length_ge _ _ _
  · rw [if_neg hc, hg1]

theorem maybeIncrease_raw (S : SheetState) (p : Position) (r c : Nat) :
    ((MaybeIncreaseSizeToIncludePosition S p).grid[r]?.getD [])[c]? =
      (S.grid[r]?.getD [])[c]? ∨
    (((MaybeIncreaseSizeToIncludePosition S p).grid[r]?.getD [])[c]? = some none ∧
      (S.grid[r]?.getD [])[c]? = none) := by
  unfold MaybeIncreaseSizeToIncludePosition
  dsimp only
  have hg1 : (resizeListIfNeeded S.grid p.row.toNat [])[r]? =
      if r < S.grid.length then S.grid[r]? else
        if r ≤ p.row.toNat then some [] else none := resize_get _ _ _ _
  by_cases hc : 0 ≤ p.col
  · rw [if_pos hc, List.getElem?_map, hg1]
    by_cases hr : r < S.grid.length
    · rw [if_pos hr]
      cases hgr : S.grid[r]? with
      | none =>
        exfalso
        rw [List.getElem?_eq_getElem hr] at hgr
        cases hgr
      | some rowL =>
        simp only [Option.map_some', Option.getD_some]
        rw [resize_get]
        by_cases hcc : c < rowL.length
        · rw [if_pos hcc]
          exact Or.inl rfl
        · rw [if_neg hcc]
          have hnone : rowL[c]? = none := List.getElem?_eq_none (by omega)
          by_cases hcp : c ≤ p.col.toNat
          · rw [if_pos hcp, hnone]
            exact Or.inr ⟨rfl, rfl⟩
          · rw [if_neg hcp, hnone]
            exact Or.inl rfl
    · rw [if_neg hr]
      have hnone : S.grid[r]? = none := List.getElem?_eq_none (by omega)
      rw [hnone]
      by_cases hrp : r ≤ p.row.toNat
      · rw [if_pos hrp]
        simp only [Option.map_some', Option.getD_some, Option.getD_none]
        rw [resize_get]
        simp only [List.length_nil, Nat.not_lt_zero, if_false]
        by_cases hcp : c ≤ p.col.toNat
        · rw [if_pos hcp]
          simp
        · rw [if_neg hcp]
          simp
      · rw [if_neg hrp]
        simp
  · rw [if_neg hc, hg1]
    by_cases hr : r < S.grid.length
    · rw [if_pos hr]
      exact Or.inl rfl
    · rw [if_neg hr]
      have hnone : S.grid[r]? = none := List.getElem?_eq_none (by omega)
      rw [hnone]
      by_cases hrp : r ≤ p.row.toNat
      · rw [if_pos hrp]
        simp
      · rw [if_neg hrp]
        simp

theorem slot_maybeIncrease (S : SheetState) (p : Position) (r c : Nat) :
    slotTextNonempty (MaybeIncreaseSizeToIncludePosition S p) r c =
      slotTextNonempty S r c := by
  rw [slotTextNonempty_eq, slotTextNonempty_eq]
  have hct : ∀ o, slotVal (MaybeIncreaseSizeToIncludePosition S p) o = slotVal S o :=
    fun _ => rfl
  rcases maybeIncrease_raw S p r c with heq | ⟨h1, h2⟩
  · rw [heq, hct]
  · rw [h1, h2, hct]
    rfl


theorem cellTextAt_cons_ne (A : SheetState) (m : Nat) (g : List (List (Option CellId)))
    (n : CellId) (node : CellNode) (id : CellId) (h : id ≠ n) :
    cellTextAt ⟨m, g, (n, node) :: A.cells⟩ id = cellTextAt A id := by
  unfold cellTextAt lookupCell
  dsimp only
  rw [find_cons_ne _ _ _ _ h]

theorem cellTextAt_mk_cons_self (m : Nat) (g : List (List (Option CellId)))
    (n : CellId) (node : CellNode) (rest : List (CellId × CellNode)) :
    cellTextAt ⟨m, g, (n, node) :: rest⟩ n = node.impl.GetText := by
  unfold cellTextAt lookupCell
  dsimp only
  rw [find_cons_self]
  rfl

theorem slotVal_congr (A B : SheetState) (o : Option (Option CellId))
    (h : ∀ i, o = some (some i) → cellTextAt A i = cellTextAt B i) :
    slotVal A o = slotVal B o := by
  cases o with
  | none => rfl
  | some sl =>
    cases sl with
    | none => rfl
    | some id =>
      unfold slotVal
      dsimp only
      rw [h id rfl]

theorem slot_alloc (S1 : SheetState) (p : Position) (node : CellNode)
    (hnone : gridGet S1.grid p = none)
    (hbnd : slotInBounds S1.grid p)
    (hids : ∀ (r c : Nat) (i : CellId), (S1.grid[r]?.getD [])[c]? = some (some i) → i < S1.nextId)
    (htext : node.impl.GetText = "")
    (r c : Nat) :
    slotTextNonempty
      ⟨S1.nextId + 1, setGrid S1.grid p (some S1.nextId), (S1.nextId, node) :: S1.cells⟩ r c
      = slotTextNonempty S1 r c := by
  obtain ⟨rowL, hrow, hcol⟩ := hbnd
  have hlt : p.row.toNat < S1.grid.length := by
    by_contra hcn
    rw [List.getElem?_eq_none (by omega)] at hrow
    cases hrow
  have hsetG : setGrid S1.grid p (some S1.nextId) =
      S1.grid.set p.row.toNat (rowL.set p.col.toNat (some S1.nextId)) := by
    unfold setGrid
    rw [hrow]
  have hslotp : rowL[p.col.toNat]? = some none := by
    unfold gridGet at hnone
    rw [hrow] at hnone
    dsimp only at hnone
    cases hpc : rowL[p.col.toNat]? with
    | none =>
      exfalso
      rw [List.getElem?_eq_none_iff] at hpc
      omega
    | some v =>
      rw [hpc] at hnone
      dsimp only at hnone
      rw [hnone]
  rw [slotTextNonempty_eq, slotTextNonempty_eq]
  dsimp only
  rw [hsetG]
  by_cases hr : r = p.row.toNat
  · rw [hr, List.getElem?_set_self hlt]
    dsimp only [Option.getD_some]
    by_cases hc : c = p.col.toNat
    · rw [hc, List.getElem?_set_self hcol, hrow]
      dsimp only [Option.getD_some]
      rw [hslotp]
      unfold slotVal
      dsimp only
      rw [cellTextAt_mk_cons_self, htext]
      rfl
    · rw [List.getElem?_set_ne (fun hh => hc hh.symm), hrow]
      dsimp only [Option.getD_some]
      apply slotVal_congr
      intro i hi
      have hlti : i < S1.nextId := hids p.row.toNat c i (by rw [hrow]; exact hi)
      have hne : i ≠ S1.nextId := Nat.ne_of_lt hlti
      exact cellTextAt_cons_ne S1 (S1.nextId + 1)
        (S1.grid.set p.row.toNat (rowL.set p.col.toNat (some S1.nextId)))
        S1.nextId node i hne
  · rw [List.getElem?_set_ne (fun hh => hr hh.symm)]
    apply slotVal_congr
    intro i hi
    have hlti : i < S1.nextId := hids r c i hi
    have hne : i ≠ S1.nextId := Nat.ne_of_lt hlti
    exact cellTextAt_cons_ne S1 (S1.nextId + 1)
      (S1.grid.set p.row.toNat (rowL.set p.col.toNat (some S1.nextId)))
      S1.nextId node i hne


/-! ### Materialisation of an empty cell (C9 support) -/

/-- The state `Sheet::SetCell` builds when the target slot is empty: grown
grid, fresh id written into the slot, empty node pushed onto the pool. -/
def allocState (S : SheetState) (p : Position) : SheetState :=
  ⟨(MaybeIncreaseSizeToIncludePosition S p).nextId + 1,
   setGrid (MaybeIncreaseSizeToIncludePosition S p).grid p
     (some (MaybeIncreaseSizeToIncludePosition S p).nextId),
   ((MaybeIncreaseSizeToIncludePosition S p).nextId, ⟨.empty, [], []⟩) ::
     (MaybeIncreaseSizeToIncludePosition S p).cells⟩

theorem gridGet_congr_coords (g : List (List (Option CellId))) (p q : Position)
    (h1 : p.row.toNat = q.row.toNat) (h2 : p.col.toNat = q.col.toNat) :
    gridGet g p = gridGet g q := by
  unfold gridGet
  rw [h1, h2]

theorem slotInBounds_of_gridGet (g : List (List (Option CellId))) (p : Position)
    (i : CellId) (h : gridGet g p = some i) : slotInBounds g p := by
  unfold gridGet at h
  cases hgr : g[p.row.toNat]? with
  | none =>
    rw [hgr] at h
    cases h
  | some rowL =>
    rw [hgr] at h
    dsimp only at h
    refine ⟨rowL, hgr, ?_⟩
    cases hpc : rowL[p.col.toNat]? with
    | none =>
      rw [hpc] at h
      cases h
    | some c =>
      by_contra hcn
      rw [List.getElem?_eq_none (by omega)] at hpc
      cases hpc

theorem slotInBounds_setGrid (g : List (List (Option CellId))) (p : Position)
    (v : Option CellId) (h : slotInBounds g p) : slotInBounds (setGrid g p v) p := by
  obtain ⟨rowL, hrow, hcol⟩ := h
  have hlt : p.row.toNat < g.length := by
    by_contra hcn
    rw [List.getElem?_eq_none (by omega)] at hrow
    cases hrow
  unfold setGrid
  rw [hrow]
  refine ⟨rowL.set p.col.toNat v, ?_, ?_⟩
  · rw [List.getElem?_set_self (by simpa using hlt)]
  · simpa using hcol

theorem setGrid_presence (g : List (List (Option CellId))) (p q : Position) (v : CellId)
    (h : (gridGet g q).isSome = true) : (gridGet (setGrid g p (some v)) q).isSome = true := by
  by_cases hco : p.row.toNat = q.row.toNat ∧ p.col.toNat = q.col.toNat
  · obtain ⟨i, hi⟩ := Option.isSome_iff_exists.mp h
    have hgp : gridGet g p = some i := by
      rw [gridGet_congr_coords g p q hco.1 hco.2]
      exact hi
    have hbnd : slotInBounds g p := slotInBounds_of_gridGet g p i hgp
    rw [← gridGet_congr_coords (setGrid g p (some v)) p q hco.1 hco.2,
      gridGet_setGrid_same g p (some v) hbnd]
    rfl
  · rw [gridGet_setGrid_other g p q (some v) (by tauto)]
    exact h

theorem stateAfterSet_presence (T : SheetState) (q : Position) (t : String) (x : Position)
    (h : (gridGet T.grid x).isSome = true) :
    (gridGet (stateAfterSet T q t).grid x).isSome = true := by
  unfold stateAfterSet Sheet.SetCell
  by_cases hv : q.IsValid
  · rw [if_pos hv]
    dsimp only
    have hmi : (gridGet (MaybeIncreaseSizeToIncludePosition T q).grid x).isSome = true := by
      rw [gridGet_maybeIncrease]
      exact h
    cases halloc : gridGet (MaybeIncreaseSizeToIncludePosition T q).grid q with
    | some id =>
      dsimp only
      have hpre := cellSet_presence (MaybeIncreaseSizeToIncludePosition T q) id t x hmi
      cases hset : Cell.Set (MaybeIncreaseSizeToIncludePosition T q) id t with
      | ok S3 =>
        rw [hset] at hpre
        simpa [outStateE] using hpre
      | error es =>
        obtain ⟨e, S3⟩ := es
        rw [hset] at hpre
        cases e <;> simpa [outStateE] using hpre
    | none =>
      dsimp only
      have hA : (gridGet (setGrid (MaybeIncreaseSizeToIncludePosition T q).grid q
          (some (MaybeIncreaseSizeToIncludePosition T q).nextId)) x).isSome = true :=
        setGrid_presence _ q x _ hmi
      have hpre := cellSet_presence
        ⟨(MaybeIncreaseSizeToIncludePosition T q).nextId + 1,
         setGrid (MaybeIncreaseSizeToIncludePosition T q).grid q
           (some (MaybeIncreaseSizeToIncludePosition T q).nextId),
         ((MaybeIncreaseSizeToIncludePosition T q).nextId, ⟨.empty, [], []⟩) ::
           (MaybeIncreaseSizeToIncludePosition T q).cells⟩
        (MaybeIncreaseSizeToIncludePosition T q).nextId t x hA
      cases hset : Cell.Set
        ⟨(MaybeIncreaseSizeToIncludePosition T q).nextId + 1,
         setGrid (MaybeIncreaseSizeToIncludePosition T q).grid q
           (some (MaybeIncreaseSizeToIncludePosition T q).nextId),
         ((MaybeIncreaseSizeToIncludePosition T q).nextId, ⟨.empty, [], []⟩) ::
           (MaybeIncreaseSizeToIncludePosition T q).cells⟩
        (MaybeIncreaseSizeToIncludePosition T q).nextId t with
      | ok S3 =>
        rw [hset] at hpre
        simpa [outStateE] using hpre
      | error es =>
        obtain ⟨e, S3⟩ := es
        rw [hset] at hpre
        cases e <;> simpa [outStateE] using hpre
  · rw [if_neg hv]
    exact h

theorem find_filter_ne (l : List (CellId × CellNode)) (n : CellId) :
    (l.filter (fun e => !(e.1 == n))).find? (fun e => e.1 == n) = none := by
  rw [List.find?_eq_none]
  intro x hx
  have hmem := (List.mem_filter.mp hx).2
  simp only [Bool.not_eq_true'] at hmem ⊢
  intro hc
  rw [hc] at hmem
  cases hmem


theorem lookupCell_alloc_self (S : SheetState) (p : Position) :
    lookupCell (allocState S p) (MaybeIncreaseSizeToIncludePosition S p).nextId =
      some ⟨.empty, [], []⟩ := by
  unfold allocState lookupCell
  dsimp only
  rw [find_cons_self]
  rfl

theorem setCell_empty_materialises (S : SheetState) (p : Position)
    (hv : p.IsValid = true) (habs : gridGet S.grid p = none) :
    Sheet.SetCell S p "" = .ok (allocState S p) := by
  unfold Sheet.SetCell
  rw [if_pos hv]
  dsimp only
  have h1 : gridGet (MaybeIncreaseSizeToIncludePosition S p).grid p = none := by
    rw [gridGet_maybeIncrease]
    exact habs
  rw [h1]
  dsimp only
  have h2 : Cell.Set (allocState S p) (MaybeIncreaseSizeToIncludePosition S p).nextId ""
      = .ok (allocState S p) := by
    unfold Cell.Set
    rw [lookupCell_alloc_self]
    dsimp only
    rw [if_pos (show ("" : String) = CellImpl.empty.GetText from rfl)]
  rw [show (⟨(MaybeIncreaseSizeToIncludePosition S p).nextId + 1,
      setGrid (MaybeIncreaseSizeToIncludePosition S p).grid p
        (some (MaybeIncreaseSizeToIncludePosition S p).nextId),
      ((MaybeIncreaseSizeToIncludePosition S p).nextId, ⟨.empty, [], []⟩) ::
        (MaybeIncreaseSizeToIncludePosition S p).cells⟩ : SheetState)
    = allocState S p from rfl, h2]

theorem cellGetValueF_empty_node (fuel : Nat) (S : SheetState) (id : CellId)
    (h : lookupCell S id = some ⟨.empty, [], []⟩) :
    cellGetValueF (fuel + 1) S id = .ok (.num 0, S) := by
  rw [cellGetValueF]
  rw [h]


/-- C9: `SetCell(pos, "")` at a valid position whose grid slot is empty
materialises an Empty cell node: the call succeeds and yields exactly the
allocation state; `GetCell(pos)` then returns the new cell, whose text is
`""` and whose `GetValue` is `0.0`; the printable size is unchanged; a
`ClearCell` on the materialised (unreferenced) node removes both the grid
slot entry and the node from the pool; and no `SetCell` call ever empties
an occupied grid slot, so such a node is removed only by `ClearCell`. -/
theorem C9_empty_cell_materialisation :
    (∀ (S : SheetState) (p : Position), p.IsValid = true →
      gridGet S.grid p = none → IdsBelowNext S →
      Sheet.SetCell S p "" = .ok (allocState S p) ∧
      (∃ n, Sheet.GetCell (allocState S p) p = .ok (some n) ∧
        cellTextAt (allocState S p) n = "" ∧
        Cell.GetValue (allocState S p) n = .ok (.num 0, allocState S p) ∧
        (Sheet.ClearCell (allocState S p) p matches .ok _) ∧
        gridGet (stateAfterClear (allocState S p) p).grid p = none ∧
        lookupCell (stateAfterClear (allocState S p) p) n = none) ∧
      Sheet.GetPrintableSize (allocState S p) = Sheet.GetPrintableSize S) ∧
    (∀ (T : SheetState) (q x : Position) (t : String),
      (gridGet T.grid x).isSome = true →
      (gridGet (stateAfterSet T q t).grid x).isSome = true) := by
  constructor
  · intro S p hv habs hw
    have hS1bnd : slotInBounds (MaybeIncreaseSizeToIncludePosition S p).grid p :=
      maybeIncrease_inBounds S p hv
    have hS1none : gridGet (MaybeIncreaseSizeToIncludePosition S p).grid p = none := by
      rw [gridGet_maybeIncrease]
      exact habs
    have hw1 : IdsBelowNext (MaybeIncreaseSizeToIncludePosition S p) :=
      idsBelow_maybeIncrease S p hw
    have hgetA : gridGet (allocState S p).grid p =
        some (MaybeIncreaseSizeToIncludePosition S p).nextId :=
      gridGet_setGrid_same _ p _ hS1bnd
    have hclear : Sheet.ClearCell (allocState S p) p = .ok
        ⟨(allocState S p).nextId, setGrid (allocState S p).grid p none,
          (allocState S p).cells.filter
            (fun e => !(e.1 == (MaybeIncreaseSizeToIncludePosition S p).nextId))⟩ := by
      unfold Sheet.ClearCell Sheet.GetCell
      rw [if_pos hv, hgetA]
      dsimp only
      rw [lookupCell_alloc_self]
      dsimp only
      rw [if_neg (by decide)]
    refine ⟨setCell_empty_materialises S p hv habs,
      ⟨(MaybeIncreaseSizeToIncludePosition S p).nextId, ?_, ?_, ?_, ?_, ?_, ?_⟩, ?_⟩
    · unfold Sheet.GetCell
      rw [if_pos hv, hgetA]
    · exact cellTextAt_mk_cons_self
        ((MaybeIncreaseSizeToIncludePosition S p).nextId + 1)
        (setGrid (MaybeIncreaseSizeToIncludePosition S p).grid p
          (some (MaybeIncreaseSizeToIncludePosition S p).nextId))
        (MaybeIncreaseSizeToIncludePosition S p).nextId ⟨.empty, [], []⟩
        (MaybeIncreaseSizeToIncludePosition S p).cells
    · unfold Cell.GetValue evalFuel
      exact cellGetValueF_empty_node _ _ _ (lookupCell_alloc_self S p)
    · rw [hclear]
    · unfold stateAfterClear
      rw [hclear]
      dsimp only
      exact gridGet_setGrid_same _ p none (slotInBounds_setGrid _ p _ hS1bnd)
    · unfold stateAfterClear
      rw [hclear]
      dsimp only
      unfold lookupCell
      dsimp only
      rw [find_filter_ne]
      rfl
    · unfold Sheet.GetPrintableSize
      apply getActualSize_congr
      · intro r c
        exact (slot_alloc (MaybeIncreaseSizeToIncludePosition S p) p ⟨.empty, [], []⟩
          hS1none hS1bnd
          (fun r' c' i hi => gridGet_lt_next _ hw1 r' c' i hi) rfl r c).trans
          (slot_maybeIncrease S p r c)
      · show S.grid.length ≤ (setGrid (MaybeIncreaseSizeToIncludePosition S p).grid p
          (some (MaybeIncreaseSizeToIncludePosition S p).nextId)).length
        rw [setGrid_length]
        exact maybeIncrease_length S p
      · intro r hr
        show (S.grid[r]?.getD []).length ≤
          ((setGrid (MaybeIncreaseSizeToIncludePosition S p).grid p
            (some (MaybeIncreaseSizeToIncludePosition S p).nextId))[r]?.getD []).length
        rw [setGrid_row_length]
        exact maybeIncrease_row_length S p r hr
  · intro T q x t h
    exact stateAfterSet_presence T q t x h


theorem C9_witness :
    (Position.IsValid ⟨0, 1⟩ = true ∧ gridGet initialSheet.grid ⟨0, 1⟩ = none ∧
      IdsBelowNext initialSheet) ∧
    Sheet.SetCell initialSheet ⟨0, 1⟩ "" = .ok (allocState initialSheet ⟨0, 1⟩) ∧
    Sheet.GetPrintableSize (allocState initialSheet ⟨0, 1⟩) =
      Sheet.GetPrintableSize initialSheet :=
  ⟨⟨by decide, by decide, by decide⟩,
   (C9_empty_cell_materialisation.1 initialSheet ⟨0, 1⟩ (by decide) (by decide)
     (by decide)).1,
   (C9_empty_cell_materialisation.1 initialSheet ⟨0, 1⟩ (by decide) (by decide)
     (by decide)).2.2⟩


/-! ### Print layout (C10 support) -/

/-- Number of occurrences of a character in a string. -/
def countCh (ch : Char) (s : String) : Nat := (s.data.filter (fun c => c = ch)).length

/-- The field `Sheet::PrintCells` prints for one slot: empty for an absent
cell or empty text, otherwise the printer's output. -/
def printedField (S : SheetState) (pc : CellId → String) (r c : Nat) : String :=
  match S.grid[r]? with
  | some rowL =>
    match rowL[c]? with
    | some (some id) => if (cellTextAt S id).isEmpty then "" else pc id
    | _ => ""
  | none => ""

/-- One output row of `Sheet::PrintCells`: a tab before every column after
the first, then the field. -/
def printedRow (S : SheetState) (pc : CellId → String) (r : Nat) : String :=
  String.join ((List.range (Sheet.GetPrintableSize S).cols.toNat).map (fun c =>
    (if 0 < c then "\t" else "") ++ printedField S pc r c))

theorem foldl_append_str (l : List String) :
    ∀ acc : String, l.foldl (fun r s => r ++ s) acc = acc ++ String.join l := by
  induction l with
  | nil =>
    intro acc
    show acc = acc ++ String.join []
    rw [show String.join [] = "" from rfl, String.append_empty]
  | cons s t ih =>
    intro acc
    show List.foldl _ (acc ++ s) t = acc ++ String.join (s :: t)
    rw [ih (acc ++ s)]
    have hj : String.join (s :: t) = s ++ String.join t := by
      show List.foldl _ ("" ++ s) t = _
      rw [ih ("" ++ s), String.empty_append]
    rw [hj, String.append_assoc]

theorem join_cons (s : String) (l : List String) :
    String.join (s :: l) = s ++ String.join l := by
  show List.foldl _ ("" ++ s) l = _
  rw [foldl_append_str l ("" ++ s), String.empty_append]

theorem countCh_append (ch : Char) (s t : String) :
    countCh ch (s ++ t) = countCh ch s + countCh ch t := by
  unfold countCh
  rw [String.data_append, List.filter_append, List.length_append]

theorem countCh_join (ch : Char) (l : List String) :
    countCh ch (String.join l) = (l.map (countCh ch)).sum := by
  induction l with
  | nil => rfl
  | cons s t ih =>
    rw [join_cons, countCh_append, List.map_cons, List.sum_cons, ih]

theorem sum_range_pos (n : Nat) :
    ((List.range n).map (fun c => if 0 < c then 1 else 0)).sum = n - 1 := by
  induction n with
  | zero => rfl
  | succ k ih =>
    rw [List.range_succ, List.map_append, List.sum_append, ih]
    cases k with
    | zero => rfl
    | succ m => simp

/-- `Sheet::PrintCells` emits exactly the rows of the printable rectangle,
each a `printedRow` followed by one newline. -/
theorem printCells_eq (S : SheetState) (pc : CellId → String) :
    Sheet.PrintCells S pc = String.join
      ((List.range (Sheet.GetPrintableSize S).rows.toNat).map
        (fun r => printedRow S pc r ++ "\n")) := rfl

theorem countTabs_row (S : SheetState) (pc : CellId → String) (r : Nat)
    (h : ∀ c, c < (Sheet.GetPrintableSize S).cols.toNat →
      countCh '\t' (printedField S pc r c) = 0) :
    countCh '\t' (printedRow S pc r) = (Sheet.GetPrintableSize S).cols.toNat - 1 := by
  unfold printedRow
  rw [countCh_join, List.map_map]
  have hcg : ∀ c ∈ List.range (Sheet.GetPrintableSize S).cols.toNat,
      (countCh '\t' ∘ fun c => (if 0 < c then "\t" else "") ++ printedField S pc r c) c =
      (fun c => if 0 < c then 1 else 0) c := by
    intro c hc
    show countCh '\t' ((if 0 < c then "\t" else "") ++ printedField S pc r c) =
      if 0 < c then 1 else 0
    rw [countCh_append, h c (List.mem_range.mp hc)]
    by_cases h0 : 0 < c
    · rw [if_pos h0, if_pos h0]
      decide
    · rw [if_neg h0, if_neg h0]
      decide
  rw [List.map_congr_left hcg, sum_range_pos]

theorem countNl_row (S : SheetState) (pc : CellId → String) (r : Nat)
    (h : ∀ c, countCh '\n' (printedField S pc r c) = 0) :
    countCh '\n' (printedRow S pc r) = 0 := by
  unfold printedRow
  rw [countCh_join, List.map_map]
  have hcg : ∀ c ∈ List.range (Sheet.GetPrintableSize S).cols.toNat,
      (countCh '\n' ∘ fun c => (if 0 < c then "\t" else "") ++ printedField S pc r c) c =
      (fun _ => (0 : Nat)) c := by
    intro c _
    show countCh '\n' ((if 0 < c then "\t" else "") ++ printedField S pc r c) = 0
    rw [countCh_append, h c]
    by_cases h0 : 0 < c
    · rw [if_pos h0]
      decide
    · rw [if_neg h0]
      decide
  rw [List.map_congr_left hcg]
  simp

theorem countNl_printCells (S : SheetState) (pc : CellId → String)
    (h : ∀ r c, countCh '\n' (printedField S pc r c) = 0) :
    countCh '\n' (Sheet.PrintCells S pc) = (Sheet.GetPrintableSize S).rows.toNat := by
  rw [printCells_eq, countCh_join, List.map_map]
  have hcg : ∀ r ∈ List.range (Sheet.GetPrintableSize S).rows.toNat,
      (countCh '\n' ∘ fun r => printedRow S pc r ++ "\n") r = (fun _ => (1 : Nat)) r := by
    intro r _
    show countCh '\n' (printedRow S pc r ++ "\n") = 1
    rw [countCh_append, countNl_row S pc r (h r)]
    decide
  rw [List.map_congr_left hcg]
  simp


theorem printCells_empty_size (S : SheetState) (pc : CellId → String)
    (h : Sheet.GetPrintableSize S = ⟨0, 0⟩) : Sheet.PrintCells S pc = "" := by
  rw [printCells_eq, h]
  rfl

/-- C10 counterexample: a cell whose own text contains a tab.  The
printable size is (1, 1), so the claim promises 1 − 1 = 0 tab characters
in the single output row, but `PrintTexts` emits the text verbatim and the
output "a\tb\n" contains one tab. -/
theorem C10_counterexample :
    Sheet.GetPrintableSize (stateAfterSet initialSheet ⟨0, 0⟩ "a\tb") = ⟨1, 1⟩ ∧
    Sheet.PrintTexts (stateAfterSet initialSheet ⟨0, 0⟩ "a\tb") = "a\tb\n" ∧
    countCh '\t' (Sheet.PrintTexts (stateAfterSet initialSheet ⟨0, 0⟩ "a\tb")) = 1 := by
  refine ⟨by decide, by decide, by decide⟩

/-- C10 (amended): `PrintCells` (the shared worker of `PrintValues` and
`PrintTexts`) emits, for every row of the printable rectangle, a tab
before every column after the first — absent cells and cells with empty
text contributing an empty field — then one newline per row; each row
holds exactly cols − 1 SEPARATOR tabs, so the row's total tab count is
cols − 1 whenever the printed fields themselves are tab-free, the total
newline count is the number of rows whenever the fields are newline-free,
and a (0, 0) printable size emits nothing.  The unrestricted per-character
claim is false because a field may itself contain tabs or newlines. -/
theorem C10_print_layout_amended :
    (∀ (S : SheetState) (pc : CellId → String),
      Sheet.PrintCells S pc = String.join
        ((List.range (Sheet.GetPrintableSize S).rows.toNat).map
          (fun r => printedRow S pc r ++ "\n"))) ∧
    (∀ (S : SheetState) (pc : CellId → String) (r : Nat),
      (∀ c, c < (Sheet.GetPrintableSize S).cols.toNat →
        countCh '\t' (printedField S pc r c) = 0) →
      countCh '\t' (printedRow S pc r) = (Sheet.GetPrintableSize S).cols.toNat - 1) ∧
    (∀ (S : SheetState) (pc : CellId → String),
      (∀ r c, countCh '\n' (printedField S pc r c) = 0) →
      countCh '\n' (Sheet.PrintCells S pc) = (Sheet.GetPrintableSize S).rows.toNat) ∧
    (∀ (S : SheetState) (pc : CellId → String),
      Sheet.GetPrintableSize S = ⟨0, 0⟩ → Sheet.PrintCells S pc = "") :=
  ⟨printCells_eq, countTabs_row, countNl_printCells, printCells_empty_size⟩

/-- Witness for C10: on the sheet with one cell "x" at (0, 1) the printable
size is (1, 2); the fields are tab-free, and the amended theorem computes
2 − 1 = 1 separator tab in the row. -/
theorem C10_witness :
    (∀ c, c < (Sheet.GetPrintableSize (stateAfterSet initialSheet ⟨0, 1⟩ "x")).cols.toNat →
      countCh '\t' (printedField (stateAfterSet initialSheet ⟨0, 1⟩ "x")
        (fun id => cellTextAt (stateAfterSet initialSheet ⟨0, 1⟩ "x") id) 0 c) = 0) ∧
    countCh '\t' (printedRow (stateAfterSet initialSheet ⟨0, 1⟩ "x")
      (fun id => cellTextAt (stateAfterSet initialSheet ⟨0, 1⟩ "x") id) 0) =
      (Sheet.GetPrintableSize (stateAfterSet initialSheet ⟨0, 1⟩ "x")).cols.toNat - 1 ∧
    (Sheet.GetPrintableSize (stateAfterSet initialSheet ⟨0, 1⟩ "x")).cols.toNat - 1 = 1 :=
  ⟨by decide,
   C10_print_layout_amended.2.1 (stateAfterSet initialSheet ⟨0, 1⟩ "x")
     (fun id => cellTextAt (stateAfterSet initialSheet ⟨0, 1⟩ "x") id) 0 (by decide),
   by decide⟩


/-! ### Rollback on failure (C2 support) -/

theorem collectSeeds_valid (S : SheetState) (selfId : CellId) :
    ∀ (refs : List Position) (l : List CellId),
    collectSeeds S selfId refs = .ok (some l) → ∀ p ∈ refs, p.IsValid = true := by
  intro refs
  induction refs with
  | nil =>
    intro l h p hp
    cases hp
  | cons q rest ih =>
    intro l h p hp
    rw [collectSeeds] at h
    by_cases hv : q.IsValid
    · rcases List.mem_cons.mp hp with rfl | hmem
      · exact hv
      · have hget : Sheet.GetCell S q = .ok (gridGet S.grid q) := by
          unfold Sheet.GetCell
          rw [if_pos hv]
        rw [hget] at h
        cases hgq : gridGet S.grid q with
        | none =>
          rw [hgq] at h
          dsimp only at h
          exact ih l h p hmem
        | some c =>
          rw [hgq] at h
          dsimp only at h
          by_cases hcs : c = selfId
          · rw [if_pos hcs] at h
            simp at h
          · rw [if_neg hcs] at h
            cases hrec : collectSeeds S selfId rest with
            | error e2 =>
              rw [hrec] at h
              cases h
            | ok o =>
              cases o with
              | none =>
                rw [hrec] at h
                simp at h
              | some l2 => exact ih l2 hrec p hmem
    · have hget : Sheet.GetCell S q = .error (.invalidPosition "Invalid position") := by
        unfold Sheet.GetCell
        rw [if_neg hv]
      rw [hget] at h
      cases h

theorem updDepsLoop_ok (selfId : CellId) (refs : List Position)
    (h : ∀ p ∈ refs, p.IsValid = true) :
    ∀ S0 : SheetState, ∃ S2, updDepsLoop selfId refs S0 = .ok S2 := by
  induction refs with
  | nil =>
    intro S0
    exact ⟨S0, rfl⟩
  | cons p rest ih =>
    intro S0
    have hv : p.IsValid = true := h p (by simp)
    have hrest : ∀ q ∈ rest, q.IsValid = true := fun q hq => h q (by simp [hq])
    have ih2 := ih hrest
    rw [updDepsLoop]
    rw [show Sheet.GetCell S0 p = .ok (gridGet S0.grid p) from by
      unfold Sheet.GetCell
      rw [if_pos hv]]
    cases hg0 : gridGet S0.grid p with
    | some i =>
      dsimp only
      rw [show Sheet.GetCell S0 p = .ok (gridGet S0.grid p) from by
        unfold Sheet.GetCell
        rw [if_pos hv], hg0]
      dsimp only
      by_cases hself : i = selfId
      · rw [if_pos hself]
        exact ih2 S0
      · rw [if_neg hself]
        exact ih2 _
    | none =>
      dsimp only
      rw [show Sheet.GetCell (materializeEmpty S0 p) p =
          .ok (gridGet (materializeEmpty S0 p).grid p) from by
        unfold Sheet.GetCell
        rw [if_pos hv]]
      cases hgm : gridGet (materializeEmpty S0 p).grid p with
      | none => exact ih2 _
      | some j =>
        dsimp only
        by_cases hself : j = selfId
        · rw [if_pos hself]
          exact ih2 _
        · rw [if_neg hself]
          exact ih2 _

theorem cellSet_error_rollback (S : SheetState) (selfId : CellId) (t : String)
    (e : ExcT) (S' : SheetState) (h : Cell.Set S selfId t = .error (e, S')) : S' = S := by
  unfold Cell.Set at h
  cases hlk : lookupCell S selfId with
  | none =>
    rw [hlk] at h
    cases h
  | some self =>
    rw [hlk] at h
    dsimp only at h
    by_cases h0 : t = self.impl.GetText
    · rw [if_pos h0] at h
      cases h
    · rw [if_neg h0] at h
      by_cases h1 : (headIs t.data FORMULA_SIGN && decide (1 < t.length)) = true
      · rw [if_pos h1] at h
        cases hp : ParseFormulaAST (String.mk (t.data.drop 1)) with
        | error msg =>
          rw [hp] at h
          injection h with h2
          injection h2 with h3 h4
          exact h4.symm
        | ok ast =>
          rw [hp] at h
          dsimp only at h
          cases hc : CheckCircularDependency S selfId (getReferencedCells ast) with
          | error e0 =>
            rw [hc] at h
            injection h with h2
            injection h2 with h3 h4
            exact h4.symm
          | ok b =>
            cases b with
            | true =>
              rw [hc] at h
              injection h with h2
              injection h2 with h3 h4
              exact h4.symm
            | false =>
              rw [hc] at h
              dsimp only at h
              have hvalid : ∀ p ∈ getReferencedCells ast, p.IsValid = true := by
                unfold CheckCircularDependency at hc
                cases hcol : collectSeeds S selfId (getReferencedCells ast) with
                | error e2 =>
                  rw [hcol] at hc
                  cases hc
                | ok o =>
                  cases o with
                  | none =>
                    rw [hcol] at hc
                    simp at hc
                  | some seeds =>
                    exact collectSeeds_valid S selfId (getReferencedCells ast) seeds hcol
              obtain ⟨S2, hS2⟩ := updDepsLoop_ok selfId (getReferencedCells ast) hvalid
                (UnsubscribeFromSources
                  (updateCell S selfId (fun c => { c with impl := .formula ast none })) selfId)
              unfold UpdateDependencies at h
              rw [hS2] at h
              cases h
      · rw [if_neg h1] at h
        unfold UpdateDependencies at h
        rw [updDepsLoop] at h
        cases h

theorem sheetSetCell_error_rollback (S : SheetState) (p : Position) (t : String)
    (e : ExcT) (S' : SheetState) (h : Sheet.SetCell S p t = .error (e, S')) :
    ∀ id, gridGet S.grid p = some id →
      lookupCell S' id = lookupCell S id ∧ gridGet S'.grid p = some id := by
  intro id hid
  unfold Sheet.SetCell at h
  by_cases hv : p.IsValid
  · rw [if_pos hv] at h
    dsimp only at h
    have hid1 : gridGet (MaybeIncreaseSizeToIncludePosition S p).grid p = some id := by
      rw [gridGet_maybeIncrease]
      exact hid
    rw [hid1] at h
    dsimp only at h
    cases hcs : Cell.Set (MaybeIncreaseSizeToIncludePosition S p) id t with
    | ok S3 =>
      rw [hcs] at h
      cases h
    | error es =>
      obtain ⟨e0, S3⟩ := es
      have hroll : S3 = MaybeIncreaseSizeToIncludePosition S p :=
        cellSet_error_rollback _ id t e0 S3 hcs
      rw [hcs] at h
      have hS' : S' = S3 := by
        cases e0 with
        | invalidPosition m =>
          injection h with h2
          injection h2 with h3 h4
          exact h4.symm
        | formulaException m =>
          injection h with h2
          injection h2 with h3 h4
          exact h4.symm
        | circularDependency m =>
          injection h with h2
          injection h2 with h3 h4
          exact h4.symm
      rw [hS', hroll]
      exact ⟨rfl, hid1⟩
  · rw [if_neg hv] at h
    injection h with h2
    injection h2 with h3 h4
    rw [← h4]
    exact ⟨rfl, hid⟩

/-- C2: `Cell::Set` is all-or-nothing.  Every exception raised by
`Cell::Set` leaves the sheet state bit-identical to the state before the
call (so the cell's `GetText`, `GetValue`, `GetReferencedCells`, source
set and dependent set are all unchanged); at the `Sheet::SetCell` level a
failing call leaves every pre-existing cell's node and its grid slot
untouched. -/
theorem C2_set_rollback :
    (∀ (S : SheetState) (selfId : CellId) (t : String) (e : ExcT) (S' : SheetState),
      Cell.Set S selfId t = .error (e, S') → S' = S) ∧
    (∀ (S : SheetState) (p : Position) (t : String) (e : ExcT) (S' : SheetState),
      Sheet.SetCell S p t = .error (e, S') →
      ∀ id, gridGet S.grid p = some id →
        lookupCell S' id = lookupCell S id ∧ gridGet S'.grid p = some id) :=
  ⟨cellSet_error_rollback, sheetSetCell_error_rollback⟩

set_option maxRecDepth 4000
/-- Witness for C2: a self-referencing edit on a live cell raises
`CircularDependencyException` and hands back the untouched state. -/
theorem C2_witness :
    Cell.Set (stateAfterSet initialSheet ⟨0, 0⟩ "=B1") 0 "=A1" =
      .error (.circularDependency "Circular dependency detected",
        stateAfterSet initialSheet ⟨0, 0⟩ "=B1") ∧
    stateAfterSet initialSheet ⟨0, 0⟩ "=B1" = stateAfterSet initialSheet ⟨0, 0⟩ "=B1" :=
  ⟨by decide,
   C2_set_rollback.1 (stateAfterSet initialSheet ⟨0, 0⟩ "=B1") 0 "=A1"
     (.circularDependency "Circular dependency detected")
     (stateAfterSet initialSheet ⟨0, 0⟩ "=B1") (by decide)⟩


/-! ### BFS cycle-check correctness (C4 support) -/

/-- One dependency step: `b` is among `a`'s sources. -/
def stepSrc (S : SheetState) (a b : CellId) : Prop := b ∈ sourcesOf S a

/-- The spec's rejection condition: some proposed reference resolves to an
existing cell from which the transitive-sources closure reaches `self`
(a direct self-reference is the reflexive case). -/
def cycleSpec (S : SheetState) (selfId : CellId) (refs : List Position) : Prop :=
  ∃ p ∈ refs, ∃ c, gridGet S.grid p = some c ∧
    Relation.ReflTransGen (stepSrc S) c selfId

theorem getCell_of_valid (S : SheetState) (p : Position) (hv : p.IsValid = true) :
    Sheet.GetCell S p = .ok (gridGet S.grid p) := by
  unfold Sheet.GetCell
  rw [if_pos hv]

theorem bfs_sound (S : SheetState) (selfId : CellId) :
    ∀ (fuel : Nat) (queue visited : List CellId),
    bfsCycleF S selfId fuel queue visited = true →
    ∃ v ∈ queue, Relation.ReflTransGen (stepSrc S) v selfId := by
  intro fuel
  induction fuel with
  | zero =>
    intro queue visited h
    cases h
  | succ f ih =>
    intro queue visited h
    match queue with
    | [] => cases h
    | cur :: rest =>
      rw [bfsCycleF] at h
      by_cases hv : cur ∈ visited
      · rw [if_pos hv] at h
        obtain ⟨v, hvm, hr⟩ := ih rest visited h
        exact ⟨v, by simp [hvm], hr⟩
      · rw [if_neg hv] at h
        by_cases hs : cur = selfId
        · exact ⟨cur, by simp, hs ▸ Relation.ReflTransGen.refl⟩
        · rw [if_neg hs] at h
          obtain ⟨v, hvm, hr⟩ := ih _ _ h
          rcases List.mem_append.mp hvm with h1 | h2
          · exact ⟨v, by simp [h1], hr⟩
          · exact ⟨cur, by simp, Relation.ReflTransGen.head h2 hr⟩

theorem reach_closed (S : SheetState) (visited : List CellId)
    (hcl : ∀ v ∈ visited, ∀ w ∈ sourcesOf S v, w ∈ visited) :
    ∀ a b, Relation.ReflTransGen (stepSrc S) a b → a ∈ visited → b ∈ visited := by
  intro a b h
  induction h with
  | refl => exact fun ha => ha
  | tail hab hbc ih => exact fun ha => hcl _ (ih ha) _ hbc

/-- Total source-edge capacity of the not-yet-visited nodes. -/
def remCap (S : SheetState) (visited : List CellId) : Nat :=
  ((S.cells.filter (fun e => !(visited.contains e.1))).map
    (fun e => e.2.source_cells.length)).sum

theorem remCap_cons_le (cur : CellId) (visited : List CellId) (hcur : cur ∉ visited) :
    ∀ l : List (CellId × CellNode),
    ((l.filter (fun e => !((cur :: visited).contains e.1))).map
      (fun e => e.2.source_cells.length)).sum +
      (match l.find? (fun e => e.1 == cur) with
       | some e => e.2.source_cells.length
       | none => 0) ≤
    ((l.filter (fun e => !(visited.contains e.1))).map
      (fun e => e.2.source_cells.length)).sum := by
  intro l
  induction l with
  | nil => simp
  | cons e t ih =>
    by_cases h1 : e.1 = cur
    · have hfind : (e :: t).find? (fun x => x.1 == cur) = some e := by
        rw [List.find?]
        rw [show (e.1 == cur) = true from by simp [h1]]
      rw [@List.filter_cons_of_neg _ (fun x => !((cur :: visited).contains x.1)) e t
          (by simp [h1]),
        @List.filter_cons_of_pos _ (fun x => !(visited.contains x.1)) e t
          (by simp [h1]; exact hcur),
        hfind]
      dsimp only
      rw [List.map_cons, List.sum_cons]
      have hih := ih
      omega
    · have hfind : (e :: t).find? (fun x => x.1 == cur) = t.find? (fun x => x.1 == cur) := by
        rw [List.find?]
        rw [show (e.1 == cur) = false from by simp [h1]]
      rw [hfind]
      by_cases h2 : e.1 ∈ visited
      · rw [@List.filter_cons_of_neg _ (fun x => !((cur :: visited).contains x.1)) e t
            (by simp [h2]),
          @List.filter_cons_of_neg _ (fun x => !(visited.contains x.1)) e t (by simp [h2])]
        exact ih
      · rw [@List.filter_cons_of_pos _ (fun x => !((cur :: visited).contains x.1)) e t
            (by simp [h1, h2]),
          @List.filter_cons_of_pos _ (fun x => !(visited.contains x.1)) e t (by simp [h2])]
        rw [List.map_cons, List.sum_cons, List.map_cons, List.sum_cons]
        have hih := ih
        omega

theorem sourcesOf_find_len (S : SheetState) (cur : CellId) :
    (match S.cells.find? (fun e => e.1 == cur) with
     | some e => e.2.source_cells.length
     | none => 0) = (sourcesOf S cur).length := by
  unfold sourcesOf lookupCell
  cases S.cells.find? (fun e => e.1 == cur) with
  | none => rfl
  | some e => rfl


theorem bfs_complete (S : SheetState) (selfId : CellId) :
    ∀ (fuel : Nat) (queue visited : List CellId),
    selfId ∉ visited →
    (∀ v ∈ visited, ∀ w ∈ sourcesOf S v, w ∈ visited ∨ w ∈ queue) →
    queue.length + remCap S visited < fuel →
    (∃ v, (v ∈ queue ∨ v ∈ visited) ∧ Relation.ReflTransGen (stepSrc S) v selfId) →
    bfsCycleF S selfId fuel queue visited = true := by
  intro fuel
  induction fuel with
  | zero =>
    intro queue visited h1 h2 h3 h4
    omega
  | succ f ih =>
    intro queue visited hself hclosed hfuel hex
    match queue with
    | [] =>
      exfalso
      obtain ⟨v, hv, hr⟩ := hex
      have hv' : v ∈ visited := by
        rcases hv with h | h
        · cases h
        · exact h
      have hcl : ∀ x ∈ visited, ∀ w ∈ sourcesOf S x, w ∈ visited := by
        intro x hx w hw
        rcases hclosed x hx w hw with h | h
        · exact h
        · cases h
      exact hself (reach_closed S visited hcl v selfId hr hv')
    | cur :: rest =>
      rw [bfsCycleF]
      by_cases hvis : cur ∈ visited
      · rw [if_pos hvis]
        apply ih rest visited hself
        · intro v hv w hw
          rcases hclosed v hv w hw with h | h
          · exact Or.inl h
          · rcases List.mem_cons.mp h with h' | h'
            · exact Or.inl (h' ▸ hvis)
            · exact Or.inr h'
        · have : (cur :: rest).length = rest.length + 1 := by simp
          omega
        · obtain ⟨v, hv, hr⟩ := hex
          refine ⟨v, ?_, hr⟩
          rcases hv with h | h
          · rcases List.mem_cons.mp h with h' | h'
            · exact Or.inr (h' ▸ hvis)
            · exact Or.inl h'
          · exact Or.inr h
      · rw [if_neg hvis]
        by_cases hs : cur = selfId
        · rw [if_pos hs]
        · rw [if_neg hs]
          apply ih (rest ++ sourcesOf S cur) (cur :: visited)
          · intro hc
            rcases List.mem_cons.mp hc with h' | h'
            · exact hs h'.symm
            · exact hself h'
          · intro v hv w hw
            rcases List.mem_cons.mp hv with h' | h'
            · exact Or.inr (List.mem_append.mpr (Or.inr (h' ▸ hw)))
            · rcases hclosed v h' w hw with h | h
              · exact Or.inl (List.mem_cons.mpr (Or.inr h))
              · rcases List.mem_cons.mp h with h'' | h''
                · exact Or.inl (List.mem_cons.mpr (Or.inl h''))
                · exact Or.inr (List.mem_append.mpr (Or.inl h''))
          · have hlen : (rest ++ sourcesOf S cur).length =
                rest.length + (sourcesOf S cur).length := by simp
            have hcap := remCap_cons_le cur visited hvis S.cells
            rw [sourcesOf_find_len] at hcap
            have hq : (cur :: rest).length = rest.length + 1 := by simp
            unfold remCap at hfuel ⊢
            omega
          · obtain ⟨v, hv, hr⟩ := hex
            rcases hv with h | h
            · rcases List.mem_cons.mp h with h' | h'
              · rcases Relation.ReflTransGen.cases_head (h' ▸ hr) with h'' | ⟨w, hw1, hw2⟩
                · exact absurd h'' (h' ▸ hs)
                · exact ⟨w, Or.inl (List.mem_append.mpr (Or.inr hw1)), hw2⟩
              · exact ⟨v, Or.inl (List.mem_append.mpr (Or.inl h')), hr⟩
            · exact ⟨v, Or.inr (List.mem_cons.mpr (Or.inr h)), hr⟩


theorem collectSeeds_ok_of_valid (S : SheetState) (selfId : CellId) :
    ∀ refs : List Position, (∀ p ∈ refs, p.IsValid = true) →
    ∃ o, collectSeeds S selfId refs = .ok o := by
  intro refs
  induction refs with
  | nil => exact fun _ => ⟨some [], rfl⟩
  | cons q rest ih =>
    intro hv
    have hq := hv q (by simp)
    have hrest := ih (fun p hp => hv p (by simp [hp]))
    rw [collectSeeds, getCell_of_valid S q hq]
    cases gridGet S.grid q with
    | none => exact hrest
    | some c =>
      dsimp only
      by_cases hcs : c = selfId
      · rw [if_pos hcs]
        exact ⟨none, rfl⟩
      · rw [if_neg hcs]
        obtain ⟨o, ho⟩ := hrest
        rw [ho]
        cases o with
        | none => exact ⟨none, rfl⟩
        | some l => exact ⟨some (c :: l), rfl⟩

theorem collectSeeds_none_sound (S : SheetState) (selfId : CellId) :
    ∀ refs : List Position, collectSeeds S selfId refs = .ok none →
    ∃ p ∈ refs, Sheet.GetCell S p = .ok (some selfId) := by
  intro refs
  induction refs with
  | nil =>
    intro h
    rw [collectSeeds] at h
    injection h with h2
    cases h2
  | cons q rest ih =>
    intro h
    rw [collectSeeds] at h
    cases hg : Sheet.GetCell S q with
    | error e =>
      rw [hg] at h
      cases h
    | ok c0 =>
      rw [hg] at h
      cases c0 with
      | none =>
        dsimp only at h
        obtain ⟨p, hp, hres⟩ := ih h
        exact ⟨p, by simp [hp], hres⟩
      | some c =>
        dsimp only at h
        by_cases hcs : c = selfId
        · exact ⟨q, by simp, by rw [hg, hcs]⟩
        · rw [if_neg hcs] at h
          cases hrec : collectSeeds S selfId rest with
          | error e =>
            rw [hrec] at h
            cases h
          | ok o =>
            rw [hrec] at h
            cases o with
            | none =>
              obtain ⟨p, hp, hres⟩ := ih hrec
              exact ⟨p, by simp [hp], hres⟩
            | some l => cases h

theorem collectSeeds_some_sound (S : SheetState) (selfId : CellId) :
    ∀ (refs : List Position) (seeds : List CellId),
    collectSeeds S selfId refs = .ok (some seeds) →
    ∀ v ∈ seeds, ∃ p ∈ refs, Sheet.GetCell S p = .ok (some v) := by
  intro refs
  induction refs with
  | nil =>
    intro seeds h v hv
    rw [collectSeeds] at h
    injection h with h2
    injection h2 with h3
    rw [← h3] at hv
    cases hv
  | cons q rest ih =>
    intro seeds h v hv
    rw [collectSeeds] at h
    cases hg : Sheet.GetCell S q with
    | error e =>
      rw [hg] at h
      cases h
    | ok c0 =>
      rw [hg] at h
      cases c0 with
      | none =>
        dsimp only at h
        obtain ⟨p, hp, hres⟩ := ih seeds h v hv
        exact ⟨p, by simp [hp], hres⟩
      | some c =>
        dsimp only at h
        by_cases hcs : c = selfId
        · rw [if_pos hcs] at h
          cases h
        · rw [if_neg hcs] at h
          cases hrec : collectSeeds S selfId rest with
          | error e =>
            rw [hrec] at h
            cases h
          | ok o =>
            rw [hrec] at h
            cases o with
            | none => cases h
            | some l =>
              injection h with h2
              injection h2 with h3
              rw [← h3] at hv
              rcases List.mem_cons.mp hv with h' | h'
              · exact ⟨q, by simp, by rw [hg, h']⟩
              · obtain ⟨p, hp, hres⟩ := ih l hrec v h'
                exact ⟨p, by simp [hp], hres⟩

theorem collectSeeds_some_complete (S : SheetState) (selfId : CellId) :
    ∀ (refs : List Position) (seeds : List CellId),
    collectSeeds S selfId refs = .ok (some seeds) →
    ∀ p ∈ refs, ∀ c, Sheet.GetCell S p = .ok (some c) → c ∈ seeds := by
  intro refs
  induction refs with
  | nil =>
    intro seeds h p hp
    cases hp
  | cons q rest ih =>
    intro seeds h p hp c hres
    rw [collectSeeds] at h
    cases hg : Sheet.GetCell S q with
    | error e =>
      rw [hg] at h
      cases h
    | ok c0 =>
      rw [hg] at h
      cases c0 with
      | none =>
        dsimp only at h
        rcases List.mem_cons.mp hp with h' | h'
        · rw [h'] at hres
          rw [hres] at hg
          cases hg
        · exact ih seeds h p h' c hres
      | some c1 =>
        dsimp only at h
        by_cases hcs : c1 = selfId
        · rw [if_pos hcs] at h
          cases h
        · rw [if_neg hcs] at h
          cases hrec : collectSeeds S selfId rest with
          | error e =>
            rw [hrec] at h
            cases h
          | ok o =>
            rw [hrec] at h
            cases o with
            | none => cases h
            | some l =>
              injection h with h2
              injection h2 with h3
              rcases List.mem_cons.mp hp with h' | h'
              · rw [h'] at hres
                rw [hres] at hg
                injection hg with h4
                injection h4 with h5
                rw [← h3, h5]
                simp
              · have := ih l hrec p h' c hres
                rw [← h3]
                simp [this]


theorem remCap_nil_le (S : SheetState) :
    remCap S [] ≤
      (S.cells.map (fun e => e.2.source_cells.length + e.2.dependent_cells.length)).sum := by
  unfold remCap
  have hfilt : S.cells.filter (fun e => !(([] : List CellId).contains e.1)) = S.cells := by
    apply List.filter_eq_self.mpr
    intro e _
    rfl
  rw [hfilt]
  apply List.sum_le_sum
  intro e _
  omega

theorem checkCircular_iff (S : SheetState) (selfId : CellId) (refs : List Position)
    (hvalid : ∀ p ∈ refs, p.IsValid = true) :
    (CheckCircularDependency S selfId refs = .ok true ↔ cycleSpec S selfId refs) := by
  unfold CheckCircularDependency
  obtain ⟨o, ho⟩ := collectSeeds_ok_of_valid S selfId refs hvalid
  rw [ho]
  cases o with
  | none =>
    constructor
    · intro _
      obtain ⟨p, hp, hres⟩ := collectSeeds_none_sound S selfId refs ho
      refine ⟨p, hp, selfId, ?_, Relation.ReflTransGen.refl⟩
      rw [getCell_of_valid S p (hvalid p hp)] at hres
      injection hres with h2
    · intro _
      rfl
  | some seeds =>
    dsimp only
    constructor
    · intro h
      injection h with h2
      obtain ⟨v, hvm, hr⟩ := bfs_sound S selfId _ seeds [] h2
      obtain ⟨p, hp, hres⟩ := collectSeeds_some_sound S selfId refs seeds ho v hvm
      refine ⟨p, hp, v, ?_, hr⟩
      rw [getCell_of_valid S p (hvalid p hp)] at hres
      injection hres with h3
    · rintro ⟨p, hp, c, hres, hr⟩
      have hc : c ∈ seeds := collectSeeds_some_complete S selfId refs seeds ho p hp c
        (by rw [getCell_of_valid S p (hvalid p hp), hres])
      have hbfs := bfs_complete S selfId (edgeFuel S seeds.length) seeds []
        (by simp)
        (by intro v hv; cases hv)
        (by
          have h1 := remCap_nil_le S
          unfold edgeFuel
          omega)
        ⟨c, Or.inl hc, hr⟩
      rw [hbfs]

/-- C4 (amended): for a live cell and a formula text that parses, WHEN ALL
referenced positions are valid, `Cell::Set` raises
`CircularDependencyException` — handing back the untouched state — exactly
when some referenced position resolves to an existing cell whose
transitive-sources closure contains the cell itself (a direct
self-reference included, as the reflexive case).  The validity proviso is
necessary: an invalid referenced position makes the cycle check throw
`InvalidPositionException` first, even when the closure contains the cell
(see the counterexample). -/
theorem C4_cycle_rejection_amended :
    ∀ (S : SheetState) (selfId : CellId) (self : CellNode) (t : String) (ast : Expr),
    lookupCell S selfId = some self →
    t ≠ self.impl.GetText →
    (headIs t.data FORMULA_SIGN && decide (1 < t.length)) = true →
    ParseFormulaAST (String.mk (t.data.drop 1)) = .ok ast →
    (∀ p ∈ getReferencedCells ast, p.IsValid = true) →
    (Cell.Set S selfId t =
        .error (.circularDependency "Circular dependency detected", S) ↔
      cycleSpec S selfId (getReferencedCells ast)) := by
  intro S selfId self t ast hlk hne hform hparse hvalid
  have hred : Cell.Set S selfId t =
      (match CheckCircularDependency S selfId (getReferencedCells ast) with
       | .error e => .error (e, S)
       | .ok true => .error (.circularDependency "Circular dependency detected", S)
       | .ok false =>
         match UpdateDependencies
             (updateCell S selfId (fun c => { c with impl := .formula ast none }))
             selfId (getReferencedCells ast) with
         | .error (e, S2) =>
           .error (e, updateCell S2 selfId (fun c => { c with impl := self.impl }))
         | .ok S2 => .ok (InvalidateCacheDownstream S2 selfId)) := by
    unfold Cell.Set
    rw [hlk]
    dsimp only
    rw [if_neg hne, if_pos hform, hparse]
  obtain ⟨o, ho⟩ := collectSeeds_ok_of_valid S selfId (getReferencedCells ast) hvalid
  have hcc : ∃ b, CheckCircularDependency S selfId (getReferencedCells ast) = .ok b := by
    unfold CheckCircularDependency
    rw [ho]
    cases o with
    | none => exact ⟨true, rfl⟩
    | some seeds => exact ⟨_, rfl⟩
  obtain ⟨b, hb⟩ := hcc
  rw [hred, hb]
  cases b with
  | true =>
    constructor
    · intro _
      exact (checkCircular_iff S selfId (getReferencedCells ast) hvalid).mp hb
    · intro _
      rfl
  | false =>
    obtain ⟨S2, hS2⟩ := updDepsLoop_ok selfId (getReferencedCells ast) hvalid
      (UnsubscribeFromSources
        (updateCell S selfId (fun c => { c with impl := .formula ast none })) selfId)
    constructor
    · intro h
      unfold UpdateDependencies at h
      rw [hS2] at h
      cases h
    · intro hspec
      have : CheckCircularDependency S selfId (getReferencedCells ast) = .ok true :=
        (checkCircular_iff S selfId (getReferencedCells ast) hvalid).mpr hspec
      rw [hb] at this
      injection this with h2
      cases h2


set_option maxRecDepth 8000
/-- C4 counterexample: on the sheet holding only B2 = "b", the edit
`Set(B2, "=A0+B2")` proposes the references [NONE, B2] (the token `A0`
decodes to the invalid position NONE); the transitive-sources closure of
the proposed references contains the cell itself (B2 is referenced
directly), yet the call raises `InvalidPositionException` — not
`CircularDependencyException` — because the cycle check visits the invalid
reference first. -/
theorem C4_counterexample :
    (∃ p ∈ (match ParseFormulaAST "A0+B2" with
        | .ok ast => getReferencedCells ast
        | .error _ => ([] : List Position)), ∃ c,
      gridGet (stateAfterSet initialSheet ⟨1, 1⟩ "b").grid p = some c ∧
      Relation.ReflTransGen (stepSrc (stateAfterSet initialSheet ⟨1, 1⟩ "b")) c 0) ∧
    Cell.Set (stateAfterSet initialSheet ⟨1, 1⟩ "b") 0 "=A0+B2" =
      .error (.invalidPosition "Invalid position", stateAfterSet initialSheet ⟨1, 1⟩ "b") ∧
    (∀ (m : String) (S' : SheetState),
      Cell.Set (stateAfterSet initialSheet ⟨1, 1⟩ "b") 0 "=A0+B2" ≠
        .error (.circularDependency m, S')) := by
  refine ⟨⟨⟨1, 1⟩, by decide, 0, by decide, Relation.ReflTransGen.refl⟩, by decide, ?_⟩
  intro m S' h
  rw [show Cell.Set (stateAfterSet initialSheet ⟨1, 1⟩ "b") 0 "=A0+B2" =
      .error (.invalidPosition "Invalid position", stateAfterSet initialSheet ⟨1, 1⟩ "b")
    from by decide] at h
  injection h with h2
  injection h2 with h3 h4
  cases h3

set_option maxRecDepth 8000
/-- Witness for C4: after `SetCell(A1, "=B1")`, the edit `Set(B1, "=A1")`
references A1, whose sources reach B1 in one step, and the amended theorem
derives the `CircularDependencyException` rejection with the state handed
back untouched. -/
theorem C4_witness :
    Cell.Set (stateAfterSet initialSheet ⟨0, 0⟩ "=B1") 1 "=A1" =
      .error (.circularDependency "Circular dependency detected",
        stateAfterSet initialSheet ⟨0, 0⟩ "=B1") :=
  (C4_cycle_rejection_amended (stateAfterSet initialSheet ⟨0, 0⟩ "=B1") 1
     ⟨.empty, [], [0]⟩ "=A1" (.ref ⟨0, 0⟩)
     (by decide) (by decide) (by decide) (by decide) (by decide)).mpr
    ⟨⟨0, 0⟩, by decide, 0, by decide,
      Relation.ReflTransGen.single
        (show (1 : CellId) ∈ sourcesOf (stateAfterSet initialSheet ⟨0, 0⟩ "=B1") 0
          from by decide)⟩


/-! ### Idempotence of Set (C5 support) -/

theorem getText_invalidate (impl : CellImpl) :
    impl.InvalidateCache.GetText = impl.GetText := by
  cases impl <;> rfl

theorem cellText_updateCell (S : SheetState) (j : CellId) (f : CellNode → CellNode)
    (hf : ∀ c, (f c).impl.GetText = c.impl.GetText) (id : CellId) :
    cellTextAt (updateCell S j f) id = cellTextAt S id := by
  unfold cellTextAt
  rw [lookup_updateCell]
  by_cases h : id = j
  · rw [if_pos h, h]
    cases lookupCell S j with
    | none => rfl
    | some c =>
      dsimp only [Option.map_some']
      exact hf c
  · rw [if_neg h]

theorem lookup_isSome_updateCell (S : SheetState) (j : CellId) (f : CellNode → CellNode)
    (id : CellId) :
    (lookupCell (updateCell S j f) id).isSome = (lookupCell S id).isSome := by
  rw [lookup_updateCell]
  by_cases h : id = j
  · rw [if_pos h, h]
    cases lookupCell S j <;> rfl
  · rw [if_neg h]

theorem cellText_foldl (g : CellId → CellNode → CellNode)
    (hg : ∀ i c, (g i c).impl.GetText = c.impl.GetText) (l : List CellId) :
    ∀ (S : SheetState) (id : CellId),
    cellTextAt (l.foldl (fun acc i => updateCell acc i (g i)) S) id = cellTextAt S id := by
  induction l with
  | nil => intro S id; rfl
  | cons a t ih =>
    intro S id
    rw [List.foldl_cons, ih, cellText_updateCell _ _ _ (hg a)]

theorem lookup_isSome_foldl (g : CellId → CellNode → CellNode) (l : List CellId) :
    ∀ (S : SheetState) (id : CellId),
    (lookupCell (l.foldl (fun acc i => updateCell acc i (g i)) S) id).isSome =
      (lookupCell S id).isSome := by
  induction l with
  | nil => intro S id; rfl
  | cons a t ih =>
    intro S id
    rw [List.foldl_cons, ih, lookup_isSome_updateCell]

theorem cellText_unsub (S : SheetState) (selfId id : CellId) :
    cellTextAt (UnsubscribeFromSources S selfId) id = cellTextAt S id := by
  unfold UnsubscribeFromSources
  cases lookupCell S selfId with
  | none => rfl
  | some self =>
    dsimp only
    rw [cellText_updateCell _ selfId
        (fun c => { c with source_cells := [] }) (fun c => rfl),
      cellText_foldl
        (fun srcId => fun c => { c with dependent_cells := ersAll selfId c.dependent_cells })
        (fun i c => rfl) self.source_cells]

theorem lookup_isSome_unsub (S : SheetState) (selfId id : CellId) :
    (lookupCell (UnsubscribeFromSources S selfId) id).isSome =
      (lookupCell S id).isSome := by
  unfold UnsubscribeFromSources
  cases lookupCell S selfId with
  | none => rfl
  | some self =>
    dsimp only
    rw [lookup_isSome_updateCell, lookup_isSome_foldl]

theorem cellText_invalDown (fuel : Nat) :
    ∀ (work vis : List CellId) (S : SheetState) (id : CellId),
    cellTextAt (invalDownF fuel work vis S) id = cellTextAt S id := by
  induction fuel with
  | zero => intro work vis S id; rfl
  | succ f ih =>
    intro work vis S id
    match work with
    | [] => rfl
    | cur :: st =>
      rw [invalDownF]
      by_cases h : cur ∈ vis
      · rw [if_pos h, ih]
      · rw [if_neg h, ih,
          cellText_updateCell _ cur (fun n => { n with impl := n.impl.InvalidateCache })
            (fun c => getText_invalidate c.impl)]

theorem lookup_isSome_invalDown (fuel : Nat) :
    ∀ (work vis : List CellId) (S : SheetState) (id : CellId),
    (lookupCell (invalDownF fuel work vis S) id).isSome = (lookupCell S id).isSome := by
  induction fuel with
  | zero => intro work vis S id; rfl
  | succ f ih =>
    intro work vis S id
    match work with
    | [] => rfl
    | cur :: st =>
      rw [invalDownF]
      by_cases h : cur ∈ vis
      · rw [if_pos h, ih]
      · rw [if_neg h, ih, lookup_isSome_updateCell]


theorem cellSet_noop_of_same_text (S : SheetState) (id : CellId) (node : CellNode)
    (t : String) (hlk : lookupCell S id = some node) (ht : node.impl.GetText = t) :
    Cell.Set S id t = .ok S := by
  unfold Cell.Set
  rw [hlk]
  dsimp only
  rw [if_pos ht.symm]

theorem cellSet_nonformula_idem (S : SheetState) (id : CellId) (t : String)
    (S' : SheetState)
    (hform : (headIs t.data FORMULA_SIGN && decide (1 < t.length)) = false)
    (hset : Cell.Set S id t = .ok S') : Cell.Set S' id t = .ok S' := by
  unfold Cell.Set at hset
  cases hlk : lookupCell S id with
  | none =>
    rw [hlk] at hset
    injection hset with h2
    rw [← h2]
    unfold Cell.Set
    rw [hlk]
  | some node =>
    rw [hlk] at hset
    dsimp only at hset
    by_cases h0 : t = node.impl.GetText
    · rw [if_pos h0] at hset
      injection hset with h2
      rw [← h2]
      exact cellSet_noop_of_same_text S id node t hlk h0.symm
    · rw [if_neg h0, hform] at hset
      rw [if_neg (by simp)] at hset
      unfold UpdateDependencies at hset
      rw [updDepsLoop] at hset
      injection hset with h2
      have htext : cellTextAt S' id = t := by
        rw [← h2]
        unfold InvalidateCacheDownstream
        rw [cellText_invalDown, cellText_unsub]
        unfold cellTextAt
        rw [lookup_updateCell, if_pos rfl, hlk]
        dsimp only [Option.map_some']
        by_cases he : headIs t.data ESCAPE_SIGN
        · rw [if_pos he]
          rfl
        · rw [if_neg he]
          by_cases hemp : t.isEmpty
          · rw [if_pos hemp]
            have ht0 : t = "" := by
              by_contra hne
              rw [isEmpty_false_of_ne t hne] at hemp
              cases hemp
            rw [ht0]
            rfl
          · rw [if_neg hemp]
            rfl
      have hsome : (lookupCell S' id).isSome = true := by
        rw [← h2]
        unfold InvalidateCacheDownstream
        rw [lookup_isSome_invalDown, lookup_isSome_unsub, lookup_isSome_updateCell, hlk]
        rfl
      cases hlk2 : lookupCell S' id with
      | none =>
        rw [hlk2] at hsome
        cases hsome
      | some node2 =>
        have ht2 : node2.impl.GetText = t := by
          have : cellTextAt S' id = node2.impl.GetText := by
            unfold cellTextAt
            rw [hlk2]
          rw [← this, htext]
        exact cellSet_noop_of_same_text S' id node2 t hlk2 ht2


set_option maxRecDepth 8000
/-- C5 counterexample: set A1 to the non-canonical formula text "=(1+2)",
read its value (the memo becomes 3.0), then call Set with the SAME text
again.  `GetText()` returns the canonical reprint "=1+2", so the equality
early-exit does not fire: the second call rebuilds the impl and drops the
memo — the state is not bit-identical and the cache was touched. -/
theorem C5_counterexample :
    (lookupCell (stateAfterGetValue (stateAfterSet initialSheet ⟨0, 0⟩ "=(1+2)") ⟨0, 0⟩)
        0).map (fun c => c.impl) =
      some (.formula (.add (.lit 1) (.lit 2)) (some (.num 3))) ∧
    (Cell.Set (stateAfterGetValue (stateAfterSet initialSheet ⟨0, 0⟩ "=(1+2)") ⟨0, 0⟩)
        0 "=(1+2)" matches .ok _) ∧
    (lookupCell (outStateE (Cell.Set
        (stateAfterGetValue (stateAfterSet initialSheet ⟨0, 0⟩ "=(1+2)") ⟨0, 0⟩)
        0 "=(1+2)")) 0).map (fun c => c.impl) =
      some (.formula (.add (.lit 1) (.lit 2)) none) ∧
    outStateE (Cell.Set
        (stateAfterGetValue (stateAfterSet initialSheet ⟨0, 0⟩ "=(1+2)") ⟨0, 0⟩)
        0 "=(1+2)") ≠
      stateAfterGetValue (stateAfterSet initialSheet ⟨0, 0⟩ "=(1+2)") ⟨0, 0⟩ := by
  refine ⟨by decide, by decide, by decide, by decide⟩

/-- C5 (amended): a second `Set(t)` is a state-identical no-op whenever `t`
equals the cell's current `GetText()` — in particular always for
non-formula texts, whose stored text is reproduced verbatim.  For formula
texts the guarantee holds only when `t` is the canonical reprint of its
own parse: `GetText()` returns the canonical form, so a non-canonical
spelling (e.g. "=(1+2)") re-runs the whole edit and resets the memo (see
the counterexample). -/
theorem C5_set_idempotence_amended :
    (∀ (S : SheetState) (id : CellId) (node : CellNode) (t : String),
      lookupCell S id = some node → node.impl.GetText = t →
      Cell.Set S id t = .ok S) ∧
    (∀ (S : SheetState) (id : CellId) (t : String) (S' : SheetState),
      (headIs t.data FORMULA_SIGN && decide (1 < t.length)) = false →
      Cell.Set S id t = .ok S' → Cell.Set S' id t = .ok S') :=
  ⟨cellSet_noop_of_same_text, cellSet_nonformula_idem⟩

set_option maxRecDepth 4000
/-- Witness for C5: on the sheet after `SetCell(A1, "=B1")` the text of A1
is the canonical "=B1", and the amended theorem makes the repeated
`Set("=B1")` return the state unchanged. -/
theorem C5_witness :
    Cell.Set (stateAfterSet initialSheet ⟨0, 0⟩ "=B1") 0 "=B1" =
      .ok (stateAfterSet initialSheet ⟨0, 0⟩ "=B1") :=
  C5_set_idempotence_amended.1 (stateAfterSet initialSheet ⟨0, 0⟩ "=B1") 0
    ⟨.formula (.ref ⟨0, 1⟩) none, [1], []⟩ "=B1" (by decide) (by decide)


/-! ### Cache freshness (C3 support): views and denotation -/

/-- Erase every formula memo (the sheet as a fresh evaluation sees it). -/
def stripImpl : CellImpl → CellImpl
  | .formula ast _ => .formula ast none
  | i => i

def stripNode (c : CellNode) : CellNode := { c with impl := stripImpl c.impl }

def stripCaches (S : SheetState) : SheetState :=
  { S with cells := S.cells.map (fun e => (e.1, stripNode e.2)) }

/-- What a formula reference sees at a position: absent slots, dangling ids
and Empty cells all read as the number 0. -/
inductive VCell where
  | zero
  | text (s : String)
  | formula (ast : Expr)
deriving DecidableEq, Repr

def viewOf (S : SheetState) (p : Position) : VCell :=
  match gridGet S.grid p with
  | none => .zero
  | some id =>
    match lookupCell S id with
    | none => .zero
    | some c =>
      match c.impl with
      | .empty => .zero
      | .text s => .text s
      | .formula ast _ => .formula ast

/-- Reference denotation of a formula AST over a position view: the value a
fresh, cache-free evaluation produces.  Fuel strata follow the dependency
height; `none` is fuel exhaustion (unreachable under acyclicity). -/
def denoteF : Nat → (Position → VCell) → Expr → Option (Rat ⊕ FormulaError)
  | _, _, .lit q => some (.inl q)
  | fuel, V, .ref p =>
    if p.IsValid then
      match V p with
      | .zero => some (.inl 0)
      | .text s =>
        match cellValueToNumber (some (textImplValue s)) with
        | .ok d => some (.inl d)
        | .error e => some (.inr e)
      | .formula ast =>
        match fuel with
        | 0 => none
        | fuel + 1 =>
          match denoteF fuel V ast with
          | none => none
          | some (.inl d) => some (.inl d)
          | some (.inr e) => some (.inr e)
    else some (.inr .Ref)
  | fuel, V, .add a b =>
    match denoteF fuel V a with
    | none => none
    | some (.inr e) => some (.inr e)
    | some (.inl x) =>
      match denoteF fuel V b with
      | none => none
      | some (.inr e) => some (.inr e)
      | some (.inl y) =>
        let r := qAdd x y
        if qLt maxDouble (qAbs r) then some (.inr .Arithmetic) else some (.inl r)
  | fuel, V, .sub a b =>
    match denoteF fuel V a with
    | none => none
    | some (.inr e) => some (.inr e)
    | some (.inl x) =>
      match denoteF fuel V b with
      | none => none
      | some (.inr e) => some (.inr e)
      | some (.inl y) =>
        let r := qSub x y
        if qLt maxDouble (qAbs r) then some (.inr .Arithmetic) else some (.inl r)
  | fuel, V, .mul a b =>
    match denoteF fuel V a with
    | none => none
    | some (.inr e) => some (.inr e)
    | some (.inl x) =>
      match denoteF fuel V b with
      | none => none
      | some (.inr e) => some (.inr e)
      | some (.inl y) =>
        let r := qMul x y
        if qLt maxDouble (qAbs r) then some (.inr .Arithmetic) else some (.inl r)
  | fuel, V, .div a b =>
    match denoteF fuel V a with
    | none => none
    | some (.inr e) => some (.inr e)
    | some (.inl x) =>
      match denoteF fuel V b with
      | none => none
      | some (.inr e) => some (.inr e)
      | some (.inl y) =>
        if y = 0 then some (.inr .Arithmetic)
        else
          let r := qDiv x y
          if qLt maxDouble (qAbs r) then some (.inr .Arithmetic) else some (.inl r)
  | fuel, V, .neg a =>
    match denoteF fuel V a with
    | none => none
    | some (.inr e) => some (.inr e)
    | some (.inl x) => some (.inl (qNeg x))
  | fuel, V, .pls a =>
    match denoteF fuel V a with
    | none => none
    | some (.inr e) => some (.inr e)
    | some (.inl x) => some (.inl x)

def resToCellValue : (Rat ⊕ FormulaError) → CellValue
  | .inl d => .num d
  | .inr e => .err e

/-- The fresh-evaluation outcome of an AST against the current sheet. -/
def freshOutcome (S : SheetState) (ast : Expr) : Option CellValue :=
  (denoteF (S.cells.length + 1) (viewOf S) ast).map resToCellValue

def implFresh (S : SheetState) : CellImpl → Bool
  | .formula ast (some v) => decide (freshOutcome S ast = some v)
  | _ => true

/-- Every memo anywhere in the pool equals its fresh evaluation. -/
def FreshAll (S : SheetState) : Prop :=
  ∀ e ∈ S.cells, implFresh S e.2.impl = true

instance instDecFreshAll (S : SheetState) : Decidable (FreshAll S) := by
  unfold FreshAll
  infer_instance


theorem find_map_fst (g : CellNode → CellNode) (id : CellId) :
    ∀ l : List (CellId × CellNode),
    (l.map (fun e => (e.1, g e.2))).find? (fun e => e.1 == id) =
      (l.find? (fun e => e.1 == id)).map (fun e => (e.1, g e.2)) := by
  intro l
  induction l with
  | nil => rfl
  | cons e t ih =>
    rw [List.map_cons, List.find?, List.find?]
    by_cases h : e.1 = id
    · rw [show ((e.1, g e.2).1 == id) = true from by simp [h]]
      rfl
    · rw [show ((e.1, g e.2).1 == id) = false from by simp [h]]
      exact ih

theorem lookup_strip (S : SheetState) (id : CellId) :
    lookupCell (stripCaches S) id = (lookupCell S id).map stripNode := by
  unfold lookupCell stripCaches
  dsimp only
  rw [find_map_fst]
  cases S.cells.find? (fun e => e.1 == id) with
  | none => rfl
  | some e => rfl

theorem stripImpl_idem (i : CellImpl) : stripImpl (stripImpl i) = stripImpl i := by
  cases i <;> rfl

theorem strip_grid (S : SheetState) : (stripCaches S).grid = S.grid := rfl

theorem strip_nextId (S : SheetState) : (stripCaches S).nextId = S.nextId := rfl

theorem strip_length (S : SheetState) : (stripCaches S).cells.length = S.cells.length := by
  unfold stripCaches
  dsimp only
  rw [List.length_map]

theorem strip_idem (S : SheetState) : stripCaches (stripCaches S) = stripCaches S := by
  unfold stripCaches
  dsimp only
  rw [List.map_map]
  congr 1
  apply List.map_congr_left
  intro e _
  show (e.1, stripNode (stripNode e.2)) = (e.1, stripNode e.2)
  unfold stripNode
  rw [stripImpl_idem]

theorem view_strip (S : SheetState) (p : Position) :
    viewOf (stripCaches S) p = viewOf S p := by
  unfold viewOf
  rw [strip_grid]
  cases gridGet S.grid p with
  | none => rfl
  | some id =>
    dsimp only
    rw [lookup_strip]
    cases lookupCell S id with
    | none => rfl
    | some c =>
      dsimp only [Option.map_some']
      show (match (stripNode c).impl with
        | .empty => VCell.zero
        | .text s => .text s
        | .formula ast _ => .formula ast) = _
      unfold stripNode stripImpl
      dsimp only
      cases c.impl <;> rfl

theorem freshAll_strip (S : SheetState) : FreshAll (stripCaches S) := by
  intro e he
  unfold stripCaches at he
  dsimp only at he
  rcases List.mem_map.mp he with ⟨e0, he0, heq⟩
  rw [← heq]
  show implFresh (stripCaches S) (stripNode e0.2).impl = true
  unfold stripNode stripImpl
  dsimp only
  cases e0.2.impl <;> rfl

theorem view_congr_of_strip (S₁ S₂ : SheetState) (h : stripCaches S₁ = stripCaches S₂)
    (p : Position) : viewOf S₁ p = viewOf S₂ p := by
  rw [← view_strip S₁ p, ← view_strip S₂ p, h]

theorem length_congr_of_strip (S₁ S₂ : SheetState) (h : stripCaches S₁ = stripCaches S₂) :
    S₁.cells.length = S₂.cells.length := by
  rw [← strip_length S₁, ← strip_length S₂, h]

theorem grid_congr_of_strip (S₁ S₂ : SheetState) (h : stripCaches S₁ = stripCaches S₂) :
    S₁.grid = S₂.grid := by
  rw [← strip_grid S₁, ← strip_grid S₂, h]

theorem freshOutcome_congr_of_strip (S₁ S₂ : SheetState)
    (h : stripCaches S₁ = stripCaches S₂) (ast : Expr) :
    freshOutcome S₁ ast = freshOutcome S₂ ast := by
  unfold freshOutcome
  rw [length_congr_of_strip S₁ S₂ h]
  have hv : viewOf S₁ = viewOf S₂ := funext (view_congr_of_strip S₁ S₂ h)
  rw [hv]

theorem lookup_congr_of_strip (S₁ S₂ : SheetState) (h : stripCaches S₁ = stripCaches S₂)
    (id : CellId) :
    (lookupCell S₁ id).map stripNode = (lookupCell S₂ id).map stripNode := by
  rw [← lookup_strip, ← lookup_strip, h]


/-- The positions a formula's fresh evaluation can read: its own references
and, through every reference that resolves to a formula cell, that
formula's positions, transitively. -/
inductive Touches (V : Position → VCell) : Expr → Position → Prop
  | refHere (p : Position) : Touches V (.ref p) p
  | refThrough (p q : Position) (ast : Expr) :
      V p = .formula ast → Touches V ast q → Touches V (.ref p) q
  | addL (a b : Expr) (q : Position) : Touches V a q → Touches V (.add a b) q
  | addR (a b : Expr) (q : Position) : Touches V b q → Touches V (.add a b) q
  | subL (a b : Expr) (q : Position) : Touches V a q → Touches V (.sub a b) q
  | subR (a b : Expr) (q : Position) : Touches V b q → Touches V (.sub a b) q
  | mulL (a b : Expr) (q : Position) : Touches V a q → Touches V (.mul a b) q
  | mulR (a b : Expr) (q : Position) : Touches V b q → Touches V (.mul a b) q
  | divL (a b : Expr) (q : Position) : Touches V a q → Touches V (.div a b) q
  | divR (a b : Expr) (q : Position) : Touches V b q → Touches V (.div a b) q
  | negT (a : Expr) (q : Position) : Touches V a q → Touches V (.neg a) q
  | plsT (a : Expr) (q : Position) : Touches V a q → Touches V (.pls a) q

/-- Locality of the denotation: only touched positions matter. -/
theorem denote_congr (V₁ V₂ : Position → VCell) :
    ∀ (fuel : Nat) (ast : Expr),
    (∀ p, Touches V₁ ast p → V₁ p = V₂ p) →
    denoteF fuel V₁ ast = denoteF fuel V₂ ast := by
  intro fuel
  induction fuel with
  | zero =>
    intro ast
    induction ast with
    | lit q =>
      intro h
      rw [denoteF, denoteF]
    | ref p =>
      intro h
      rw [denoteF, denoteF]
      by_cases hv : p.IsValid
      · rw [if_pos hv, if_pos hv, ← h p (Touches.refHere p)]
      · rw [if_neg hv, if_neg hv]
    | add a b iha ihb =>
      intro h
      rw [denoteF, denoteF,
        iha (fun p hp => h p (Touches.addL a b p hp)),
        ihb (fun p hp => h p (Touches.addR a b p hp))]
    | sub a b iha ihb =>
      intro h
      rw [denoteF, denoteF,
        iha (fun p hp => h p (Touches.subL a b p hp)),
        ihb (fun p hp => h p (Touches.subR a b p hp))]
    | mul a b iha ihb =>
      intro h
      rw [denoteF, denoteF,
        iha (fun p hp => h p (Touches.mulL a b p hp)),
        ihb (fun p hp => h p (Touches.mulR a b p hp))]
    | div a b iha ihb =>
      intro h
      rw [denoteF, denoteF,
        iha (fun p hp => h p (Touches.divL a b p hp)),
        ihb (fun p hp => h p (Touches.divR a b p hp))]
    | neg a iha =>
      intro h
      rw [denoteF, denoteF, iha (fun p hp => h p (Touches.negT a p hp))]
    | pls a iha =>
      intro h
      rw [denoteF, denoteF, iha (fun p hp => h p (Touches.plsT a p hp))]
  | succ f ihf =>
    intro ast
    induction ast with
    | lit q =>
      intro h
      rw [denoteF, denoteF]
    | ref p =>
      intro h
      rw [denoteF, denoteF]
      by_cases hv : p.IsValid
      · rw [if_pos hv, if_pos hv, ← h p (Touches.refHere p)]
        cases hV : V₁ p with
        | zero => rfl
        | text s => rfl
        | formula ast' =>
          dsimp only
          rw [ihf ast' (fun q hq => h q (Touches.refThrough p q ast' hV hq))]
      · rw [if_neg hv, if_neg hv]
    | add a b iha ihb =>
      intro h
      rw [denoteF, denoteF,
        iha (fun p hp => h p (Touches.addL a b p hp)),
        ihb (fun p hp => h p (Touches.addR a b p hp))]
    | sub a b iha ihb =>
      intro h
      rw [denoteF, denoteF,
        iha (fun p hp => h p (Touches.subL a b p hp)),
        ihb (fun p hp => h p (Touches.subR a b p hp))]
    | mul a b iha ihb =>
      intro h
      rw [denoteF, denoteF,
        iha (fun p hp => h p (Touches.mulL a b p hp)),
        ihb (fun p hp => h p (Touches.mulR a b p hp))]
    | div a b iha ihb =>
      intro h
      rw [denoteF, denoteF,
        iha (fun p hp => h p (Touches.divL a b p hp)),
        ihb (fun p hp => h p (Touches.divR a b p hp))]
    | neg a iha =>
      intro h
      rw [denoteF, denoteF, iha (fun p hp => h p (Touches.negT a p hp))]
    | pls a iha =>
      intro h
      rw [denoteF, denoteF, iha (fun p hp => h p (Touches.plsT a p hp))]


/-! ### Downstream invalidation coverage (C3 support) -/

/-- One dependent step: `b` is among `a`'s dependents. -/
def stepDep (S : SheetState) (a b : CellId) : Prop := b ∈ dependentsOf S a

/-- The memo stored at an id, if any. -/
def cacheOf (S : SheetState) (id : CellId) : Option CellValue :=
  match lookupCell S id with
  | some c =>
    match c.impl with
    | .formula _ cache => cache
    | _ => none
  | none => none

theorem stripImpl_invalidate (i : CellImpl) : stripImpl i.InvalidateCache = stripImpl i := by
  cases i <;> rfl

theorem strip_updateCell (S : SheetState) (j : CellId) (f : CellNode → CellNode)
    (hf : ∀ c, stripNode (f c) = stripNode c) :
    stripCaches (updateCell S j f) = stripCaches S := by
  unfold stripCaches updateCell
  dsimp only
  rw [List.map_map]
  congr 1
  apply List.map_congr_left
  intro e _
  show (fun e => (e.1, stripNode e.2)) (if e.1 = j then (e.1, f e.2) else e) = (e.1, stripNode e.2)
  by_cases h : e.1 = j
  · rw [if_pos h]
    dsimp only
    rw [hf e.2]
  · rw [if_neg h]

theorem strip_invalDown (fuel : Nat) :
    ∀ (work vis : List CellId) (S : SheetState),
    stripCaches (invalDownF fuel work vis S) = stripCaches S := by
  induction fuel with
  | zero => intro work vis S; rfl
  | succ f ih =>
    intro work vis S
    match work with
    | [] => rfl
    | cur :: st =>
      rw [invalDownF]
      by_cases h : cur ∈ vis
      · rw [if_pos h, ih]
      · rw [if_neg h, ih, strip_updateCell _ _ _ (fun c => by
          show stripNode { c with impl := c.impl.InvalidateCache } = stripNode c
          unfold stripNode
          dsimp only
          rw [stripImpl_invalidate])]

theorem dependentsOf_updateCell_keep (S : SheetState) (j : CellId)
    (f : CellNode → CellNode) (hf : ∀ c, (f c).dependent_cells = c.dependent_cells)
    (id : CellId) : dependentsOf (updateCell S j f) id = dependentsOf S id := by
  unfold dependentsOf
  rw [lookup_updateCell]
  by_cases h : id = j
  · rw [if_pos h, h]
    cases lookupCell S j with
    | none => rfl
    | some c =>
      dsimp only [Option.map_some']
      exact hf c
  · rw [if_neg h]

theorem cacheOf_updateCell_inval (S : SheetState) (j id : CellId) :
    cacheOf (updateCell S j (fun n => { n with impl := n.impl.InvalidateCache })) id =
      if id = j then none else cacheOf S id := by
  unfold cacheOf
  rw [lookup_updateCell]
  by_cases h : id = j
  · rw [if_pos h, if_pos h, h]
    cases lookupCell S j with
    | none => rfl
    | some c =>
      dsimp only [Option.map_some']
      cases c.impl <;> rfl
  · rw [if_neg h, if_neg h]

theorem cacheOf_invalDown_mono (fuel : Nat) :
    ∀ (work vis : List CellId) (S : SheetState) (id : CellId) (v : CellValue),
    cacheOf (invalDownF fuel work vis S) id = some v → cacheOf S id = some v := by
  induction fuel with
  | zero => intro work vis S id v h; exact h
  | succ f ih =>
    intro work vis S id v h
    match work with
    | [] => exact h
    | cur :: st =>
      rw [invalDownF] at h
      by_cases hc : cur ∈ vis
      · rw [if_pos hc] at h
        exact ih st vis S id v h
      · rw [if_neg hc] at h
        have h2 := ih _ _ _ id v h
        rw [cacheOf_updateCell_inval] at h2
        by_cases hi : id = cur
        · rw [if_pos hi] at h2
          cases h2
        · rw [if_neg hi] at h2
          exact h2


/-- Total dependent-edge capacity of the not-yet-visited nodes. -/
def remCapD (S : SheetState) (visited : List CellId) : Nat :=
  ((S.cells.filter (fun e => !(visited.contains e.1))).map
    (fun e => e.2.dependent_cells.length)).sum

theorem remCapD_cons_le (cur : CellId) (visited : List CellId) (hcur : cur ∉ visited) :
    ∀ l : List (CellId × CellNode),
    ((l.filter (fun e => !((cur :: visited).contains e.1))).map
      (fun e => e.2.dependent_cells.length)).sum +
      (match l.find? (fun e => e.1 == cur) with
       | some e => e.2.dependent_cells.length
       | none => 0) ≤
    ((l.filter (fun e => !(visited.contains e.1))).map
      (fun e => e.2.dependent_cells.length)).sum := by
  intro l
  induction l with
  | nil => simp
  | cons e t ih =>
    by_cases h1 : e.1 = cur
    · have hfind : (e :: t).find? (fun x => x.1 == cur) = some e := by
        rw [List.find?]
        rw [show (e.1 == cur) = true from by simp [h1]]
      rw [@List.filter_cons_of_neg _ (fun x => !((cur :: visited).contains x.1)) e t
          (by simp [h1]),
        @List.filter_cons_of_pos _ (fun x => !(visited.contains x.1)) e t
          (by simp [h1]; exact hcur),
        hfind]
      dsimp only
      rw [List.map_cons, List.sum_cons]
      have hih := ih
      omega
    · have hfind : (e :: t).find? (fun x => x.1 == cur) = t.find? (fun x => x.1 == cur) := by
        rw [List.find?]
        rw [show (e.1 == cur) = false from by simp [h1]]
      rw [hfind]
      by_cases h2 : e.1 ∈ visited
      · rw [@List.filter_cons_of_neg _ (fun x => !((cur :: visited).contains x.1)) e t
            (by simp [h2]),
          @List.filter_cons_of_neg _ (fun x => !(visited.contains x.1)) e t (by simp [h2])]
        exact ih
      · rw [@List.filter_cons_of_pos _ (fun x => !((cur :: visited).contains x.1)) e t
            (by simp [h1, h2]),
          @List.filter_cons_of_pos _ (fun x => !(visited.contains x.1)) e t (by simp [h2])]
        rw [List.map_cons, List.sum_cons, List.map_cons, List.sum_cons]
        have hih := ih
        omega

theorem dependentsOf_find_len (S : SheetState) (cur : CellId) :
    (match S.cells.find? (fun e => e.1 == cur) with
     | some e => e.2.dependent_cells.length
     | none => 0) = (dependentsOf S cur).length := by
  unfold dependentsOf lookupCell
  cases S.cells.find? (fun e => e.1 == cur) with
  | none => rfl
  | some e => rfl

theorem reach_closed_dep (S : SheetState) (visited : List CellId)
    (hcl : ∀ v ∈ visited, ∀ w ∈ dependentsOf S v, w ∈ visited) :
    ∀ a b, Relation.ReflTransGen (stepDep S) a b → a ∈ visited → b ∈ visited := by
  intro a b h
  induction h with
  | refl => exact fun ha => ha
  | tail hab hbc ih => exact fun ha => hcl _ (ih ha) _ hbc

theorem invalDown_covers (S₀ : SheetState) :
    ∀ (fuel : Nat) (work vis : List CellId) (S : SheetState),
    (∀ i, dependentsOf S i = dependentsOf S₀ i) →
    (∀ v ∈ vis, cacheOf S v = none) →
    (∀ v ∈ vis, ∀ w ∈ dependentsOf S₀ v, w ∈ vis ∨ w ∈ work) →
    work.length + remCapD S₀ vis < fuel →
    ∀ Y, (∃ X, (X ∈ work ∨ X ∈ vis) ∧ Relation.ReflTransGen (stepDep S₀) X Y) →
    cacheOf (invalDownF fuel work vis S) Y = none := by
  intro fuel
  induction fuel with
  | zero =>
    intro work vis S hE hvc hcl hb Y hex
    omega
  | succ f ih =>
    intro work vis S hE hvc hcl hb Y hex
    match work with
    | [] =>
      obtain ⟨X, hX, hr⟩ := hex
      have hXv : X ∈ vis := by
        rcases hX with h | h
        · cases h
        · exact h
      have hYv : Y ∈ vis := by
        refine reach_closed_dep S₀ vis ?_ X Y hr hXv
        intro v hv w hw
        rcases hcl v hv w hw with h | h
        · exact h
        · cases h
      exact hvc Y hYv
    | cur :: st =>
      rw [invalDownF]
      by_cases hvis : cur ∈ vis
      · rw [if_pos hvis]
        apply ih st vis S hE hvc
        · intro v hv w hw
          rcases hcl v hv w hw with h | h
          · exact Or.inl h
          · rcases List.mem_cons.mp h with h' | h'
            · exact Or.inl (h' ▸ hvis)
            · exact Or.inr h'
        · have : (cur :: st).length = st.length + 1 := by simp
          omega
        · obtain ⟨X, hX, hr⟩ := hex
          refine ⟨X, ?_, hr⟩
          rcases hX with h | h
          · rcases List.mem_cons.mp h with h' | h'
            · exact Or.inr (h' ▸ hvis)
            · exact Or.inl h'
          · exact Or.inr h
      · rw [if_neg hvis]
        have hE1 : ∀ i, dependentsOf
            (updateCell S cur (fun n => { n with impl := n.impl.InvalidateCache })) i =
            dependentsOf S₀ i := by
          intro i
          rw [dependentsOf_updateCell_keep S cur
            (fun n => { n with impl := n.impl.InvalidateCache }) (fun c => rfl) i, hE]
        have hdep : dependentsOf
            (updateCell S cur (fun n => { n with impl := n.impl.InvalidateCache })) cur =
            dependentsOf S₀ cur := hE1 cur
        apply ih _ _ _ hE1
        · intro v hv
          rcases List.mem_cons.mp hv with h' | h'
          · rw [h', cacheOf_updateCell_inval, if_pos rfl]
          · have hne : ¬ v = cur := by
              intro hvc2
              rw [hvc2] at h'
              exact hvis h'
            rw [cacheOf_updateCell_inval, if_neg hne]
            exact hvc v h'
        · intro v hv w hw
          rcases List.mem_cons.mp hv with h' | h'
          · rw [h'] at hw
            exact Or.inr (by rw [hdep]; exact List.mem_append.mpr (Or.inl hw))
          · rcases hcl v h' w hw with h | h
            · exact Or.inl (List.mem_cons.mpr (Or.inr h))
            · rcases List.mem_cons.mp h with h'' | h''
              · exact Or.inl (List.mem_cons.mpr (Or.inl h''))
              · exact Or.inr (by rw [hdep]; exact List.mem_append.mpr (Or.inr h''))
        · have hlen : (dependentsOf
              (updateCell S cur (fun n => { n with impl := n.impl.InvalidateCache })) cur
              ++ st).length = (dependentsOf S₀ cur).length + st.length := by
            rw [hdep]
            simp
          have hcap := remCapD_cons_le cur vis hvis S₀.cells
          rw [dependentsOf_find_len] at hcap
          have hq : (cur :: st).length = st.length + 1 := by simp
          unfold remCapD at hb ⊢
          omega
        · obtain ⟨X, hX, hr⟩ := hex
          rcases hX with h | h
          · rcases List.mem_cons.mp h with h' | h'
            · rcases Relation.ReflTransGen.cases_head (h' ▸ hr) with h'' | ⟨w, hw1, hw2⟩
              · exact ⟨cur, Or.inr (by simp), h' ▸ hr⟩
              · refine ⟨w, Or.inl ?_, hw2⟩
                rw [hdep]
                exact List.mem_append.mpr (Or.inl hw1)
            · exact ⟨X, Or.inl (by rw [hdep]; exact List.mem_append.mpr (Or.inr h')), hr⟩
          · exact ⟨X, Or.inr (List.mem_cons.mpr (Or.inr h)), hr⟩


/-- Fuel monotonicity of the denotation. -/
theorem denote_mono (V : Position → VCell) :
    ∀ (k : Nat) (ast : Expr), ∀ (k' : Nat), k ≤ k' → ∀ r,
    denoteF k V ast = some r → denoteF k' V ast = some r := by
  intro k
  induction k with
  | zero =>
    intro ast
    induction ast with
    | lit q =>
      intro k' hk r h
      rw [denoteF] at h
      rw [denoteF]
      exact h
    | ref p =>
      intro k' hk r h
      rw [denoteF] at h
      rw [denoteF]
      by_cases hv : p.IsValid
      · rw [if_pos hv] at h ⊢
        cases hV : V p with
        | zero =>
          rw [hV] at h
          exact h
        | text s =>
          rw [hV] at h
          exact h
        | formula ast' =>
          rw [hV] at h
          dsimp only at h
          cases h
      · rw [if_neg hv] at h ⊢
        exact h
    | add a b iha ihb =>
      intro k' hk r h
      rw [denoteF] at h
      rw [denoteF]
      cases ha : denoteF 0 V a with
      | none =>
        rw [ha] at h
        cases h
      | some ra =>
        rw [ha] at h
        cases ra with
        | inr e =>
          rw [iha k' hk (.inr e) ha]
          exact h
        | inl x =>
          rw [iha k' hk (.inl x) ha]
          dsimp only at h ⊢
          cases hb : denoteF 0 V b with
          | none =>
            rw [hb] at h
            cases h
          | some rb =>
            rw [hb] at h
            cases rb with
            | inr e =>
              rw [ihb k' hk (.inr e) hb]
              exact h
            | inl y =>
              rw [ihb k' hk (.inl y) hb]
              exact h
    | sub a b iha ihb =>
      intro k' hk r h
      rw [denoteF] at h
      rw [denoteF]
      cases ha : denoteF 0 V a with
      | none =>
        rw [ha] at h
        cases h
      | some ra =>
        rw [ha] at h
        cases ra with
        | inr e =>
          rw [iha k' hk (.inr e) ha]
          exact h
        | inl x =>
          rw [iha k' hk (.inl x) ha]
          dsimp only at h ⊢
          cases hb : denoteF 0 V b with
          | none =>
            rw [hb] at h
            cases h
          | some rb =>
            rw [hb] at h
            cases rb with
            | inr e =>
              rw [ihb k' hk (.inr e) hb]
              exact h
            | inl y =>
              rw [ihb k' hk (.inl y) hb]
              exact h
    | mul a b iha ihb =>
      intro k' hk r h
      rw [denoteF] at h
      rw [denoteF]
      cases ha : denoteF 0 V a with
      | none =>
        rw [ha] at h
        cases h
      | some ra =>
        rw [ha] at h
        cases ra with
        | inr e =>
          rw [iha k' hk (.inr e) ha]
          exact h
        | inl x =>
          rw [iha k' hk (.inl x) ha]
          dsimp only at h ⊢
          cases hb : denoteF 0 V b with
          | none =>
            rw [hb] at h
            cases h
          | some rb =>
            rw [hb] at h
            cases rb with
            | inr e =>
              rw [ihb k' hk (.inr e) hb]
              exact h
            | inl y =>
              rw [ihb k' hk (.inl y) hb]
              exact h
    | div a b iha ihb =>
      intro k' hk r h
      rw [denoteF] at h
      rw [denoteF]
      cases ha : denoteF 0 V a with
      | none =>
        rw [ha] at h
        cases h
      | some ra =>
        rw [ha] at h
        cases ra with
        | inr e =>
          rw [iha k' hk (.inr e) ha]
          exact h
        | inl x =>
          rw [iha k' hk (.inl x) ha]
          dsimp only at h ⊢
          cases hb : denoteF 0 V b with
          | none =>
            rw [hb] at h
            cases h
          | some rb =>
            rw [hb] at h
            cases rb with
            | inr e =>
              rw [ihb k' hk (.inr e) hb]
              exact h
            | inl y =>
              rw [ihb k' hk (.inl y) hb]
              exact h
    | neg a iha =>
      intro k' hk r h
      rw [denoteF] at h
      rw [denoteF]
      cases ha : denoteF 0 V a with
      | none =>
        rw [ha] at h
        cases h
      | some ra =>
        rw [ha] at h
        cases ra with
        | inr e =>
          rw [iha k' hk (.inr e) ha]
          exact h
        | inl x =>
          rw [iha k' hk (.inl x) ha]
          exact h
    | pls a iha =>
      intro k' hk r h
      rw [denoteF] at h
      rw [denoteF]
      cases ha : denoteF 0 V a with
      | none =>
        rw [ha] at h
        cases h
      | some ra =>
        rw [ha] at h
        cases ra with
        | inr e =>
          rw [iha k' hk (.inr e) ha]
          exact h
        | inl x =>
          rw [iha k' hk (.inl x) ha]
          exact h
  | succ f ihf =>
    intro ast
    induction ast with
    | lit q =>
      intro k' hk r h
      rw [denoteF] at h
      rw [denoteF]
      exact h
    | ref p =>
      intro k' hk r h
      match k', hk with
      | k' + 1, hk =>
      rw [denoteF] at h
      rw [denoteF]
      by_cases hv : p.IsValid
      · rw [if_pos hv] at h ⊢
        cases hV : V p with
        | zero =>
          rw [hV] at h
          exact h
        | text s =>
          rw [hV] at h
          exact h
        | formula ast' =>
          rw [hV] at h
          dsimp only at h ⊢
          cases ha : denoteF f V ast' with
          | none =>
            rw [ha] at h
            cases h
          | some ra =>
            rw [ha] at h
            rw [ihf ast' k' (by omega) ra ha]
            exact h
      · rw [if_neg hv] at h ⊢
        exact h
    | add a b iha ihb =>
      intro k' hk r h
      rw [denoteF] at h
      rw [denoteF]
      cases ha : denoteF (f + 1) V a with
      | none =>
        rw [ha] at h
        cases h
      | some ra =>
        rw [ha] at h
        cases ra with
        | inr e =>
          rw [iha k' hk (.inr e) ha]
          exact h
        | inl x =>
          rw [iha k' hk (.inl x) ha]
          dsimp only at h ⊢
          cases hb : denoteF (f + 1) V b with
          | none =>
            rw [hb] at h
            cases h
          | some rb =>
            rw [hb] at h
            cases rb with
            | inr e =>
              rw [ihb k' hk (.inr e) hb]
              exact h
            | inl y =>
              rw [ihb k' hk (.inl y) hb]
              exact h
    | sub a b iha ihb =>
      intro k' hk r h
      rw [denoteF] at h
      rw [denoteF]
      cases ha : denoteF (f + 1) V a with
      | none =>
        rw [ha] at h
        cases h
      | some ra =>
        rw [ha] at h
        cases ra with
        | inr e =>
          rw [iha k' hk (.inr e) ha]
          exact h
        | inl x =>
          rw [iha k' hk (.inl x) ha]
          dsimp only at h ⊢
          cases hb : denoteF (f + 1) V b with
          | none =>
            rw [hb] at h
            cases h
          | some rb =>
            rw [hb] at h
            cases rb with
            | inr e =>
              rw [ihb k' hk (.inr e) hb]
              exact h
            | inl y =>
              rw [ihb k' hk (.inl y) hb]
              exact h
    | mul a b iha ihb =>
      intro k' hk r h
      rw [denoteF] at h
      rw [denoteF]
      cases ha : denoteF (f + 1) V a with
      | none =>
        rw [ha] at h
        cases h
      | some ra =>
        rw [ha] at h
        cases ra with
        | inr e =>
          rw [iha k' hk (.inr e) ha]
          exact h
        | inl x =>
          rw [iha k' hk (.inl x) ha]
          dsimp only at h ⊢
          cases hb : denoteF (f + 1) V b with
          | none =>
            rw [hb] at h
            cases h
          | some rb =>
            rw [hb] at h
            cases rb with
            | inr e =>
              rw [ihb k' hk (.inr e) hb]
              exact h
            | inl y =>
              rw [ihb k' hk (.inl y) hb]
              exact h
    | div a b iha ihb =>
      intro k' hk r h
      rw [denoteF] at h
      rw [denoteF]
      cases ha : denoteF (f + 1) V a with
      | none =>
        rw [ha] at h
        cases h
      | some ra =>
        rw [ha] at h
        cases ra with
        | inr e =>
          rw [iha k' hk (.inr e) ha]
          exact h
        | inl x =>
          rw [iha k' hk (.inl x) ha]
          dsimp only at h ⊢
          cases hb : denoteF (f + 1) V b with
          | none =>
            rw [hb] at h
            cases h
          | some rb =>
            rw [hb] at h
            cases rb with
            | inr e =>
              rw [ihb k' hk (.inr e) hb]
              exact h
            | inl y =>
              rw [ihb k' hk (.inl y) hb]
              exact h
    | neg a iha =>
      intro k' hk r h
      rw [denoteF] at h
      rw [denoteF]
      cases ha : denoteF (f + 1) V a with
      | none =>
        rw [ha] at h
        cases h
      | some ra =>
        rw [ha] at h
        cases ra with
        | inr e =>
          rw [iha k' hk (.inr e) ha]
          exact h
        | inl x =>
          rw [iha k' hk (.inl x) ha]
          exact h
    | pls a iha =>
      intro k' hk r h
      rw [denoteF] at h
      rw [denoteF]
      cases ha : denoteF (f + 1) V a with
      | none =>
        rw [ha] at h
        cases h
      | some ra =>
        rw [ha] at h
        cases ra with
        | inr e =>
          rw [iha k' hk (.inr e) ha]
          exact h
        | inl x =>
          rw [iha k' hk (.inl x) ha]
          exact h


theorem denote_agree (V : Position → VCell) (k k' : Nat) (ast : Expr)
    (r r' : Rat ⊕ FormulaError)
    (h : denoteF k V ast = some r) (h' : denoteF k' V ast = some r') : r = r' := by
  rcases Nat.le_total k k' with hle | hle
  · rw [denote_mono V k ast k' hle r h] at h'
    injection h'
  · rw [denote_mono V k' ast k hle r' h'] at h
    injection h with h2
    exact h2.symm

/-- One reference step of the dependency graph, read off the grid. -/
def refStep (S : SheetState) (a b : CellId) : Prop :=
  ∃ c, lookupCell S a = some c ∧ ∃ ast cache, c.impl = .formula ast cache ∧
    ∃ p ∈ ast.refsRaw, gridGet S.grid p = some b

/-- No cell's references reach the cell itself. -/
def AcyclicRefs (S : SheetState) : Prop :=
  ∀ id, ¬ Relation.TransGen (refStep S) id id

theorem lookup_entry (S : SheetState) (id : CellId) (c : CellNode)
    (h : lookupCell S id = some c) : id ∈ keysOf S := by
  unfold lookupCell at h
  cases hf : S.cells.find? (fun e => e.1 == id) with
  | none =>
    rw [hf] at h
    cases h
  | some e =>
    have hm := List.mem_of_find?_eq_some hf
    have hp := @List.find?_some _ (fun e => e.1 == id) e S.cells hf
    have : e.1 = id := by simpa using hp
    unfold keysOf
    rw [← this]
    exact List.mem_map.mpr ⟨e, hm, rfl⟩

theorem viewOf_formula (S : SheetState) (p : Position) (ast' : Expr)
    (h : viewOf S p = .formula ast') :
    ∃ j c cache, gridGet S.grid p = some j ∧ lookupCell S j = some c ∧
      c.impl = .formula ast' cache := by
  unfold viewOf at h
  cases hg : gridGet S.grid p with
  | none =>
    rw [hg] at h
    cases h
  | some j =>
    rw [hg] at h
    dsimp only at h
    cases hl : lookupCell S j with
    | none =>
      rw [hl] at h
      cases h
    | some c =>
      rw [hl] at h
      dsimp only at h
      cases hi : c.impl with
      | empty =>
        rw [hi] at h
        cases h
      | text s =>
        rw [hi] at h
        cases h
      | formula ast0 cache =>
        rw [hi] at h
        dsimp only at h
        injection h with h2
        exact ⟨j, c, cache, rfl, hl, by rw [hi, h2]⟩

theorem denote_term (S : SheetState) (hac : AcyclicRefs S) :
    ∀ (f : Nat) (ast : Expr) (A : List CellId) (owner : CellId),
    A.Nodup →
    (∀ a ∈ A, a ∈ keysOf S) →
    owner ∈ A →
    (∀ a ∈ A, Relation.ReflTransGen (refStep S) a owner) →
    (∀ p ∈ ast.refsRaw, ∀ j, gridGet S.grid p = some j → refStep S owner j) →
    (keysOf S).length + 1 ≤ f + A.length →
    ∃ r, denoteF f (viewOf S) ast = some r := by
  intro f
  induction f with
  | zero =>
    intro ast A owner hnd hsub howner hreach hrefs hbudget
    exfalso
    have hle : A.length ≤ (keysOf S).length :=
      (List.subperm_of_subset hnd hsub).length_le
    omega
  | succ f0 ihf =>
    intro ast
    induction ast with
    | lit q =>
      intro A owner hnd hsub howner hreach hrefs hbudget
      exact ⟨.inl q, by rw [denoteF]⟩
    | ref p =>
      intro A owner hnd hsub howner hreach hrefs hbudget
      rw [denoteF]
      by_cases hv : p.IsValid
      · rw [if_pos hv]
        cases hV : viewOf S p with
        | zero => exact ⟨.inl 0, rfl⟩
        | text s =>
          dsimp only
          cases hc : cellValueToNumber (some (textImplValue s)) with
          | ok d => exact ⟨.inl d, rfl⟩
          | error e => exact ⟨.inr e, rfl⟩
        | formula ast' =>
          dsimp only
          obtain ⟨j, c, cache, hg, hl, hi⟩ := viewOf_formula S p ast' hV
          have hstep : refStep S owner j := hrefs p (by simp [Expr.refsRaw]) j hg
          have hjA : j ∉ A := by
            intro hjin
            exact hac owner (Relation.TransGen.head' hstep (hreach j hjin))
          obtain ⟨r', hr'⟩ := ihf ast' (j :: A) j
            (List.nodup_cons.mpr ⟨hjA, hnd⟩)
            (by
              intro a ha
              rcases List.mem_cons.mp ha with h' | h'
              · exact h' ▸ lookup_entry S j c hl
              · exact hsub a h')
            (by simp)
            (by
              intro a ha
              rcases List.mem_cons.mp ha with h' | h'
              · exact h' ▸ Relation.ReflTransGen.refl
              · exact (hreach a h').tail hstep)
            (by
              intro q hq i hi2
              exact ⟨c, hl, ast', cache, hi, q, hq, hi2⟩)
            (by
              have : (j :: A).length = A.length + 1 := by simp
              omega)
          rw [hr']
          cases r' with
          | inl d => exact ⟨.inl d, rfl⟩
          | inr e => exact ⟨.inr e, rfl⟩
      · rw [if_neg hv]
        exact ⟨.inr .Ref, rfl⟩
    | add a b iha ihb =>
      intro A owner hnd hsub howner hreach hrefs hbudget
      obtain ⟨ra, hra⟩ := iha A owner hnd hsub howner hreach
        (fun p hp => hrefs p (by simp [Expr.refsRaw, hp])) hbudget
      obtain ⟨rb, hrb⟩ := ihb A owner hnd hsub howner hreach
        (fun p hp => hrefs p (by simp [Expr.refsRaw, hp])) hbudget
      rw [denoteF, hra]
      cases ra with
      | inr e => exact ⟨.inr e, rfl⟩
      | inl x =>
        dsimp only
        rw [hrb]
        cases rb with
        | inr e => exact ⟨.inr e, rfl⟩
        | inl y =>
          dsimp only
          by_cases hfin : qLt maxDouble (qAbs (qAdd x y))
          · rw [if_pos hfin]
            exact ⟨.inr .Arithmetic, rfl⟩
          · rw [if_neg hfin]
            exact ⟨.inl (qAdd x y), rfl⟩
    | sub a b iha ihb =>
      intro A owner hnd hsub howner hreach hrefs hbudget
      obtain ⟨ra, hra⟩ := iha A owner hnd hsub howner hreach
        (fun p hp => hrefs p (by simp [Expr.refsRaw, hp])) hbudget
      obtain ⟨rb, hrb⟩ := ihb A owner hnd hsub howner hreach
        (fun p hp => hrefs p (by simp [Expr.refsRaw, hp])) hbudget
      rw [denoteF, hra]
      cases ra with
      | inr e => exact ⟨.inr e, rfl⟩
      | inl x =>
        dsimp only
        rw [hrb]
        cases rb with
        | inr e => exact ⟨.inr e, rfl⟩
        | inl y =>
          dsimp only
          by_cases hfin : qLt maxDouble (qAbs (qSub x y))
          · rw [if_pos hfin]
            exact ⟨.inr .Arithmetic, rfl⟩
          · rw [if_neg hfin]
            exact ⟨.inl (qSub x y), rfl⟩
    | mul a b iha ihb =>
      intro A owner hnd hsub howner hreach hrefs hbudget
      obtain ⟨ra, hra⟩ := iha A owner hnd hsub howner hreach
        (fun p hp => hrefs p (by simp [Expr.refsRaw, hp])) hbudget
      obtain ⟨rb, hrb⟩ := ihb A owner hnd hsub howner hreach
        (fun p hp => hrefs p (by simp [Expr.refsRaw, hp])) hbudget
      rw [denoteF, hra]
      cases ra with
      | inr e => exact ⟨.inr e, rfl⟩
      | inl x =>
        dsimp only
        rw [hrb]
        cases rb with
        | inr e => exact ⟨.inr e, rfl⟩
        | inl y =>
          dsimp only
          by_cases hfin : qLt maxDouble (qAbs (qMul x y))
          · rw [if_pos hfin]
            exact ⟨.inr .Arithmetic, rfl⟩
          · rw [if_neg hfin]
            exact ⟨.inl (qMul x y), rfl⟩
    | div a b iha ihb =>
      intro A owner hnd hsub howner hreach hrefs hbudget
      obtain ⟨ra, hra⟩ := iha A owner hnd hsub howner hreach
        (fun p hp => hrefs p (by simp [Expr.refsRaw, hp])) hbudget
      obtain ⟨rb, hrb⟩ := ihb A owner hnd hsub howner hreach
        (fun p hp => hrefs p (by simp [Expr.refsRaw, hp])) hbudget
      rw [denoteF, hra]
      cases ra with
      | inr e => exact ⟨.inr e, rfl⟩
      | inl x =>
        dsimp only
        rw [hrb]
        cases rb with
        | inr e => exact ⟨.inr e, rfl⟩
        | inl y =>
          dsimp only
          by_cases hz : y = 0
          · rw [if_pos hz]
            exact ⟨.inr .Arithmetic, rfl⟩
          · rw [if_neg hz]
            by_cases hfin : qLt maxDouble (qAbs (qDiv x y))
            · rw [if_pos hfin]
              exact ⟨.inr .Arithmetic, rfl⟩
            · rw [if_neg hfin]
              exact ⟨.inl (qDiv x y), rfl⟩
    | neg a iha =>
      intro A owner hnd hsub howner hreach hrefs hbudget
      obtain ⟨ra, hra⟩ := iha A owner hnd hsub howner hreach
        (fun p hp => hrefs p (by simp [Expr.refsRaw, hp])) hbudget
      rw [denoteF, hra]
      cases ra with
      | inr e => exact ⟨.inr e, rfl⟩
      | inl x => exact ⟨.inl (qNeg x), rfl⟩
    | pls a iha =>
      intro A owner hnd hsub howner hreach hrefs hbudget
      obtain ⟨ra, hra⟩ := iha A owner hnd hsub howner hreach
        (fun p hp => hrefs p (by simp [Expr.refsRaw, hp])) hbudget
      rw [denoteF, hra]
      cases ra with
      | inr e => exact ⟨.inr e, rfl⟩
      | inl x => exact ⟨.inl x, rfl⟩


/-! ### C3 auxiliary lemmas: keys, nodup lookups, membership helpers -/

theorem keys_len (S : SheetState) : (keysOf S).length = S.cells.length := by
  unfold keysOf
  rw [List.length_map]

theorem keys_strip (S : SheetState) : keysOf (stripCaches S) = keysOf S := by
  unfold keysOf stripCaches
  dsimp only
  rw [List.map_map]
  apply List.map_congr_left
  intro e _
  rfl

theorem keys_congr_of_strip (S1 S2 : SheetState) (h : stripCaches S1 = stripCaches S2) :
    keysOf S1 = keysOf S2 := by
  rw [← keys_strip S1, ← keys_strip S2, h]

theorem find_of_mem_nodup :
    ∀ (l : List (CellId × CellNode)), (l.map (fun e => e.1)).Nodup →
    ∀ e ∈ l, l.find? (fun x => x.1 == e.1) = some e := by
  intro l
  induction l with
  | nil => intro _ e he; cases he
  | cons a t ih =>
    intro hnd e he
    rw [List.map_cons, List.nodup_cons] at hnd
    rcases List.mem_cons.mp he with rfl | hmem
    · rw [List.find?]
      rw [show (e.1 == e.1) = true from by simp]
    · rw [List.find?]
      have hne : (a.1 == e.1) = false := by
        refine beq_eq_false_iff_ne.mpr ?_
        intro hcontra
        exact hnd.1 (hcontra ▸ List.mem_map.mpr ⟨e, hmem, rfl⟩)
      rw [hne]
      exact ih hnd.2 e hmem

theorem lookup_of_mem_nodup (S : SheetState) (hnd : (keysOf S).Nodup)
    (e : CellId × CellNode) (he : e ∈ S.cells) : lookupCell S e.1 = some e.2 := by
  unfold lookupCell
  unfold keysOf at hnd
  rw [find_of_mem_nodup S.cells hnd e he]
  rfl

theorem mem_keys_iff_lookup (S : SheetState) (x : CellId) :
    x ∈ keysOf S ↔ (lookupCell S x).isSome := by
  unfold keysOf lookupCell
  constructor
  · intro h
    rcases List.mem_map.mp h with ⟨e, he, hx⟩
    have : S.cells.find? (fun e => e.1 == x) |>.isSome := by
      rw [List.find?_isSome]
      exact ⟨e, he, by simp [hx]⟩
    cases hf : S.cells.find? (fun e => e.1 == x) with
    | none =>
      rw [hf] at this
      cases this
    | some e0 => rfl
  · intro h
    cases hf : S.cells.find? (fun e => e.1 == x) with
    | none => rw [hf] at h; cases h
    | some e0 =>
      have hm := List.mem_of_find?_eq_some hf
      have hp := @List.find?_some _ (fun e => e.1 == x) e0 S.cells hf
      have hx : e0.1 = x := by simpa using hp
      exact List.mem_map.mpr ⟨e0, hm, hx⟩

theorem gridGet_congr_slot (g : List (List (Option CellId))) (p q : Position)
    (hr : p.row.toNat = q.row.toNat) (hc : p.col.toNat = q.col.toNat) :
    gridGet g p = gridGet g q := by
  unfold gridGet
  rw [hr, hc]

theorem rtg_avoid_src {α : Type} (R : α → α → Prop) (t : α) :
    ∀ x, Relation.ReflTransGen R x t →
      Relation.ReflTransGen (fun a b => R a b ∧ a ≠ t) x t := by
  intro x h
  induction h using Relation.ReflTransGen.head_induction_on with
  | refl => exact Relation.ReflTransGen.refl
  | @head a b hab hbt ih =>
    by_cases hx : a = t
    · rw [hx]
    · exact Relation.ReflTransGen.head ⟨hab, hx⟩ ih

theorem rtg_avoid_tgt {α : Type} (R : α → α → Prop) (s : α) :
    ∀ y, Relation.ReflTransGen R s y →
      Relation.ReflTransGen (fun a b => R a b ∧ b ≠ s) s y := by
  intro y h
  induction h with
  | refl => exact Relation.ReflTransGen.refl
  | @tail b c hab hbc ih =>
    by_cases hc : c = s
    · rw [hc]
    · exact Relation.ReflTransGen.tail ih ⟨hbc, hc⟩

theorem mem_insSorted (x : CellId) : ∀ (l : List CellId) (y : CellId),
    y ∈ insSorted x l ↔ y = x ∨ y ∈ l := by
  intro l
  induction l with
  | nil =>
    intro y
    rw [insSorted]
    simp
  | cons a t ih =>
    intro y
    rw [insSorted]
    by_cases h1 : x < a
    · rw [if_pos h1]
      constructor
      · intro h
        rcases List.mem_cons.mp h with rfl | h2
        · exact Or.inl rfl
        · exact Or.inr h2
      · intro h
        rcases h with rfl | h2
        · exact List.mem_cons_self _ _
        · exact List.mem_cons.mpr (Or.inr h2)
    · rw [if_neg h1]
      by_cases h2 : x = a
      · rw [if_pos h2]
        constructor
        · intro h
          exact Or.inr h
        · intro h
          rcases h with rfl | h3
          · rw [h2]
            exact List.mem_cons_self _ _
          · exact h3
      · rw [if_neg h2]
        constructor
        · intro h
          rcases List.mem_cons.mp h with rfl | h3
          · exact Or.inr (List.mem_cons_self _ _)
          · rcases (ih y).mp h3 with h4 | h4
            · exact Or.inl h4
            · exact Or.inr (List.mem_cons.mpr (Or.inr h4))
        · intro h
          rcases h with rfl | h3
          · exact List.mem_cons.mpr (Or.inr ((ih y).mpr (Or.inl rfl)))
          · rcases List.mem_cons.mp h3 with rfl | h4
            · exact List.mem_cons_self _ _
            · exact List.mem_cons.mpr (Or.inr ((ih y).mpr (Or.inr h4)))

theorem mem_ersAll (x : CellId) (l : List CellId) (y : CellId) :
    y ∈ ersAll x l ↔ y ∈ l ∧ y ≠ x := by
  unfold ersAll
  rw [List.mem_filter]
  simp

theorem mem_insertPos (p : Position) : ∀ (l : List Position) (q : Position),
    q ∈ insertPos p l ↔ q = p ∨ q ∈ l := by
  intro l
  induction l with
  | nil =>
    intro q
    rw [insertPos]
    simp
  | cons a t ih =>
    intro q
    rw [insertPos]
    by_cases h1 : Position.lt p a
    · rw [if_pos h1]
      constructor
      · intro h
        rcases List.mem_cons.mp h with rfl | h2
        · exact Or.inl rfl
        · exact Or.inr h2
      · intro h
        rcases h with rfl | h2
        · exact List.mem_cons_self _ _
        · exact List.mem_cons.mpr (Or.inr h2)
    · rw [if_neg h1]
      constructor
      · intro h
        rcases List.mem_cons.mp h with rfl | h2
        · exact Or.inr (List.mem_cons_self _ _)
        · rcases (ih q).mp h2 with h3 | h3
          · exact Or.inl h3
          · exact Or.inr (List.mem_cons.mpr (Or.inr h3))
      · intro h
        rcases h with rfl | h2
        · exact List.mem_cons.mpr (Or.inr ((ih q).mpr (Or.inl rfl)))
        · rcases List.mem_cons.mp h2 with rfl | h3
          · exact List.mem_cons_self _ _
          · exact List.mem_cons.mpr (Or.inr ((ih q).mpr (Or.inr h3)))

theorem mem_sortPos_of_mem : ∀ (l : List Position) (q : Position),
    q ∈ l → q ∈ sortPos l := by
  intro l
  induction l with
  | nil => intro q h; cases h
  | cons a t ih =>
    intro q h
    unfold sortPos
    rw [List.foldr_cons]
    rcases List.mem_cons.mp h with he | hmem
    · exact (mem_insertPos _ _ q).mpr (Or.inl he)
    · exact (mem_insertPos _ _ q).mpr (Or.inr (ih q hmem))

theorem mem_dedupAdj_of_mem : ∀ (l : List Position) (q : Position),
    q ∈ l → q ∈ dedupAdj l := by
  intro l
  induction l with
  | nil => intro q h; cases h
  | cons p t ih =>
    intro q h
    cases t with
    | nil =>
      rw [dedupAdj]
      exact h
    | cons p2 t2 =>
      rw [dedupAdj]
      by_cases he : p = p2
      · rw [if_pos he]
        rcases List.mem_cons.mp h with rfl | hmem
        · exact ih q (by rw [he]; exact List.mem_cons_self p2 t2)
        · exact ih q hmem
      · rw [if_neg he]
        rcases List.mem_cons.mp h with rfl | hmem
        · exact List.mem_cons_self q _
        · exact List.mem_cons.mpr (Or.inr (ih q hmem))

theorem refsRaw_subset_getRefs (ast : Expr) (p : Position) (hp : p ∈ ast.refsRaw) :
    p ∈ getReferencedCells ast :=
  mem_dedupAdj_of_mem _ _ (mem_sortPos_of_mem _ _ hp)

theorem collectSeeds_some_noself (S : SheetState) (selfId : CellId) :
    ∀ (refs : List Position) (seeds : List CellId),
    collectSeeds S selfId refs = .ok (some seeds) →
    ∀ p ∈ refs, gridGet S.grid p ≠ some selfId := by
  intro refs
  induction refs with
  | nil => intro seeds h p hp; cases hp
  | cons q rest ih =>
    intro seeds h p hp
    rw [collectSeeds] at h
    cases hg : Sheet.GetCell S q with
    | error e =>
      rw [hg] at h
      cases h
    | ok c0 =>
      rw [hg] at h
      cases c0 with
      | none =>
        dsimp only at h
        rcases List.mem_cons.mp hp with rfl | hmem
        · intro hcontra
          unfold Sheet.GetCell at hg
          by_cases hv : p.IsValid
          · rw [if_pos hv] at hg
            injection hg with h2
            rw [hcontra] at h2
            cases h2
          · rw [if_neg hv] at hg
            cases hg
        · exact ih seeds h p hmem
      | some c1 =>
        dsimp only at h
        by_cases hcs : c1 = selfId
        · rw [if_pos hcs] at h
          cases h
        · rw [if_neg hcs] at h
          cases hrec : collectSeeds S selfId rest with
          | error e =>
            rw [hrec] at h
            cases h
          | ok o =>
            rw [hrec] at h
            cases o with
            | none => cases h
            | some l =>
              rcases List.mem_cons.mp hp with rfl | hmem
              · intro hcontra
                unfold Sheet.GetCell at hg
                by_cases hv : p.IsValid
                · rw [if_pos hv] at hg
                  injection hg with h2
                  rw [hcontra] at h2
                  injection h2 with h3
                  exact hcs h3.symm
                · rw [if_neg hv] at hg
                  cases hg
              · exact ih l hrec p hmem

theorem remCapD_nil_le (S : SheetState) :
    remCapD S [] ≤
      (S.cells.map (fun e => e.2.source_cells.length + e.2.dependent_cells.length)).sum := by
  unfold remCapD
  have hfilt : S.cells.filter (fun e => !(([] : List CellId).contains e.1)) = S.cells := by
    apply List.filter_eq_self.mpr
    intro e _
    rfl
  rw [hfilt]
  apply List.sum_le_sum
  intro e _
  omega

theorem strip_cacheWrite (S : SheetState) (id : CellId) (ast : Expr) (v : CellValue)
    (hnd : (keysOf S).Nodup) (c : CellNode)
    (hl : lookupCell S id = some c) (hs : stripImpl c.impl = .formula ast none) :
    stripCaches (updateCell S id (fun n => { n with impl := .formula ast (some v) })) =
      stripCaches S := by
  unfold stripCaches updateCell
  dsimp only
  rw [List.map_map]
  congr 1
  apply List.map_congr_left
  intro e he
  show (fun e => (e.1, stripNode e.2))
      (if e.1 = id then (e.1, { e.2 with impl := .formula ast (some v) }) else e) =
    (e.1, stripNode e.2)
  by_cases h : e.1 = id
  · rw [if_pos h]
    dsimp only
    have hle := lookup_of_mem_nodup S hnd e he
    rw [h, hl] at hle
    injection hle with h2
    have h3 : stripImpl e.2.impl = .formula ast none := by rw [← h2]; exact hs
    show (e.1, { e.2 with impl := stripImpl (.formula ast (some v)) }) =
      (e.1, { e.2 with impl := stripImpl e.2.impl })
    rw [h3]
    rfl
  · rw [if_neg h]

theorem freshAll_lookup (S : SheetState) (hf : FreshAll S) (id : CellId) (c : CellNode)
    (ast : Expr) (v : CellValue) (hl : lookupCell S id = some c)
    (hi : c.impl = .formula ast (some v)) : freshOutcome S ast = some v := by
  unfold lookupCell at hl
  cases hfind : S.cells.find? (fun e => e.1 == id) with
  | none =>
    rw [hfind] at hl
    cases hl
  | some e =>
    rw [hfind] at hl
    simp only [Option.map_some'] at hl
    injection hl with h2
    have hmem := List.mem_of_find?_eq_some hfind
    have hff := hf e hmem
    rw [h2, hi] at hff
    unfold implFresh at hff
    exact of_decide_eq_true hff

theorem implFresh_congr_of_strip (S1 S2 : SheetState)
    (h : stripCaches S1 = stripCaches S2) (i : CellImpl)
    (hi : implFresh S2 i = true) : implFresh S1 i = true := by
  cases i with
  | empty => rfl
  | text s => rfl
  | formula a cc =>
    cases cc with
    | none => rfl
    | some w =>
      have h2 : freshOutcome S1 a = freshOutcome S2 a := freshOutcome_congr_of_strip S1 S2 h a
      show decide (freshOutcome S1 a = some w) = true
      rw [h2]
      exact hi

theorem freshAll_cacheWrite (S : SheetState) (id : CellId) (ast : Expr) (v : CellValue)
    (hfresh : FreshAll S)
    (hstrip : stripCaches (updateCell S id (fun n => { n with impl := .formula ast (some v) })) =
      stripCaches S)
    (hv : freshOutcome S ast = some v) :
    FreshAll (updateCell S id (fun n => { n with impl := .formula ast (some v) })) := by
  intro e2 he2
  unfold updateCell at he2
  dsimp only at he2
  rcases List.mem_map.mp he2 with ⟨e, he, heq⟩
  by_cases h : e.1 = id
  · rw [if_pos h] at heq
    rw [← heq]
    show implFresh _ (CellImpl.formula ast (some v)) = true
    unfold implFresh
    refine decide_eq_true ?_
    rw [freshOutcome_congr_of_strip _ S hstrip]
    exact hv
  · rw [if_neg h] at heq
    rw [← heq]
    exact implFresh_congr_of_strip _ S hstrip e.2.impl (hfresh e he)

/-- Expected evaluator outcome for a denoted result. -/
def outcomeExc (r : Rat ⊕ FormulaError) (S : SheetState) :
    Except (EvalExn × SheetState) (Rat × SheetState) :=
  match r with
  | .inl d => .ok (d, S)
  | .inr e => .error (.fe e, S)


/-! ### View characterisation helpers -/

theorem view_none (S : SheetState) (p : Position) (h : gridGet S.grid p = none) :
    viewOf S p = .zero := by
  unfold viewOf
  rw [h]

theorem view_dangling (S : SheetState) (p : Position) (id : CellId)
    (h : gridGet S.grid p = some id) (hl : lookupCell S id = none) :
    viewOf S p = .zero := by
  unfold viewOf
  rw [h]
  dsimp only
  rw [hl]

theorem view_empty (S : SheetState) (p : Position) (id : CellId) (c : CellNode)
    (h : gridGet S.grid p = some id) (hl : lookupCell S id = some c)
    (hi : c.impl = .empty) : viewOf S p = .zero := by
  unfold viewOf
  rw [h]
  dsimp only
  rw [hl]
  dsimp only
  rw [hi]

theorem view_text (S : SheetState) (p : Position) (id : CellId) (c : CellNode) (s : String)
    (h : gridGet S.grid p = some id) (hl : lookupCell S id = some c)
    (hi : c.impl = .text s) : viewOf S p = .text s := by
  unfold viewOf
  rw [h]
  dsimp only
  rw [hl]
  dsimp only
  rw [hi]

theorem view_formula_eq (S : SheetState) (p : Position) (id : CellId) (c : CellNode)
    (ast : Expr) (cache : Option CellValue)
    (h : gridGet S.grid p = some id) (hl : lookupCell S id = some c)
    (hi : c.impl = .formula ast cache) : viewOf S p = .formula ast := by
  unfold viewOf
  rw [h]
  dsimp only
  rw [hl]
  dsimp only
  rw [hi]


/-! ### Resolver characterisation -/

theorem cellGetValueF_none (f0 : Nat) (S : SheetState) (id : CellId)
    (hl : lookupCell S id = none) : cellGetValueF (f0 + 1) S id = .ok (.str "", S) := by
  rw [cellGetValueF, hl]

theorem cellGetValueF_empty (f0 : Nat) (S : SheetState) (id : CellId) (c : CellNode)
    (hl : lookupCell S id = some c) (hi : c.impl = .empty) :
    cellGetValueF (f0 + 1) S id = .ok (.num 0, S) := by
  rw [cellGetValueF, hl]
  dsimp only
  rw [hi]

theorem cellGetValueF_text (f0 : Nat) (S : SheetState) (id : CellId) (c : CellNode)
    (s : String) (hl : lookupCell S id = some c) (hi : c.impl = .text s) :
    cellGetValueF (f0 + 1) S id = .ok (textImplValue s, S) := by
  rw [cellGetValueF, hl]
  dsimp only
  rw [hi]

theorem cellGetValueF_hit (f0 : Nat) (S : SheetState) (id : CellId) (c : CellNode)
    (ast1 : Expr) (v : CellValue) (hl : lookupCell S id = some c)
    (hi : c.impl = .formula ast1 (some v)) :
    cellGetValueF (f0 + 1) S id = .ok (v, S) := by
  rw [cellGetValueF, hl]
  dsimp only
  rw [hi]

theorem cellGetValueF_miss (f0 : Nat) (S : SheetState) (id : CellId) (c : CellNode)
    (ast1 : Expr) (hl : lookupCell S id = some c) (hi : c.impl = .formula ast1 none)
    (r1 : Rat ⊕ FormulaError) (S1 : SheetState)
    (hev : evalAstP (cellGetValueF f0) S ast1 = outcomeExc r1 S1) :
    cellGetValueF (f0 + 1) S id =
      .ok (resToCellValue r1,
        updateCell S1 id (fun n => { n with impl := .formula ast1 (some (resToCellValue r1)) })) := by
  rw [cellGetValueF, hl]
  dsimp only
  rw [hi]
  dsimp only
  rw [hev]
  cases r1 with
  | inl d => rfl
  | inr e => rfl

theorem lookup_of_strip_eq (S1 S : SheetState) (h : stripCaches S1 = stripCaches S)
    (id : CellId) (c : CellNode) (hl : lookupCell S id = some c) :
    ∃ c1, lookupCell S1 id = some c1 ∧ stripImpl c1.impl = stripImpl c.impl := by
  have hc := lookup_congr_of_strip S1 S h id
  rw [hl] at hc
  cases hl1 : lookupCell S1 id with
  | none =>
    rw [hl1] at hc
    simp only [Option.map_none', Option.map_some'] at hc
    exact Option.noConfusion hc
  | some c1 =>
    rw [hl1] at hc
    simp only [Option.map_some'] at hc
    injection hc with h2
    exact ⟨c1, rfl, congrArg CellNode.impl h2⟩

/-! ### Adequacy: the caching evaluator computes the reference denotation -/

/-- On a sheet whose memos are all fresh, the caching evaluator returns
exactly the reference denotation, touching only caches. -/
theorem evalAst_adequate :
    ∀ (f : Nat) (ast : Expr) (S : SheetState) (k : Nat) (r : Rat ⊕ FormulaError),
    FreshAll S → (keysOf S).Nodup →
    denoteF k (viewOf S) ast = some r →
    k < f → k ≤ S.cells.length + 1 →
    ∃ S2, stripCaches S2 = stripCaches S ∧ FreshAll S2 ∧ (keysOf S2).Nodup ∧
      evalAstP (cellGetValueF f) S ast = outcomeExc r S2 := by
  intro f
  induction f with
  | zero =>
    intro ast S k r _ _ _ hk _
    exact absurd hk (Nat.not_lt_zero k)
  | succ f0 ihf =>
    intro ast
    induction ast with
    | lit q =>
      intro S k r hfr hnd hden hk hkb
      rw [denoteF] at hden
      injection hden with h2
      refine ⟨S, rfl, hfr, hnd, ?_⟩
      rw [evalAstP, ← h2]
      rfl
    | ref p =>
      intro S k r hfr hnd hden hk hkb
      rw [denoteF] at hden
      rw [evalAstP]
      by_cases hv : p.IsValid
      · rw [if_pos hv] at hden
        rw [if_pos hv, getCell_of_valid S p hv]
        cases hg : gridGet S.grid p with
        | none =>
          rw [view_none S p hg] at hden
          dsimp only at hden
          injection hden with h2
          refine ⟨S, rfl, hfr, hnd, ?_⟩
          rw [← h2]
          rfl
        | some id =>
          dsimp only
          cases hl : lookupCell S id with
          | none =>
            rw [view_dangling S p id hg hl] at hden
            dsimp only at hden
            injection hden with h2
            refine ⟨S, rfl, hfr, hnd, ?_⟩
            rw [cellGetValueF_none f0 S id hl, ← h2]
            rfl
          | some c =>
            cases hi : c.impl with
            | empty =>
              rw [view_empty S p id c hg hl hi] at hden
              dsimp only at hden
              injection hden with h2
              refine ⟨S, rfl, hfr, hnd, ?_⟩
              rw [cellGetValueF_empty f0 S id c hl hi, ← h2]
              rfl
            | text s =>
              rw [view_text S p id c s hg hl hi] at hden
              dsimp only at hden
              refine ⟨S, rfl, hfr, hnd, ?_⟩
              rw [cellGetValueF_text f0 S id c s hl hi]
              dsimp only
              cases hcv : cellValueToNumber (some (textImplValue s)) with
              | ok d =>
                rw [hcv] at hden
                injection hden with h2
                rw [← h2]
                rfl
              | error e =>
                rw [hcv] at hden
                injection hden with h2
                rw [← h2]
                rfl
            | formula ast1 cache =>
              rw [view_formula_eq S p id c ast1 cache hg hl hi] at hden
              dsimp only at hden
              cases k with
              | zero => cases hden
              | succ k0 =>
                dsimp only at hden
                cases hd1 : denoteF k0 (viewOf S) ast1 with
                | none =>
                  rw [hd1] at hden
                  cases hden
                | some r1 =>
                  rw [hd1] at hden
                  cases cache with
                  | some v =>
                    have hfo := freshAll_lookup S hfr id c ast1 v hl hi
                    have hmono := denote_mono (viewOf S) k0 ast1 (S.cells.length + 1)
                      (by omega) r1 hd1
                    unfold freshOutcome at hfo
                    rw [hmono] at hfo
                    simp only [Option.map_some'] at hfo
                    injection hfo with hv2
                    refine ⟨S, rfl, hfr, hnd, ?_⟩
                    rw [cellGetValueF_hit f0 S id c ast1 v hl hi]
                    dsimp only
                    cases r1 with
                    | inl d =>
                      dsimp only at hden
                      injection hden with h2
                      rw [← hv2, ← h2]
                      rfl
                    | inr e =>
                      dsimp only at hden
                      injection hden with h2
                      rw [← hv2, ← h2]
                      rfl
                  | none =>
                    obtain ⟨S1, hs1, hfr1, hnd1, hev1⟩ := ihf ast1 S k0 r1 hfr hnd hd1
                      (by omega) (by omega)
                    have hres := cellGetValueF_miss f0 S id c ast1 hl hi r1 S1 hev1
                    obtain ⟨c1, hl1, hstr1⟩ := lookup_of_strip_eq S1 S hs1 id c hl
                    have hstr2 : stripImpl c1.impl = .formula ast1 none := by
                      rw [hstr1, hi]
                      rfl
                    have hwrite := strip_cacheWrite S1 id ast1 (resToCellValue r1) hnd1 c1
                      hl1 hstr2
                    have hfw : freshOutcome S1 ast1 = some (resToCellValue r1) := by
                      rw [freshOutcome_congr_of_strip S1 S hs1]
                      unfold freshOutcome
                      rw [denote_mono (viewOf S) k0 ast1 (S.cells.length + 1) (by omega) r1 hd1]
                      rfl
                    have hfr2 := freshAll_cacheWrite S1 id ast1 (resToCellValue r1) hfr1
                      hwrite hfw
                    refine ⟨updateCell S1 id
                      (fun n => { n with impl := .formula ast1 (some (resToCellValue r1)) }),
                      ?_, ?_, ?_, ?_⟩
                    · rw [hwrite, hs1]
                    · exact hfr2
                    · rw [updateCell_keys]
                      exact hnd1
                    · rw [hres]
                      dsimp only
                      cases r1 with
                      | inl d =>
                        dsimp only at hden
                        injection hden with h2
                        rw [← h2]
                        rfl
                      | inr e =>
                        dsimp only at hden
                        injection hden with h2
                        rw [← h2]
                        rfl
      · rw [if_neg hv] at hden
        rw [if_neg hv]
        injection hden with h2
        refine ⟨S, rfl, hfr, hnd, ?_⟩
        rw [← h2]
        rfl
    | add a b iha ihb =>
      intro S k r hfr hnd hden hk hkb
      rw [denoteF] at hden
      rw [evalAstP]
      cases hda : denoteF k (viewOf S) a with
      | none =>
        rw [hda] at hden
        cases hden
      | some ra =>
        rw [hda] at hden
        obtain ⟨S1, hs1, hfr1, hnd1, hev1⟩ := iha S k ra hfr hnd hda hk hkb
        rw [hev1]
        cases ra with
        | inr e =>
          dsimp only at hden
          injection hden with h2
          refine ⟨S1, hs1, hfr1, hnd1, ?_⟩
          rw [← h2]
          rfl
        | inl x =>
          dsimp only at hden
          cases hdb : denoteF k (viewOf S) b with
          | none =>
            rw [hdb] at hden
            cases hden
          | some rb =>
            rw [hdb] at hden
            have hdb1 : denoteF k (viewOf S1) b = some rb := by
              rw [funext (view_congr_of_strip S1 S hs1)]
              exact hdb
            have hkb1 : k ≤ S1.cells.length + 1 := by
              rw [length_congr_of_strip S1 S hs1]
              exact hkb
            obtain ⟨S2, hs2, hfr2, hnd2, hev2⟩ := ihb S1 k rb hfr1 hnd1 hdb1 hk hkb1
            dsimp only [outcomeExc]
            rw [hev2]
            cases rb with
            | inr e =>
              dsimp only at hden
              injection hden with h2
              refine ⟨S2, hs2.trans hs1, hfr2, hnd2, ?_⟩
              rw [← h2]
              rfl
            | inl y =>
              dsimp only at hden
              refine ⟨S2, hs2.trans hs1, hfr2, hnd2, ?_⟩
              dsimp only [outcomeExc]
              by_cases hfin : qLt maxDouble (qAbs (qAdd x y))
              · rw [if_pos hfin] at hden
                injection hden with h2
                rw [if_pos hfin, ← h2]
              · rw [if_neg hfin] at hden
                injection hden with h2
                rw [if_neg hfin, ← h2]
    | sub a b iha ihb =>
      intro S k r hfr hnd hden hk hkb
      rw [denoteF] at hden
      rw [evalAstP]
      cases hda : denoteF k (viewOf S) a with
      | none =>
        rw [hda] at hden
        cases hden
      | some ra =>
        rw [hda] at hden
        obtain ⟨S1, hs1, hfr1, hnd1, hev1⟩ := iha S k ra hfr hnd hda hk hkb
        rw [hev1]
        cases ra with
        | inr e =>
          dsimp only at hden
          injection hden with h2
          refine ⟨S1, hs1, hfr1, hnd1, ?_⟩
          rw [← h2]
          rfl
        | inl x =>
          dsimp only at hden
          cases hdb : denoteF k (viewOf S) b with
          | none =>
            rw [hdb] at hden
            cases hden
          | some rb =>
            rw [hdb] at hden
            have hdb1 : denoteF k (viewOf S1) b = some rb := by
              rw [funext (view_congr_of_strip S1 S hs1)]
              exact hdb
            have hkb1 : k ≤ S1.cells.length + 1 := by
              rw [length_congr_of_strip S1 S hs1]
              exact hkb
            obtain ⟨S2, hs2, hfr2, hnd2, hev2⟩ := ihb S1 k rb hfr1 hnd1 hdb1 hk hkb1
            dsimp only [outcomeExc]
            rw [hev2]
            cases rb with
            | inr e =>
              dsimp only at hden
              injection hden with h2
              refine ⟨S2, hs2.trans hs1, hfr2, hnd2, ?_⟩
              rw [← h2]
              rfl
            | inl y =>
              dsimp only at hden
              refine ⟨S2, hs2.trans hs1, hfr2, hnd2, ?_⟩
              dsimp only [outcomeExc]
              by_cases hfin : qLt maxDouble (qAbs (qSub x y))
              · rw [if_pos hfin] at hden
                injection hden with h2
                rw [if_pos hfin, ← h2]
              · rw [if_neg hfin] at hden
                injection hden with h2
                rw [if_neg hfin, ← h2]
    | mul a b iha ihb =>
      intro S k r hfr hnd hden hk hkb
      rw [denoteF] at hden
      rw [evalAstP]
      cases hda : denoteF k (viewOf S) a with
      | none =>
        rw [hda] at hden
        cases hden
      | some ra =>
        rw [hda] at hden
        obtain ⟨S1, hs1, hfr1, hnd1, hev1⟩ := iha S k ra hfr hnd hda hk hkb
        rw [hev1]
        cases ra with
        | inr e =>
          dsimp only at hden
          injection hden with h2
          refine ⟨S1, hs1, hfr1, hnd1, ?_⟩
          rw [← h2]
          rfl
        | inl x =>
          dsimp only at hden
          cases hdb : denoteF k (viewOf S) b with
          | none =>
            rw [hdb] at hden
            cases hden
          | some rb =>
            rw [hdb] at hden
            have hdb1 : denoteF k (viewOf S1) b = some rb := by
              rw [funext (view_congr_of_strip S1 S hs1)]
              exact hdb
            have hkb1 : k ≤ S1.cells.length + 1 := by
              rw [length_congr_of_strip S1 S hs1]
              exact hkb
            obtain ⟨S2, hs2, hfr2, hnd2, hev2⟩ := ihb S1 k rb hfr1 hnd1 hdb1 hk hkb1
            dsimp only [outcomeExc]
            rw [hev2]
            cases rb with
            | inr e =>
              dsimp only at hden
              injection hden with h2
              refine ⟨S2, hs2.trans hs1, hfr2, hnd2, ?_⟩
              rw [← h2]
              rfl
            | inl y =>
              dsimp only at hden
              refine ⟨S2, hs2.trans hs1, hfr2, hnd2, ?_⟩
              dsimp only [outcomeExc]
              by_cases hfin : qLt maxDouble (qAbs (qMul x y))
              · rw [if_pos hfin] at hden
                injection hden with h2
                rw [if_pos hfin, ← h2]
              · rw [if_neg hfin] at hden
                injection hden with h2
                rw [if_neg hfin, ← h2]
    | div a b iha ihb =>
      intro S k r hfr hnd hden hk hkb
      rw [denoteF] at hden
      rw [evalAstP]
      cases hda : denoteF k (viewOf S) a with
      | none =>
        rw [hda] at hden
        cases hden
      | some ra =>
        rw [hda] at hden
        obtain ⟨S1, hs1, hfr1, hnd1, hev1⟩ := iha S k ra hfr hnd hda hk hkb
        rw [hev1]
        cases ra with
        | inr e =>
          dsimp only at hden
          injection hden with h2
          refine ⟨S1, hs1, hfr1, hnd1, ?_⟩
          rw [← h2]
          rfl
        | inl x =>
          dsimp only at hden
          cases hdb : denoteF k (viewOf S) b with
          | none =>
            rw [hdb] at hden
            cases hden
          | some rb =>
            rw [hdb] at hden
            have hdb1 : denoteF k (viewOf S1) b = some rb := by
              rw [funext (view_congr_of_strip S1 S hs1)]
              exact hdb
            have hkb1 : k ≤ S1.cells.length + 1 := by
              rw [length_congr_of_strip S1 S hs1]
              exact hkb
            obtain ⟨S2, hs2, hfr2, hnd2, hev2⟩ := ihb S1 k rb hfr1 hnd1 hdb1 hk hkb1
            dsimp only [outcomeExc]
            rw [hev2]
            cases rb with
            | inr e =>
              dsimp only at hden
              injection hden with h2
              refine ⟨S2, hs2.trans hs1, hfr2, hnd2, ?_⟩
              rw [← h2]
              rfl
            | inl y =>
              dsimp only at hden
              refine ⟨S2, hs2.trans hs1, hfr2, hnd2, ?_⟩
              dsimp only [outcomeExc]
              by_cases hz : y = 0
              · rw [if_pos hz] at hden
                injection hden with h2
                rw [if_pos hz, ← h2]
              · rw [if_neg hz] at hden
                by_cases hfin : qLt maxDouble (qAbs (qDiv x y))
                · rw [if_pos hfin] at hden
                  injection hden with h2
                  rw [if_neg hz, if_pos hfin, ← h2]
                · rw [if_neg hfin] at hden
                  injection hden with h2
                  rw [if_neg hz, if_neg hfin, ← h2]
    | neg a iha =>
      intro S k r hfr hnd hden hk hkb
      rw [denoteF] at hden
      rw [evalAstP]
      cases hda : denoteF k (viewOf S) a with
      | none =>
        rw [hda] at hden
        cases hden
      | some ra =>
        rw [hda] at hden
        obtain ⟨S1, hs1, hfr1, hnd1, hev1⟩ := iha S k ra hfr hnd hda hk hkb
        rw [hev1]
        cases ra with
        | inr e =>
          dsimp only at hden
          injection hden with h2
          refine ⟨S1, hs1, hfr1, hnd1, ?_⟩
          rw [← h2]
          rfl
        | inl x =>
          dsimp only at hden
          injection hden with h2
          refine ⟨S1, hs1, hfr1, hnd1, ?_⟩
          rw [← h2]
          rfl
    | pls a iha =>
      intro S k r hfr hnd hden hk hkb
      rw [denoteF] at hden
      rw [evalAstP]
      cases hda : denoteF k (viewOf S) a with
      | none =>
        rw [hda] at hden
        cases hden
      | some ra =>
        rw [hda] at hden
        obtain ⟨S1, hs1, hfr1, hnd1, hev1⟩ := iha S k ra hfr hnd hda hk hkb
        rw [hev1]
        cases ra with
        | inr e =>
          dsimp only at hden
          injection hden with h2
          refine ⟨S1, hs1, hfr1, hnd1, ?_⟩
          rw [← h2]
          rfl
        | inl x =>
          dsimp only at hden
          injection hden with h2
          refine ⟨S1, hs1, hfr1, hnd1, ?_⟩
          rw [← h2]
          rfl


/-- Termination of the denotation for a live formula cell under acyclicity. -/
theorem denote_term_cell (S : SheetState) (hac : AcyclicRefs S) (id : CellId) (c : CellNode)
    (ast : Expr) (cache : Option CellValue)
    (hl : lookupCell S id = some c) (hi : c.impl = .formula ast cache) :
    ∃ r, denoteF S.cells.length (viewOf S) ast = some r := by
  have hkey := lookup_entry S id c hl
  refine denote_term S hac S.cells.length ast [id] id (by simp) ?_ (by simp) ?_ ?_ ?_
  · intro a ha
    rcases List.mem_cons.mp ha with rfl | h
    · exact hkey
    · cases h
  · intro a ha
    rcases List.mem_cons.mp ha with rfl | h
    · exact Relation.ReflTransGen.refl
    · cases h
  · intro q hq j hj
    exact ⟨c, hl, ast, cache, hi, q, hq, hj⟩
  · rw [keys_len]
    simp

/-- `Cell::GetValue`-level adequacy: on a fresh, duplicate-free, acyclic
sheet the call succeeds and touches only caches. -/
theorem cellGetValue_adequate (S : SheetState) (id : CellId)
    (hfr : FreshAll S) (hnd : (keysOf S).Nodup) (hac : AcyclicRefs S)
    (f : Nat) (hf : S.cells.length + 2 ≤ f) :
    ∃ v S2, cellGetValueF f S id = .ok (v, S2) ∧ stripCaches S2 = stripCaches S ∧
      FreshAll S2 ∧ (keysOf S2).Nodup := by
  obtain ⟨f1, rfl⟩ : ∃ f1, f = f1 + 1 := ⟨f - 1, by omega⟩
  cases hl : lookupCell S id with
  | none => exact ⟨.str "", S, cellGetValueF_none f1 S id hl, rfl, hfr, hnd⟩
  | some c =>
    cases hi : c.impl with
    | empty => exact ⟨.num 0, S, cellGetValueF_empty f1 S id c hl hi, rfl, hfr, hnd⟩
    | text s => exact ⟨textImplValue s, S, cellGetValueF_text f1 S id c s hl hi, rfl, hfr, hnd⟩
    | formula ast cache =>
      cases cache with
      | some v => exact ⟨v, S, cellGetValueF_hit f1 S id c ast v hl hi, rfl, hfr, hnd⟩
      | none =>
        obtain ⟨r, hr⟩ := denote_term_cell S hac id c ast none hl hi
        obtain ⟨S1, hs1, hfr1, hnd1, hev1⟩ := evalAst_adequate f1 ast S S.cells.length r
          hfr hnd hr (by omega) (by omega)
        have hres := cellGetValueF_miss f1 S id c ast hl hi r S1 hev1
        obtain ⟨c1, hl1, hstr1⟩ := lookup_of_strip_eq S1 S hs1 id c hl
        have hstr2 : stripImpl c1.impl = .formula ast none := by
          rw [hstr1, hi]
          rfl
        have hwrite := strip_cacheWrite S1 id ast (resToCellValue r) hnd1 c1 hl1 hstr2
        have hfw : freshOutcome S1 ast = some (resToCellValue r) := by
          rw [freshOutcome_congr_of_strip S1 S hs1]
          unfold freshOutcome
          rw [denote_mono (viewOf S) S.cells.length ast (S.cells.length + 1) (by omega) r hr]
          rfl
        refine ⟨resToCellValue r, _, hres, ?_, ?_, ?_⟩
        · rw [hwrite, hs1]
        · exact freshAll_cacheWrite S1 id ast (resToCellValue r) hfr1 hwrite hfw
        · rw [updateCell_keys]
          exact hnd1

/-- A present memo equals the result of running `Formula::Evaluate` over
the cache-free copy of the sheet. -/
theorem formulaEval_fresh (S : SheetState)
    (hfr : FreshAll S) (hnd : (keysOf S).Nodup) (hac : AcyclicRefs S)
    (id : CellId) (c : CellNode) (ast : Expr) (v : CellValue)
    (hl : lookupCell S id = some c) (hi : c.impl = .formula ast (some v)) :
    ∃ res S2, formulaEvaluateF (evalFuel S) (stripCaches S) ast = .ok (res, S2) ∧
      resToCellValue res = v := by
  obtain ⟨r, hr⟩ := denote_term_cell S hac id c ast (some v) hl hi
  have hv : v = resToCellValue r := by
    have hfo := freshAll_lookup S hfr id c ast v hl hi
    unfold freshOutcome at hfo
    rw [denote_mono (viewOf S) S.cells.length ast (S.cells.length + 1) (by omega) r hr] at hfo
    simp only [Option.map_some'] at hfo
    injection hfo with h2
    exact h2.symm
  have hrs : denoteF S.cells.length (viewOf (stripCaches S)) ast = some r := by
    rw [funext (view_strip S)]
    exact hr
  obtain ⟨S2, hs2, hfr2, hnd2, hev2⟩ := evalAst_adequate (evalFuel S) ast (stripCaches S)
    S.cells.length r (freshAll_strip S) (by rw [keys_strip]; exact hnd) hrs
    (by unfold evalFuel; omega) (by rw [strip_length]; omega)
  refine ⟨r, S2, ?_, hv.symm⟩
  unfold formulaEvaluateF evalAstF
  rw [hev2]
  cases r with
  | inl d => rfl
  | inr e => rfl

/-- A `GetValue` call only fills caches with fresh values. -/
theorem getValue_preserves (S : SheetState) (p : Position)
    (hfr : FreshAll S) (hnd : (keysOf S).Nodup) (hac : AcyclicRefs S) :
    stripCaches (stateAfterGetValue S p) = stripCaches S ∧
      FreshAll (stateAfterGetValue S p) := by
  unfold stateAfterGetValue
  cases hg : Sheet.GetCell S p with
  | error e => exact ⟨rfl, hfr⟩
  | ok o =>
    cases o with
    | none => exact ⟨rfl, hfr⟩
    | some id =>
      dsimp only
      obtain ⟨v, S2, hres, hs2, hfr2, hnd2⟩ := cellGetValue_adequate S id hfr hnd hac
        (evalFuel S) (by unfold evalFuel; omega)
      unfold Cell.GetValue
      rw [hres]
      exact ⟨hs2, hfr2⟩


/-! ### The sheet well-formedness invariant -/

/-- Resolved references of `ast` name live cells listing `x` as a
dependent (the subscription half-edge installed by `UpdateDependencies`). -/
def OwnerReads (S : SheetState) (x : CellId) (ast : Expr) : Prop :=
  ∀ p ∈ ast.refsRaw, ∀ j, gridGet S.grid p = some j →
    ∃ cj, lookupCell S j = some cj ∧ x ∈ cj.dependent_cells

/-- Every reference of a live formula cell resolves to a live cell that
lists the reader as a dependent: `UpdateDependencies` materialises every
referenced position, and a referenced cell is never destroyed. -/
def RefsLive (S : SheetState) : Prop :=
  ∀ x cx ast cache, lookupCell S x = some cx → cx.impl = .formula ast cache →
    ∀ p ∈ ast.refsRaw, ∃ j cj, gridGet S.grid p = some j ∧
      lookupCell S j = some cj ∧ x ∈ cj.dependent_cells

theorem ownerReads_of_refsLive (S : SheetState) (hrl : RefsLive S) (x : CellId)
    (cx : CellNode) (ast : Expr) (cache : Option CellValue)
    (hl : lookupCell S x = some cx) (hi : cx.impl = .formula ast cache) :
    OwnerReads S x ast := by
  intro p hp j hj
  obtain ⟨j0, cj, hg0, hlj, hd⟩ := hrl x cx ast cache hl hi p hp
  rw [hj] at hg0
  injection hg0 with h2
  exact ⟨cj, by rw [h2]; exact hlj, hd⟩

/-- Every resolved reference of a live formula cell is recorded in its
source set (or is the cell itself). -/
def SrcsChar (S : SheetState) : Prop :=
  ∀ x cx ast cache, lookupCell S x = some cx → cx.impl = .formula ast cache →
    ∀ q ∈ ast.refsRaw, ∀ j, gridGet S.grid q = some j → j = x ∨ j ∈ cx.source_cells

/-- No two grid slots hold the same id. -/
def GridInj (S : SheetState) : Prop :=
  ∀ p q i, gridGet S.grid p = some i → gridGet S.grid q = some i →
    p.row.toNat = q.row.toNat ∧ p.col.toNat = q.col.toNat

/-- Every grid slot names a live cell (a destroyed cell's slot is reset). -/
def GridLive (S : SheetState) : Prop :=
  ∀ q j, gridGet S.grid q = some j → j ∈ keysOf S

/-- The full well-formedness bundle preserved by every operation. -/
def Inv (S : SheetState) : Prop :=
  FreshAll S ∧ (keysOf S).Nodup ∧ IdsBelowNext S ∧ GridInj S ∧ GridLive S ∧
    RefsLive S ∧ SrcsChar S ∧ AcyclicRefs S

theorem inv_fresh (S : SheetState) (h : Inv S) : FreshAll S := h.1

theorem inv_nodup (S : SheetState) (h : Inv S) : (keysOf S).Nodup := h.2.1

theorem inv_ids (S : SheetState) (h : Inv S) : IdsBelowNext S := h.2.2.1

theorem inv_gridInj (S : SheetState) (h : Inv S) : GridInj S := h.2.2.2.1

theorem inv_gridLive (S : SheetState) (h : Inv S) : GridLive S := h.2.2.2.2.1

theorem inv_refsLive (S : SheetState) (h : Inv S) : RefsLive S := h.2.2.2.2.2.1

theorem inv_srcsChar (S : SheetState) (h : Inv S) : SrcsChar S := h.2.2.2.2.2.2.1

theorem inv_acyclic (S : SheetState) (h : Inv S) : AcyclicRefs S := h.2.2.2.2.2.2.2

theorem stripImpl_formula_inv (i : CellImpl) (ast : Expr)
    (h : stripImpl i = .formula ast none) : ∃ cc, i = .formula ast cc := by
  cases i with
  | empty => cases h
  | text s => cases h
  | formula a c =>
    have h2 : CellImpl.formula a none = .formula ast none := h
    injection h2 with h3
    exact ⟨c, by rw [h3]⟩

theorem lookup_node_of_strip_eq (S1 S : SheetState) (h : stripCaches S1 = stripCaches S)
    (id : CellId) (c : CellNode) (hl : lookupCell S id = some c) :
    ∃ c1, lookupCell S1 id = some c1 ∧ stripNode c1 = stripNode c := by
  have hc := lookup_congr_of_strip S1 S h id
  rw [hl] at hc
  cases hl1 : lookupCell S1 id with
  | none =>
    rw [hl1] at hc
    simp only [Option.map_none', Option.map_some'] at hc
    exact Option.noConfusion hc
  | some c1 =>
    rw [hl1] at hc
    simp only [Option.map_some'] at hc
    injection hc with h2
    exact ⟨c1, rfl, h2⟩

theorem dependentsOf_strip (S : SheetState) (j : CellId) :
    dependentsOf (stripCaches S) j = dependentsOf S j := by
  unfold dependentsOf
  rw [lookup_strip]
  cases lookupCell S j with
  | none => rfl
  | some c => rfl

theorem deps_congr_of_strip (S1 S2 : SheetState) (h : stripCaches S1 = stripCaches S2)
    (j : CellId) : dependentsOf S1 j = dependentsOf S2 j := by
  rw [← dependentsOf_strip S1, ← dependentsOf_strip S2, h]

theorem sourcesOf_strip (S : SheetState) (j : CellId) :
    sourcesOf (stripCaches S) j = sourcesOf S j := by
  unfold sourcesOf
  rw [lookup_strip]
  cases lookupCell S j with
  | none => rfl
  | some c => rfl

theorem sources_congr_of_strip (S1 S2 : SheetState) (h : stripCaches S1 = stripCaches S2)
    (j : CellId) : sourcesOf S1 j = sourcesOf S2 j := by
  rw [← sourcesOf_strip S1, ← sourcesOf_strip S2, h]

theorem refsLive_congr_of_strip (S1 S2 : SheetState) (h : stripCaches S1 = stripCaches S2)
    (hrl : RefsLive S2) : RefsLive S1 := by
  intro x cx ast cache hl hi
  obtain ⟨c2, hl2, hstr⟩ := lookup_node_of_strip_eq S2 S1 h.symm x cx hl
  have h3 : stripImpl c2.impl = .formula ast none := by
    have h4 : (stripNode c2).impl = (stripNode cx).impl := congrArg CellNode.impl hstr
    show (stripNode c2).impl = _
    rw [h4]
    show stripImpl cx.impl = _
    rw [hi]
    rfl
  obtain ⟨cc, hc2i⟩ := stripImpl_formula_inv c2.impl ast h3
  intro q hq
  obtain ⟨j, cj, hg, hcj, hdep⟩ := hrl x c2 ast cc hl2 hc2i q hq
  obtain ⟨cj1, hcj1, hstrj⟩ := lookup_node_of_strip_eq S1 S2 h j cj hcj
  refine ⟨j, cj1, ?_, hcj1, ?_⟩
  · rw [grid_congr_of_strip S1 S2 h]
    exact hg
  · have h5 : cj1.dependent_cells = cj.dependent_cells := by
      show (stripNode cj1).dependent_cells = (stripNode cj).dependent_cells
      rw [hstrj]
    rw [h5]
    exact hdep

theorem srcsChar_congr_of_strip (S1 S2 : SheetState) (h : stripCaches S1 = stripCaches S2)
    (hsc : SrcsChar S2) : SrcsChar S1 := by
  intro x cx ast cache hl hi
  obtain ⟨c2, hl2, hstr⟩ := lookup_node_of_strip_eq S2 S1 h.symm x cx hl
  have h3 : stripImpl c2.impl = .formula ast none := by
    have h4 : (stripNode c2).impl = (stripNode cx).impl := congrArg CellNode.impl hstr
    show (stripNode c2).impl = _
    rw [h4]
    show stripImpl cx.impl = _
    rw [hi]
    rfl
  obtain ⟨cc, hc2i⟩ := stripImpl_formula_inv c2.impl ast h3
  have hSC := hsc x c2 ast cc hl2 hc2i
  intro q hq j hj
  have hg : gridGet S2.grid q = some j := by
    rw [← grid_congr_of_strip S1 S2 h]
    exact hj
  rcases hSC q hq j hg with h5 | h5
  · exact Or.inl h5
  · refine Or.inr ?_
    have h6 : cx.source_cells = c2.source_cells := by
      show (stripNode cx).source_cells = (stripNode c2).source_cells
      rw [hstr]
    rw [h6]
    exact h5

theorem refStep_congr_of_strip (S1 S2 : SheetState) (h : stripCaches S1 = stripCaches S2)
    (a b : CellId) (hr : refStep S1 a b) : refStep S2 a b := by
  obtain ⟨c, hl, ast, cache, hi, q, hq, hj⟩ := hr
  obtain ⟨c2, hl2, hstr⟩ := lookup_node_of_strip_eq S2 S1 h.symm a c hl
  have h3 : stripImpl c2.impl = .formula ast none := by
    have h4 : (stripNode c2).impl = (stripNode c).impl := congrArg CellNode.impl hstr
    show (stripNode c2).impl = _
    rw [h4]
    show stripImpl c.impl = _
    rw [hi]
    rfl
  obtain ⟨cc, hc2i⟩ := stripImpl_formula_inv c2.impl ast h3
  refine ⟨c2, hl2, ast, cc, hc2i, q, hq, ?_⟩
  rw [← grid_congr_of_strip S1 S2 h]
  exact hj

theorem acyclic_congr_of_strip (S1 S2 : SheetState) (h : stripCaches S1 = stripCaches S2)
    (hac : AcyclicRefs S2) : AcyclicRefs S1 := by
  intro id hcy
  exact hac id (Relation.TransGen.mono (refStep_congr_of_strip S1 S2 h) hcy)

theorem idsBelow_congr_of_strip (S1 S2 : SheetState) (h : stripCaches S1 = stripCaches S2)
    (hib : IdsBelowNext S2) : IdsBelowNext S1 := by
  have hn : S1.nextId = S2.nextId := by
    rw [← strip_nextId S1, ← strip_nextId S2, h]
  constructor
  · intro e he
    have hk : e.1 ∈ keysOf S1 := List.mem_map.mpr ⟨e, he, rfl⟩
    rw [keys_congr_of_strip S1 S2 h] at hk
    rcases List.mem_map.mp hk with ⟨e2, he2, heq⟩
    have h2 := hib.1 e2 he2
    rw [hn, ← heq]
    exact h2
  · intro row hrow sl hsl
    have hg : S1.grid = S2.grid := grid_congr_of_strip S1 S2 h
    rw [hn]
    exact hib.2 row (hg ▸ hrow) sl hsl

theorem gridInj_congr_of_strip (S1 S2 : SheetState) (h : stripCaches S1 = stripCaches S2)
    (hgi : GridInj S2) : GridInj S1 := by
  intro p q i h1 h2
  have hg : S1.grid = S2.grid := grid_congr_of_strip S1 S2 h
  rw [hg] at h1 h2
  exact hgi p q i h1 h2

theorem gridLive_congr_of_strip (S1 S2 : SheetState) (h : stripCaches S1 = stripCaches S2)
    (hgl : GridLive S2) : GridLive S1 := by
  intro q j hj
  rw [grid_congr_of_strip S1 S2 h] at hj
  rw [keys_congr_of_strip S1 S2 h]
  exact hgl q j hj

theorem inv_of_strip_eq (S1 S2 : SheetState) (h : stripCaches S1 = stripCaches S2)
    (hfr : FreshAll S1) (hinv : Inv S2) : Inv S1 :=
  ⟨hfr, by rw [keys_congr_of_strip S1 S2 h]; exact inv_nodup S2 hinv,
   idsBelow_congr_of_strip S1 S2 h (inv_ids S2 hinv),
   gridInj_congr_of_strip S1 S2 h (inv_gridInj S2 hinv),
   gridLive_congr_of_strip S1 S2 h (inv_gridLive S2 hinv),
   refsLive_congr_of_strip S1 S2 h (inv_refsLive S2 hinv),
   srcsChar_congr_of_strip S1 S2 h (inv_srcsChar S2 hinv),
   acyclic_congr_of_strip S1 S2 h (inv_acyclic S2 hinv)⟩

theorem getValue_inv (S : SheetState) (p : Position) (hinv : Inv S) :
    Inv (stateAfterGetValue S p) := by
  obtain ⟨hs, hfr⟩ := getValue_preserves S p (inv_fresh S hinv) (inv_nodup S hinv)
    (inv_acyclic S hinv)
  exact inv_of_strip_eq _ S hs hfr hinv

theorem gridGet_init (p : Position) : gridGet initialSheet.grid p = none := by
  unfold initialSheet gridGet
  cases hr : p.row.toNat with
  | zero =>
    cases hc : p.col.toNat with
    | zero => rfl
    | succ n => rfl
  | succ n => rfl

theorem lookup_init (x : CellId) : lookupCell initialSheet x = none := rfl

theorem inv_init : Inv initialSheet := by
  refine ⟨?_, ?_, ?_, ?_, ?_, ?_, ?_, ?_⟩
  · intro e he
    cases he
  · exact List.nodup_nil
  · constructor
    · intro e he
      cases he
    · intro row hrow sl hsl
      rcases List.mem_cons.mp hrow with rfl | h
      · rcases List.mem_cons.mp hsl with rfl | h2
        · rfl
        · cases h2
      · cases h
  · intro p q i h1 h2
    rw [gridGet_init p] at h1
    cases h1
  · intro q j hj
    rw [gridGet_init q] at hj
    cases hj
  · intro x cx ast cache hl hi
    rw [lookup_init x] at hl
    cases hl
  · intro x cx ast cache hl hi
    rw [lookup_init x] at hl
    cases hl
  · intro id hcy
    cases hcy with
    | single h1 =>
      obtain ⟨c, hl, _⟩ := h1
      rw [lookup_init id] at hl
      cases hl
    | tail h1 h2 =>
      obtain ⟨c, hl, _⟩ := h2
      rw [lookup_init _] at hl
      cases hl


/-! ### Touched positions are covered by dependent chains -/

theorem touch_to_depchain (S : SheetState) (hRL : RefsLive S) :
    ∀ (ast : Expr) (q : Position), Touches (viewOf S) ast q →
    ∀ (x : CellId), OwnerReads S x ast →
    ∀ j, gridGet S.grid q = some j → Relation.ReflTransGen (stepDep S) j x := by
  intro ast q ht
  induction ht with
  | refHere p =>
    intro x hOR j hj
    obtain ⟨cj, hcj, hdep⟩ := hOR p (by simp [Expr.refsRaw]) j hj
    refine Relation.ReflTransGen.single ?_
    show x ∈ dependentsOf S j
    unfold dependentsOf
    rw [hcj]
    exact hdep
  | refThrough p q2 ast1 hV ht1 ih =>
    intro x hOR j hj
    obtain ⟨m, cm, cachem, hgm, hlm, him⟩ := viewOf_formula S p ast1 hV
    have hOR1 : OwnerReads S m ast1 :=
      ownerReads_of_refsLive S hRL m cm ast1 cachem hlm him
    have hchain := ih m hOR1 j hj
    obtain ⟨cj2, hcj2, hdep2⟩ := hOR p (by simp [Expr.refsRaw]) m hgm
    refine Relation.ReflTransGen.tail hchain ?_
    show x ∈ dependentsOf S m
    unfold dependentsOf
    rw [hcj2]
    exact hdep2
  | addL a b q2 ht1 ih =>
    intro x hOR j hj
    exact ih x (fun p hp => hOR p (by simp [Expr.refsRaw, hp])) j hj
  | addR a b q2 ht1 ih =>
    intro x hOR j hj
    exact ih x (fun p hp => hOR p (by simp [Expr.refsRaw, hp])) j hj
  | subL a b q2 ht1 ih =>
    intro x hOR j hj
    exact ih x (fun p hp => hOR p (by simp [Expr.refsRaw, hp])) j hj
  | subR a b q2 ht1 ih =>
    intro x hOR j hj
    exact ih x (fun p hp => hOR p (by simp [Expr.refsRaw, hp])) j hj
  | mulL a b q2 ht1 ih =>
    intro x hOR j hj
    exact ih x (fun p hp => hOR p (by simp [Expr.refsRaw, hp])) j hj
  | mulR a b q2 ht1 ih =>
    intro x hOR j hj
    exact ih x (fun p hp => hOR p (by simp [Expr.refsRaw, hp])) j hj
  | divL a b q2 ht1 ih =>
    intro x hOR j hj
    exact ih x (fun p hp => hOR p (by simp [Expr.refsRaw, hp])) j hj
  | divR a b q2 ht1 ih =>
    intro x hOR j hj
    exact ih x (fun p hp => hOR p (by simp [Expr.refsRaw, hp])) j hj
  | negT a q2 ht1 ih =>
    intro x hOR j hj
    exact ih x (fun p hp => hOR p (by simp [Expr.refsRaw, hp])) j hj
  | plsT a q2 ht1 ih =>
    intro x hOR j hj
    exact ih x (fun p hp => hOR p (by simp [Expr.refsRaw, hp])) j hj

/-- Freshness of a memo transfers to a new state whose view agrees on
every position the old evaluation touched. -/
theorem freshOutcome_transfer (S S2 : SheetState) (hac : AcyclicRefs S2)
    (x : CellId) (c : CellNode) (ast : Expr) (cache : Option CellValue)
    (hl : lookupCell S2 x = some c) (hi : c.impl = .formula ast cache)
    (hagree : ∀ q, Touches (viewOf S) ast q → viewOf S q = viewOf S2 q)
    (v : CellValue) (hold : freshOutcome S ast = some v) :
    freshOutcome S2 ast = some v := by
  unfold freshOutcome at hold
  cases hd : denoteF (S.cells.length + 1) (viewOf S) ast with
  | none =>
    rw [hd] at hold
    cases hold
  | some r =>
    rw [hd] at hold
    have hd2 : denoteF (S.cells.length + 1) (viewOf S2) ast = some r := by
      rw [← denote_congr (viewOf S) (viewOf S2) (S.cells.length + 1) ast hagree]
      exact hd
    obtain ⟨r2, hr2⟩ := denote_term_cell S2 hac x c ast cache hl hi
    have hagr := denote_agree (viewOf S2) _ _ ast r2 r hr2 hd2
    unfold freshOutcome
    rw [denote_mono (viewOf S2) S2.cells.length ast (S2.cells.length + 1) (by omega) r2 hr2]
    rw [hagr]
    exact hold


/-! ### Projection frame lemmas -/

/-- The behaviour stored behind an id, if any. -/
def implOf (S : SheetState) (id : CellId) : Option CellImpl :=
  (lookupCell S id).map (fun c => c.impl)

theorem implOf_updateCell_keep (S : SheetState) (j : CellId) (f : CellNode → CellNode)
    (hf : ∀ c, (f c).impl = c.impl) (id : CellId) :
    implOf (updateCell S j f) id = implOf S id := by
  unfold implOf
  rw [lookup_updateCell]
  by_cases h : id = j
  · rw [if_pos h]
    cases lookupCell S id with
    | none => rfl
    | some c =>
      simp only [Option.map_some']
      rw [hf c]
  · rw [if_neg h]

theorem sourcesOf_updateCell_keep (S : SheetState) (j : CellId) (f : CellNode → CellNode)
    (hf : ∀ c, (f c).source_cells = c.source_cells) (id : CellId) :
    sourcesOf (updateCell S j f) id = sourcesOf S id := by
  unfold sourcesOf
  rw [lookup_updateCell]
  by_cases h : id = j
  · rw [if_pos h]
    cases lookupCell S id with
    | none => rfl
    | some c =>
      simp only [Option.map_some']
      exact hf c
  · rw [if_neg h]

theorem implOf_foldl_keep (g : CellId → CellNode → CellNode)
    (hg : ∀ i c, (g i c).impl = c.impl) (l : List CellId) :
    ∀ (S : SheetState) (id : CellId),
    implOf (l.foldl (fun acc i => updateCell acc i (g i)) S) id = implOf S id := by
  induction l with
  | nil => intro S id; rfl
  | cons a t ih =>
    intro S id
    simp only [List.foldl_cons]
    rw [ih, implOf_updateCell_keep _ _ _ (hg a)]

theorem sourcesOf_foldl_keep (g : CellId → CellNode → CellNode)
    (hg : ∀ i c, (g i c).source_cells = c.source_cells) (l : List CellId) :
    ∀ (S : SheetState) (id : CellId),
    sourcesOf (l.foldl (fun acc i => updateCell acc i (g i)) S) id = sourcesOf S id := by
  induction l with
  | nil => intro S id; rfl
  | cons a t ih =>
    intro S id
    simp only [List.foldl_cons]
    rw [ih, sourcesOf_updateCell_keep _ _ _ (hg a)]

theorem viewOf_eq_of (S1 S2 : SheetState) (hg : S1.grid = S2.grid)
    (hi : ∀ id, implOf S1 id = implOf S2 id) (p : Position) :
    viewOf S1 p = viewOf S2 p := by
  unfold viewOf
  rw [hg]
  cases gridGet S2.grid p with
  | none => rfl
  | some id =>
    dsimp only
    have h := hi id
    unfold implOf at h
    cases hl1 : lookupCell S1 id with
    | none =>
      rw [hl1] at h
      cases hl2 : lookupCell S2 id with
      | none => rfl
      | some c2 =>
        rw [hl2] at h
        simp only [Option.map_none', Option.map_some'] at h
        exact Option.noConfusion h
    | some c1 =>
      rw [hl1] at h
      cases hl2 : lookupCell S2 id with
      | none =>
        rw [hl2] at h
        simp only [Option.map_none', Option.map_some'] at h
        exact Option.noConfusion h
      | some c2 =>
        rw [hl2] at h
        simp only [Option.map_some'] at h
        injection h with h2
        dsimp only
        rw [h2]

theorem cacheOf_eq_of (S1 S2 : SheetState)
    (hi : ∀ id, implOf S1 id = implOf S2 id) (id : CellId) :
    cacheOf S1 id = cacheOf S2 id := by
  unfold cacheOf
  have h := hi id
  unfold implOf at h
  cases hl1 : lookupCell S1 id with
  | none =>
    rw [hl1] at h
    cases hl2 : lookupCell S2 id with
    | none => rfl
    | some c2 =>
      rw [hl2] at h
      simp only [Option.map_none', Option.map_some'] at h
      exact Option.noConfusion h
  | some c1 =>
    rw [hl1] at h
    cases hl2 : lookupCell S2 id with
    | none =>
      rw [hl2] at h
      simp only [Option.map_none', Option.map_some'] at h
      exact Option.noConfusion h
    | some c2 =>
      rw [hl2] at h
      simp only [Option.map_some'] at h
      injection h with h2
      dsimp only
      rw [h2]

theorem freshOutcome_mono_len (S1 S2 : SheetState)
    (hv : ∀ p, viewOf S1 p = viewOf S2 p) (hlen : S1.cells.length ≤ S2.cells.length)
    (ast : Expr) (v : CellValue) (h : freshOutcome S1 ast = some v) :
    freshOutcome S2 ast = some v := by
  unfold freshOutcome at h ⊢
  cases hd : denoteF (S1.cells.length + 1) (viewOf S1) ast with
  | none =>
    rw [hd] at h
    cases h
  | some r =>
    rw [hd] at h
    have hd2 : denoteF (S1.cells.length + 1) (viewOf S2) ast = some r := by
      rw [← funext hv]
      exact hd
    rw [denote_mono (viewOf S2) (S1.cells.length + 1) ast (S2.cells.length + 1)
      (by omega) r hd2]
    exact h

theorem implFresh_grow (S1 S2 : SheetState)
    (hv : ∀ p, viewOf S1 p = viewOf S2 p) (hlen : S1.cells.length ≤ S2.cells.length)
    (i : CellImpl) (h : implFresh S1 i = true) : implFresh S2 i = true := by
  cases i with
  | empty => rfl
  | text s => rfl
  | formula a cc =>
    cases cc with
    | none => rfl
    | some w =>
      have h1 : freshOutcome S1 a = some w :=
        of_decide_eq_true (show decide (freshOutcome S1 a = some w) = true from h)
      show decide (freshOutcome S2 a = some w) = true
      exact decide_eq_true (freshOutcome_mono_len S1 S2 hv hlen a w h1)


/-! ### Allocation of an empty node -/

/-- The shared allocation step: grow `nextId`, point the slot at the fresh
id, cons an empty node (the record built by both `Sheet::SetCell` and the
reentrant `SetCell(pos, "")` of `UpdateDependencies`). -/
def consAlloc (S0 : SheetState) (p : Position) : SheetState :=
  ⟨S0.nextId + 1, setGrid S0.grid p (some S0.nextId),
   (S0.nextId, ⟨.empty, [], []⟩) :: S0.cells⟩

theorem consAlloc_lookup (S0 : SheetState) (p : Position) (x : CellId) :
    lookupCell (consAlloc S0 p) x =
      if S0.nextId = x then some ⟨.empty, [], []⟩ else lookupCell S0 x := by
  unfold consAlloc lookupCell
  dsimp only
  rw [List.find?]
  by_cases h : S0.nextId = x
  · rw [show (((S0.nextId, (⟨.empty, [], []⟩ : CellNode)).1 == x) = true) from by simp [h],
      if_pos h]
    rfl
  · rw [show (((S0.nextId, (⟨.empty, [], []⟩ : CellNode)).1 == x) = false) from by simp [h],
      if_neg h]

theorem consAlloc_keys (S0 : SheetState) (p : Position) :
    keysOf (consAlloc S0 p) = S0.nextId :: keysOf S0 := by
  unfold consAlloc keysOf
  rw [List.map_cons]

theorem tg_restrict (R R2 : CellId → CellId → Prop) (T : CellId → Prop)
    (hsrc : ∀ a b, R2 a b → ¬ T a)
    (htr : ∀ a b, R2 a b → ¬ T b → R a b) :
    ∀ a b, Relation.TransGen R2 a b → ¬ T b → Relation.TransGen R a b := by
  intro a b h
  induction h with
  | single h1 =>
    intro hb
    exact Relation.TransGen.single (htr _ _ h1 hb)
  | tail h1 h2 ih =>
    intro hb
    exact Relation.TransGen.tail (ih (hsrc _ _ h2)) (htr _ _ h2 hb)

theorem tg_src (R2 : CellId → CellId → Prop) (T : CellId → Prop)
    (hsrc : ∀ a b, R2 a b → ¬ T a) :
    ∀ a b, Relation.TransGen R2 a b → ¬ T a := by
  intro a b h
  induction h with
  | single h1 => exact hsrc _ _ h1
  | tail h1 h2 ih => exact ih

theorem acyclic_extend (R R2 : CellId → CellId → Prop) (T : CellId → Prop)
    (hsrc : ∀ a b, R2 a b → ¬ T a)
    (htr : ∀ a b, R2 a b → ¬ T b → R a b)
    (hac : ∀ z, ¬ Relation.TransGen R z z) :
    ∀ z, ¬ Relation.TransGen R2 z z := by
  intro z hcy
  exact hac z (tg_restrict R R2 T hsrc htr z z hcy (tg_src R2 T hsrc z z hcy))

theorem gridGet_lt_nextP (S : SheetState) (hib : IdsBelowNext S) (q : Position) (i : CellId)
    (h : gridGet S.grid q = some i) : i < S.nextId := by
  unfold gridGet at h
  cases hr : S.grid[q.row.toNat]? with
  | none =>
    rw [hr] at h
    cases h
  | some row =>
    rw [hr] at h
    dsimp only at h
    cases hc : row[q.col.toNat]? with
    | none =>
      rw [hc] at h
      cases h
    | some sl =>
      rw [hc] at h
      dsimp only at h
      have hrow : row ∈ S.grid := List.getElem?_mem hr
      have hsl : sl ∈ row := List.getElem?_mem hc
      have hall := hib.2 row hrow sl hsl
      rw [h] at hall
      simp only [Option.all_some] at hall
      exact of_decide_eq_true hall

theorem key_lt_next (S : SheetState) (hib : IdsBelowNext S) (x : CellId)
    (h : x ∈ keysOf S) : x < S.nextId := by
  rcases List.mem_map.mp h with ⟨e, he, heq⟩
  rw [← heq]
  exact hib.1 e he

theorem lookup_lt_next (S : SheetState) (hib : IdsBelowNext S) (x : CellId) (c : CellNode)
    (h : lookupCell S x = some c) : x < S.nextId :=
  key_lt_next S hib x ((mem_keys_iff_lookup S x).mpr (by rw [h]; rfl))

theorem consAlloc_grid (S0 : SheetState) (p : Position) (hb : slotInBounds S0.grid p)
    (q : Position) :
    gridGet (consAlloc S0 p).grid q =
      if p.row.toNat = q.row.toNat ∧ p.col.toNat = q.col.toNat then some S0.nextId
      else gridGet S0.grid q := by
  show gridGet (setGrid S0.grid p (some S0.nextId)) q = _
  by_cases h : p.row.toNat = q.row.toNat ∧ p.col.toNat = q.col.toNat
  · rw [if_pos h]
    rw [show gridGet (setGrid S0.grid p (some S0.nextId)) q =
        gridGet (setGrid S0.grid p (some S0.nextId)) p from
      gridGet_congr_coords _ q p h.1.symm h.2.symm]
    exact gridGet_setGrid_same S0.grid p (some S0.nextId) hb
  · rw [if_neg h]
    exact gridGet_setGrid_other S0.grid p q (some S0.nextId) (by tauto)

theorem consAlloc_view (S0 : SheetState) (p : Position) (hg : gridGet S0.grid p = none)
    (hb : slotInBounds S0.grid p) (hib : IdsBelowNext S0) (q : Position) :
    viewOf (consAlloc S0 p) q = viewOf S0 q := by
  unfold viewOf
  rw [consAlloc_grid S0 p hb q]
  by_cases h : p.row.toNat = q.row.toNat ∧ p.col.toNat = q.col.toNat
  · rw [if_pos h]
    dsimp only
    rw [consAlloc_lookup, if_pos rfl]
    dsimp only
    rw [show gridGet S0.grid q = none from by
      rw [← gridGet_congr_coords S0.grid p q h.1 h.2]
      exact hg]
  · rw [if_neg h]
    cases hq : gridGet S0.grid q with
    | none => rfl
    | some j =>
      dsimp only
      rw [consAlloc_lookup, if_neg ?_]
      exact Nat.ne_of_gt (gridGet_lt_nextP S0 hib q j hq)

theorem consAlloc_len (S0 : SheetState) (p : Position) :
    (consAlloc S0 p).cells.length = S0.cells.length + 1 := by
  show ((S0.nextId, (⟨.empty, [], []⟩ : CellNode)) :: S0.cells).length = _
  rw [List.length_cons]

theorem optAll_lt_succ (n : Nat) (sl : Option CellId)
    (h : sl.all (fun i => decide (i < n)) = true) :
    sl.all (fun i => decide (i < n + 1)) = true := by
  cases sl with
  | none => rfl
  | some i =>
    simp only [Option.all_some] at h ⊢
    have := of_decide_eq_true h
    exact decide_eq_true (by omega)

theorem consAlloc_idsBelow (S0 : SheetState) (p : Position) (hib : IdsBelowNext S0) :
    IdsBelowNext (consAlloc S0 p) := by
  constructor
  · intro e he
    rcases List.mem_cons.mp he with rfl | h
    · show S0.nextId < S0.nextId + 1
      exact Nat.lt_succ_self _
    · have h2 := hib.1 e h
      show e.1 < S0.nextId + 1
      exact Nat.lt_succ_of_lt h2
  · intro row hrow sl hsl
    show sl.all (fun i => decide (i < S0.nextId + 1)) = true
    have hrow2 : row ∈ setGrid S0.grid p (some S0.nextId) := hrow
    unfold setGrid at hrow2
    cases hr : S0.grid[p.row.toNat]? with
    | none =>
      rw [hr] at hrow2
      exact optAll_lt_succ _ _ (hib.2 row hrow2 sl hsl)
    | some rowL =>
      rw [hr] at hrow2
      rcases List.mem_or_eq_of_mem_set hrow2 with h | h
      · exact optAll_lt_succ _ _ (hib.2 row h sl hsl)
      · rw [h] at hsl
        rcases List.mem_or_eq_of_mem_set hsl with h2 | h2
        · exact optAll_lt_succ _ _ (hib.2 rowL (List.getElem?_mem hr) sl h2)
        · rw [h2]
          simp only [Option.all_some]
          exact decide_eq_true (by omega)

theorem consAlloc_inv (S0 : SheetState) (p : Position) (hg : gridGet S0.grid p = none)
    (hb : slotInBounds S0.grid p) (hinv : Inv S0) : Inv (consAlloc S0 p) := by
  obtain ⟨hfr, hnd, hib, hgi, hgl, hrl, hsc, hac⟩ := hinv
  have hview := consAlloc_view S0 p hg hb hib
  have hnext : ∀ x c, lookupCell S0 x = some c → ¬ S0.nextId = x := by
    intro x c hl hcontra
    exact Nat.ne_of_lt (lookup_lt_next S0 hib x c hl) hcontra.symm
  refine ⟨?_, ?_, consAlloc_idsBelow S0 p hib, ?_, ?_, ?_, ?_, ?_⟩
  · intro e he
    rcases List.mem_cons.mp he with rfl | h
    · rfl
    · have h1 := hfr e h
      exact implFresh_grow S0 (consAlloc S0 p) (fun q => (hview q).symm)
        (by rw [consAlloc_len]; omega) e.2.impl h1
  · rw [consAlloc_keys]
    refine List.nodup_cons.mpr ⟨?_, hnd⟩
    intro h
    exact Nat.lt_irrefl _ (key_lt_next S0 hib S0.nextId h)
  · intro q1 q2 i h1 h2
    rw [consAlloc_grid S0 p hb] at h1 h2
    by_cases hc1 : p.row.toNat = q1.row.toNat ∧ p.col.toNat = q1.col.toNat
    · rw [if_pos hc1] at h1
      injection h1 with h1e
      by_cases hc2 : p.row.toNat = q2.row.toNat ∧ p.col.toNat = q2.col.toNat
      · rw [if_pos hc2] at h2
        exact ⟨hc1.1 ▸ hc2.1, hc1.2 ▸ hc2.2⟩
      · rw [if_neg hc2] at h2
        exfalso
        have h3 := gridGet_lt_nextP S0 hib q2 i h2
        rw [← h1e] at h3
        exact Nat.lt_irrefl _ h3
    · rw [if_neg hc1] at h1
      by_cases hc2 : p.row.toNat = q2.row.toNat ∧ p.col.toNat = q2.col.toNat
      · rw [if_pos hc2] at h2
        injection h2 with h2e
        exfalso
        have h3 := gridGet_lt_nextP S0 hib q1 i h1
        rw [← h2e] at h3
        exact Nat.lt_irrefl _ h3
      · rw [if_neg hc2] at h2
        exact hgi q1 q2 i h1 h2
  · intro q j hj
    rw [consAlloc_grid S0 p hb] at hj
    rw [consAlloc_keys]
    by_cases hco : p.row.toNat = q.row.toNat ∧ p.col.toNat = q.col.toNat
    · rw [if_pos hco] at hj
      injection hj with h2
      rw [← h2]
      exact List.mem_cons_self _ _
    · rw [if_neg hco] at hj
      exact List.mem_cons.mpr (Or.inr (hgl q j hj))
  · intro x cx ast cache hl hi q hq
    rw [consAlloc_lookup] at hl
    by_cases hx : S0.nextId = x
    · rw [if_pos hx] at hl
      injection hl with h2
      rw [← h2] at hi
      cases hi
    · rw [if_neg hx] at hl
      obtain ⟨j, cj, hgj, hlj, hd⟩ := hrl x cx ast cache hl hi q hq
      refine ⟨j, cj, ?_, ?_, hd⟩
      · rw [consAlloc_grid S0 p hb, if_neg ?_]
        · exact hgj
        · intro hco
          rw [gridGet_congr_coords S0.grid p q hco.1 hco.2, hgj] at hg
          cases hg
      · rw [consAlloc_lookup, if_neg (hnext j cj hlj)]
        exact hlj
  · intro x cx ast cache hl hi q hq j hj
    rw [consAlloc_lookup] at hl
    by_cases hx : S0.nextId = x
    · rw [if_pos hx] at hl
      injection hl with h2
      rw [← h2] at hi
      cases hi
    · rw [if_neg hx] at hl
      obtain ⟨j0, cj, hgj, hlj, hd⟩ := hrl x cx ast cache hl hi q hq
      have hj0 : gridGet (consAlloc S0 p).grid q = some j0 := by
        rw [consAlloc_grid S0 p hb, if_neg ?_]
        · exact hgj
        · intro hco
          rw [gridGet_congr_coords S0.grid p q hco.1 hco.2, hgj] at hg
          cases hg
      rw [hj] at hj0
      injection hj0 with hje
      rw [hje]
      exact hsc x cx ast cache hl hi q hq j0 hgj
  · intro z hcy
    refine acyclic_extend (refStep S0) (refStep (consAlloc S0 p))
      (fun i => i = S0.nextId) ?_ ?_ hac z hcy
    · intro a b hr hcontra
      obtain ⟨c, hl, ast, cache, hi, q, hq, hj⟩ := hr
      rw [consAlloc_lookup] at hl
      rw [if_pos hcontra.symm] at hl
      injection hl with h2
      rw [← h2] at hi
      cases hi
    · intro a b hr hb2
      obtain ⟨c, hl, ast, cache, hi, q, hq, hj⟩ := hr
      rw [consAlloc_lookup] at hl
      by_cases hx : S0.nextId = a
      · rw [if_pos hx] at hl
        injection hl with h2
        rw [← h2] at hi
        cases hi
      · rw [if_neg hx] at hl
        refine ⟨c, hl, ast, cache, hi, q, hq, ?_⟩
        rw [consAlloc_grid S0 p hb] at hj
        by_cases hco : p.row.toNat = q.row.toNat ∧ p.col.toNat = q.col.toNat
        · rw [if_pos hco] at hj
          injection hj with h3
          exact absurd h3.symm hb2
        · rw [if_neg hco] at hj
          exact hj


/-! ### Grid growth preserves the invariant -/

theorem mi_view (S : SheetState) (p q : Position) :
    viewOf (MaybeIncreaseSizeToIncludePosition S p) q = viewOf S q := by
  unfold viewOf
  rw [gridGet_maybeIncrease]
  cases gridGet S.grid q with
  | none => rfl
  | some id => rfl

theorem mi_inv (S : SheetState) (p : Position) (hinv : Inv S) :
    Inv (MaybeIncreaseSizeToIncludePosition S p) := by
  obtain ⟨hfr, hnd, hib, hgi, hgl, hrl, hsc, hac⟩ := hinv
  refine ⟨?_, ?_, idsBelow_maybeIncrease S p hib, ?_, ?_, ?_, ?_, ?_⟩
  · intro e he
    have he2 : e ∈ S.cells := by rw [← maybeIncrease_cells S p]; exact he
    exact implFresh_grow S _ (fun q => (mi_view S p q).symm)
      (by rw [show (MaybeIncreaseSizeToIncludePosition S p).cells = S.cells from rfl])
      e.2.impl (hfr e he2)
  · show (keysOf S).Nodup
    exact hnd
  · intro q1 q2 i h1 h2
    rw [gridGet_maybeIncrease] at h1 h2
    exact hgi q1 q2 i h1 h2
  · intro q j hj
    rw [gridGet_maybeIncrease] at hj
    exact hgl q j hj
  · intro x cx ast cache hl hi q hq
    obtain ⟨j, cj, hgj, hlj, hd⟩ := hrl x cx ast cache hl hi q hq
    exact ⟨j, cj, by rw [gridGet_maybeIncrease]; exact hgj, hlj, hd⟩
  · intro x cx ast cache hl hi q hq j hj
    rw [gridGet_maybeIncrease] at hj
    exact hsc x cx ast cache hl hi q hq j hj
  · intro z hcy
    refine hac z (Relation.TransGen.mono ?_ hcy)
    intro a b hr
    obtain ⟨c, hl, ast, cache, hi, q, hq, hj⟩ := hr
    rw [gridGet_maybeIncrease] at hj
    exact ⟨c, hl, ast, cache, hi, q, hq, hj⟩

/-! ### `materializeEmpty` preserves the invariant and all projections -/

theorem matEmpty_cases (S : SheetState) (p : Position) :
    (materializeEmpty S p = MaybeIncreaseSizeToIncludePosition S p ∧
      (gridGet (MaybeIncreaseSizeToIncludePosition S p).grid p).isSome) ∨
    (materializeEmpty S p = consAlloc (MaybeIncreaseSizeToIncludePosition S p) p ∧
      gridGet (MaybeIncreaseSizeToIncludePosition S p).grid p = none) := by
  unfold materializeEmpty
  dsimp only
  cases hm : gridGet (MaybeIncreaseSizeToIncludePosition S p).grid p with
  | some i => exact Or.inl ⟨rfl, rfl⟩
  | none => exact Or.inr ⟨rfl, rfl⟩

theorem matEmpty_inv (S : SheetState) (p : Position) (hv : p.IsValid = true)
    (hinv : Inv S) : Inv (materializeEmpty S p) := by
  have hmi := mi_inv S p hinv
  rcases matEmpty_cases S p with ⟨heq, _⟩ | ⟨heq, hnone⟩
  · rw [heq]
    exact hmi
  · rw [heq]
    exact consAlloc_inv _ p hnone (maybeIncrease_inBounds S p hv) hmi

theorem matEmpty_view (S : SheetState) (p : Position) (hv : p.IsValid = true)
    (hib : IdsBelowNext S) (q : Position) :
    viewOf (materializeEmpty S p) q = viewOf S q := by
  rcases matEmpty_cases S p with ⟨heq, _⟩ | ⟨heq, hnone⟩
  · rw [heq]
    exact mi_view S p q
  · rw [heq, consAlloc_view _ p hnone (maybeIncrease_inBounds S p hv)
      (idsBelow_maybeIncrease S p hib) q]
    exact mi_view S p q

theorem matEmpty_len_ge (S : SheetState) (p : Position) :
    S.cells.length ≤ (materializeEmpty S p).cells.length := by
  rcases matEmpty_cases S p with ⟨heq, _⟩ | ⟨heq, hnone⟩
  · rw [heq]
    exact Nat.le_refl _
  · rw [heq, consAlloc_len]
    show S.cells.length ≤ S.cells.length + 1
    omega

theorem matEmpty_grid_mono (S : SheetState) (p q : Position) (j : CellId)
    (h : gridGet S.grid q = some j) : gridGet (materializeEmpty S p).grid q = some j := by
  rcases matEmpty_cases S p with ⟨heq, _⟩ | ⟨heq, hnone⟩
  · rw [heq, gridGet_maybeIncrease]
    exact h
  · rw [heq]
    show gridGet (setGrid (MaybeIncreaseSizeToIncludePosition S p).grid p
      (some (MaybeIncreaseSizeToIncludePosition S p).nextId)) q = some j
    by_cases hco : p.row.toNat = q.row.toNat ∧ p.col.toNat = q.col.toNat
    · exfalso
      rw [gridGet_congr_coords (MaybeIncreaseSizeToIncludePosition S p).grid p q hco.1 hco.2,
        gridGet_maybeIncrease, h] at hnone
      exact Option.noConfusion hnone
    · rw [gridGet_setGrid_other _ p q _ (by tauto), gridGet_maybeIncrease]
      exact h


/-! ### Core bundle carried through the subscription loop -/

/-- The structural part of the invariant needed while edges are being
rewired (freshness and edge characterisations are re-established at the
end of the edit). -/
def CoreC (S : SheetState) : Prop :=
  (keysOf S).Nodup ∧ IdsBelowNext S ∧ GridInj S ∧ GridLive S

theorem inv_core (S : SheetState) (h : Inv S) : CoreC S :=
  ⟨inv_nodup S h, inv_ids S h, inv_gridInj S h, inv_gridLive S h⟩

theorem updateCell_core (S : SheetState) (x : CellId) (f : CellNode → CellNode)
    (h : CoreC S) : CoreC (updateCell S x f) := by
  obtain ⟨hnd, hib, hgi, hgl⟩ := h
  refine ⟨by rw [updateCell_keys]; exact hnd, ⟨?_, ?_⟩, ?_, ?_⟩
  · intro e he
    unfold updateCell at he
    dsimp only at he
    rcases List.mem_map.mp he with ⟨e0, he0, heq⟩
    have h1 := hib.1 e0 he0
    show e.1 < S.nextId
    by_cases hx : e0.1 = x
    · rw [← heq, if_pos hx]
      exact hx ▸ h1
    · rw [← heq, if_neg hx]
      exact h1
  · intro row hrow sl hsl
    exact hib.2 row hrow sl hsl
  · intro q1 q2 i h1 h2
    rw [updateCell_grid] at h1 h2
    exact hgi q1 q2 i h1 h2
  · intro q j hj
    rw [updateCell_grid] at hj
    rw [updateCell_keys]
    exact hgl q j hj

theorem mi_core (S : SheetState) (p : Position) (h : CoreC S) :
    CoreC (MaybeIncreaseSizeToIncludePosition S p) := by
  obtain ⟨hnd, hib, hgi, hgl⟩ := h
  refine ⟨hnd, idsBelow_maybeIncrease S p hib, ?_, ?_⟩
  · intro q1 q2 i h1 h2
    rw [gridGet_maybeIncrease] at h1 h2
    exact hgi q1 q2 i h1 h2
  · intro q j hj
    rw [gridGet_maybeIncrease] at hj
    exact hgl q j hj

theorem consAlloc_core (S0 : SheetState) (p : Position) (hg : gridGet S0.grid p = none)
    (hb : slotInBounds S0.grid p) (h : CoreC S0) : CoreC (consAlloc S0 p) := by
  obtain ⟨hnd, hib, hgi, hgl⟩ := h
  refine ⟨?_, consAlloc_idsBelow S0 p hib, ?_, ?_⟩
  · rw [consAlloc_keys]
    refine List.nodup_cons.mpr ⟨?_, hnd⟩
    intro h
    exact Nat.lt_irrefl _ (key_lt_next S0 hib S0.nextId h)
  · intro q1 q2 i h1 h2
    rw [consAlloc_grid S0 p hb] at h1 h2
    by_cases hc1 : p.row.toNat = q1.row.toNat ∧ p.col.toNat = q1.col.toNat
    · rw [if_pos hc1] at h1
      injection h1 with h1e
      by_cases hc2 : p.row.toNat = q2.row.toNat ∧ p.col.toNat = q2.col.toNat
      · rw [if_pos hc2] at h2
        exact ⟨hc1.1 ▸ hc2.1, hc1.2 ▸ hc2.2⟩
      · rw [if_neg hc2] at h2
        exfalso
        have h3 := gridGet_lt_nextP S0 hib q2 i h2
        rw [← h1e] at h3
        exact Nat.lt_irrefl _ h3
    · rw [if_neg hc1] at h1
      by_cases hc2 : p.row.toNat = q2.row.toNat ∧ p.col.toNat = q2.col.toNat
      · rw [if_pos hc2] at h2
        injection h2 with h2e
        exfalso
        have h3 := gridGet_lt_nextP S0 hib q1 i h1
        rw [← h2e] at h3
        exact Nat.lt_irrefl _ h3
      · rw [if_neg hc2] at h2
        exact hgi q1 q2 i h1 h2
  · intro q j hj
    rw [consAlloc_grid S0 p hb] at hj
    rw [consAlloc_keys]
    by_cases hco : p.row.toNat = q.row.toNat ∧ p.col.toNat = q.col.toNat
    · rw [if_pos hco] at hj
      injection hj with h2
      rw [← h2]
      exact List.mem_cons_self _ _
    · rw [if_neg hco] at hj
      exact List.mem_cons.mpr (Or.inr (hgl q j hj))

theorem matEmpty_core (S : SheetState) (p : Position) (hv : p.IsValid = true)
    (h : CoreC S) : CoreC (materializeEmpty S p) := by
  rcases matEmpty_cases S p with ⟨heq, _⟩ | ⟨heq, hnone⟩
  · rw [heq]
    exact mi_core S p h
  · rw [heq]
    exact consAlloc_core _ p hnone (maybeIncrease_inBounds S p hv) (mi_core S p h)

theorem matEmpty_keys_mono (S : SheetState) (p : Position) (x : CellId)
    (h : x ∈ keysOf S) : x ∈ keysOf (materializeEmpty S p) := by
  rcases matEmpty_cases S p with ⟨heq, _⟩ | ⟨heq, hnone⟩
  · rw [heq]
    exact h
  · rw [heq, consAlloc_keys]
    exact List.mem_cons.mpr (Or.inr h)

theorem matEmpty_lookup (S : SheetState) (p : Position) (hib : IdsBelowNext S) (x : CellId) :
    lookupCell (materializeEmpty S p) x = lookupCell S x ∨
      (lookupCell S x = none ∧
        lookupCell (materializeEmpty S p) x = some ⟨.empty, [], []⟩) := by
  rcases matEmpty_cases S p with ⟨heq, _⟩ | ⟨heq, hnone⟩
  · rw [heq]
    exact Or.inl rfl
  · rw [heq, consAlloc_lookup]
    by_cases hx : (MaybeIncreaseSizeToIncludePosition S p).nextId = x
    · rw [if_pos hx]
      refine Or.inr ⟨?_, rfl⟩
      cases hl : lookupCell S x with
      | none => rfl
      | some c =>
        exfalso
        have h1 := lookup_lt_next S hib x c hl
        have h2 : (MaybeIncreaseSizeToIncludePosition S p).nextId = S.nextId := rfl
        rw [h2] at hx
        rw [← hx] at h1
        exact Nat.lt_irrefl _ h1
    · rw [if_neg hx]
      exact Or.inl rfl

theorem matEmpty_slot (S : SheetState) (p : Position) (hv : p.IsValid = true)
    (hg : gridGet S.grid p = none) :
    gridGet (materializeEmpty S p).grid p = some S.nextId := by
  rcases matEmpty_cases S p with ⟨heq, hsome⟩ | ⟨heq, hnone⟩
  · exfalso
    rw [gridGet_maybeIncrease, hg] at hsome
    exact Bool.noConfusion hsome
  · rw [heq, consAlloc_grid _ p (maybeIncrease_inBounds S p hv), if_pos ⟨rfl, rfl⟩]
    rfl

theorem sourcesOf_updateCell_self (S : SheetState) (x : CellId) (c : CellNode)
    (hl : lookupCell S x = some c) (g : List CellId → List CellId) :
    sourcesOf (updateCell S x (fun n => { n with source_cells := g n.source_cells })) x =
      g c.source_cells := by
  unfold sourcesOf
  rw [lookup_updateCell, if_pos rfl, hl]
  rfl

theorem dependentsOf_updateCell_self (S : SheetState) (x : CellId) (c : CellNode)
    (hl : lookupCell S x = some c) (g : List CellId → List CellId) :
    dependentsOf (updateCell S x (fun n => { n with dependent_cells := g n.dependent_cells })) x =
      g c.dependent_cells := by
  unfold dependentsOf
  rw [lookup_updateCell, if_pos rfl, hl]
  rfl

theorem dependentsOf_updateCell_ne (S : SheetState) (t : CellId) (f : CellNode → CellNode)
    (x : CellId) (h : ¬ x = t) :
    dependentsOf (updateCell S t f) x = dependentsOf S x := by
  unfold dependentsOf
  rw [lookup_updateCell, if_neg h]

theorem sourcesOf_updateCell_ne (S : SheetState) (t : CellId) (f : CellNode → CellNode)
    (x : CellId) (h : ¬ x = t) :
    sourcesOf (updateCell S t f) x = sourcesOf S x := by
  unfold sourcesOf
  rw [lookup_updateCell, if_neg h]

theorem lookup_of_key (S : SheetState) (x : CellId) (h : x ∈ keysOf S) :
    ∃ c, lookupCell S x = some c := by
  have h2 := (mem_keys_iff_lookup S x).mp h
  cases hl : lookupCell S x with
  | none =>
    rw [hl] at h2
    cases h2
  | some c => exact ⟨c, rfl⟩


/-! ### The effect of one subscription-loop step -/

theorem updateCell_len (S : SheetState) (x : CellId) (f : CellNode → CellNode) :
    (updateCell S x f).cells.length = S.cells.length := by
  unfold updateCell
  dsimp only
  rw [List.length_map]

/-- What a single loop stage may do to the sheet: grow the grid onto
previously-empty slots with fresh empty cells, insert edges towards
`selfId`'s subscription, and nothing else. -/
def StagePost (selfId : CellId) (S0 S1 : SheetState) : Prop :=
  (∀ q j, gridGet S0.grid q = some j → gridGet S1.grid q = some j) ∧
  (∀ q j, gridGet S1.grid q = some j →
    gridGet S0.grid q = some j ∨ (¬ j ∈ keysOf S0 ∧ implOf S1 j = some .empty)) ∧
  (∀ x, x ∈ keysOf S0 → implOf S1 x = implOf S0 x) ∧
  (∀ x, ¬ x ∈ keysOf S0 → implOf S1 x = none ∨ implOf S1 x = some .empty) ∧
  (∀ x, x ∈ keysOf S0 → x ∈ keysOf S1) ∧
  (∀ q, viewOf S1 q = viewOf S0 q) ∧
  (S0.cells.length ≤ S1.cells.length) ∧
  (∀ x y, y ∈ dependentsOf S0 x → y ∈ dependentsOf S1 x) ∧
  (∀ x y, y ∈ dependentsOf S1 x → y ∈ dependentsOf S0 x ∨ y = selfId) ∧
  (∀ x, ¬ x = selfId → sourcesOf S1 x = sourcesOf S0 x) ∧
  (∀ j, j ∈ sourcesOf S0 selfId → j ∈ sourcesOf S1 selfId)

theorem stagePost_refl (selfId : CellId) (S : SheetState) : StagePost selfId S S :=
  ⟨fun _ _ h => h, fun _ _ h => Or.inl h, fun _ _ => rfl, fun x hx => by
    cases hl : lookupCell S x with
    | none => exact Or.inl (by unfold implOf; rw [hl]; rfl)
    | some c =>
      exact absurd ((mem_keys_iff_lookup S x).mpr (by rw [hl]; rfl)) hx,
   fun _ h => h, fun _ => rfl, Nat.le_refl _, fun _ _ h => h, fun _ _ h => Or.inl h,
   fun _ _ => rfl, fun _ h => h⟩

theorem stagePost_comp (selfId : CellId) (S0 S1 S2 : SheetState)
    (h1 : StagePost selfId S0 S1) (h2 : StagePost selfId S1 S2) :
    StagePost selfId S0 S2 := by
  obtain ⟨g1m, g1c, i1o, i1n, k1, v1, l1, d1m, d1c, s1o, s1m⟩ := h1
  obtain ⟨g2m, g2c, i2o, i2n, k2, v2, l2, d2m, d2c, s2o, s2m⟩ := h2
  refine ⟨?_, ?_, ?_, ?_, ?_, ?_, ?_, ?_, ?_, ?_, ?_⟩
  · intro q j h
    exact g2m q j (g1m q j h)
  · intro q j h
    rcases g2c q j h with h3 | ⟨hk, hi⟩
    · rcases g1c q j h3 with h4 | ⟨hk4, hi4⟩
      · exact Or.inl h4
      · refine Or.inr ⟨hk4, ?_⟩
        have hj1 : j ∈ keysOf S1 := by
          rw [mem_keys_iff_lookup]
          cases hl : lookupCell S1 j with
          | none =>
            exfalso
            unfold implOf at hi4
            rw [hl] at hi4
            exact Option.noConfusion hi4
          | some c => rfl
        rw [i2o j hj1]
        exact hi4
    · refine Or.inr ⟨?_, hi⟩
      intro hc
      exact hk (k1 j hc)
  · intro x hx
    rw [i2o x (k1 x hx)]
    exact i1o x hx
  · intro x hx
    rcases i1n x hx with h3 | h3
    · have hx1 : ¬ x ∈ keysOf S1 := by
        intro hc
        rw [mem_keys_iff_lookup] at hc
        unfold implOf at h3
        cases hl : lookupCell S1 x with
        | none =>
          rw [hl] at hc
          cases hc
        | some c =>
          rw [hl] at h3
          simp only [Option.map_some'] at h3
          exact Option.noConfusion h3
      exact i2n x hx1
    · have hx1 : x ∈ keysOf S1 := by
        rw [mem_keys_iff_lookup]
        unfold implOf at h3
        cases hl : lookupCell S1 x with
        | none =>
          rw [hl] at h3
          simp only [Option.map_none'] at h3
          exact Option.noConfusion h3
        | some c => rfl
      rw [i2o x hx1]
      exact Or.inr h3
  · intro x hx
    exact k2 x (k1 x hx)
  · intro q
    rw [v2 q, v1 q]
  · exact Nat.le_trans l1 l2
  · intro x y h
    exact d2m x y (d1m x y h)
  · intro x y h
    rcases d2c x y h with h3 | h3
    · exact d1c x y h3
    · exact Or.inr h3
  · intro x hx
    rw [s2o x hx, s1o x hx]
  · intro j h
    exact s2m j (s1m j h)

theorem stagePost_srcIns (S : SheetState) (selfId i : CellId) (c : CellNode)
    (hl : lookupCell S selfId = some c) :
    StagePost selfId S
      (updateCell S selfId (fun n => { n with source_cells := insSorted i n.source_cells })) := by
  have himpl := implOf_updateCell_keep S selfId
    (fun n => { n with source_cells := insSorted i n.source_cells }) (fun _ => rfl)
  refine ⟨?_, ?_, ?_, ?_, ?_, ?_, ?_, ?_, ?_, ?_, ?_⟩
  · intro q j h
    rw [updateCell_grid]
    exact h
  · intro q j h
    rw [updateCell_grid] at h
    exact Or.inl h
  · intro x _
    exact himpl x
  · intro x hx
    rw [himpl x]
    cases hlx : lookupCell S x with
    | none => exact Or.inl (by unfold implOf; rw [hlx]; rfl)
    | some cx =>
      exact absurd ((mem_keys_iff_lookup S x).mpr (by rw [hlx]; rfl)) hx
  · intro x hx
    rw [updateCell_keys]
    exact hx
  · intro q
    exact viewOf_eq_of _ S (updateCell_grid S selfId _) himpl q
  · rw [updateCell_len]
  · intro x y h
    rw [dependentsOf_updateCell_keep S selfId
      (fun n => { n with source_cells := insSorted i n.source_cells }) (fun _ => rfl)]
    exact h
  · intro x y h
    rw [dependentsOf_updateCell_keep S selfId
      (fun n => { n with source_cells := insSorted i n.source_cells }) (fun _ => rfl)] at h
    exact Or.inl h
  · intro x hx
    exact sourcesOf_updateCell_ne S selfId _ x hx
  · intro j h
    rw [sourcesOf_updateCell_self S selfId c hl]
    refine (mem_insSorted i _ j).mpr (Or.inr ?_)
    unfold sourcesOf at h
    rw [hl] at h
    exact h

theorem stagePost_depIns (S : SheetState) (selfId t : CellId) (c : CellNode)
    (hl : lookupCell S t = some c) :
    StagePost selfId S
      (updateCell S t (fun n => { n with dependent_cells := insSorted selfId n.dependent_cells })) := by
  have himpl := implOf_updateCell_keep S t
    (fun n => { n with dependent_cells := insSorted selfId n.dependent_cells }) (fun _ => rfl)
  refine ⟨?_, ?_, ?_, ?_, ?_, ?_, ?_, ?_, ?_, ?_, ?_⟩
  · intro q j h
    rw [updateCell_grid]
    exact h
  · intro q j h
    rw [updateCell_grid] at h
    exact Or.inl h
  · intro x _
    exact himpl x
  · intro x hx
    rw [himpl x]
    cases hlx : lookupCell S x with
    | none => exact Or.inl (by unfold implOf; rw [hlx]; rfl)
    | some cx =>
      exact absurd ((mem_keys_iff_lookup S x).mpr (by rw [hlx]; rfl)) hx
  · intro x hx
    rw [updateCell_keys]
    exact hx
  · intro q
    exact viewOf_eq_of _ S (updateCell_grid S t _) himpl q
  · rw [updateCell_len]
  · intro x y h
    by_cases hx : x = t
    · rw [hx] at h ⊢
      rw [dependentsOf_updateCell_self S t c hl]
      refine (mem_insSorted selfId _ y).mpr (Or.inr ?_)
      unfold dependentsOf at h
      rw [hl] at h
      exact h
    · rw [dependentsOf_updateCell_ne S t _ x hx]
      exact h
  · intro x y h
    by_cases hx : x = t
    · rw [hx] at h ⊢
      rw [dependentsOf_updateCell_self S t c hl] at h
      rcases (mem_insSorted selfId _ y).mp h with h3 | h3
      · exact Or.inr h3
      · refine Or.inl ?_
        unfold dependentsOf
        rw [hl]
        exact h3
    · rw [dependentsOf_updateCell_ne S t _ x hx] at h
      exact Or.inl h
  · intro x _
    exact sourcesOf_updateCell_keep S t
      (fun n => { n with dependent_cells := insSorted selfId n.dependent_cells })
      (fun _ => rfl) x
  · intro j h
    rw [sourcesOf_updateCell_keep S t
      (fun n => { n with dependent_cells := insSorted selfId n.dependent_cells })
      (fun _ => rfl)]
    exact h

theorem stagePost_matEmpty (S : SheetState) (p : Position) (selfId : CellId)
    (hv : p.IsValid = true) (hib : IdsBelowNext S) :
    StagePost selfId S (materializeEmpty S p) := by
  refine ⟨?_, ?_, ?_, ?_, ?_, ?_, matEmpty_len_ge S p, ?_, ?_, ?_, ?_⟩
  · intro q j h
    exact matEmpty_grid_mono S p q j h
  · intro q j h
    rcases matEmpty_cases S p with ⟨heq, _⟩ | ⟨heq, hnone⟩
    · rw [heq, gridGet_maybeIncrease] at h
      exact Or.inl h
    · rw [heq, consAlloc_grid _ p (maybeIncrease_inBounds S p hv)] at h
      by_cases hco : p.row.toNat = q.row.toNat ∧ p.col.toNat = q.col.toNat
      · rw [if_pos hco] at h
        injection h with h2
        refine Or.inr ⟨?_, ?_⟩
        · rw [← h2]
          intro hc
          exact Nat.lt_irrefl _ (key_lt_next S hib _ hc)
        · rw [heq]
          unfold implOf
          rw [consAlloc_lookup, if_pos h2]
          rfl
      · rw [if_neg hco, gridGet_maybeIncrease] at h
        exact Or.inl h
  · intro x hx
    rcases matEmpty_lookup S p hib x with h | ⟨hn, _⟩
    · unfold implOf
      rw [h]
    · exfalso
      rw [mem_keys_iff_lookup, hn] at hx
      cases hx
  · intro x hx
    rcases matEmpty_lookup S p hib x with h | ⟨hn, hnew⟩
    · refine Or.inl ?_
      unfold implOf
      rw [h]
      rw [mem_keys_iff_lookup] at hx
      cases hl : lookupCell S x with
      | none => rfl
      | some cx =>
        exfalso
        rw [hl] at hx
        exact hx rfl
    · refine Or.inr ?_
      unfold implOf
      rw [hnew]
      rfl
  · intro x hx
    exact matEmpty_keys_mono S p x hx
  · intro q
    exact matEmpty_view S p hv hib q
  · intro x y h
    rcases matEmpty_lookup S p hib x with h2 | ⟨hn, hnew⟩
    · unfold dependentsOf
      rw [h2]
      unfold dependentsOf at h
      exact h
    · exfalso
      unfold dependentsOf at h
      rw [hn] at h
      cases h
  · intro x y h
    rcases matEmpty_lookup S p hib x with h2 | ⟨hn, hnew⟩
    · unfold dependentsOf at h ⊢
      rw [h2] at h
      exact Or.inl h
    · exfalso
      unfold dependentsOf at h
      rw [hnew] at h
      cases h
  · intro x _
    rcases matEmpty_lookup S p hib x with h2 | ⟨hn, hnew⟩
    · unfold sourcesOf
      rw [h2]
    · unfold sourcesOf
      rw [hn, hnew]
  · intro j h
    rcases matEmpty_lookup S p hib selfId with h2 | ⟨hn, hnew⟩
    · unfold sourcesOf at h ⊢
      rw [h2]
      exact h
    · exfalso
      unfold sourcesOf at h
      rw [hn] at h
      cases h


/-! ### Postcondition of the whole subscription loop -/

theorem updDeps_post (selfId : CellId) :
    ∀ (refs : List Position) (S0 : SheetState),
    (∀ q ∈ refs, q.IsValid = true) → CoreC S0 → selfId ∈ keysOf S0 →
    ∀ SD, updDepsLoop selfId refs S0 = .ok SD →
    CoreC SD ∧ StagePost selfId S0 SD ∧
      (∀ q ∈ refs, ∀ j, gridGet SD.grid q = some j → ¬ j = selfId →
        j ∈ sourcesOf SD selfId ∧ selfId ∈ dependentsOf SD j) ∧
      (∀ q ∈ refs, ∃ j, gridGet SD.grid q = some j) := by
  intro refs
  induction refs with
  | nil =>
    intro S0 hvalid hcore hself SD hok
    rw [updDepsLoop] at hok
    injection hok with h2
    rw [← h2]
    exact ⟨hcore, stagePost_refl selfId S0, fun q hq => absurd hq (List.not_mem_nil q),
      fun q hq => absurd hq (List.not_mem_nil q)⟩
  | cons p rest ih =>
    intro S0 hvalid hcore hself SD hok
    have hv : p.IsValid = true := hvalid p (List.mem_cons_self p rest)
    have hvrest : ∀ q ∈ rest, q.IsValid = true :=
      fun q hq => hvalid q (List.mem_cons.mpr (Or.inr hq))
    rw [updDepsLoop, getCell_of_valid S0 p hv] at hok
    cases hg0 : gridGet S0.grid p with
    | some i =>
      rw [hg0] at hok
      dsimp only at hok
      rw [getCell_of_valid S0 p hv, hg0] at hok
      dsimp only at hok
      by_cases hselfi : i = selfId
      · rw [if_pos hselfi] at hok
        obtain ⟨hcd, hsp, hsub, hres⟩ := ih S0 hvrest hcore hself SD hok
        refine ⟨hcd, hsp, ?_, ?_⟩
        · intro q hq j hj hjne
          rcases List.mem_cons.mp hq with rfl | hq2
          · exfalso
            have h2 := hsp.1 q i hg0
            rw [hj] at h2
            injection h2 with h3
            exact hjne (h3.trans hselfi)
          · exact hsub q hq2 j hj hjne
        · intro q hq
          rcases List.mem_cons.mp hq with rfl | hq2
          · exact ⟨i, hsp.1 q i hg0⟩
          · exact hres q hq2
      · rw [if_neg hselfi] at hok
        obtain ⟨cSelf, hlSelf⟩ := lookup_of_key S0 selfId hself
        have hiKey : i ∈ keysOf S0 := hcore.2.2.2 p i hg0
        obtain ⟨ci, hlI⟩ := lookup_of_key S0 i hiKey
        set SM1 := updateCell S0 selfId
          (fun c => { c with source_cells := insSorted i c.source_cells }) with hSM1
        set SM2 := updateCell SM1 i
          (fun c => { c with dependent_cells := insSorted selfId c.dependent_cells }) with hSM2
        have hst1 := stagePost_srcIns S0 selfId i cSelf hlSelf
        have hlI1 : lookupCell SM1 i = some ci := by
          rw [hSM1, lookup_updateCell, if_neg hselfi]
          exact hlI
        have hst2 := stagePost_depIns SM1 selfId i ci hlI1
        have hcore2 : CoreC SM2 :=
          updateCell_core SM1 i _ (updateCell_core S0 selfId _ hcore)
        have hself2 : selfId ∈ keysOf SM2 := by
          rw [hSM2, updateCell_keys, hSM1, updateCell_keys]
          exact hself
        obtain ⟨hcd, hsp', hsub, hres⟩ := ih SM2 hvrest hcore2 hself2 SD hok
        obtain ⟨gm, gc, io, inn, kk, vv, ll, dm, dc, so, sm⟩ := hsp'
        refine ⟨hcd, stagePost_comp selfId S0 SM2 SD
          (stagePost_comp selfId S0 SM1 SM2 hst1 hst2)
          ⟨gm, gc, io, inn, kk, vv, ll, dm, dc, so, sm⟩, ?_, ?_⟩
        · intro q hq j hj hjne
          rcases List.mem_cons.mp hq with rfl | hq2
          · have hg2 : gridGet SM2.grid q = some i := by
              rw [hSM2, updateCell_grid, hSM1, updateCell_grid]
              exact hg0
            have h2 := gm q i hg2
            rw [hj] at h2
            injection h2 with h3
            constructor
            · refine sm j ?_
              have hsrc : sourcesOf SM2 selfId = insSorted i cSelf.source_cells := by
                rw [hSM2, sourcesOf_updateCell_keep SM1 i
                  (fun c => { c with dependent_cells := insSorted selfId c.dependent_cells })
                  (fun _ => rfl), hSM1, sourcesOf_updateCell_self S0 selfId cSelf hlSelf]
              rw [hsrc, h3]
              exact (mem_insSorted i _ i).mpr (Or.inl rfl)
            · refine dm j selfId ?_
              have hdep : dependentsOf SM2 i = insSorted selfId ci.dependent_cells := by
                rw [hSM2, dependentsOf_updateCell_self SM1 i ci hlI1]
              rw [h3, hdep]
              exact (mem_insSorted selfId _ selfId).mpr (Or.inl rfl)
          · exact hsub q hq2 j hj hjne
        · intro q hq
          rcases List.mem_cons.mp hq with rfl | hq2
          · refine ⟨i, gm q i ?_⟩
            rw [hSM2, updateCell_grid, hSM1, updateCell_grid]
            exact hg0
          · exact hres q hq2
    | none =>
      rw [hg0] at hok
      dsimp only at hok
      rw [getCell_of_valid (materializeEmpty S0 p) p hv, matEmpty_slot S0 p hv hg0] at hok
      dsimp only at hok
      have hne : ¬ S0.nextId = selfId := by
        intro hc
        have h2 := key_lt_next S0 hcore.2.1 selfId hself
        rw [hc] at h2
        exact Nat.lt_irrefl _ h2
      rw [if_neg hne] at hok
      obtain ⟨cSelf, hlSelf⟩ := lookup_of_key S0 selfId hself
      have hst0 := stagePost_matEmpty S0 p selfId hv hcore.2.1
      have hcorem := matEmpty_core S0 p hv hcore
      have hselfm : selfId ∈ keysOf (materializeEmpty S0 p) :=
        matEmpty_keys_mono S0 p selfId hself
      have hlm : lookupCell (materializeEmpty S0 p) selfId = some cSelf := by
        rcases matEmpty_lookup S0 p hcore.2.1 selfId with h | ⟨hn, _⟩
        · rw [h]
          exact hlSelf
        · rw [hn] at hlSelf
          exact Option.noConfusion hlSelf
      have hnidKey : S0.nextId ∈ keysOf (materializeEmpty S0 p) :=
        hcorem.2.2.2 p S0.nextId (matEmpty_slot S0 p hv hg0)
      obtain ⟨cN, hlN⟩ := lookup_of_key (materializeEmpty S0 p) S0.nextId hnidKey
      set SM1 := updateCell (materializeEmpty S0 p) selfId
        (fun c => { c with source_cells := insSorted S0.nextId c.source_cells }) with hSM1
      set SM2 := updateCell SM1 S0.nextId
        (fun c => { c with dependent_cells := insSorted selfId c.dependent_cells }) with hSM2
      have hst1 := stagePost_srcIns (materializeEmpty S0 p) selfId S0.nextId cSelf hlm
      have hlN1 : lookupCell SM1 S0.nextId = some cN := by
        rw [hSM1, lookup_updateCell, if_neg hne]
        exact hlN
      have hst2 := stagePost_depIns SM1 selfId S0.nextId cN hlN1
      have hcore2 : CoreC SM2 :=
        updateCell_core SM1 S0.nextId _ (updateCell_core (materializeEmpty S0 p) selfId _ hcorem)
      have hself2 : selfId ∈ keysOf SM2 := by
        rw [hSM2, updateCell_keys, hSM1, updateCell_keys]
        exact hselfm
      obtain ⟨hcd, hsp', hsub, hres⟩ := ih SM2 hvrest hcore2 hself2 SD hok
      obtain ⟨gm, gc, io, inn, kk, vv, ll, dm, dc, so, sm⟩ := hsp'
      refine ⟨hcd, stagePost_comp selfId S0 SM2 SD
        (stagePost_comp selfId S0 SM1 SM2
          (stagePost_comp selfId S0 (materializeEmpty S0 p) SM1 hst0 hst1) hst2)
        ⟨gm, gc, io, inn, kk, vv, ll, dm, dc, so, sm⟩, ?_, ?_⟩
      · intro q hq j hj hjne
        rcases List.mem_cons.mp hq with rfl | hq2
        · have hg2 : gridGet SM2.grid q = some S0.nextId := by
            rw [hSM2, updateCell_grid, hSM1, updateCell_grid]
            exact matEmpty_slot S0 q hv hg0
          have h2 := gm q S0.nextId hg2
          rw [hj] at h2
          injection h2 with h3
          constructor
          · refine sm j ?_
            have hsrc : sourcesOf SM2 selfId = insSorted S0.nextId cSelf.source_cells := by
              rw [hSM2, sourcesOf_updateCell_keep SM1 S0.nextId
                (fun c => { c with dependent_cells := insSorted selfId c.dependent_cells })
                (fun _ => rfl), hSM1,
                sourcesOf_updateCell_self (materializeEmpty S0 q) selfId cSelf hlm]
            rw [hsrc, h3]
            exact (mem_insSorted S0.nextId _ S0.nextId).mpr (Or.inl rfl)
          · refine dm j selfId ?_
            have hdep : dependentsOf SM2 S0.nextId = insSorted selfId cN.dependent_cells := by
              rw [hSM2, dependentsOf_updateCell_self SM1 S0.nextId cN hlN1]
            rw [h3, hdep]
            exact (mem_insSorted selfId _ selfId).mpr (Or.inl rfl)
        · exact hsub q hq2 j hj hjne
      · intro q hq
        rcases List.mem_cons.mp hq with rfl | hq2
        · refine ⟨S0.nextId, gm q S0.nextId ?_⟩
          rw [hSM2, updateCell_grid, hSM1, updateCell_grid]
          exact matEmpty_slot S0 q hv hg0
        · exact hres q hq2


/-! ### Unsubscription and downstream invalidation: projections -/

theorem ersAll_idem (x : CellId) (l : List CellId) :
    ersAll x (ersAll x l) = ersAll x l := by
  unfold ersAll
  rw [List.filter_filter]
  apply List.filter_congr
  intro a _
  cases h : (a == x) <;> rfl

theorem deps_updateCell_ers (selfId : CellId) (S : SheetState) (a x : CellId) :
    dependentsOf (updateCell S a
      (fun c => { c with dependent_cells := ersAll selfId c.dependent_cells })) x =
      dependentsOf S x ∨
    dependentsOf (updateCell S a
      (fun c => { c with dependent_cells := ersAll selfId c.dependent_cells })) x =
      ersAll selfId (dependentsOf S x) := by
  by_cases hx : x = a
  · rw [hx]
    unfold dependentsOf
    rw [lookup_updateCell, if_pos rfl]
    cases hl : lookupCell S a with
    | none => exact Or.inl rfl
    | some c => exact Or.inr rfl
  · rw [dependentsOf_updateCell_ne S a _ x hx]
    exact Or.inl rfl

theorem deps_foldl_ers (selfId : CellId) :
    ∀ (l : List CellId) (S : SheetState) (x : CellId),
    dependentsOf (l.foldl (fun acc srcId => updateCell acc srcId
      (fun c => { c with dependent_cells := ersAll selfId c.dependent_cells })) S) x =
      dependentsOf S x ∨
    dependentsOf (l.foldl (fun acc srcId => updateCell acc srcId
      (fun c => { c with dependent_cells := ersAll selfId c.dependent_cells })) S) x =
      ersAll selfId (dependentsOf S x) := by
  intro l
  induction l with
  | nil => intro S x; exact Or.inl rfl
  | cons a t ih =>
    intro S x
    simp only [List.foldl_cons]
    rcases ih (updateCell S a
      (fun c => { c with dependent_cells := ersAll selfId c.dependent_cells })) x with h | h
    · rw [h]
      exact deps_updateCell_ers selfId S a x
    · rw [h]
      rcases deps_updateCell_ers selfId S a x with h2 | h2
      · rw [h2]
        exact Or.inr rfl
      · rw [h2, ersAll_idem]
        exact Or.inr rfl

theorem unsub_deps (S : SheetState) (selfId x : CellId) :
    dependentsOf (UnsubscribeFromSources S selfId) x = dependentsOf S x ∨
    dependentsOf (UnsubscribeFromSources S selfId) x = ersAll selfId (dependentsOf S x) := by
  unfold UnsubscribeFromSources
  cases hl : lookupCell S selfId with
  | none => exact Or.inl rfl
  | some self =>
    dsimp only
    rw [dependentsOf_updateCell_keep _ selfId
      (fun c => { c with source_cells := ([] : List CellId) }) (fun _ => rfl)]
    exact deps_foldl_ers selfId self.source_cells S x

theorem unsub_deps_sub (S : SheetState) (selfId x y : CellId)
    (h : y ∈ dependentsOf (UnsubscribeFromSources S selfId) x) : y ∈ dependentsOf S x := by
  rcases unsub_deps S selfId x with h2 | h2
  · rw [h2] at h
    exact h
  · rw [h2] at h
    exact ((mem_ersAll selfId _ y).mp h).1

theorem unsub_deps_ne (S : SheetState) (selfId x y : CellId) (hy : ¬ y = selfId)
    (h : y ∈ dependentsOf S x) :
    y ∈ dependentsOf (UnsubscribeFromSources S selfId) x := by
  rcases unsub_deps S selfId x with h2 | h2
  · rw [h2]
    exact h
  · rw [h2]
    exact (mem_ersAll selfId _ y).mpr ⟨h, hy⟩

theorem unsub_implOf (S : SheetState) (selfId x : CellId) :
    implOf (UnsubscribeFromSources S selfId) x = implOf S x := by
  unfold UnsubscribeFromSources
  cases hl : lookupCell S selfId with
  | none => rfl
  | some self =>
    dsimp only
    rw [implOf_updateCell_keep _ selfId
      (fun c => { c with source_cells := ([] : List CellId) }) (fun _ => rfl)]
    exact implOf_foldl_keep
      (fun srcId c => { c with dependent_cells := ersAll selfId c.dependent_cells })
      (fun _ _ => rfl) self.source_cells S x

theorem unsub_sources_ne (S : SheetState) (selfId x : CellId) (hx : ¬ x = selfId) :
    sourcesOf (UnsubscribeFromSources S selfId) x = sourcesOf S x := by
  unfold UnsubscribeFromSources
  cases hl : lookupCell S selfId with
  | none => rfl
  | some self =>
    dsimp only
    rw [sourcesOf_updateCell_ne _ selfId _ x hx]
    exact sourcesOf_foldl_keep
      (fun srcId c => { c with dependent_cells := ersAll selfId c.dependent_cells })
      (fun _ _ => rfl) self.source_cells S x

theorem unsub_sources_self (S : SheetState) (selfId : CellId) :
    sourcesOf (UnsubscribeFromSources S selfId) selfId = [] := by
  unfold UnsubscribeFromSources
  cases hl : lookupCell S selfId with
  | none =>
    unfold sourcesOf
    rw [hl]
  | some self =>
    dsimp only
    unfold sourcesOf
    rw [lookup_updateCell, if_pos rfl]
    cases lookupCell (self.source_cells.foldl (fun acc srcId => updateCell acc srcId
      (fun c => { c with dependent_cells := ersAll selfId c.dependent_cells })) S) selfId with
    | none => rfl
    | some c => rfl

theorem unsub_len (S : SheetState) (selfId : CellId) :
    (UnsubscribeFromSources S selfId).cells.length = S.cells.length := by
  have h := (unsub_frame S selfId).2.2
  rw [← keys_len, ← keys_len, h]

theorem unsub_view (S : SheetState) (selfId : CellId) (q : Position) :
    viewOf (UnsubscribeFromSources S selfId) q = viewOf S q :=
  viewOf_eq_of _ S (unsub_frame S selfId).1 (unsub_implOf S selfId) q

theorem invalDown_deps (fuel : Nat) :
    ∀ (work vis : List CellId) (S : SheetState) (x : CellId),
    dependentsOf (invalDownF fuel work vis S) x = dependentsOf S x := by
  induction fuel with
  | zero => intro work vis S x; rfl
  | succ f ih =>
    intro work vis S x
    match work with
    | [] => rfl
    | cur :: st =>
      rw [invalDownF]
      by_cases h : cur ∈ vis
      · rw [if_pos h]
        exact ih st vis S x
      · rw [if_neg h, ih]
        exact dependentsOf_updateCell_keep S cur
          (fun n => { n with impl := n.impl.InvalidateCache }) (fun _ => rfl) x

theorem invalDown_sources (fuel : Nat) :
    ∀ (work vis : List CellId) (S : SheetState) (x : CellId),
    sourcesOf (invalDownF fuel work vis S) x = sourcesOf S x := by
  induction fuel with
  | zero => intro work vis S x; rfl
  | succ f ih =>
    intro work vis S x
    match work with
    | [] => rfl
    | cur :: st =>
      rw [invalDownF]
      by_cases h : cur ∈ vis
      · rw [if_pos h]
        exact ih st vis S x
      · rw [if_neg h, ih]
        exact sourcesOf_updateCell_keep S cur
          (fun n => { n with impl := n.impl.InvalidateCache }) (fun _ => rfl) x

theorem invalDown_lookup_of_cache_some (fuel : Nat) :
    ∀ (work vis : List CellId) (S : SheetState) (x : CellId) (v : CellValue),
    cacheOf (invalDownF fuel work vis S) x = some v →
    lookupCell (invalDownF fuel work vis S) x = lookupCell S x := by
  induction fuel with
  | zero => intro work vis S x v _; rfl
  | succ f ih =>
    intro work vis S x v h
    match work with
    | [] => rfl
    | cur :: st =>
      rw [invalDownF] at h ⊢
      by_cases hc : cur ∈ vis
      · rw [if_pos hc] at h ⊢
        exact ih st vis S x v h
      · rw [if_neg hc] at h ⊢
        rw [ih _ _ _ x v h]
        by_cases hx : x = cur
        · exfalso
          have h2 := cacheOf_invalDown_mono f _ _ _ x v h
          rw [cacheOf_updateCell_inval, if_pos hx] at h2
          exact Option.noConfusion h2
        · rw [lookup_updateCell, if_neg hx]

theorem invalDown_len (fuel : Nat) (work vis : List CellId) (S : SheetState) :
    (invalDownF fuel work vis S).cells.length = S.cells.length := by
  have h := (invalDownF_frame fuel work vis S).2.2
  rw [← keys_len, ← keys_len, h]

theorem invalDown_view (fuel : Nat) (work vis : List CellId) (S : SheetState) (q : Position) :
    viewOf (invalDownF fuel work vis S) q = viewOf S q :=
  view_congr_of_strip _ S (strip_invalDown fuel work vis S) q

/-! ### The behaviour write of `Cell::Set` -/

theorem view_updateImpl_ne (T : SheetState) (selfId : CellId) (f : CellNode → CellNode)
    (q : Position) (h : ¬ gridGet T.grid q = some selfId) :
    viewOf (updateCell T selfId f) q = viewOf T q := by
  unfold viewOf
  rw [updateCell_grid]
  cases hg : gridGet T.grid q with
  | none => rfl
  | some j =>
    dsimp only
    rw [lookup_updateCell, if_neg (by intro hc; rw [hc] at hg; exact h hg)]

theorem implOf_updateImpl_self (T : SheetState) (selfId : CellId) (c : CellNode)
    (hl : lookupCell T selfId = some c) (I : CellImpl) :
    implOf (updateCell T selfId (fun n => { n with impl := I })) selfId = some I := by
  unfold implOf
  rw [lookup_updateCell, if_pos rfl, hl]
  rfl

theorem implOf_updateImpl_ne (T : SheetState) (selfId : CellId) (I : CellImpl)
    (x : CellId) (hx : ¬ x = selfId) :
    implOf (updateCell T selfId (fun n => { n with impl := I })) x = implOf T x := by
  unfold implOf
  rw [lookup_updateCell, if_neg hx]


/-! ### Cycle decomposition and structural frames -/

theorem path_first_t (R : CellId → CellId → Prop) (t : CellId) :
    ∀ a b, Relation.ReflTransGen R a b →
    Relation.ReflTransGen (fun x y => R x y ∧ x ≠ t) a b ∨
    (Relation.ReflTransGen (fun x y => R x y ∧ x ≠ t) a t ∧
      ∃ j, R t j ∧ Relation.ReflTransGen R j b) := by
  intro a b h
  induction h using Relation.ReflTransGen.head_induction_on with
  | refl => exact Or.inl Relation.ReflTransGen.refl
  | @head x c hxc hcb ih =>
    by_cases hx : x = t
    · rw [hx]
      refine Or.inr ⟨Relation.ReflTransGen.refl, c, ?_, hcb⟩
      rw [← hx]
      exact hxc
    · rcases ih with h1 | ⟨h1, j, htj, hjb⟩
      · exact Or.inl (Relation.ReflTransGen.head ⟨hxc, hx⟩ h1)
      · exact Or.inr ⟨Relation.ReflTransGen.head ⟨hxc, hx⟩ h1, j, htj, hjb⟩

theorem rtg_weaken (R : CellId → CellId → Prop) (t : CellId) :
    ∀ a b, Relation.ReflTransGen (fun x y => R x y ∧ x ≠ t) a b →
      Relation.ReflTransGen R a b := by
  intro a b h
  induction h with
  | refl => exact Relation.ReflTransGen.refl
  | tail h1 h2 ih => exact Relation.ReflTransGen.tail ih h2.1

theorem cycle_cases (R : CellId → CellId → Prop) (t z : CellId)
    (h : Relation.TransGen R z z) :
    Relation.TransGen (fun x y => R x y ∧ x ≠ t) z z ∨
    ∃ j, R t j ∧ Relation.ReflTransGen R j t := by
  obtain ⟨c, hzc, hcz⟩ := (Relation.TransGen.head'_iff).mp h
  by_cases hz : z = t
  · exact Or.inr ⟨c, hz ▸ hzc, hz ▸ hcz⟩
  · rcases path_first_t R t c z hcz with h1 | ⟨h1, j, htj, hjz⟩
    · exact Or.inl (Relation.TransGen.head' ⟨hzc, hz⟩ h1)
    · refine Or.inr ⟨j, htj, ?_⟩
      exact Relation.ReflTransGen.trans hjz
        (Relation.ReflTransGen.head hzc (rtg_weaken R t c t h1))


theorem mem_deps_lookup (S : SheetState) (j y : CellId) (h : y ∈ dependentsOf S j) :
    ∃ cj, lookupCell S j = some cj ∧ y ∈ cj.dependent_cells := by
  unfold dependentsOf at h
  cases hl : lookupCell S j with
  | none =>
    rw [hl] at h
    cases h
  | some cj =>
    rw [hl] at h
    exact ⟨cj, rfl, h⟩

theorem idsBelow_of_frames (S1 S2 : SheetState) (hk : keysOf S1 = keysOf S2)
    (hn : S1.nextId = S2.nextId) (hg : S1.grid = S2.grid) (h : IdsBelowNext S2) :
    IdsBelowNext S1 := by
  constructor
  · intro e he
    have hkm : e.1 ∈ keysOf S1 := List.mem_map.mpr ⟨e, he, rfl⟩
    rw [hk] at hkm
    rcases List.mem_map.mp hkm with ⟨e2, he2, heq⟩
    have h2 := h.1 e2 he2
    rw [hn, ← heq]
    exact h2
  · intro row hrow sl hsl
    rw [hn]
    exact h.2 row (hg ▸ hrow) sl hsl

theorem core_of_frames (S1 S2 : SheetState) (hk : keysOf S1 = keysOf S2)
    (hn : S1.nextId = S2.nextId) (hg : S1.grid = S2.grid) (h : CoreC S2) : CoreC S1 := by
  obtain ⟨hnd, hib, hgi, hgl⟩ := h
  refine ⟨hk ▸ hnd, idsBelow_of_frames S1 S2 hk hn hg hib, ?_, ?_⟩
  · intro q1 q2 i h1 h2
    rw [hg] at h1 h2
    exact hgi q1 q2 i h1 h2
  · intro q j hj
    rw [hg] at hj
    rw [hk]
    exact hgl q j hj

theorem unsub_core (S : SheetState) (selfId : CellId) (h : CoreC S) :
    CoreC (UnsubscribeFromSources S selfId) :=
  core_of_frames _ S (unsub_frame S selfId).2.2 (unsub_frame S selfId).2.1
    (unsub_frame S selfId).1 h

/-! ### The net effect of an edit before downstream invalidation -/

/-- What both edit paths of `Cell::Set` establish just before the final
downstream invalidation: `selfId`'s behaviour replaced by a cache-free
implementation, the grid grown only onto fresh empty cells, the edges
rewired to the new subscription, everything else untouched. -/
def EditPost (T : SheetState) (selfId : CellId) (I : CellImpl) (R : List Position)
    (SD : SheetState) : Prop :=
  CoreC SD ∧
  implOf SD selfId = some I ∧
  (∀ x, x ∈ keysOf T → ¬ x = selfId → implOf SD x = implOf T x) ∧
  (∀ x, ¬ x ∈ keysOf T → implOf SD x = none ∨ implOf SD x = some .empty) ∧
  (∀ q j, gridGet T.grid q = some j → gridGet SD.grid q = some j) ∧
  (∀ q j, gridGet SD.grid q = some j →
    gridGet T.grid q = some j ∨ (¬ j ∈ keysOf T ∧ implOf SD j = some .empty)) ∧
  (∀ x, x ∈ keysOf T → x ∈ keysOf SD) ∧
  T.cells.length ≤ SD.cells.length ∧
  (∀ q, ¬ gridGet T.grid q = some selfId → viewOf SD q = viewOf T q) ∧
  (∀ x y, ¬ y = selfId → y ∈ dependentsOf T x → y ∈ dependentsOf SD x) ∧
  (∀ x y, y ∈ dependentsOf SD x → y ∈ dependentsOf T x ∨ y = selfId) ∧
  (∀ x, ¬ x = selfId → sourcesOf SD x = sourcesOf T x) ∧
  (∀ q ∈ R, ∀ j, gridGet SD.grid q = some j → ¬ j = selfId →
    j ∈ sourcesOf SD selfId ∧ selfId ∈ dependentsOf SD j) ∧
  (∀ q ∈ R, ∃ j, gridGet SD.grid q = some j)

theorem editPost_of_updDeps (T : SheetState) (selfId : CellId) (c0 : CellNode)
    (I : CellImpl) (R : List Position) (SD : SheetState)
    (hcore : CoreC T) (hl0 : lookupCell T selfId = some c0)
    (hvalid : ∀ q ∈ R, q.IsValid = true)
    (hok : updDepsLoop selfId R
      (UnsubscribeFromSources
        (updateCell T selfId (fun c => { c with impl := I })) selfId) = .ok SD) :
    EditPost T selfId I R SD := by
  set SB := updateCell T selfId (fun c => { c with impl := I }) with hSB
  set SC := UnsubscribeFromSources SB selfId with hSC
  have hself : selfId ∈ keysOf T :=
    (mem_keys_iff_lookup T selfId).mpr (by rw [hl0]; rfl)
  have hkeysB : keysOf SB = keysOf T := by
    rw [hSB, updateCell_keys]
  have hkeysC : keysOf SC = keysOf T := by
    rw [hSC, (unsub_frame SB selfId).2.2, hkeysB]
  have hgridB : SB.grid = T.grid := by
    rw [hSB, updateCell_grid]
  have hgridC : SC.grid = T.grid := by
    rw [hSC, (unsub_frame SB selfId).1, hgridB]
  have hlenC : SC.cells.length = T.cells.length := by
    rw [hSC, unsub_len, hSB, updateCell_len]
  have hcoreC : CoreC SC := by
    rw [hSC]
    exact unsub_core SB selfId (by rw [hSB]; exact updateCell_core T selfId _ hcore)
  have hselfC : selfId ∈ keysOf SC := by
    rw [hkeysC]
    exact hself
  obtain ⟨hcd, hsp, hsub, hres⟩ := updDeps_post selfId R SC hvalid hcoreC hselfC SD hok
  obtain ⟨gm, gc, io, inn, kk, vv, ll, dm, dc, so, sm⟩ := hsp
  have himplC : ∀ x, ¬ x = selfId → implOf SC x = implOf T x := by
    intro x hx
    rw [hSC, unsub_implOf, hSB, implOf_updateImpl_ne T selfId I x hx]
  have himplCself : implOf SC selfId = some I := by
    rw [hSC, unsub_implOf, hSB, implOf_updateImpl_self T selfId c0 hl0 I]
  refine ⟨hcd, ?_, ?_, ?_, ?_, ?_, ?_, ?_, ?_, ?_, ?_, ?_, hsub, hres⟩
  · rw [io selfId hselfC]
    exact himplCself
  · intro x hx hxne
    rw [io x (by rw [hkeysC]; exact hx)]
    exact himplC x hxne
  · intro x hx
    exact inn x (by rw [hkeysC]; exact hx)
  · intro q j hj
    refine gm q j ?_
    rw [hgridC]
    exact hj
  · intro q j hj
    rcases gc q j hj with h | ⟨hk, hi⟩
    · rw [hgridC] at h
      exact Or.inl h
    · rw [hkeysC] at hk
      exact Or.inr ⟨hk, hi⟩
  · intro x hx
    refine kk x ?_
    rw [hkeysC]
    exact hx
  · rw [← hlenC]
    exact ll
  · intro q hq
    rw [vv q, hSC, unsub_view, hSB, view_updateImpl_ne T selfId _ q hq]
  · intro x y hy hmem
    refine dm x y ?_
    rw [hSC]
    refine unsub_deps_ne SB selfId x y hy ?_
    rw [hSB, dependentsOf_updateCell_keep T selfId
      (fun c => { c with impl := I }) (fun _ => rfl)]
    exact hmem
  · intro x y hmem
    rcases dc x y hmem with h | h
    · refine Or.inl ?_
      rw [hSC] at h
      have h2 := unsub_deps_sub SB selfId x y h
      rw [hSB, dependentsOf_updateCell_keep T selfId
        (fun c => { c with impl := I }) (fun _ => rfl)] at h2
      exact h2
    · exact Or.inr h
  · intro x hx
    rw [so x hx, hSC, unsub_sources_ne SB selfId x hx, hSB,
      sourcesOf_updateCell_keep T selfId (fun c => { c with impl := I }) (fun _ => rfl)]


/-! ### Downstream invalidation wrappers -/

theorem icd_strip (S : SheetState) (selfId : CellId) :
    stripCaches (InvalidateCacheDownstream S selfId) = stripCaches S :=
  strip_invalDown _ _ _ _

theorem icd_view (S : SheetState) (selfId : CellId) (q : Position) :
    viewOf (InvalidateCacheDownstream S selfId) q = viewOf S q :=
  invalDown_view _ _ _ _ q

theorem icd_deps (S : SheetState) (selfId x : CellId) :
    dependentsOf (InvalidateCacheDownstream S selfId) x = dependentsOf S x :=
  invalDown_deps _ _ _ _ x

theorem icd_keys (S : SheetState) (selfId : CellId) :
    keysOf (InvalidateCacheDownstream S selfId) = keysOf S :=
  (invalDownF_frame _ _ _ _).2.2

theorem icd_lookup_of_cache_some (S : SheetState) (selfId x : CellId) (v : CellValue)
    (h : cacheOf (InvalidateCacheDownstream S selfId) x = some v) :
    lookupCell (InvalidateCacheDownstream S selfId) x = lookupCell S x :=
  invalDown_lookup_of_cache_some _ _ _ _ x v h

theorem icd_covers (S : SheetState) (selfId : CellId) (Y : CellId)
    (hY : Relation.ReflTransGen (stepDep S) selfId Y) :
    cacheOf (InvalidateCacheDownstream S selfId) Y = none := by
  refine invalDown_covers S (edgeFuel S 1) [selfId] [] S (fun i => rfl)
    (fun v hv => absurd hv (List.not_mem_nil v))
    (fun v hv => absurd hv (List.not_mem_nil v))
    ?_ Y ⟨selfId, Or.inl (List.mem_cons_self _ _), hY⟩
  have h1 := remCapD_nil_le S
  unfold edgeFuel
  simp only [List.length_cons, List.length_nil]
  omega

/-! ### An edit preserves the invariant -/

theorem edit_inv (T : SheetState) (selfId : CellId) (I : CellImpl)
    (R : List Position) (SD : SheetState)
    (hinv : Inv T) (hself : selfId ∈ keysOf T)
    (hep : EditPost T selfId I R SD)
    (hIcache : ∀ ast cache, I = .formula ast cache → cache = none)
    (hIrefs : ∀ ast cache, I = .formula ast cache → ∀ q ∈ ast.refsRaw, q ∈ R)
    (hnoself : ∀ q ∈ R, ¬ gridGet T.grid q = some selfId)
    (hnocycle : ¬ cycleSpec T selfId R) :
    Inv (InvalidateCacheDownstream SD selfId) := by
  obtain ⟨hcd, hIself, hIold, hInew, hgm, hgc, hkm, hlen, hview, hdm, hdc, hsne,
    hsub, hres⟩ := hep
  obtain ⟨hfrT, hndT, hibT, hgiT, hglT, hrlT, hscT, hacT⟩ := hinv
  have holdF : ∀ x cx ast cache, lookupCell SD x = some cx →
      cx.impl = .formula ast cache → ¬ x = selfId →
      x ∈ keysOf T ∧ ∃ cx', lookupCell T x = some cx' ∧ cx'.impl = .formula ast cache := by
    intro x cx ast cache hl hi hxne
    by_cases hxT : x ∈ keysOf T
    · refine ⟨hxT, ?_⟩
      have h2 := hIold x hxT hxne
      unfold implOf at h2
      rw [hl] at h2
      cases hlT : lookupCell T x with
      | none =>
        rw [hlT] at h2
        simp only [Option.map_some', Option.map_none'] at h2
        exact Option.noConfusion h2
      | some cx' =>
        rw [hlT] at h2
        simp only [Option.map_some'] at h2
        injection h2 with h3
        exact ⟨cx', rfl, by rw [← h3]; exact hi⟩
    · exfalso
      rcases hInew x hxT with h2 | h2
      · unfold implOf at h2
        rw [hl] at h2
        simp only [Option.map_some'] at h2
        exact Option.noConfusion h2
      · unfold implOf at h2
        rw [hl] at h2
        simp only [Option.map_some'] at h2
        injection h2 with h3
        rw [hi] at h3
        cases h3
  have hselfImpl : ∀ cx, lookupCell SD selfId = some cx → cx.impl = I := by
    intro cx hl
    have h2 := hIself
    unfold implOf at h2
    rw [hl] at h2
    simp only [Option.map_some'] at h2
    exact Option.some.inj h2
  have htr : ∀ a b, refStep SD a b → ¬ a = selfId → refStep T a b := by
    intro a b hr hne
    obtain ⟨c, hl, ast', cache', hi', q, hq, hj⟩ := hr
    obtain ⟨haT, c0, hl0, hi0⟩ := holdF a c ast' cache' hl hi' hne
    obtain ⟨j0, cj, hgj, hlj, hd⟩ := hrlT a c0 ast' cache' hl0 hi0 q hq
    have h2 := hgm q j0 hgj
    rw [hj] at h2
    injection h2 with h3
    exact ⟨c0, hl0, ast', cache', hi0, q, hq, by rw [h3]; exact hgj⟩
  have hacSD : AcyclicRefs SD := by
    intro z hcy
    rcases cycle_cases (refStep SD) selfId z hcy with hav | ⟨j, hstep, hpath⟩
    · exact hacT z (Relation.TransGen.mono (fun a b h => htr a b h.1 h.2) hav)
    · obtain ⟨c, hl, ast', cache', hi', q, hq, hj⟩ := hstep
      have hII := hselfImpl c hl
      rw [hII] at hi'
      have hqR : q ∈ R := hIrefs ast' cache' hi' q hq
      have hmap : ∀ a b, (refStep SD a b ∧ a ≠ selfId) → stepSrc T a b := by
        intro a b h
        have h' := htr a b h.1 h.2
        obtain ⟨c0, hl0, ast0, cc0, hi0, q0, hq0, hj0⟩ := h'
        rcases hscT a c0 ast0 cc0 hl0 hi0 q0 hq0 b hj0 with hba | hbs
        · exfalso
          have edge : refStep T a b := ⟨c0, hl0, ast0, cc0, hi0, q0, hq0, hj0⟩
          exact hacT a (Relation.TransGen.single (hba ▸ edge))
        · show b ∈ sourcesOf T a
          unfold sourcesOf
          rw [hl0]
          exact hbs
      have hpath2 := Relation.ReflTransGen.mono hmap
        (rtg_avoid_src (refStep SD) selfId j hpath)
      rcases hgc q j hj with hjT | ⟨hjnew, _⟩
      · exact hnocycle ⟨q, hqR, j, hjT, hpath2⟩
      · rcases Relation.ReflTransGen.cases_head hpath2 with hje | ⟨w, hw, _⟩
        · rw [hje] at hjnew
          exact hjnew hself
        · have hlj : lookupCell T j = none := by
            cases hlj2 : lookupCell T j with
            | none => rfl
            | some cj =>
              exact absurd ((mem_keys_iff_lookup T j).mpr (by rw [hlj2]; rfl)) hjnew
          have hw2 : w ∈ sourcesOf T j := hw
          unfold sourcesOf at hw2
          rw [hlj] at hw2
          cases hw2
  have hrlSD : RefsLive SD := by
    intro x cx ast cache hl hi q hq
    by_cases hx : x = selfId
    · rw [hx] at hl
      have hII := hselfImpl cx hl
      rw [hII] at hi
      have hqR : q ∈ R := hIrefs ast cache hi q hq
      obtain ⟨j, hgj⟩ := hres q hqR
      have hjne : ¬ j = selfId := by
        intro hc
        rcases hgc q j hgj with hjT | ⟨hjnew, _⟩
        · rw [hc] at hjT
          exact hnoself q hqR hjT
        · rw [hc] at hjnew
          exact hjnew hself
      obtain ⟨hjsrc, hjdep⟩ := hsub q hqR j hgj hjne
      obtain ⟨cj, hlcj, hmem⟩ := mem_deps_lookup SD j selfId hjdep
      rw [hx]
      exact ⟨j, cj, hgj, hlcj, hmem⟩
    · obtain ⟨hxT, cx', hl', hi'⟩ := holdF x cx ast cache hl hi hx
      obtain ⟨j, cj, hgj, hlj, hd⟩ := hrlT x cx' ast cache hl' hi' q hq
      have hdep2 : x ∈ dependentsOf SD j := by
        refine hdm j x hx ?_
        unfold dependentsOf
        rw [hlj]
        exact hd
      obtain ⟨cj2, hlcj2, hmem2⟩ := mem_deps_lookup SD j x hdep2
      exact ⟨j, cj2, hgm q j hgj, hlcj2, hmem2⟩
  have hscSD : SrcsChar SD := by
    intro x cx ast cache hl hi q hq j hj
    by_cases hx : x = selfId
    · rw [hx] at hl
      have hII := hselfImpl cx hl
      rw [hII] at hi
      have hqR : q ∈ R := hIrefs ast cache hi q hq
      by_cases hjne : j = selfId
      · exact Or.inl (by rw [hjne, hx])
      · obtain ⟨hjsrc, _⟩ := hsub q hqR j hj hjne
        refine Or.inr ?_
        have h2 : sourcesOf SD selfId = cx.source_cells := by
          unfold sourcesOf
          rw [hl]
        rw [← h2]
        exact hjsrc
    · obtain ⟨hxT, cx', hl', hi'⟩ := holdF x cx ast cache hl hi hx
      obtain ⟨j0, cj, hgj, hlj, hd⟩ := hrlT x cx' ast cache hl' hi' q hq
      have h2 := hgm q j0 hgj
      rw [hj] at h2
      injection h2 with h3
      rcases hscT x cx' ast cache hl' hi' q hq j0 hgj with hba | hbs
      · exact Or.inl (by rw [h3]; exact hba)
      · refine Or.inr ?_
        have h4 : sourcesOf SD x = sourcesOf T x := hsne x hx
        have h5 : sourcesOf SD x = cx.source_cells := by
          unfold sourcesOf
          rw [hl]
        have h6 : sourcesOf T x = cx'.source_cells := by
          unfold sourcesOf
          rw [hl']
        rw [← h5, h4, h6, h3]
        exact hbs
  -- transfer the structural parts across the invalidation
  have hstrip := icd_strip SD selfId
  have hndSD : (keysOf SD).Nodup := hcd.1
  refine ⟨?_, ?_, ?_, ?_, ?_, ?_, ?_, ?_⟩
  case refine_2 =>
    rw [keys_congr_of_strip _ SD hstrip]
    exact hndSD
  case refine_3 => exact idsBelow_congr_of_strip _ SD hstrip hcd.2.1
  case refine_4 => exact gridInj_congr_of_strip _ SD hstrip hcd.2.2.1
  case refine_5 => exact gridLive_congr_of_strip _ SD hstrip hcd.2.2.2
  case refine_6 => exact refsLive_congr_of_strip _ SD hstrip hrlSD
  case refine_7 => exact srcsChar_congr_of_strip _ SD hstrip hscSD
  case refine_8 => exact acyclic_congr_of_strip _ SD hstrip hacSD
  case refine_1 =>
    -- FreshAll of the invalidated state
    have hacS2 : AcyclicRefs (InvalidateCacheDownstream SD selfId) :=
      acyclic_congr_of_strip _ SD hstrip hacSD
    have hndS2 : (keysOf (InvalidateCacheDownstream SD selfId)).Nodup := by
      rw [keys_congr_of_strip _ SD hstrip]
      exact hndSD
    intro e he
    have hle := lookup_of_mem_nodup _ hndS2 e he
    cases hie : e.2.impl with
    | empty => rfl
    | text s => rfl
    | formula astx cachex =>
      cases cachex with
      | none => rfl
      | some v =>
        show decide (freshOutcome (InvalidateCacheDownstream SD selfId) astx = some v) = true
        refine decide_eq_true ?_
        have hcache : cacheOf (InvalidateCacheDownstream SD selfId) e.1 = some v := by
          unfold cacheOf
          rw [hle]
          dsimp only
          rw [hie]
        have hlSD : lookupCell SD e.1 = some e.2 := by
          rw [← icd_lookup_of_cache_some SD selfId e.1 v hcache]
          exact hle
        have hxne : ¬ e.1 = selfId := by
          intro hc
          rw [hc] at hlSD
          have h2 := hselfImpl e.2 hlSD
          rw [hie] at h2
          cases hI2 : I with
          | empty =>
            rw [hI2] at h2
            cases h2
          | text s =>
            rw [hI2] at h2
            cases h2
          | formula a cc =>
            have h3 := hIcache a cc hI2
            rw [hI2] at h2
            injection h2 with h4 h5
            rw [h3] at h5
            cases h5
        obtain ⟨hxT, cx', hl', hi'⟩ := holdF e.1 e.2 astx (some v) hlSD hie hxne
        have hfreshT : freshOutcome T astx = some v :=
          freshAll_lookup T hfrT e.1 cx' astx v hl' hi'
        have hagree : ∀ q, Touches (viewOf T) astx q →
            viewOf T q = viewOf (InvalidateCacheDownstream SD selfId) q := by
          intro q ht
          by_cases hgq : gridGet T.grid q = some selfId
          · exfalso
            have hOR : OwnerReads T e.1 astx :=
              ownerReads_of_refsLive T hrlT e.1 cx' astx (some v) hl' hi'
            have hchain := touch_to_depchain T hrlT astx q ht e.1 hOR selfId hgq
            have hchain2 : Relation.ReflTransGen (stepDep SD) selfId e.1 := by
              refine Relation.ReflTransGen.mono ?_
                (rtg_avoid_tgt (stepDep T) selfId e.1 hchain)
              intro a b hab
              exact hdm a b hab.2 hab.1
            have hnone := icd_covers SD selfId e.1 hchain2
            rw [hcache] at hnone
            exact Option.noConfusion hnone
          · rw [icd_view SD selfId q, hview q hgq]
        have hlS2 : lookupCell (InvalidateCacheDownstream SD selfId) e.1 = some e.2 := hle
        exact freshOutcome_transfer T (InvalidateCacheDownstream SD selfId) hacS2
          e.1 e.2 astx (some v) hlS2 hie hagree v hfreshT


/-! ### Operation-level invariant preservation -/

theorem formula_getText_ne_empty (ast : Expr) (cache : Option CellValue) :
    ¬ (CellImpl.formula ast cache).GetText = "" := by
  intro h
  unfold CellImpl.GetText at h
  have h2 : ("=" ++ printExpr ast).length = ("" : String).length :=
    congrArg String.length h
  rw [String.length_append] at h2
  have h3 : ("=" : String).length = 1 := rfl
  have h4 : ("" : String).length = 0 := rfl
  omega

theorem implOf_some_trans (S1 S2 : SheetState) (x : CellId)
    (h : implOf S2 x = implOf S1 x) (c2 : CellNode)
    (hl : lookupCell S2 x = some c2) :
    ∃ c1, lookupCell S1 x = some c1 ∧ c1.impl = c2.impl := by
  unfold implOf at h
  rw [hl] at h
  cases hl1 : lookupCell S1 x with
  | none =>
    rw [hl1] at h
    exact Option.noConfusion h
  | some c1 =>
    rw [hl1] at h
    simp only [Option.map_some'] at h
    injection h with h2
    exact ⟨c1, rfl, h2.symm⟩

/-- The id/behaviour projection of the pool, forgetting the edge lists. -/
def implsOf (S : SheetState) : List (CellId × CellImpl) :=
  S.cells.map (fun e => (e.1, e.2.impl))

theorem implsOf_updateCell (S : SheetState) (x : CellId) (f : CellNode → CellNode)
    (hf : ∀ c, (f c).impl = c.impl) : implsOf (updateCell S x f) = implsOf S := by
  unfold implsOf updateCell
  dsimp only
  rw [List.map_map]
  refine List.map_congr_left ?_
  intro e he
  by_cases h : e.1 = x
  · simp only [Function.comp_apply, if_pos h, hf]
  · simp only [Function.comp_apply, if_neg h]

theorem implsOf_foldl (g : CellId → CellNode → CellNode)
    (hg : ∀ i c, (g i c).impl = c.impl) (l : List CellId) :
    ∀ S : SheetState,
    implsOf (l.foldl (fun acc i => updateCell acc i (g i)) S) = implsOf S := by
  induction l with
  | nil =>
    intro S
    rfl
  | cons a rest ih =>
    intro S
    rw [List.foldl_cons, ih, implsOf_updateCell S a (g a) (hg a)]

theorem implsOf_unsub (S : SheetState) (selfId : CellId) :
    implsOf (UnsubscribeFromSources S selfId) = implsOf S := by
  unfold UnsubscribeFromSources
  cases hl : lookupCell S selfId with
  | none => rfl
  | some self =>
    dsimp only
    rw [implsOf_updateCell _ selfId
      (fun c => { c with source_cells := ([] : List CellId) }) (fun _ => rfl)]
    exact implsOf_foldl
      (fun srcId c => { c with dependent_cells := ersAll selfId c.dependent_cells })
      (fun _ _ => rfl) self.source_cells S

theorem impl_mem_of_implsOf_eq (S1 S2 : SheetState) (h : implsOf S2 = implsOf S1) :
    ∀ e ∈ S2.cells, ∃ e0 ∈ S1.cells, e.2.impl = e0.2.impl := by
  intro e he
  have h2 : (e.1, e.2.impl) ∈ implsOf S1 := by
    rw [← h]
    exact List.mem_map_of_mem _ he
  rcases List.mem_map.mp h2 with ⟨e0, he0, heq⟩
  refine ⟨e0, he0, ?_⟩
  have h3 := congrArg Prod.snd heq
  exact h3.symm

theorem freshAll_of_implsEq (S1 S2 : SheetState)
    (himpl : ∀ e ∈ S2.cells, ∃ e0 ∈ S1.cells, e.2.impl = e0.2.impl)
    (hv : ∀ p, viewOf S2 p = viewOf S1 p)
    (hlen : S1.cells.length = S2.cells.length)
    (hf : FreshAll S1) : FreshAll S2 := by
  intro e he
  obtain ⟨e0, he0, heq⟩ := himpl e he
  rw [heq]
  exact implFresh_grow S1 S2 (fun p => (hv p).symm) (le_of_eq hlen) _ (hf e0 he0)

/-- Unsubscribing a cell that holds no formula preserves the invariant:
only edges into/out of `selfId` are dropped, and no live formula needs
them. -/
theorem unsub_inv (S : SheetState) (selfId : CellId) (hinv : Inv S)
    (hnf : ∀ c, lookupCell S selfId = some c →
      ∀ ast cache, ¬ c.impl = CellImpl.formula ast cache) :
    Inv (UnsubscribeFromSources S selfId) := by
  obtain ⟨hfr, hnd, hib, hgi, hgl, hrl, hsc, hac⟩ := hinv
  have hgridE : (UnsubscribeFromSources S selfId).grid = S.grid := (unsub_frame S selfId).1
  have hcore := unsub_core S selfId ⟨hnd, hib, hgi, hgl⟩
  refine ⟨?_, hcore.1, hcore.2.1, hcore.2.2.1, hcore.2.2.2, ?_, ?_, ?_⟩
  · exact freshAll_of_implsEq S _
      (impl_mem_of_implsOf_eq S _ (implsOf_unsub S selfId))
      (unsub_view S selfId) (unsub_len S selfId).symm hfr
  · intro x cx ast cache hl hi p hp
    obtain ⟨cx', hl', hi'⟩ := implOf_some_trans S _ x (unsub_implOf S selfId x) cx hl
    by_cases hxs : x = selfId
    · exact absurd (by rw [hi']; exact hi)
        (hnf cx' (by rw [← hxs]; exact hl') ast cache)
    · obtain ⟨j, cj, hg, hlj, hd⟩ := hrl x cx' ast cache hl' (by rw [hi']; exact hi) p hp
      have hdS : x ∈ dependentsOf S j := by
        unfold dependentsOf
        rw [hlj]
        exact hd
      have hd2 : x ∈ dependentsOf (UnsubscribeFromSources S selfId) j :=
        unsub_deps_ne S selfId j x hxs hdS
      have hIj := unsub_implOf S selfId j
      unfold implOf at hIj
      cases hlj2 : lookupCell (UnsubscribeFromSources S selfId) j with
      | none =>
        exfalso
        rw [hlj2, hlj] at hIj
        exact Option.noConfusion hIj
      | some cj2 =>
        refine ⟨j, cj2, ?_, hlj2, ?_⟩
        · rw [hgridE]
          exact hg
        · unfold dependentsOf at hd2
          rw [hlj2] at hd2
          exact hd2
  · intro x cx ast cache hl hi q hq j hj
    obtain ⟨cx', hl', hi'⟩ := implOf_some_trans S _ x (unsub_implOf S selfId x) cx hl
    by_cases hxs : x = selfId
    · exact absurd (by rw [hi']; exact hi)
        (hnf cx' (by rw [← hxs]; exact hl') ast cache)
    · have hj' : gridGet S.grid q = some j := by
        rw [← hgridE]
        exact hj
      rcases hsc x cx' ast cache hl' (by rw [hi']; exact hi) q hq j hj' with hcase | hcase
      · exact Or.inl hcase
      · refine Or.inr ?_
        have hsrc := unsub_sources_ne S selfId x hxs
        have h1 : j ∈ sourcesOf S x := by
          unfold sourcesOf
          rw [hl']
          exact hcase
        rw [← hsrc] at h1
        unfold sourcesOf at h1
        rw [hl] at h1
        exact h1
  · intro z hcyc
    refine hac z (Relation.TransGen.mono ?_ hcyc)
    intro a b hab
    obtain ⟨c, hlc, ast, cache, hi, p, hp, hgp⟩ := hab
    obtain ⟨c', hlc', hi'⟩ := implOf_some_trans S _ a (unsub_implOf S selfId a) c hlc
    refine ⟨c', hlc', ast, cache, by rw [hi']; exact hi, p, hp, ?_⟩
    rw [← hgridE]
    exact hgp

/-- Downstream invalidation only erases memos, so every surviving memo is
still fresh. -/
theorem icd_freshAll (S : SheetState) (selfId : CellId)
    (hf : FreshAll S) (hnd : (keysOf S).Nodup) :
    FreshAll (InvalidateCacheDownstream S selfId) := by
  intro e he
  have hnd' : (keysOf (InvalidateCacheDownstream S selfId)).Nodup := by
    rw [icd_keys]
    exact hnd
  have hl := lookup_of_mem_nodup _ hnd' e he
  cases hie : e.2.impl with
  | empty => rfl
  | text s => rfl
  | formula ast cc =>
    cases cc with
    | none => rfl
    | some v =>
      have hc : cacheOf (InvalidateCacheDownstream S selfId) e.1 = some v := by
        unfold cacheOf
        rw [hl]
        dsimp only
        rw [hie]
      have hl2 := icd_lookup_of_cache_some S selfId e.1 v hc
      have hlS : lookupCell S e.1 = some e.2 := by
        rw [← hl2]
        exact hl
      have hfresh : freshOutcome S ast = some v :=
        freshAll_lookup S hf e.1 e.2 ast v hlS hie
      show decide (freshOutcome (InvalidateCacheDownstream S selfId) ast = some v) = true
      rw [freshOutcome_congr_of_strip _ S (icd_strip S selfId) ast]
      exact decide_eq_true hfresh

/-- The unsubscribe-then-invalidate epilogue of `Cell::Clear` preserves the
invariant when the cleared cell holds no formula. -/
theorem unsubICD_inv (S : SheetState) (selfId : CellId) (hinv : Inv S)
    (hnf : ∀ c, lookupCell S selfId = some c →
      ∀ ast cache, ¬ c.impl = CellImpl.formula ast cache) :
    Inv (InvalidateCacheDownstream (UnsubscribeFromSources S selfId) selfId) := by
  have h2 := unsub_inv S selfId hinv hnf
  exact inv_of_strip_eq _ _ (icd_strip _ selfId)
    (icd_freshAll _ selfId (inv_fresh _ h2) (inv_nodup _ h2)) h2

/-- A non-formula edit (text or empty) through the write/unsubscribe/
resubscribe-to-nothing/invalidate pipeline preserves the invariant. -/
theorem cellSet_nonformula_inv (T : SheetState) (selfId : CellId) (c0 : CellNode)
    (I : CellImpl) (hinv : Inv T) (hl : lookupCell T selfId = some c0)
    (hnf : ∀ ast cache, ¬ I = CellImpl.formula ast cache) :
    Inv (InvalidateCacheDownstream
      (UnsubscribeFromSources
        (updateCell T selfId (fun c => { c with impl := I })) selfId) selfId) := by
  have hself : selfId ∈ keysOf T := (mem_keys_iff_lookup T selfId).mpr (by rw [hl]; rfl)
  have hep := editPost_of_updDeps T selfId c0 I []
    (UnsubscribeFromSources
      (updateCell T selfId (fun c => { c with impl := I })) selfId)
    (inv_core T hinv) hl (fun q hq => absurd hq (List.not_mem_nil q)) rfl
  exact edit_inv T selfId I []
    (UnsubscribeFromSources
      (updateCell T selfId (fun c => { c with impl := I })) selfId)
    hinv hself hep
    (fun ast cache h => absurd h (hnf ast cache))
    (fun ast cache h => absurd h (hnf ast cache))
    (fun q hq => absurd hq (List.not_mem_nil q))
    (fun hc => by
      rcases hc with ⟨p, hp, _⟩
      exact absurd hp (List.not_mem_nil p))

/-- `Cell::Set` preserves the invariant, whatever its outcome. -/
theorem cellSet_inv (T : SheetState) (selfId : CellId) (t : String) (hinv : Inv T) :
    Inv (outStateE (Cell.Set T selfId t)) := by
  unfold Cell.Set
  cases hlk : lookupCell T selfId with
  | none => exact hinv
  | some self =>
    dsimp only
    by_cases h0 : t = self.impl.GetText
    · rw [if_pos h0]
      exact hinv
    · rw [if_neg h0]
      by_cases h1 : (headIs t.data FORMULA_SIGN && decide (1 < t.length)) = true
      · rw [if_pos h1]
        cases hp : ParseFormulaAST (String.mk (t.data.drop 1)) with
        | error msg => exact hinv
        | ok ast =>
          dsimp only
          cases hcc : CheckCircularDependency T selfId (getReferencedCells ast) with
          | error e => exact hinv
          | ok b =>
            cases b with
            | true => exact hinv
            | false =>
              have hcc0 := hcc
              unfold CheckCircularDependency at hcc
              cases hcs : collectSeeds T selfId (getReferencedCells ast) with
              | error e =>
                rw [hcs] at hcc
                exact Except.noConfusion hcc
              | ok o =>
                cases o with
                | none =>
                  rw [hcs] at hcc
                  injection hcc with h2
                  exact Bool.noConfusion h2
                | some seeds =>
                  have hvalid :=
                    collectSeeds_valid T selfId (getReferencedCells ast) seeds hcs
                  have hnoselfg :=
                    collectSeeds_some_noself T selfId (getReferencedCells ast) seeds hcs
                  have hnocycle : ¬ cycleSpec T selfId (getReferencedCells ast) := by
                    intro hcyc
                    have h3 :=
                      (checkCircular_iff T selfId (getReferencedCells ast) hvalid).mpr hcyc
                    rw [hcc0] at h3
                    injection h3 with h4
                    exact Bool.noConfusion h4
                  obtain ⟨SD, hok⟩ := updDepsLoop_ok selfId (getReferencedCells ast) hvalid
                    (UnsubscribeFromSources
                      (updateCell T selfId
                        (fun c => { c with impl := CellImpl.formula ast none })) selfId)
                  have hself : selfId ∈ keysOf T :=
                    (mem_keys_iff_lookup T selfId).mpr (by rw [hlk]; rfl)
                  have hep := editPost_of_updDeps T selfId self (CellImpl.formula ast none)
                    (getReferencedCells ast) SD (inv_core T hinv) hlk hvalid hok
                  have hres := edit_inv T selfId (CellImpl.formula ast none)
                    (getReferencedCells ast) SD hinv hself hep
                    (fun ast1 cache1 h => by
                      injection h with h5 h6
                      exact h6.symm)
                    (fun ast1 cache1 h q hq => by
                      injection h with h5 h6
                      rw [← h5] at hq
                      exact refsRaw_subset_getRefs ast q hq)
                    hnoselfg hnocycle
                  unfold UpdateDependencies
                  rw [hok]
                  exact hres
      · rw [if_neg h1]
        by_cases h2 : headIs t.data ESCAPE_SIGN = true
        · rw [if_pos h2]
          exact cellSet_nonformula_inv T selfId self (CellImpl.text t) hinv hlk
            (fun ast cache h => CellImpl.noConfusion h)
        · rw [if_neg h2]
          by_cases h3 : t.isEmpty = true
          · rw [if_pos h3]
            exact cellSet_nonformula_inv T selfId self CellImpl.empty hinv hlk
              (fun ast cache h => CellImpl.noConfusion h)
          · rw [if_neg h3]
            exact cellSet_nonformula_inv T selfId self (CellImpl.text t) hinv hlk
              (fun ast cache h => CellImpl.noConfusion h)

/-- After a successful `Set("")` the edited cell holds no formula. -/
theorem cellSet_empty_nonformula (S : SheetState) (selfId : CellId) (SX : SheetState)
    (h : Cell.Set S selfId "" = .ok SX) :
    ∀ c, lookupCell SX selfId = some c →
      ∀ ast cache, ¬ c.impl = CellImpl.formula ast cache := by
  unfold Cell.Set at h
  cases hlk : lookupCell S selfId with
  | none =>
    rw [hlk] at h
    injection h with h2
    intro c hc ast cache hci
    rw [← h2] at hc
    rw [hlk] at hc
    exact Option.noConfusion hc
  | some self =>
    rw [hlk] at h
    dsimp only at h
    by_cases h0 : ("" : String) = self.impl.GetText
    · rw [if_pos h0] at h
      injection h with h2
      intro c hc ast cache hci
      rw [← h2] at hc
      rw [hlk] at hc
      injection hc with h3
      rw [h3] at h0
      rw [hci] at h0
      exact formula_getText_ne_empty ast cache h0.symm
    · rw [if_neg h0] at h
      rw [if_neg (show ¬ (headIs ("" : String).data FORMULA_SIGN &&
          decide (1 < ("" : String).length)) = true from by decide)] at h
      rw [if_neg (show ¬ headIs ("" : String).data ESCAPE_SIGN = true from by decide)] at h
      rw [if_pos (show ("" : String).isEmpty = true from by decide)] at h
      rw [show UpdateDependencies
          (updateCell S selfId (fun c => { c with impl := CellImpl.empty })) selfId [] =
          Except.ok (UnsubscribeFromSources
            (updateCell S selfId (fun c => { c with impl := CellImpl.empty })) selfId)
          from rfl] at h
      dsimp only at h
      injection h with h2
      intro c hc ast cache hci
      rw [← h2] at hc
      obtain ⟨c1, hl1, hsn⟩ := lookup_node_of_strip_eq
        (UnsubscribeFromSources
          (updateCell S selfId (fun c => { c with impl := CellImpl.empty })) selfId)
        (InvalidateCacheDownstream
          (UnsubscribeFromSources
            (updateCell S selfId (fun c => { c with impl := CellImpl.empty })) selfId)
          selfId)
        (icd_strip _ selfId).symm selfId c hc
      have hIj := unsub_implOf
        (updateCell S selfId (fun c => { c with impl := CellImpl.empty })) selfId selfId
      rw [implOf_updateImpl_self S selfId self hlk CellImpl.empty] at hIj
      unfold implOf at hIj
      rw [hl1] at hIj
      simp only [Option.map_some'] at hIj
      injection hIj with h4
      have h5 : stripImpl c1.impl = stripImpl c.impl := congrArg (fun n => n.impl) hsn
      rw [h4, hci] at h5
      exact CellImpl.noConfusion h5

/-- The allocation record of `Sheet::SetCell` is the shared `consAlloc`. -/
theorem consAlloc_eq (S1 : SheetState) (p : Position) :
    ({ nextId := S1.nextId + 1, grid := setGrid S1.grid p (some S1.nextId),
       cells := (S1.nextId, ⟨.empty, [], []⟩) :: S1.cells } : SheetState) =
      consAlloc S1 p := rfl

/-- The state left behind by `Sheet::SetCell`, successful or failed, is
either untouched or the result of a `Cell::Set` on the (possibly grown and
allocated) sheet. -/
theorem stateAfterSet_cases (S : SheetState) (p : Position) (t : String) :
    stateAfterSet S p t = S ∨
    (∃ selfA, stateAfterSet S p t =
      outStateE (Cell.Set (MaybeIncreaseSizeToIncludePosition S p) selfA t)) ∨
    (gridGet (MaybeIncreaseSizeToIncludePosition S p).grid p = none ∧ p.IsValid = true ∧
      stateAfterSet S p t =
        outStateE (Cell.Set (consAlloc (MaybeIncreaseSizeToIncludePosition S p) p)
          (MaybeIncreaseSizeToIncludePosition S p).nextId t)) := by
  unfold stateAfterSet Sheet.SetCell
  by_cases hv : p.IsValid = true
  · rw [if_pos hv]
    dsimp only
    cases hg : gridGet (MaybeIncreaseSizeToIncludePosition S p).grid p with
    | some id =>
      dsimp only
      refine Or.inr (Or.inl ⟨id, ?_⟩)
      cases hset : Cell.Set (MaybeIncreaseSizeToIncludePosition S p) id t with
      | ok S3 => rfl
      | error es =>
        obtain ⟨e, S3⟩ := es
        cases e with
        | invalidPosition m => rfl
        | formulaException m => rfl
        | circularDependency m => rfl
    | none =>
      dsimp only
      refine Or.inr (Or.inr ⟨rfl, hv, ?_⟩)
      rw [consAlloc_eq]
      cases hset : Cell.Set (consAlloc (MaybeIncreaseSizeToIncludePosition S p) p)
          (MaybeIncreaseSizeToIncludePosition S p).nextId t with
      | ok S3 => rfl
      | error es =>
        obtain ⟨e, S3⟩ := es
        cases e with
        | invalidPosition m => rfl
        | formulaException m => rfl
        | circularDependency m => rfl
  · rw [if_neg hv]
    exact Or.inl rfl

/-- `Sheet::SetCell` preserves the invariant, successful or failed. -/
theorem setCell_inv (S : SheetState) (p : Position) (t : String) (hinv : Inv S) :
    Inv (stateAfterSet S p t) := by
  rcases stateAfterSet_cases S p t with h | ⟨selfA, h⟩ | ⟨hg, hv, h⟩
  · rw [h]
    exact hinv
  · rw [h]
    exact cellSet_inv _ selfA t (mi_inv S p hinv)
  · rw [h]
    exact cellSet_inv _ _ t
      (consAlloc_inv _ p hg (maybeIncrease_inBounds S p hv) (mi_inv S p hinv))

/-- `Cell::Clear` preserves the invariant, whatever its outcome. -/
theorem clearOut_inv (S : SheetState) (id : CellId) (hinv : Inv S) :
    Inv (outStateE (Cell.Clear S id)) := by
  unfold Cell.Clear
  cases hset : Cell.Set S id "" with
  | error es =>
    obtain ⟨e, S1⟩ := es
    have hroll := cellSet_error_rollback S id "" e S1 hset
    show Inv S1
    rw [hroll]
    exact hinv
  | ok S1 =>
    have hinv1 : Inv S1 := by
      have h2 := cellSet_inv S id "" hinv
      rw [hset] at h2
      exact h2
    exact unsubICD_inv S1 id hinv1 (cellSet_empty_nonformula S id S1 hset)

/-- The destruction branch of `Sheet::ClearCell`: reset the slot and drop
the node from the pool. -/
def destroyState (S : SheetState) (p : Position) (id : CellId) : SheetState :=
  { S with
    grid := setGrid S.grid p none,
    cells := S.cells.filter (fun e => !(e.1 == id)) }

theorem find_filter_keep (id x : CellId) (hx : ¬ x = id) (l : List (CellId × CellNode)) :
    (l.filter (fun e => !(e.1 == id))).find? (fun e => e.1 == x) =
      l.find? (fun e => e.1 == x) := by
  induction l with
  | nil => rfl
  | cons a rest ih =>
    rw [List.filter_cons]
    by_cases ha : a.1 = id
    · rw [if_neg (by simp [ha]), ih,
        @List.find?_cons_of_neg _ (fun e => e.1 == x) a rest
          (by simp [ha]; exact fun hh => hx hh.symm)]
    · rw [if_pos (by simp [ha])]
      by_cases hax : (a.1 == x) = true
      · rw [@List.find?_cons_of_pos _ (fun e => e.1 == x) a
            (List.filter (fun e => !(e.1 == id)) rest) hax,
          @List.find?_cons_of_pos _ (fun e => e.1 == x) a rest hax]
      · rw [@List.find?_cons_of_neg _ (fun e => e.1 == x) a
            (List.filter (fun e => !(e.1 == id)) rest) hax,
          @List.find?_cons_of_neg _ (fun e => e.1 == x) a rest hax, ih]

theorem lookup_destroy_ne (S : SheetState) (p : Position) (id x : CellId)
    (hx : ¬ x = id) : lookupCell (destroyState S p id) x = lookupCell S x := by
  unfold destroyState lookupCell
  dsimp only
  rw [find_filter_keep id x hx S.cells]

theorem lookup_destroy_self (S : SheetState) (p : Position) (id : CellId) :
    lookupCell (destroyState S p id) id = none := by
  unfold destroyState lookupCell
  dsimp only
  rw [find_filter_ne S.cells id]
  rfl

theorem destroy_grid_ne (S : SheetState) (p : Position) (id : CellId) (q : Position)
    (hq : ¬ (q.row.toNat = p.row.toNat ∧ q.col.toNat = p.col.toNat)) :
    gridGet (destroyState S p id).grid q = gridGet S.grid q := by
  unfold destroyState
  dsimp only
  refine gridGet_setGrid_other S.grid p q none ?_
  by_cases hr : p.row.toNat = q.row.toNat
  · refine Or.inr ?_
    intro hc
    exact hq ⟨hr.symm, hc.symm⟩
  · exact Or.inl hr

theorem destroy_grid_p (S : SheetState) (p : Position) (id : CellId)
    (hb : slotInBounds S.grid p) (q : Position)
    (hq : q.row.toNat = p.row.toNat ∧ q.col.toNat = p.col.toNat) :
    gridGet (destroyState S p id).grid q = none := by
  unfold destroyState
  dsimp only
  rw [gridGet_congr_slot _ q p hq.1 hq.2]
  exact gridGet_setGrid_same S.grid p none hb

theorem destroy_grid_sub (S : SheetState) (p : Position) (id : CellId)
    (hg : gridGet S.grid p = some id) (hgi : GridInj S) (q : Position) (j : CellId)
    (hq : gridGet (destroyState S p id).grid q = some j) :
    gridGet S.grid q = some j ∧ ¬ j = id := by
  by_cases hco : q.row.toNat = p.row.toNat ∧ q.col.toNat = p.col.toNat
  · exfalso
    rw [destroy_grid_p S p id (slotInBounds_of_gridGet S.grid p id hg) q hco] at hq
    exact Option.noConfusion hq
  · rw [destroy_grid_ne S p id q hco] at hq
    refine ⟨hq, ?_⟩
    intro hj
    rw [hj] at hq
    exact hco (hgi q p id hq hg)

theorem destroy_mem_keys (S : SheetState) (p : Position) (id x : CellId)
    (hx : x ∈ keysOf S) (hne : ¬ x = id) : x ∈ keysOf (destroyState S p id) := by
  unfold keysOf at hx ⊢
  rcases List.mem_map.mp hx with ⟨e, he, hex⟩
  refine List.mem_map.mpr ⟨e, ?_, hex⟩
  show e ∈ S.cells.filter (fun e => !(e.1 == id))
  refine List.mem_filter.mpr ⟨he, ?_⟩
  have hex1 : e.1 = x := hex
  simp [hex1, hne]

theorem destroy_nodup (S : SheetState) (p : Position) (id : CellId)
    (hnd : (keysOf S).Nodup) : (keysOf (destroyState S p id)).Nodup := by
  refine List.Nodup.sublist ?_ hnd
  show List.Sublist ((S.cells.filter (fun e => !(e.1 == id))).map (fun e => e.1))
    (S.cells.map (fun e => e.1))
  exact List.Sublist.map _ (List.filter_sublist S.cells)

theorem destroy_view_ne (S : SheetState) (p : Position) (id : CellId)
    (hg : gridGet S.grid p = some id) (hgi : GridInj S) (q : Position)
    (hq : ¬ (q.row.toNat = p.row.toNat ∧ q.col.toNat = p.col.toNat)) :
    viewOf (destroyState S p id) q = viewOf S q := by
  unfold viewOf
  rw [destroy_grid_ne S p id q hq]
  cases hgg : gridGet S.grid q with
  | none => rfl
  | some j =>
    dsimp only
    have hjid : ¬ j = id := by
      intro hj
      rw [hj] at hgg
      exact hq (hgi q p id hgg hg)
    rw [lookup_destroy_ne S p id j hjid]

/-- Destroying an unreferenced cell preserves the invariant: no live
formula reads it (its dependent set is empty), so every view a surviving
memo depends on is unchanged. -/
theorem destroy_inv (S : SheetState) (p : Position) (id : CellId) (self : CellNode)
    (hinv : Inv S) (hg : gridGet S.grid p = some id)
    (hlk : lookupCell S id = some self) (hdeps : self.dependent_cells = []) :
    Inv (destroyState S p id) := by
  obtain ⟨hfr, hnd, hib, hgi, hgl, hrl, hsc, hac⟩ := hinv
  have hnd' : (keysOf (destroyState S p id)).Nodup := destroy_nodup S p id hnd
  have hsub := destroy_grid_sub S p id hg hgi
  have hlookup_sub : ∀ x c, lookupCell (destroyState S p id) x = some c →
      lookupCell S x = some c ∧ ¬ x = id := by
    intro x c hx
    by_cases hxi : x = id
    · rw [hxi, lookup_destroy_self] at hx
      exact absurd hx (fun hh => Option.noConfusion hh)
    · rw [lookup_destroy_ne S p id x hxi] at hx
      exact ⟨hx, hxi⟩
  have hrefStep : ∀ a b, refStep (destroyState S p id) a b → refStep S a b := by
    intro a b hab
    obtain ⟨c, hlc, ast, cache, hi, q, hqr, hgq⟩ := hab
    exact ⟨c, (hlookup_sub a c hlc).1, ast, cache, hi, q, hqr, (hsub q b hgq).1⟩
  have hac' : AcyclicRefs (destroyState S p id) := by
    intro z hcyc
    exact hac z (Relation.TransGen.mono hrefStep hcyc)
  refine ⟨?_, hnd', ⟨?_, ?_⟩, ?_, ?_, ?_, ?_, hac'⟩
  · intro e he
    have he2 : e ∈ S.cells.filter (fun e => !(e.1 == id)) := he
    have heS := List.mem_filter.mp he2
    have hne : ¬ e.1 = id := by
      intro hh
      have hkeep := heS.2
      rw [hh] at hkeep
      simp at hkeep
    cases hie : e.2.impl with
    | empty => rfl
    | text s => rfl
    | formula ast cc =>
      cases cc with
      | none => rfl
      | some v =>
        have hlS : lookupCell S e.1 = some e.2 := lookup_of_mem_nodup S hnd e heS.1
        have hfresh : freshOutcome S ast = some v :=
          freshAll_lookup S hfr e.1 e.2 ast v hlS hie
        have hlD : lookupCell (destroyState S p id) e.1 = some e.2 :=
          lookup_of_mem_nodup _ hnd' e he
        have hagree : ∀ q, Touches (viewOf S) ast q →
            viewOf S q = viewOf (destroyState S p id) q := by
          intro q htq
          by_cases hco : q.row.toNat = p.row.toNat ∧ q.col.toNat = p.col.toNat
          · exfalso
            have hgq : gridGet S.grid q = some id := by
              rw [gridGet_congr_slot S.grid q p hco.1 hco.2]
              exact hg
            have hOR := ownerReads_of_refsLive S hrl e.1 e.2 ast (some v) hlS hie
            have hchain := touch_to_depchain S hrl ast q htq e.1 hOR id hgq
            rcases Relation.ReflTransGen.cases_head hchain with heq | ⟨b, hstep, _⟩
            · exact hne heq.symm
            · have hb : b ∈ dependentsOf S id := hstep
              unfold dependentsOf at hb
              rw [hlk] at hb
              dsimp only at hb
              rw [hdeps] at hb
              exact absurd hb (List.not_mem_nil b)
          · exact (destroy_view_ne S p id hg hgi q hco).symm
        show decide (freshOutcome (destroyState S p id) ast = some v) = true
        exact decide_eq_true (freshOutcome_transfer S _ hac' e.1 e.2 ast
          (some v) hlD hie hagree v hfresh)
  · intro e he
    have he2 : e ∈ S.cells.filter (fun e => !(e.1 == id)) := he
    exact hib.1 e (List.mem_filter.mp he2).1
  · intro row hrow sl hsl
    have hrow2 : row ∈ setGrid S.grid p none := hrow
    unfold setGrid at hrow2
    cases hrp : S.grid[p.row.toNat]? with
    | none =>
      rw [hrp] at hrow2
      exact hib.2 row hrow2 sl hsl
    | some rowL =>
      rw [hrp] at hrow2
      dsimp only at hrow2
      rcases List.mem_or_eq_of_mem_set hrow2 with hmem | hrowEq
      · exact hib.2 row hmem sl hsl
      · have hrowL : rowL ∈ S.grid := List.getElem?_mem hrp
        rw [hrowEq] at hsl
        rcases List.mem_or_eq_of_mem_set hsl with hmem2 | hslEq
        · exact hib.2 rowL hrowL sl hmem2
        · rw [hslEq]
          rfl
  · intro q1 q2 i h1 h2
    exact hgi q1 q2 i (hsub q1 i h1).1 (hsub q2 i h2).1
  · intro q j hq
    obtain ⟨hqS, hji⟩ := hsub q j hq
    exact destroy_mem_keys S p id j (hgl q j hqS) hji
  · intro x cx ast cache hl hi q hq
    obtain ⟨hlS, hxi⟩ := hlookup_sub x cx hl
    obtain ⟨j, cj, hgq, hlj, hd⟩ := hrl x cx ast cache hlS hi q hq
    have hji : ¬ j = id := by
      intro hji
      rw [hji, hlk] at hlj
      injection hlj with h2
      have hcd : cj.dependent_cells = [] := by
        rw [← h2]
        exact hdeps
      rw [hcd] at hd
      exact absurd hd (List.not_mem_nil x)
    have hco : ¬ (q.row.toNat = p.row.toNat ∧ q.col.toNat = p.col.toNat) := by
      intro hco
      rw [gridGet_congr_slot S.grid q p hco.1 hco.2, hg] at hgq
      injection hgq with h2
      exact hji h2.symm
    refine ⟨j, cj, ?_, ?_, hd⟩
    · rw [destroy_grid_ne S p id q hco]
      exact hgq
    · rw [lookup_destroy_ne S p id j hji]
      exact hlj
  · intro x cx ast cache hl hi q hq j hj
    obtain ⟨hlS, _⟩ := hlookup_sub x cx hl
    exact hsc x cx ast cache hlS hi q hq j (hsub q j hj).1

/-- The state left behind by `Sheet::ClearCell` is untouched, the result of
a `Cell::Clear`, or the destruction of an unreferenced cell. -/
theorem stateAfterClear_cases (S : SheetState) (p : Position) :
    stateAfterClear S p = S ∨
    (∃ id, stateAfterClear S p = outStateE (Cell.Clear S id)) ∨
    (∃ id self, gridGet S.grid p = some id ∧ lookupCell S id = some self ∧
      self.dependent_cells = [] ∧ stateAfterClear S p = destroyState S p id) := by
  unfold stateAfterClear Sheet.ClearCell
  by_cases hv : p.IsValid = true
  · rw [getCell_of_valid S p hv]
    cases hg : gridGet S.grid p with
    | none => exact Or.inl rfl
    | some id =>
      dsimp only
      cases hlk : lookupCell S id with
      | none => exact Or.inl rfl
      | some c =>
        dsimp only
        by_cases hr : Cell.IsReferenced c = true
        · rw [if_pos hr]
          refine Or.inr (Or.inl ⟨id, ?_⟩)
          cases hcl : Cell.Clear S id with
          | ok S1 => rfl
          | error es =>
            obtain ⟨e, S1⟩ := es
            rfl
        · rw [if_neg hr]
          refine Or.inr (Or.inr ⟨id, c, rfl, hlk, ?_, rfl⟩)
          cases hd : c.dependent_cells with
          | nil => rfl
          | cons a rest =>
            exfalso
            apply hr
            unfold Cell.IsReferenced
            rw [hd]
            rfl
  · have hge : Sheet.GetCell S p = .error (ExcT.invalidPosition "Invalid position") := by
      unfold Sheet.GetCell
      rw [if_neg hv]
    rw [hge]
    exact Or.inl rfl

/-- `Sheet::ClearCell` preserves the invariant, successful or failed. -/
theorem clearCell_inv (S : SheetState) (p : Position) (hinv : Inv S) :
    Inv (stateAfterClear S p) := by
  rcases stateAfterClear_cases S p with h | ⟨id, h⟩ | ⟨id, self, hg, hlk, hdeps, h⟩
  · rw [h]
    exact hinv
  · rw [h]
    exact clearOut_inv S id hinv
  · rw [h]
    exact destroy_inv S p id self hinv hg hlk hdeps

/-- Every state reachable through the public operations satisfies the full
well-formedness bundle. -/
theorem reachable_inv (S : SheetState) (h : Reachable S) : Inv S := by
  induction h with
  | init => exact inv_init
  | set S0 p t _ ih => exact setCell_inv S0 p t ih
  | clear S0 p _ ih => exact clearCell_inv S0 p ih
  | getValue S0 p _ ih => exact getValue_inv S0 p ih


/-! ### Claim C3: cache freshness across the public operations -/

/-- C3: cache freshness is an invariant.  In every state reachable from
the fresh sheet by any sequence of `SetCell`/`ClearCell`/`GetValue`
operations (successful or failed), if a Formula cell's memoised result is
present, then re-running `Formula::Evaluate` for that cell's AST against
the current sheet (its cache-free copy, with fuel that outlasts the
recursion) succeeds and returns exactly the memoised value. -/
theorem C3_cache_freshness (S : SheetState) (hS : Reachable S) (id : CellId)
    (c : CellNode) (ast : Expr) (v : CellValue)
    (hl : lookupCell S id = some c) (hi : c.impl = CellImpl.formula ast (some v)) :
    ∃ res S2, formulaEvaluateF (evalFuel S) (stripCaches S) ast = .ok (res, S2) ∧
      resToCellValue res = v :=
  formulaEval_fresh S (inv_fresh S (reachable_inv S hS))
    (inv_nodup S (reachable_inv S hS)) (inv_acyclic S (reachable_inv S hS))
    id c ast v hl hi

/-- Witness for C3: after `SetCell(A1, "=1")` and a `GetValue` on A1 the
memo `1` is present, and the fresh evaluation indeed reproduces it. -/
theorem C3_witness :
    ∃ res S2,
      formulaEvaluateF
        (evalFuel (stateAfterGetValue (stateAfterSet initialSheet ⟨0, 0⟩ "=1") ⟨0, 0⟩))
        (stripCaches (stateAfterGetValue (stateAfterSet initialSheet ⟨0, 0⟩ "=1") ⟨0, 0⟩))
        (Expr.lit 1) = .ok (res, S2) ∧
      resToCellValue res = CellValue.num 1 :=
  C3_cache_freshness _
    (Reachable.getValue _ _ (Reachable.set _ _ _ Reachable.init)) 0
    ⟨CellImpl.formula (Expr.lit 1) (some (CellValue.num 1)), [], []⟩
    (Expr.lit 1) (CellValue.num 1) (by decide) (by decide)

end Spreadsheet
